import Mathlib

/-!
# HarfBuzz blob, `name` and `post`: a shallow embedding of `src/hb-blob.cc`,
`src/hb-ot-name-table.hh` and `src/hb-ot-post-table.hh`

The blob functions of `hb-blob.cc` are embedded as state-passing functions on a
`World`: the byte memory, the bump pointer of the allocator, the heap of
`hb_blob_t` objects and the trace of destroy-callback invocations.

* Pointers are natural numbers, `0` is `nullptr`.  Byte addresses and object
  pointers live in separate spaces: pointer `1` is the address of the static
  `_hb_blob_nil`, pointer `i + 2` is the `i`-th object ever created by
  `hb_object_create` (objects are never re-used after `free`).
* The outcome of the three calls into the environment (allocation of the blob
  object, `malloc` of a duplicate, the in-place page-protection attempt) is an
  input, `Env`.
* Destroy callbacks other than `hb_blob_destroy` are opaque: invoking one
  appends a `Call` to the trace and changes nothing else.  A callback that is
  `_hb_blob_destroy` runs `hb_blob_destroy` on its argument, which may cascade
  along a chain of parents; that recursion is driven by fuel and returns
  `none` when the fuel is exhausted.
* A table (`name`, `post`) is the list of the bytes of its blob; offsets into the
  blob are natural numbers and a byte past the end reads 0.  Functions that are
  not part of the sources (`HBUINT16::cmp`, `hb_bytes_t::cmp`, `hb_sort_r`, the
  table `format1_names`) are parameters of the functions that call them.
-/

namespace HB

/-! ## Data model -/

/-- Modelled from the spec: the enum `hb_memory_mode_t` is declared in `hb-blob.h`,
which is not part of the sources; the spec lists the four modes. -/
inductive hb_memory_mode_t
  | HB_MEMORY_MODE_DUPLICATE
  | HB_MEMORY_MODE_READONLY
  | HB_MEMORY_MODE_WRITABLE
  | HB_MEMORY_MODE_READONLY_MAY_MAKE_WRITABLE
  deriving DecidableEq, Repr

open hb_memory_mode_t

/-- The null pointer.  Pointers are natural numbers. -/
def nullptr : Nat := 0

/-- The values a `hb_destroy_func_t` takes: the null function pointer, the C
library `free`, the blob destructor (`_hb_blob_destroy`, which is
`hb_blob_destroy` behind a cast), or any other function, identified by a number
and opaque to the blob code. -/
inductive hb_destroy_func_t
  | fn_null
  | fn_free
  | fn_blob_destroy
  | fn_user (id : Nat)
  deriving DecidableEq, Repr

open hb_destroy_func_t

/-- The struct `hb_blob_t`; of the object header only the reference count is kept. -/
structure hb_blob_t where
  ref_count : Nat
  immutable : Bool
  data : Nat
  length : Nat
  mode : hb_memory_mode_t
  user_data : Nat
  destroy : hb_destroy_func_t
  deriving DecidableEq, Repr

/-- The static `_hb_blob_nil` of `hb_blob_get_empty`: immutable, no data, length
zero, read-only, no callback. -/
def _hb_blob_nil : hb_blob_t :=
  { ref_count := 0, immutable := true, data := nullptr, length := 0,
    mode := HB_MEMORY_MODE_READONLY, user_data := nullptr, destroy := fn_null }

/-- One invocation of a destroy callback: `fn (arg)`.  `owner` is the blob whose
callback it was, or `nullptr` when `hb_blob_create` invoked the callback of a
blob it did not construct. -/
structure Call where
  owner : Nat
  fn : hb_destroy_func_t
  arg : Nat
  deriving DecidableEq, Repr

/-- The state of the program. `mem` is the byte memory, `brk` the highest address
handed out so far, `heap` the blob objects (`none` once freed), `calls` the
destroy callbacks invoked so far, oldest first. -/
structure World where
  mem : Nat → Nat
  brk : Nat
  heap : List (Option hb_blob_t)
  calls : List Call

/-- What the environment answers during one call of the interface: whether the
allocation of the blob object succeeds, whether `malloc` succeeds, and whether
the operating system grants the in-place page-protection change. -/
structure Env where
  object_ok : Bool
  malloc_ok : Bool
  inplace_ok : Bool
  deriving DecidableEq, Repr

/-- `hb_blob_get_empty`: the address of the static `_hb_blob_nil`. -/
def hb_blob_get_empty : Nat := 1

/-- Dereference a blob pointer.  A pointer that designates no live object (null,
dangling or wild) reads as `_hb_blob_nil`. -/
def World.blob (w : World) (p : Nat) : hb_blob_t :=
  match p with
  | 0 => _hb_blob_nil
  | 1 => _hb_blob_nil
  | i + 2 =>
    match w.heap[i]? with
    | some (some b) => b
    | _ => _hb_blob_nil

/-- Whether `p` designates a live heap object. -/
def World.live (w : World) (p : Nat) : Bool :=
  match p with
  | 0 => false
  | 1 => false
  | i + 2 =>
    match w.heap[i]? with
    | some (some _) => true
    | _ => false

/-- Update the object `p` points to; nothing happens when `p` designates no live
heap object. -/
def World.modify (w : World) (p : Nat) (f : hb_blob_t → hb_blob_t) : World :=
  match p with
  | 0 => w
  | 1 => w
  | i + 2 =>
    match w.heap[i]? with
    | some (some b) => { w with heap := w.heap.set i (some (f b)) }
    | _ => w

/-- `free (blob)` of a blob object. -/
def World.free_obj (w : World) (p : Nat) : World :=
  match p with
  | 0 => w
  | 1 => w
  | i + 2 => { w with heap := w.heap.set i none }

/-- Append an invocation to the trace. -/
def World.log (w : World) (c : Call) : World :=
  { w with calls := w.calls ++ [c] }

/-- The bytes `mem[a], ..., mem[a + n - 1]`. -/
def World.bytes (w : World) (a : Nat) (n : Nat) : List Nat :=
  (List.range n).map (fun i => w.mem (a + i))

/-- `malloc (n)`: on success the block starts right after the highest address in
use, so it overlaps nothing allocated before; on failure the result is null. -/
def malloc (w : World) (ok : Bool) (n : Nat) : World × Nat :=
  if ok then ({ w with brk := w.brk + max n 1 }, w.brk + 1) else (w, nullptr)

/-- `memcpy (dst, src, n)`. -/
def memcpy (w : World) (dst src : Nat) (n : Nat) : World :=
  { w with mem := fun a => if dst ≤ a ∧ a < dst + n then w.mem (src + (a - dst)) else w.mem a }

/-! ## The reference-counted object substrate -/

/-- Modelled from the spec: `hb_object_is_inert` of `hb-object-private.hh`, which is
not part of the sources.  The inert sentinel distinguishes the static empty
singleton from heap objects. -/
def hb_object_is_inert (p : Nat) : Bool :=
  p == hb_blob_get_empty

/-- Modelled from the spec: `hb_object_create` of `hb-object-private.hh`, which is
not part of the sources.  A zeroed object with reference count one, or null when
the allocation fails. -/
def hb_object_create (w : World) (ok : Bool) : World × Nat :=
  if ok then
    ({ w with heap := w.heap ++ [some { ref_count := 1, immutable := false, data := nullptr,
                                         length := 0, mode := HB_MEMORY_MODE_DUPLICATE,
                                         user_data := nullptr, destroy := fn_null }] },
     w.heap.length + 2)
  else (w, nullptr)

/-- Modelled from the spec: `hb_object_reference` of `hb-object-private.hh`, which is
not part of the sources.  Reference count up, a no-op on null and on the inert
singleton; returns its argument. -/
def hb_object_reference (w : World) (p : Nat) : World × Nat :=
  if p = nullptr ∨ hb_object_is_inert p = true then (w, p)
  else (w.modify p (fun b => { b with ref_count := b.ref_count + 1 }), p)

/-- Modelled from the spec: `hb_object_destroy` of `hb-object-private.hh`, which is
not part of the sources.  Reference count down, a no-op on null and on the inert
singleton; true iff the count reached zero.  An object whose count is already
zero is not a valid object and is left alone. -/
def hb_object_destroy (w : World) (p : Nat) : World × Bool :=
  if p = nullptr ∨ hb_object_is_inert p = true then (w, false)
  else
    match (w.blob p).ref_count with
    | 0 => (w, false)
    | 1 => (w.modify p (fun b => { b with ref_count := 0 }), true)
    | n + 2 => (w.modify p (fun b => { b with ref_count := n + 1 }), false)

/-! ## `hb-blob.cc` -/

/-- The call `fn (arg)` of a destroy callback of blob `owner`; `k` is what
`hb_blob_destroy` does. -/
def invoke (k : World → Nat → Option World) (w : World) (owner : Nat)
    (fn : hb_destroy_func_t) (arg : Nat) : Option World :=
  match fn with
  | fn_blob_destroy => k (w.log ⟨owner, fn, arg⟩) arg
  | _ => some (w.log ⟨owner, fn, arg⟩)

/-- The body of `_hb_blob_destroy_user_data`, with `k` for `hb_blob_destroy`. -/
def destroy_user_data_with (k : World → Nat → Option World) (w : World) (blob : Nat) :
    Option World :=
  if (w.blob blob).destroy ≠ fn_null then
    (invoke k w blob (w.blob blob).destroy (w.blob blob).user_data).map
      (fun w1 => w1.modify blob (fun b => { b with user_data := nullptr, destroy := fn_null }))
  else some w

/-- `hb_blob_destroy` with a bound on the depth of the cascade through
`_hb_blob_destroy` callbacks. -/
def hb_blob_destroy_fuel : Nat → World → Nat → Option World
  | 0, _, _ => none
  | fuel + 1, w, blob =>
    match hb_object_destroy w blob with
    | (w1, false) => some w1
    | (w1, true) =>
      (destroy_user_data_with (fun w2 p => hb_blob_destroy_fuel fuel w2 p) w1 blob).map
        (fun w2 => w2.free_obj blob)

/-- `hb_blob_destroy`.  Each level of the cascade takes the last reference of
one more object, so one unit of fuel per object, and one to spare, is enough. -/
def hb_blob_destroy (w : World) (blob : Nat) : Option World :=
  hb_blob_destroy_fuel (w.heap.length + 1) w blob

/-- `_hb_blob_destroy`: the destroy callback of a sub-blob. -/
def _hb_blob_destroy (w : World) (data : Nat) : Option World :=
  hb_blob_destroy w data

/-- `_hb_blob_destroy_user_data`. -/
def _hb_blob_destroy_user_data (w : World) (blob : Nat) : Option World :=
  destroy_user_data_with _hb_blob_destroy w blob

/-- `hb_blob_reference`. -/
def hb_blob_reference (w : World) (blob : Nat) : World × Nat :=
  hb_object_reference w blob

/-- `hb_blob_make_immutable`. -/
def hb_blob_make_immutable (w : World) (blob : Nat) : World :=
  if hb_object_is_inert blob = true then w
  else w.modify blob (fun b => { b with immutable := true })

/-- `hb_blob_is_immutable`. -/
def hb_blob_is_immutable (w : World) (blob : Nat) : Bool :=
  (w.blob blob).immutable

/-- `hb_blob_get_length`. -/
def hb_blob_get_length (w : World) (blob : Nat) : Nat :=
  (w.blob blob).length

/-- `hb_blob_get_data`: the data pointer and the length stored through the
out-parameter. -/
def hb_blob_get_data (w : World) (blob : Nat) : Nat × Nat :=
  ((w.blob blob).data, (w.blob blob).length)

/-- `_try_make_writable_inplace_unix`: the page size query and `mprotect` are the
environment; on success the mode becomes writable. -/
def _try_make_writable_inplace_unix (w : World) (env : Env) (blob : Nat) : World × Bool :=
  if env.inplace_ok = true then
    (w.modify blob (fun b => { b with mode := HB_MEMORY_MODE_WRITABLE }), true)
  else (w, false)

/-- `_try_writable_inplace`. -/
def _try_writable_inplace (w : World) (env : Env) (blob : Nat) : World × Bool :=
  match _try_make_writable_inplace_unix w env blob with
  | (w1, true) => (w1, true)
  | (w1, false) => (w1.modify blob (fun b => { b with mode := HB_MEMORY_MODE_READONLY }), false)

/-- `_try_writable`. -/
def _try_writable (w : World) (env : Env) (blob : Nat) : Option (World × Bool) :=
  if (w.blob blob).immutable = true then some (w, false)
  else if (w.blob blob).mode = HB_MEMORY_MODE_WRITABLE then some (w, true)
  else
    match (if (w.blob blob).mode = HB_MEMORY_MODE_READONLY_MAY_MAKE_WRITABLE
            then _try_writable_inplace w env blob else (w, false)) with
    | (w1, true) => some (w1, true)
    | (w1, false) =>
      if (w1.blob blob).mode = HB_MEMORY_MODE_WRITABLE then some (w1, true)
      else
        match malloc w1 env.malloc_ok (w1.blob blob).length with
        | (w2, new_data) =>
          if new_data = nullptr then some (w2, false)
          else
            (_hb_blob_destroy_user_data
                (memcpy w2 new_data (w2.blob blob).data (w2.blob blob).length) blob).map
              (fun w3 =>
                (w3.modify blob (fun b =>
                  { b with mode := HB_MEMORY_MODE_WRITABLE, data := new_data,
                           user_data := new_data, destroy := fn_free }), true))

/-- `hb_blob_get_data_writable`: the returned pointer and the length stored
through the out-parameter. -/
def hb_blob_get_data_writable (w : World) (env : Env) (blob : Nat) :
    Option (World × Nat × Nat) :=
  (_try_writable w env blob).map (fun r =>
    if r.2 = false then (r.1, nullptr, 0)
    else (r.1, (r.1.blob blob).data, (r.1.blob blob).length))

/-- The failure exit of `hb_blob_create`: call the callback if there is one and
return the empty blob. -/
def hb_blob_create_fail (w : World) (user_data : Nat) (destroy : hb_destroy_func_t) :
    Option (World × Nat) :=
  if destroy ≠ fn_null then
    (invoke _hb_blob_destroy w nullptr destroy user_data).map (fun w1 => (w1, hb_blob_get_empty))
  else some (w, hb_blob_get_empty)

/-- `hb_blob_create`.  In mode `DUPLICATE` the source stores the mode and
overwrites it with `READONLY` right away; here the fields are stored once, with
`READONLY`. -/
def hb_blob_create (w : World) (env : Env) (data : Nat) (length : Nat)
    (mode : hb_memory_mode_t) (user_data : Nat) (destroy : hb_destroy_func_t) :
    Option (World × Nat) :=
  if length = 0 ∨ length ≥ 2 ^ 31 then hb_blob_create_fail w user_data destroy
  else
    match hb_object_create w env.object_ok with
    | (w1, blob) =>
      if blob = nullptr then hb_blob_create_fail w1 user_data destroy
      else
        if mode = HB_MEMORY_MODE_DUPLICATE then
          match _try_writable
              (w1.modify blob (fun b =>
                { b with data := data, length := length, mode := HB_MEMORY_MODE_READONLY,
                         user_data := user_data, destroy := destroy })) env blob with
          | none => none
          | some (w2, false) => (hb_blob_destroy w2 blob).map (fun w3 => (w3, hb_blob_get_empty))
          | some (w2, true) => some (w2, blob)
        else
          some (w1.modify blob (fun b =>
                  { b with data := data, length := length, mode := mode,
                           user_data := user_data, destroy := destroy }), blob)

/-- `hb_blob_create_sub_blob`. -/
def hb_blob_create_sub_blob (w : World) (env : Env) (parent : Nat) (offset length : Nat) :
    Option (World × Nat) :=
  if length = 0 ∨ offset ≥ (w.blob parent).length then some (w, hb_blob_get_empty)
  else
    match hb_blob_reference (hb_blob_make_immutable w parent) parent with
    | (w1, ref) =>
      hb_blob_create w1 env ((w1.blob parent).data + offset)
        (min length ((w1.blob parent).length - offset))
        HB_MEMORY_MODE_READONLY ref fn_blob_destroy

/-- `hb_blob_copy_writable_or_fail`. -/
def hb_blob_copy_writable_or_fail (w : World) (env : Env) (blob : Nat) :
    Option (World × Nat) :=
  (hb_blob_create w env (w.blob blob).data (w.blob blob).length
      HB_MEMORY_MODE_DUPLICATE nullptr fn_null).map
    (fun r => if r.2 = hb_blob_get_empty then (r.1, nullptr) else r)

/-! ## Measures and invariants used by the proofs -/

/-- Whether a heap slot holds an object with a non-zero reference count. -/
def holds_ref (s : Option hb_blob_t) : Bool :=
  match s with
  | some b => decide (b.ref_count ≠ 0)
  | none => false

/-- The number of objects that still hold a reference. -/
def World.alive (w : World) : Nat :=
  w.heap.countP holds_ref

/-- What any run of `hb_blob_destroy` leaves alone: the bytes, the allocator and
the number of objects; the trace only grows, by callbacks of heap objects; and
an object that is still live afterwards was live before and kept its
`immutable`, `data`, `length` and `mode`. -/
structure Frame (w w1 : World) : Prop where
  mem : w1.mem = w.mem
  brk : w1.brk = w.brk
  heap_length : w1.heap.length = w.heap.length
  calls : ∃ nested, w1.calls = w.calls ++ nested ∧ ∀ c ∈ nested, 2 ≤ c.owner
  kept : ∀ q, w1.live q = true → w.live q = true ∧
    (w1.blob q).immutable = (w.blob q).immutable ∧ (w1.blob q).data = (w.blob q).data ∧
    (w1.blob q).length = (w.blob q).length ∧ (w1.blob q).mode = (w.blob q).mode

/-- Every object whose callback is the blob destructor was created after the
blob the callback will destroy: its `user_data` is an older pointer.  This is
how `hb_blob_create_sub_blob` builds them, and it rules out cycles of parents. -/
def Ordered (w : World) : Prop :=
  ∀ q, q < w.heap.length + 2 →
    (w.blob q).destroy = fn_blob_destroy → (w.blob q).user_data < q

/-- A run that only touched objects at pointers up to `m`: the objects above `m`
are unchanged and the new trace entries belong to owners up to `m`. -/
structure Below (m : Nat) (w w1 : World) : Prop where
  blob : ∀ q, m < q → w1.blob q = w.blob q
  live : ∀ q, m < q → w1.live q = w.live q
  calls : ∃ nested, w1.calls = w.calls ++ nested ∧ ∀ c ∈ nested, c.owner ≤ m

/-- The state in which `_try_writable` reaches `malloc`: a blob that allowed the
in-place attempt has been marked read-only by `_try_writable_inplace`. -/
def before_malloc (w : World) (blob : Nat) : World :=
  if (w.blob blob).mode = HB_MEMORY_MODE_READONLY_MAY_MAKE_WRITABLE then
    w.modify blob (fun b => { b with mode := HB_MEMORY_MODE_READONLY })
  else w

/-- The state of `_try_writable` after a successful `malloc` and the `memcpy`,
before the old callback is invoked. -/
def after_memcpy (w : World) (blob : Nat) : World :=
  memcpy { before_malloc w blob with brk := w.brk + max (w.blob blob).length 1 }
    (w.brk + 1) (w.blob blob).data (w.blob blob).length

/-- The state of `hb_blob_create` once the object is allocated and its fields are
stored. -/
def stored (w : World) (data length : Nat) (mode : hb_memory_mode_t) (user_data : Nat)
    (destroy : hb_destroy_func_t) : World :=
  (hb_object_create w true).1.modify (w.heap.length + 2) (fun b =>
    { b with data := data, length := length, mode := mode,
             user_data := user_data, destroy := destroy })

/-- The bytes of the string "Hello", at addresses 10 to 14. -/
def hello_mem (a : Nat) : Nat :=
  if a = 10 then 72 else if a = 11 then 101 else if a = 12 then 108
  else if a = 13 then 108 else if a = 14 then 111 else 0

/-- A state with the string "Hello" in memory and no blob yet. -/
def hello_world : World :=
  { mem := hello_mem, brk := 20, heap := [], calls := [] }

/-- The state after `hb_blob_create ("Hello", 5, READONLY, nullptr, nullptr)` in
`hello_world`: one blob, at pointer 2. -/
def hello_blob_world : World :=
  { mem := hello_mem, brk := 20,
    heap := [some { ref_count := 1, immutable := false, data := 10, length := 5,
                    mode := HB_MEMORY_MODE_READONLY, user_data := nullptr,
                    destroy := fn_null }],
    calls := [] }

/-- An environment in which every request is granted. -/
def env_ok : Env := { object_ok := true, malloc_ok := true, inplace_ok := true }

/-! ## Sequences of operations -/

/-- The operations of the interface that act on an existing blob and can change
the state. -/
inductive Op
  | reference (blob : Nat)
  | destroy (blob : Nat)
  | make_immutable (blob : Nat)
  | get_data_writable (env : Env) (blob : Nat)
  | create_sub_blob (env : Env) (parent offset length : Nat)
  | copy_writable_or_fail (env : Env) (blob : Nat)
  deriving DecidableEq, Repr

/-- The blob an operation is applied to. -/
def Op.target : Op → Nat
  | Op.reference blob => blob
  | Op.destroy blob => blob
  | Op.make_immutable blob => blob
  | Op.get_data_writable _ blob => blob
  | Op.create_sub_blob _ parent _ _ => parent
  | Op.copy_writable_or_fail _ blob => blob

/-- The state after one operation; the value the operation returns is dropped. -/
def step (w : World) : Op → Option World
  | Op.reference blob => some (hb_blob_reference w blob).1
  | Op.destroy blob => hb_blob_destroy w blob
  | Op.make_immutable blob => some (hb_blob_make_immutable w blob)
  | Op.get_data_writable env blob => (hb_blob_get_data_writable w env blob).map (fun r => r.1)
  | Op.create_sub_blob env parent offset length =>
    (hb_blob_create_sub_blob w env parent offset length).map (fun r => r.1)
  | Op.copy_writable_or_fail env blob =>
    (hb_blob_copy_writable_or_fail w env blob).map (fun r => r.1)

/-- The state after a sequence of operations. -/
def run (w : World) : List Op → Option World
  | [] => some w
  | op :: ops => (step w op).bind (fun w1 => run w1 ops)

/-- How often the trace `cs` has the callback `fn (arg)` invoked on behalf of
blob `b`. -/
def fired (b : Nat) (fn : hb_destroy_func_t) (arg : Nat) (cs : List Call) : Nat :=
  cs.countP (fun c => decide (c.owner = b ∧ c.fn = fn ∧ c.arg = arg))

/-- Whether blob `b` is live and still has the callback `fn (arg)` pending: 1 or 0. -/
def pending (w : World) (b : Nat) (fn : hb_destroy_func_t) (arg : Nat) : Nat :=
  if w.live b = true ∧ (w.blob b).destroy = fn ∧ (w.blob b).user_data = arg then 1 else 0

/-- The accounting of the callback `fn (arg)` of blob `b` between two states: the
trace grew, and what was invoked in between is what is no longer pending. -/
def Acct (b : Nat) (fn : hb_destroy_func_t) (arg : Nat) (w w1 : World) : Prop :=
  ∃ seg, w1.calls = w.calls ++ seg ∧ fired b fn arg seg + pending w1 b fn arg = pending w b fn arg

/-- What the operations keep true: the heap is ordered, `b` is the pointer of a
heap object that has been allocated, and an argument given to `free` is memory
handed out already. -/
def Inv (b : Nat) (fn : hb_destroy_func_t) (arg : Nat) (w : World) : Prop :=
  Ordered w ∧ 2 ≤ b ∧ b < w.heap.length + 2 ∧ (fn = fn_free → arg ≤ w.brk)

/-- The immutable flag as a latch between two states: no object disappears from
the range of allocated pointers, and a pointer that read immutable before reads
immutable after. -/
def Latch (w w1 : World) : Prop :=
  w.heap.length ≤ w1.heap.length ∧
    ∀ q, q < w.heap.length + 2 → (w.blob q).immutable = true → (w1.blob q).immutable = true

/-- A call of the interface: the creation of a blob from caller data, or an
operation on a blob. -/
inductive Action
  | create (env : Env) (data length : Nat) (mode : hb_memory_mode_t) (user_data : Nat)
      (destroy : hb_destroy_func_t)
  | op (o : Op)
  deriving DecidableEq, Repr

/-- The state after one call; the value the call returns is dropped. -/
def act (w : World) : Action → Option World
  | Action.create env data length mode user_data destroy =>
    (hb_blob_create w env data length mode user_data destroy).map (fun r => r.1)
  | Action.op o => step w o

/-- The state after a sequence of calls. -/
def perform (w : World) : List Action → Option World
  | [] => some w
  | a :: rest => (act w a).bind (fun w1 => perform w1 rest)

/-- Whether a call hands over a non-null data pointer when it hands over one that is
stored (a creation in a mode other than `DUPLICATE`). -/
def Action.data_given : Action → Prop
  | Action.create _ data _ mode _ _ => mode ≠ HB_MEMORY_MODE_DUPLICATE → data ≠ nullptr
  | Action.op _ => True

/-- Every live object has a length in `[1, 2^31)` and, when `nn` is set, a non-null
data pointer. -/
def Shaped (nn : Bool) (w : World) : Prop :=
  ∀ q, w.live q = true →
    1 ≤ (w.blob q).length ∧ (w.blob q).length < 2 ^ 31 ∧
      (nn = true → (w.blob q).data ≠ nullptr)

/-! ## The `name` table (`hb-ot-name-table.hh`) -/

/-- The byte at offset `i` of a blob given by its bytes; past the end it reads 0. -/
def byte_at (t : List Nat) (i : Nat) : Nat :=
  t.getD i 0 % 256

/-- The big-endian `HBUINT16` at offset `i`. -/
def HBUINT16_at (t : List Nat) (i : Nat) : Nat :=
  byte_at t i * 256 + byte_at t (i + 1)

/-- The `n` bytes of the blob from offset `start` on. -/
def bytes_at (t : List Nat) (start n : Nat) : List Nat :=
  (List.range n).map (fun i => byte_at t (start + i))

/-- The caller's buffer after `memcpy (buffer, src, n)` of the bytes `src`. -/
def copy_into (buffer src : List Nat) : List Nat :=
  src ++ buffer.drop src.length

/-- Modelled from the spec: `hb_sanitize_context_t::check_range` of the sanitization
context, which is not part of the sources: the `len` bytes from offset `base` on lie
inside a blob of `size` bytes. -/
def check_range (size base len : Nat) : Bool :=
  decide (base ≤ size ∧ len ≤ size - base)

/-- Modelled from the spec: `hb_sanitize_context_t::check_struct`: the `min_size` bytes
of a structure at offset `base` lie inside the blob. -/
def check_struct (size base min_size : Nat) : Bool :=
  check_range size base min_size

/-- Modelled from the spec: `hb_sanitize_context_t::check_array`: `count` records of
`record_size` bytes from offset `base` on lie inside the blob, the product computed
without 32-bit overflow. -/
def check_array (size base record_size count : Nat) : Bool :=
  decide (record_size * count < 2 ^ 32) && check_range size base (record_size * count)

/-- A `NameRecord`, decoded. -/
structure NameRecord where
  platformID : Nat
  encodingID : Nat
  languageID : Nat
  nameID : Nat
  length : Nat
  offset : Nat
  deriving DecidableEq, Repr

/-- The `NameRecord` stored at offset `p` of the table: six `HBUINT16`. -/
def NameRecord.read (t : List Nat) (p : Nat) : NameRecord :=
  { platformID := HBUINT16_at t p, encodingID := HBUINT16_at t (p + 2),
    languageID := HBUINT16_at t (p + 4), nameID := HBUINT16_at t (p + 6),
    length := HBUINT16_at t (p + 8), offset := HBUINT16_at t (p + 10) }

/-- `NameRecord::cmp (pa, pb)`.  `HBUINT16::cmp` is not part of the sources:
`cmp16 x a` stands for `x.cmp (a)`. -/
def NameRecord.cmp (cmp16 : Nat → Nat → Int) (a b : NameRecord) : Int :=
  let ret := cmp16 b.platformID a.platformID
  if ret ≠ 0 then ret
  else
    let ret := cmp16 b.encodingID a.encodingID
    if ret ≠ 0 then ret
    else
      let ret := cmp16 b.languageID a.languageID
      if ret ≠ 0 then ret
      else
        let ret := cmp16 b.nameID a.nameID
        if ret ≠ 0 then ret
        else 0

/-- `NameRecord::sanitize (c, base)` for the record at offset `p` of a blob `t`. -/
def NameRecord.sanitize (t : List Nat) (p base : Nat) : Bool :=
  check_struct t.length p 12 &&
    check_range t.length base ((NameRecord.read t p).length + (NameRecord.read t p).offset)

/-- The loop of the C library's `bsearch`, on the index range `[l, u)`: `compar idx` is
the comparison of the key with element `idx`.  The result is the index of the element
found, if any, and the indices of the elements the key was compared with, in order. -/
def bsearch_loop (compar : Nat → Int) : Nat → Nat → Nat → Option Nat × List Nat
  | 0, _, _ => (none, [])
  | fuel + 1, l, u =>
    if l < u then
      let idx := (l + u) / 2
      let comparison := compar idx
      if comparison < 0 then
        let r := bsearch_loop compar fuel l idx
        (r.1, idx :: r.2)
      else if comparison > 0 then
        let r := bsearch_loop compar fuel (idx + 1) u
        (r.1, idx :: r.2)
      else (some idx, [idx])
    else (none, [])

/-- The C library's `bsearch (key, base, nmemb, size, compar)`; the range shrinks with
every comparison, so `nmemb` rounds are enough. -/
def bsearch (compar : Nat → Int) (nmemb : Nat) : Option Nat × List Nat :=
  bsearch_loop compar nmemb 0 nmemb

/-- The field `format` of the `name` table. -/
def name.format (t : List Nat) : Nat := HBUINT16_at t 0

/-- The field `count` of the `name` table. -/
def name.count (t : List Nat) : Nat := HBUINT16_at t 2

/-- The field `stringOffset` of the `name` table. -/
def name.stringOffset (t : List Nat) : Nat := HBUINT16_at t 4

/-- The record `nameRecordZ[i]` of the `name` table. -/
def name.nameRecordZ (t : List Nat) (i : Nat) : NameRecord :=
  NameRecord.read t (6 + i * 12)

/-- What a call of `name::get_name` does: the value returned, the caller's buffer
afterwards, the indices of the records the binary search compared the key with, and
the range `(offset, count)` of table bytes `memcpy` read, if it was called. -/
structure Lookup where
  ret : Nat
  buffer : List Nat
  probes : List Nat
  source : Option (Nat × Nat)
  deriving DecidableEq, Repr

/-- `name::get_name`.  The key fields keep the low 16 bits of the arguments
(`HBUINT16::set`); `length` and `offset` of the key are never set nor read. -/
def name.get_name (cmp16 : Nat → Nat → Int) (t : List Nat)
    (platform_id encoding_id language_id name_id : Nat)
    (buffer : List Nat) (buffer_length : Nat) : Lookup :=
  let key : NameRecord :=
    { platformID := platform_id % 2 ^ 16, encodingID := encoding_id % 2 ^ 16,
      languageID := language_id % 2 ^ 16, nameID := name_id % 2 ^ 16,
      length := 0, offset := 0 }
  match bsearch (fun i => NameRecord.cmp cmp16 key (name.nameRecordZ t i)) (name.count t) with
  | (none, probes) => { ret := 0, buffer := buffer, probes := probes, source := none }
  | (some m, probes) =>
    let length := min buffer_length (name.nameRecordZ t m).length
    let src := name.stringOffset t + (name.nameRecordZ t m).offset
    { ret := length, buffer := copy_into buffer (bytes_at t src length), probes := probes,
      source := some (src, length) }

/-- `name::get_size`. -/
def name.get_size (t : List Nat) : Nat :=
  6 + name.count t * 12

/-- `name::sanitize_records`: the loop stops at the first record that fails. -/
def name.sanitize_records (t : List Nat) : Bool :=
  (List.range (name.count t)).all
    (fun i => NameRecord.sanitize t (6 + i * 12) (name.stringOffset t))

/-- `name::sanitize` on a blob `t`, the table starting at offset 0. -/
def name.sanitize (t : List Nat) : Bool :=
  check_struct t.length 0 6 &&
    (decide (name.format t = 0 ∨ name.format t = 1) &&
      (check_array t.length 6 12 (name.count t) && name.sanitize_records t))

/-- Whether the key of record `a` is at most the key of record `b`, in the
lexicographic order of `(platformID, encodingID, languageID, nameID)`. -/
def NameRecord.key_le (a b : NameRecord) : Prop :=
  a.platformID < b.platformID ∨ (a.platformID = b.platformID ∧
    (a.encodingID < b.encodingID ∨ (a.encodingID = b.encodingID ∧
      (a.languageID < b.languageID ∨ (a.languageID = b.languageID ∧
        a.nameID ≤ b.nameID)))))

/-- Whether a record has the key `(platform, encoding, language, name)`. -/
def NameRecord.has_key (r : NameRecord) (platform encoding language name : Nat) : Prop :=
  r.platformID = platform ∧ r.encodingID = encoding ∧ r.languageID = language ∧
    r.nameID = name

/-- A `name` table with the records `(3, 1, 0x409, 1)` = "Family" and
`(3, 1, 0x409, 2)` = "Subfamily". -/
def family_table : List Nat :=
  [0, 0, 0, 2, 0, 30,
   0, 3, 0, 1, 4, 9, 0, 1, 0, 6, 0, 0,
   0, 3, 0, 1, 4, 9, 0, 2, 0, 9, 0, 6,
   70, 97, 109, 105, 108, 121,
   83, 117, 98, 102, 97, 109, 105, 108, 121]

/-- The comparison `x.cmp (a)` of two 16-bit integers as a difference. -/
def cmp_diff (x a : Nat) : Int :=
  (a : Int) - (x : Int)

/-! ## The `post` table (`hb-ot-post-table.hh`) -/

/-- `NUM_FORMAT1_NAMES`. -/
def NUM_FORMAT1_NAMES : Nat := 258

/-- The big-endian `HBUINT32` at offset `i`. -/
def HBUINT32_at (t : List Nat) (i : Nat) : Nat :=
  HBUINT16_at t i * 2 ^ 16 + HBUINT16_at t (i + 2)

/-- Modelled from the spec: `ArrayOf<HBUINT16>::sanitize` of `hb-open-type.hh`, which is
not part of the sources: the 16-bit `len` at offset `p` fits, and so do the `len` 16-bit
entries after it. -/
def ArrayOf.sanitize (t : List Nat) (p : Nat) : Bool :=
  check_struct t.length p 2 && check_array t.length (p + 2) 2 (HBUINT16_at t p)

/-- `postV2Tail::sanitize` for the tail at offset `p`. -/
def postV2Tail.sanitize (t : List Nat) (p : Nat) : Bool :=
  ArrayOf.sanitize t p

/-- `post::sanitize` on a blob `t`, the table starting at offset 0. -/
def post.sanitize (t : List Nat) : Bool :=
  if check_struct t.length 0 32 = false then false
  else if HBUINT32_at t 0 = 0x00020000 then postV2Tail.sanitize t 32
  else true

/-- A `hb_bytes_t`: the null slice `hb_bytes_t ()`, the static string
`format1_names (i)`, or `len` bytes from offset `bytes` of the table blob on. -/
inductive hb_bytes_t
  | null
  | format1 (i : Nat)
  | table (bytes len : Nat)
  deriving DecidableEq, Repr

/-- The field `len` of a slice; `names i` is the string `format1_names (i)`, a table
that is not part of the sources. -/
def hb_bytes_t.len (names : Nat → List Nat) : hb_bytes_t → Nat
  | hb_bytes_t.null => 0
  | hb_bytes_t.format1 i => (names i).length
  | hb_bytes_t.table _ len => len

/-- The `len` bytes a slice designates; past the end of the blob a byte reads 0. -/
def hb_bytes_t.content (names : Nat → List Nat) (t : List Nat) : hb_bytes_t → List Nat
  | hb_bytes_t.null => []
  | hb_bytes_t.format1 i => names i
  | hb_bytes_t.table bytes len => bytes_at t bytes len

/-- The state of a `post::accelerator_t` over the blob `table`: `glyphNameIndex` and
`pool` are offsets into the blob, `gids_sorted_by_name` is the reverse index once it is
built. -/
structure accelerator_t where
  table : List Nat
  version : Nat
  glyphNameIndex : Nat
  index_to_offset : List Nat
  pool : Nat
  gids_sorted_by_name : Option (List Nat)
  deriving DecidableEq, Repr

/-- The loop of `accelerator_t::init` over the string pool, `data` and `end_` being
offsets into the blob; `index_to_offset.push` is taken to succeed. -/
def init_loop (t : List Nat) (pool end_ : Nat) : Nat → Nat → List Nat → List Nat
  | 0, _, index_to_offset => index_to_offset
  | fuel + 1, data, index_to_offset =>
    if data < end_ ∧ data + byte_at t data ≤ end_ then
      init_loop t pool end_ fuel (data + (1 + byte_at t data)) (index_to_offset ++ [data - pool])
    else index_to_offset

/-- `accelerator_t::init` on the blob `t` that `reference_table<post>` returned.  `data`
grows by at least one in every round of the loop and stays below the end of the blob,
so `t.length` rounds are enough. -/
def accelerator_t.init (t : List Nat) : accelerator_t :=
  let version := HBUINT32_at t 0
  if version ≠ 0x00020000 then
    { table := t, version := version, glyphNameIndex := 0, index_to_offset := [], pool := 0,
      gids_sorted_by_name := none }
  else
    let glyphNameIndex := 32
    let pool := glyphNameIndex + 2 + 2 * HBUINT16_at t glyphNameIndex
    { table := t, version := version, glyphNameIndex := glyphNameIndex,
      index_to_offset := init_loop t pool t.length t.length pool [], pool := pool,
      gids_sorted_by_name := none }

/-- `accelerator_t::get_glyph_count`. -/
def accelerator_t.get_glyph_count (acc : accelerator_t) : Nat :=
  if acc.version = 0x00010000 then NUM_FORMAT1_NAMES
  else if acc.version = 0x00020000 then HBUINT16_at acc.table acc.glyphNameIndex
  else 0

/-- `accelerator_t::find_glyph_name`. -/
def accelerator_t.find_glyph_name (acc : accelerator_t) (glyph : Nat) : hb_bytes_t :=
  if acc.version = 0x00010000 then
    if glyph ≥ NUM_FORMAT1_NAMES then hb_bytes_t.null
    else hb_bytes_t.format1 glyph
  else if acc.version ≠ 0x00020000 ∨ glyph ≥ HBUINT16_at acc.table acc.glyphNameIndex then
    hb_bytes_t.null
  else
    let index := HBUINT16_at acc.table (acc.glyphNameIndex + 2 + 2 * glyph)
    if index < NUM_FORMAT1_NAMES then hb_bytes_t.format1 index
    else
      let index := index - NUM_FORMAT1_NAMES
      if index ≥ acc.index_to_offset.length then hb_bytes_t.null
      else
        let offset := acc.index_to_offset.getD index 0
        let data := acc.pool + offset
        let name_length := byte_at acc.table data
        hb_bytes_t.table (data + 1) name_length

/-- The `n` bytes `strncpy (dest, src, n)` writes: the bytes of `src` up to its first
zero byte, then zeros. -/
def strncpy : List Nat → Nat → List Nat
  | _, 0 => []
  | [], n + 1 => List.replicate (n + 1) 0
  | c :: src, n + 1 => if c = 0 then List.replicate (n + 1) 0 else c :: strncpy src n

/-- `accelerator_t::get_glyph_name`: the value returned and the caller's buffer
afterwards. -/
def accelerator_t.get_glyph_name (names : Nat → List Nat) (acc : accelerator_t) (glyph : Nat)
    (buf : List Nat) (buf_len : Nat) : Bool × List Nat :=
  let s := acc.find_glyph_name glyph
  if s.len names = 0 then (false, buf)
  else if buf_len = 0 then (true, buf)
  else if buf_len ≤ s.len names then (false, buf)
  else
    (true, (copy_into buf (strncpy (s.content names acc.table) (s.len names))).set
      (s.len names) 0)

/-- `accelerator_t::cmp_gids`.  `hb_bytes_t::cmp` is not part of the sources:
`bytes_cmp x a` stands for `x.cmp (a)` on the bytes of the two slices. -/
def accelerator_t.cmp_gids (names : Nat → List Nat) (bytes_cmp : List Nat → List Nat → Int)
    (acc : accelerator_t) (a b : Nat) : Int :=
  bytes_cmp ((acc.find_glyph_name b).content names acc.table)
    ((acc.find_glyph_name a).content names acc.table)

/-- `accelerator_t::cmp_key`. -/
def accelerator_t.cmp_key (names : Nat → List Nat) (bytes_cmp : List Nat → List Nat → Int)
    (acc : accelerator_t) (key : List Nat) (o : Nat) : Int :=
  bytes_cmp ((acc.find_glyph_name o).content names acc.table) key

/-- `strlen`: the number of bytes before the first zero byte. -/
def strlen (s : List Nat) : Nat :=
  (s.takeWhile (fun c => c ≠ 0)).length

/-- Modelled from the spec: `hb_bsearch_r` of `hb-dsalgs.hh`, which is not part of the
sources: a comparator-based binary search like the C library's, the comparator taking a
user argument. -/
def hb_bsearch_r (compar : Nat → Int) (nmemb : Nat) : Option Nat × List Nat :=
  bsearch compar nmemb

/-- `accelerator_t::get_glyph_from_name` in one thread: the accelerator afterwards and
the glyph written through `glyph` when the call returns true, `none` when it returns
false.  `name` holds the bytes at the pointer `name`; `hb_sort_r` is not part of the
sources and is the parameter `sort_r`; `count` is below `2^16`, so `gids[i] = i` keeps
`i`; with no other thread `cmpexch` succeeds. -/
def accelerator_t.get_glyph_from_name (names : Nat → List Nat)
    (bytes_cmp : List Nat → List Nat → Int)
    (sort_r : (Nat → Nat → Int) → List Nat → List Nat)
    (acc : accelerator_t) (malloc_ok : Bool) (name : List Nat) (len : Int) :
    accelerator_t × Option Nat :=
  let count := acc.get_glyph_count
  if count = 0 then (acc, none)
  else
    let len := if len < 0 then strlen name else len.toNat
    if len = 0 then (acc, none)
    else
      let built : Option (List Nat) :=
        match acc.gids_sorted_by_name with
        | some gids => some gids
        | none =>
          if malloc_ok = false then none
          else some (sort_r (acc.cmp_gids names bytes_cmp) (List.range count))
      match built with
      | none => (acc, none)
      | some gids =>
        match (hb_bsearch_r (fun i => acc.cmp_key names bytes_cmp (name.take len)
            (gids.getD i 0)) count).1 with
        | some i => ({ acc with gids_sorted_by_name := some gids }, some (gids.getD i 0))
        | none => ({ acc with gids_sorted_by_name := some gids }, none)

/-- `memcmp` on byte strings of the same length. -/
def memcmp : List Nat → List Nat → Int
  | a :: s1, b :: s2 => if a ≠ b then (a : Int) - (b : Int) else memcmp s1 s2
  | _, _ => 0

/-- A comparison `x.cmp (a)` of byte strings, by length first and bytewise then, for
the examples. -/
def length_then_bytes (x a : List Nat) : Int :=
  if x.length ≠ a.length then (a.length : Int) - (x.length : Int) else memcmp a x

/-- A sort by insertion, for the examples. -/
def insertion_sort (compar : Nat → Nat → Int) (l : List Nat) : List Nat :=
  l.insertionSort (fun a b => compar a b ≤ 0)

/-- The first three of the 258 standard Macintosh glyph names (".notdef", ".null",
"nonmarkingreturn"), the others left empty, for the examples. -/
def first_names (i : Nat) : List Nat :=
  match i with
  | 0 => [46, 110, 111, 116, 100, 101, 102]
  | 1 => [46, 110, 117, 108, 108]
  | 2 => [110, 111, 110, 109, 97, 114, 107, 105, 110, 103, 114, 101, 116, 117, 114, 110]
  | _ => []

/-- A 32-byte `post` header of version 2 with the other fields zero. -/
def post_header_v2 : List Nat :=
  [0, 2, 0, 0] ++ List.replicate 28 0

/-- A version-2 `post` table with `numGlyphs` 3, the indices `[2, 258, 259]` and the
pool `["foo", "bar"]`. -/
def foo_bar_post : List Nat :=
  post_header_v2 ++ [0, 3, 0, 2, 1, 2, 1, 3] ++ [3, 102, 111, 111, 3, 98, 97, 114]

/-- A version-2 `post` table with one glyph, named by the pool string of the three
bytes `97, 0, 98`. -/
def zero_byte_post : List Nat :=
  post_header_v2 ++ [0, 1, 1, 2] ++ [3, 97, 0, 98]

/-- A version-2 `post` table of 39 bytes with one glyph, whose pool is the length byte
3 followed by two bytes only. -/
def short_pool_post : List Nat :=
  post_header_v2 ++ [0, 1, 1, 2] ++ [3, 97, 98]

/-- The bytes of a pool of Pascal strings: each string preceded by its length. -/
def pascal_pool : List (List Nat) → List Nat
  | [] => []
  | s :: rest => (s.length :: s) ++ pascal_pool rest

/-- The offsets, relative to `pool`, of the Pascal strings of a pool whose first string
starts at offset `data` of the blob. -/
def pool_starts (pool : Nat) : Nat → List (List Nat) → List Nat
  | _, [] => []
  | data, s :: rest => (data - pool) :: pool_starts pool (data + (1 + s.length)) rest

/-! ## References held by sub-blobs -/

/-- Whether a heap slot holds an object that refers to `p` the way a sub-blob refers to
its parent: its callback is the blob destructor and its `user_data` is `p`. -/
def refers (p : Nat) (s : Option hb_blob_t) : Bool :=
  match s with
  | some b => decide (b.destroy = fn_blob_destroy ∧ b.user_data = p)
  | none => false

/-- The number of heap objects that refer to `p` as sub-blobs do. -/
def World.subs (w : World) (p : Nat) : Nat :=
  w.heap.countP (refers p)

/-- Every reference a sub-blob holds is counted: the reference count of an object is at
least the number of objects that refer to it as sub-blobs do. -/
def Counted (w : World) : Prop :=
  ∀ p, w.subs p ≤ (w.blob p).ref_count

/-- Between two states, the reference count of an object `z` in excess of the objects
that refer to it drops by at most `e z`. -/
def Slack (e : Nat → Nat) (w w1 : World) : Prop :=
  ∀ z, (w.blob z).ref_count + w1.subs z ≤ (w1.blob z).ref_count + w.subs z + e z

/-- A drop of one reference of `y`, and of no other object. -/
def drop_at (y : Nat) (z : Nat) : Nat :=
  if z = y then 1 else 0

/-- No drop. -/
def no_drop (_ : Nat) : Nat := 0

/-- Whether the caller drops only references it holds: every `hb_blob_destroy (x)` in
the sequence is applied in a state in which the reference count of `x` exceeds the number
of sub-blobs that refer to `x`. -/
def disciplined (w : World) : List Op → Bool
  | [] => true
  | op :: ops =>
    (match op with
      | Op.destroy x => decide (w.subs x < (w.blob x).ref_count)
      | _ => true) &&
    (match step w op with
      | some w1 => disciplined w1 ops
      | none => false)

/-- Between two states, nothing was invoked on behalf of `p` unless `p` was freed or was
not immutable: `p` does not come back to life, and if `p` is live afterwards and was
immutable before, no new entry of the trace is owned by `p`. -/
def Quiet (p : Nat) (w w1 : World) : Prop :=
  (w1.live p = true → w.live p = true) ∧
    ∃ seg, w1.calls = w.calls ++ seg ∧
      (w1.live p = true → (w.blob p).immutable = true → ∀ c ∈ seg, c.owner ≠ p)

/-- A state with one blob, at pointer 2, over the string "Hello", whose destroy callback
is the caller's function 7 with argument 10. -/
def hello_owned_world : World :=
  { mem := hello_mem, brk := 20,
    heap := [some { ref_count := 1, immutable := false, data := 10, length := 5,
                    mode := HB_MEMORY_MODE_READONLY, user_data := 10,
                    destroy := fn_user 7 }],
    calls := [] }

/-- A `post` table of version 3: the 32-byte header alone. -/
def post_v3 : List Nat :=
  [0, 3, 0, 0] ++ List.replicate 28 0

/-- A version-2 `post` table with `numGlyphs` 4, the indices `[258, 258, 259, 300]` and
the pool `["foo", "bar"]`: two glyphs share the name "foo" and the last has no name. -/
def shared_names_post : List Nat :=
  post_header_v2 ++ [0, 4, 1, 2, 1, 2, 1, 3, 1, 44] ++ [3, 102, 111, 111, 3, 98, 97, 114]

/-! ## `post::subset` and the states used as examples for it -/

/-- The blob over "Hello" in the mode that allows the in-place attempt. -/
def hello_may_world : World :=
  { mem := hello_mem, brk := 20,
    heap := [some { ref_count := 1, immutable := false, data := 10, length := 5,
                    mode := HB_MEMORY_MODE_READONLY_MAY_MAKE_WRITABLE, user_data := nullptr,
                    destroy := fn_null }],
    calls := [] }

/-- `post::static_size`, from `DEFINE_SIZE_STATIC (32)`. -/
def post.static_size : Nat := 32

/-- Modelled from the spec: `HBUINT16::set` of `hb-open-type-private.hh`, which is not
part of the sources.  The two bytes at address `p` receive `v`, high byte first. -/
def HBUINT16_set (w : World) (p v : Nat) : World :=
  { w with mem := fun a =>
      if a = p then v / 256 % 256 else if a = p + 1 then v % 256 else w.mem a }

/-- `post::subset`.  `post_blob` is the reference that
`hb_sanitize_context_t ().reference_table<post> (plan->source)` returned, and
`add_table` is `plan->add_table (HB_OT_TAG_post, ·)`, the table collector of the plan;
neither is part of the sources.  Every call of the blob interface gets the answers of
`env`. -/
def post.subset (add_table : World → Nat → World × Bool) (w : World) (env : Env)
    (post_blob : Nat) : Option (World × Bool) :=
  match hb_blob_create_sub_blob w env post_blob 0 post.static_size with
  | none => none
  | some (w1, post_prime_blob) =>
    match hb_blob_get_data_writable w1 env post_prime_blob with
    | none => none
    | some (w2, post_prime, post_prime_length) =>
      match hb_blob_destroy w2 post_blob with
      | none => none
      | some w3 =>
        if post_prime = nullptr ∨ post_prime_length ≠ post.static_size then
          (hb_blob_destroy w3 post_prime_blob).map (fun w4 => (w4, false))
        else
          match add_table (HBUINT16_set w3 post_prime 3) post_prime_blob with
          | (w4, result) =>
            (hb_blob_destroy w4 post_prime_blob).map (fun w5 => (w5, result))

/-- The state after `hb_blob_create (t, length of t, READONLY, nullptr, nullptr)` with
the bytes of `t` at address 100, and one `hb_blob_reference`: one blob, at pointer 2,
held by its creator and by one more owner. -/
def table_world (t : List Nat) : World :=
  { mem := fun a => if 100 ≤ a then byte_at t (a - 100) else 0,
    brk := 100 + t.length,
    heap := [some { ref_count := 2, immutable := false, data := 100, length := t.length,
                    mode := HB_MEMORY_MODE_READONLY, user_data := nullptr,
                    destroy := fn_null }],
    calls := [] }

/-- A table collector that keeps a reference to every blob it is given. -/
def keep_table (w : World) (blob : Nat) : World × Bool :=
  ((hb_blob_reference w blob).1, true)

/-! ## Frame lemmas for the heap primitives -/

theorem modify_mem (w : World) (p : Nat) (f : hb_blob_t → hb_blob_t) :
    (w.modify p f).mem = w.mem := by
  unfold World.modify
  split <;> try rfl
  split <;> rfl

theorem modify_brk (w : World) (p : Nat) (f : hb_blob_t → hb_blob_t) :
    (w.modify p f).brk = w.brk := by
  unfold World.modify
  split <;> try rfl
  split <;> rfl

theorem modify_calls (w : World) (p : Nat) (f : hb_blob_t → hb_blob_t) :
    (w.modify p f).calls = w.calls := by
  unfold World.modify
  split <;> try rfl
  split <;> rfl

theorem modify_heap_length (w : World) (p : Nat) (f : hb_blob_t → hb_blob_t) :
    (w.modify p f).heap.length = w.heap.length := by
  unfold World.modify
  split <;> try rfl
  split <;> simp

theorem blob_of_not_live (w : World) (p : Nat) (h : w.live p = false) : w.blob p = _hb_blob_nil := by
  unfold World.live at h
  unfold World.blob
  split <;> try rfl
  split at h <;> simp_all
  split <;> simp_all

theorem blob_modify (w : World) (p q : Nat) (f : hb_blob_t → hb_blob_t) :
    (w.modify p f).blob q = if q = p ∧ w.live p = true then f (w.blob q) else w.blob q := by
  match p with
  | 0 => simp [World.modify, World.live]
  | 1 => simp [World.modify, World.live]
  | i + 2 =>
    match q with
    | 0 => simp [World.blob]
    | 1 => simp [World.blob]
    | j + 2 =>
      simp only [World.modify, World.live, World.blob]
      rcases h : w.heap[i]? with _ | _ | b
      · simp
      · simp
      · by_cases hij : j = i
        · subst hij
          have hlt : j < w.heap.length := (List.getElem?_eq_some.mp h).1
          simp [h, List.getElem?_set_self, hlt]
        · simp [hij, List.getElem?_set_ne (Ne.symm hij)]

theorem live_modify (w : World) (p q : Nat) (f : hb_blob_t → hb_blob_t) :
    (w.modify p f).live q = w.live q := by
  match p with
  | 0 => simp [World.modify]
  | 1 => simp [World.modify]
  | i + 2 =>
    match q with
    | 0 => simp [World.live]
    | 1 => simp [World.live]
    | j + 2 =>
      simp only [World.modify, World.live]
      rcases h : w.heap[i]? with _ | _ | b
      · simp
      · simp
      · by_cases hij : j = i
        · subst hij
          have hlt : j < w.heap.length := (List.getElem?_eq_some.mp h).1
          simp [h, List.getElem?_set_self, hlt]
        · simp [List.getElem?_set_ne (Ne.symm hij)]


theorem alive_le (w : World) : w.alive ≤ w.heap.length := List.countP_le_length _

theorem alive_log (w : World) (c : Call) : (w.log c).alive = w.alive := rfl

theorem hb_object_destroy_alive (w w1 : World) (p : Nat) (h : hb_object_destroy w p = (w1, true)) :
    w1.alive + 1 = w.alive := by
  unfold hb_object_destroy at h
  split at h
  · cases h
  · match p with
    | 0 => simp [World.blob, _hb_blob_nil] at h
    | 1 => simp [World.blob, _hb_blob_nil] at h
    | i + 2 =>
      simp only [World.blob, World.modify] at h
      rcases hs : w.heap[i]? with _ | _ | b
      · simp [hs, _hb_blob_nil] at h
      · simp [hs, _hb_blob_nil] at h
      · simp only [hs] at h
        have hlt : i < w.heap.length := (List.getElem?_eq_some.mp hs).1
        have hget : w.heap[i] = some b := (List.getElem?_eq_some.mp hs).2
        split at h
        · cases h
        · rename_i hrc
          simp only [Prod.mk.injEq, and_true] at h
          subst h
          have hb := List.boole_getElem_le_countP holds_ref w.heap i hlt
          rw [hget] at hb
          have e1 : holds_ref (some b) = true := by simp [holds_ref, hrc]
          have e2 : holds_ref (some { b with ref_count := 0 }) = false := by simp [holds_ref]
          rw [e1] at hb
          simp only [World.alive, List.countP_set _ _ _ _ hlt, hget, e1, e2] at hb ⊢
          simp only [if_true] at hb ⊢
          simp only [Bool.false_eq_true, if_false] at hb ⊢
          omega
        · cases h

theorem hb_blob_destroy_fuel_total (n : Nat) :
    ∀ (w : World) (p : Nat), w.alive < n → ∃ w', hb_blob_destroy_fuel n w p = some w' := by
  induction n with
  | zero => intro w p h; omega
  | succ n ih =>
    intro w p h
    unfold hb_blob_destroy_fuel
    rcases hd : hb_object_destroy w p with ⟨w1, r⟩
    cases r
    · exact ⟨w1, rfl⟩
    · have ha := hb_object_destroy_alive w w1 p hd
      simp only [destroy_user_data_with, invoke]
      rcases hf : (w1.blob p).destroy with _ | _ | _ | id
      · simp
      · simp
      · obtain ⟨w2, h2⟩ := ih (w1.log ⟨p, fn_blob_destroy, (w1.blob p).user_data⟩) (w1.blob p).user_data
          (by rw [alive_log]; omega)
        simp [h2]
      · simp

theorem hb_blob_destroy_total (w : World) (p : Nat) : ∃ w', hb_blob_destroy w p = some w' :=
  hb_blob_destroy_fuel_total _ w p (Nat.lt_succ_of_le (alive_le w))


/-! free_obj and log -/

theorem free_obj_mem (w : World) (p : Nat) : (w.free_obj p).mem = w.mem := by
  unfold World.free_obj; split <;> rfl

theorem free_obj_brk (w : World) (p : Nat) : (w.free_obj p).brk = w.brk := by
  unfold World.free_obj; split <;> rfl

theorem free_obj_calls (w : World) (p : Nat) : (w.free_obj p).calls = w.calls := by
  unfold World.free_obj; split <;> rfl

theorem free_obj_heap_length (w : World) (p : Nat) :
    (w.free_obj p).heap.length = w.heap.length := by
  unfold World.free_obj; split <;> simp

theorem blob_free_obj (w : World) (p q : Nat) :
    (w.free_obj p).blob q = if q = p then _hb_blob_nil else w.blob q := by
  match p with
  | 0 => by_cases h : q = 0 <;> simp [World.free_obj, h, World.blob]
  | 1 => by_cases h : q = 1 <;> simp [World.free_obj, h, World.blob]
  | i + 2 =>
    match q with
    | 0 => simp [World.blob]
    | 1 => simp [World.blob]
    | j + 2 =>
      simp only [World.free_obj, World.blob]
      by_cases hij : j = i
      · subst hij
        by_cases hlt : j < w.heap.length
        · simp [List.getElem?_set_self, hlt]
        · have e1 : (w.heap.set j none)[j]? = none :=
            List.getElem?_eq_none (by simp; omega)
          simp [e1, List.getElem?_eq_none (Nat.le_of_not_lt hlt)]
      · simp [hij, List.getElem?_set_ne (Ne.symm hij)]

theorem live_free_obj (w : World) (p q : Nat) :
    (w.free_obj p).live q = if q = p then false else w.live q := by
  match p with
  | 0 => by_cases h : q = 0 <;> simp [World.free_obj, h, World.live]
  | 1 => by_cases h : q = 1 <;> simp [World.free_obj, h, World.live]
  | i + 2 =>
    match q with
    | 0 => simp [World.live]
    | 1 => simp [World.live]
    | j + 2 =>
      simp only [World.free_obj, World.live]
      by_cases hij : j = i
      · subst hij
        by_cases hlt : j < w.heap.length
        · simp [List.getElem?_set_self, hlt]
        · have e1 : (w.heap.set j none)[j]? = none :=
            List.getElem?_eq_none (by simp; omega)
          simp [e1, List.getElem?_eq_none (Nat.le_of_not_lt hlt)]
      · simp [hij, List.getElem?_set_ne (Ne.symm hij)]

theorem live_ge_two (w : World) (p : Nat) (h : w.live p = true) : 2 ≤ p := by
  match p with
  | 0 => simp [World.live] at h
  | 1 => simp [World.live] at h
  | i + 2 => omega

theorem live_lt (w : World) (p : Nat) (h : w.live p = true) : p < w.heap.length + 2 := by
  match p with
  | 0 => omega
  | 1 => omega
  | i + 2 =>
    simp only [World.live] at h
    rcases hs : w.heap[i]? with _ | _ | b
    · simp [hs] at h
    · simp [hs] at h
    · have := (List.getElem?_eq_some.mp hs).1
      omega

theorem live_of_blob_ne (w : World) (p : Nat) (h : w.blob p ≠ _hb_blob_nil) : w.live p = true := by
  by_contra hc
  exact h (blob_of_not_live w p (by simpa using hc))

/-! ## What a destroy cascade preserves -/

theorem Frame.frame_rfl (w : World) : Frame w w :=
  ⟨rfl, rfl, rfl, ⟨[], by simp, by simp⟩, fun _ h => ⟨h, rfl, rfl, rfl, rfl⟩⟩

theorem Frame.frame_trans {a b c : World} (h1 : Frame a b) (h2 : Frame b c) : Frame a c := by
  obtain ⟨n1, e1, o1⟩ := h1.calls
  obtain ⟨n2, e2, o2⟩ := h2.calls
  refine ⟨h2.mem.trans h1.mem, h2.brk.trans h1.brk, h2.heap_length.trans h1.heap_length,
    ⟨n1 ++ n2, by rw [e2, e1, List.append_assoc], ?_⟩, ?_⟩
  · intro c hc
    rcases List.mem_append.mp hc with h | h
    · exact o1 c h
    · exact o2 c h
  · intro q hq
    obtain ⟨hb, i2, d2, l2, m2⟩ := h2.kept q hq
    obtain ⟨ha, i1, d1, l1, m1⟩ := h1.kept q hb
    exact ⟨ha, i2.trans i1, d2.trans d1, l2.trans l1, m2.trans m1⟩

theorem Frame.frame_modify (w : World) (p : Nat) (f : hb_blob_t → hb_blob_t)
    (hf : ∀ b, (f b).immutable = b.immutable ∧ (f b).data = b.data ∧
      (f b).length = b.length ∧ (f b).mode = b.mode) : Frame w (w.modify p f) := by
  refine ⟨modify_mem _ _ _, modify_brk _ _ _, modify_heap_length _ _ _,
    ⟨[], by simp [modify_calls], by simp⟩, ?_⟩
  intro q hq
  rw [live_modify] at hq
  refine ⟨hq, ?_⟩
  rw [blob_modify]
  split
  · exact hf _
  · exact ⟨rfl, rfl, rfl, rfl⟩

theorem Frame.frame_log (w : World) (c : Call) (hc : 2 ≤ c.owner) : Frame w (w.log c) :=
  ⟨rfl, rfl, rfl, ⟨[c], rfl, by simpa using hc⟩, fun _ h => ⟨h, rfl, rfl, rfl, rfl⟩⟩

theorem Frame.frame_free_obj (w : World) (p : Nat) : Frame w (w.free_obj p) := by
  refine ⟨free_obj_mem _ _, free_obj_brk _ _, free_obj_heap_length _ _,
    ⟨[], by simp [free_obj_calls], by simp⟩, ?_⟩
  intro q hq
  rw [live_free_obj] at hq
  by_cases h : q = p
  · simp [h] at hq
  · simp only [h, if_false] at hq
    refine ⟨hq, ?_⟩
    rw [blob_free_obj]
    simp [h]

/-- What `hb_object_destroy` does when it reports that the count reached zero. -/
theorem hb_object_destroy_true (w w1 : World) (p : Nat) (h : hb_object_destroy w p = (w1, true)) :
    w.live p = true ∧ (w.blob p).ref_count = 1 ∧
      w1 = w.modify p (fun b => { b with ref_count := 0 }) := by
  unfold hb_object_destroy at h
  split at h
  · cases h
  · split at h
    · cases h
    · rename_i hrc
      refine ⟨?_, hrc, by cases h; rfl⟩
      apply live_of_blob_ne
      intro hn
      rw [hn] at hrc
      simp [_hb_blob_nil] at hrc
    · cases h

theorem hb_object_destroy_frame (w : World) (p : Nat) : Frame w (hb_object_destroy w p).1 := by
  unfold hb_object_destroy
  split
  · exact Frame.frame_rfl w
  · split
    · exact Frame.frame_rfl w
    · exact Frame.frame_modify _ _ _ (fun b => ⟨rfl, rfl, rfl, rfl⟩)
    · exact Frame.frame_modify _ _ _ (fun b => ⟨rfl, rfl, rfl, rfl⟩)

theorem hb_blob_destroy_fuel_frame (n : Nat) :
    ∀ (w w' : World) (p : Nat), hb_blob_destroy_fuel n w p = some w' → Frame w w' := by
  induction n with
  | zero => intro w w' p h; simp [hb_blob_destroy_fuel] at h
  | succ n ih =>
    intro w w' p h
    unfold hb_blob_destroy_fuel at h
    rcases hd : hb_object_destroy w p with ⟨w1, r⟩
    have hf1 : Frame w w1 := by simpa [hd] using hb_object_destroy_frame w p
    rw [hd] at h
    cases r
    · simp only [Option.some.injEq] at h
      subst h
      exact hf1
    · obtain ⟨hlive, -, -⟩ := hb_object_destroy_true w w1 p hd
      have hp : 2 ≤ p := live_ge_two w p hlive
      simp only [destroy_user_data_with, invoke] at h
      have hclear : ∀ v : World, Frame v
          ((v.modify p (fun b => { b with user_data := nullptr, destroy := fn_null })).free_obj p) :=
        fun v => (Frame.frame_modify v p (fun b => { b with user_data := nullptr, destroy := fn_null })
          (fun b => ⟨rfl, rfl, rfl, rfl⟩)).frame_trans (Frame.frame_free_obj _ p)
      have hlog : Frame w1 (w1.log ⟨p, (w1.blob p).destroy, (w1.blob p).user_data⟩) :=
        Frame.frame_log _ _ hp
      rcases hfn : (w1.blob p).destroy with _ | _ | _ | id
      · simp [hfn] at h
        subst h
        exact hf1.frame_trans (Frame.frame_free_obj _ p)
      · simp [hfn] at h
        subst h
        rw [hfn] at hlog
        exact hf1.frame_trans (hlog.frame_trans (hclear _))
      · simp [hfn] at h
        obtain ⟨v, hv, rfl⟩ := h
        rw [hfn] at hlog
        exact hf1.frame_trans (hlog.frame_trans ((ih _ _ _ hv).frame_trans (hclear _)))
      · simp [hfn] at h
        subst h
        rw [hfn] at hlog
        exact hf1.frame_trans (hlog.frame_trans (hclear _))

theorem hb_blob_destroy_frame (w w' : World) (p : Nat) (h : hb_blob_destroy w p = some w') :
    Frame w w' :=
  hb_blob_destroy_fuel_frame _ w w' p h

/-! ## Object creation -/

theorem blob_modify_self (w : World) (p : Nat) (f : hb_blob_t → hb_blob_t) (h : w.live p = true) :
    (w.modify p f).blob p = f (w.blob p) := by
  rw [blob_modify]; simp [h]

theorem blob_modify_ne (w : World) (p q : Nat) (f : hb_blob_t → hb_blob_t) (h : q ≠ p) :
    (w.modify p f).blob q = w.blob q := by
  rw [blob_modify]; simp [h]

theorem live_of_length_pos (w : World) (p : Nat) (h : 0 < (w.blob p).length) : w.live p = true := by
  apply live_of_blob_ne
  intro hn
  rw [hn] at h
  simp [_hb_blob_nil] at h

theorem not_live_fresh (w : World) (p : Nat) (h : w.heap.length + 2 ≤ p) : w.live p = false := by
  by_contra hc
  have := live_lt w p (by simpa using hc)
  omega

theorem blob_object_create (w : World) (q : Nat) :
    (hb_object_create w true).1.blob q =
      if q = w.heap.length + 2 then
        { ref_count := 1, immutable := false, data := nullptr, length := 0,
          mode := HB_MEMORY_MODE_DUPLICATE, user_data := nullptr, destroy := fn_null }
      else w.blob q := by
  match q with
  | 0 => simp [hb_object_create, World.blob]
  | 1 => simp [hb_object_create, World.blob]
  | j + 2 =>
    simp only [hb_object_create, if_true, World.blob]
    by_cases hj : j = w.heap.length
    · subst hj
      simp
    · simp only [Nat.add_right_cancel_iff, hj, if_false]
      by_cases hlt : j < w.heap.length
      · rw [List.getElem?_append_left hlt]
      · rw [List.getElem?_eq_none (by simp; omega), List.getElem?_eq_none (by omega)]

theorem live_object_create (w : World) (q : Nat) :
    (hb_object_create w true).1.live q = (decide (q = w.heap.length + 2) || w.live q) := by
  match q with
  | 0 => simp [hb_object_create, World.live]
  | 1 => simp [hb_object_create, World.live]
  | j + 2 =>
    simp only [hb_object_create, if_true, World.live]
    by_cases hj : j = w.heap.length
    · subst hj
      simp
    · simp only [Nat.add_right_cancel_iff, hj, decide_False, Bool.false_or]
      by_cases hlt : j < w.heap.length
      · rw [List.getElem?_append_left hlt]
      · rw [List.getElem?_eq_none (by simp; omega), List.getElem?_eq_none (by omega)]

theorem object_create_fst (w : World) :
    (hb_object_create w true).2 = w.heap.length + 2 ∧
    (hb_object_create w true).1.mem = w.mem ∧ (hb_object_create w true).1.brk = w.brk ∧
    (hb_object_create w true).1.calls = w.calls ∧
    (hb_object_create w true).1.heap.length = w.heap.length + 1 := by
  simp [hb_object_create]

/-! ## hb_blob_create without duplication -/

/-- The world and the pointer `hb_blob_create` returns when the object is
allocated and the mode is not `DUPLICATE`. -/
theorem hb_blob_create_plain (w : World) (env : Env) (data length : Nat)
    (mode : hb_memory_mode_t) (user_data : Nat) (destroy : hb_destroy_func_t)
    (h0 : length ≠ 0) (h1 : length < 2 ^ 31) (hobj : env.object_ok = true)
    (hm : mode ≠ HB_MEMORY_MODE_DUPLICATE) :
    hb_blob_create w env data length mode user_data destroy =
      some ((hb_object_create w true).1.modify (w.heap.length + 2) (fun b =>
        { b with data := data, length := length, mode := mode,
                 user_data := user_data, destroy := destroy }), w.heap.length + 2) := by
  unfold hb_blob_create
  rw [if_neg (by omega), hobj]
  have e2 : (hb_object_create w true).2 = w.heap.length + 2 := (object_create_fst w).1
  have e : hb_object_create w true = ((hb_object_create w true).1, w.heap.length + 2) := by
    rw [← e2]
  rw [e]
  simp only [nullptr, if_neg hm]
  rw [if_neg (by omega)]

/-- The object `hb_blob_create` builds in that case. -/
theorem hb_blob_create_plain_blob (w : World) (data length : Nat)
    (mode : hb_memory_mode_t) (user_data : Nat) (destroy : hb_destroy_func_t) (q : Nat) :
    ((hb_object_create w true).1.modify (w.heap.length + 2) (fun b =>
        { b with data := data, length := length, mode := mode,
                 user_data := user_data, destroy := destroy })).blob q =
      if q = w.heap.length + 2 then
        { ref_count := 1, immutable := false, data := data, length := length, mode := mode,
          user_data := user_data, destroy := destroy }
      else w.blob q := by
  rw [blob_modify, live_object_create, blob_object_create]
  by_cases hq : q = w.heap.length + 2
  · simp [hq]
  · simp [hq]

/-! ## Sub-blobs -/

/-- The parent after `hb_blob_make_immutable` and `hb_blob_reference`. -/
theorem pinned_parent (w : World) (parent : Nat) (h : w.live parent = true) :
    ∃ w1, hb_blob_reference (hb_blob_make_immutable w parent) parent = (w1, parent) ∧
      w1.mem = w.mem ∧ w1.heap.length = w.heap.length ∧ w1.calls = w.calls ∧ w1.brk = w.brk ∧
      w1.blob parent = { w.blob parent with immutable := true,
                                            ref_count := (w.blob parent).ref_count + 1 } ∧
      (∀ q, q ≠ parent → w1.blob q = w.blob q) ∧ (∀ q, w1.live q = w.live q) := by
  have h2 := live_ge_two w parent h
  have hin : hb_object_is_inert parent = false := by
    simp [hb_object_is_inert, hb_blob_get_empty]; omega
  have hnn : ¬ (parent = nullptr ∨ hb_object_is_inert parent = true) := by
    simp [hin, nullptr]; omega
  refine ⟨(w.modify parent (fun b => { b with immutable := true })).modify parent
    (fun b => { b with ref_count := b.ref_count + 1 }), ?_, ?_, ?_, ?_, ?_, ?_, ?_, ?_⟩
  · have hnn2 : ¬ (parent = nullptr ∨ false = true) := by simpa [hin] using hnn
    simp only [hb_blob_reference, hb_object_reference, hb_blob_make_immutable, hin]
    rw [if_neg hnn2, if_neg (by decide)]
  · simp [modify_mem]
  · simp [modify_heap_length]
  · simp [modify_calls]
  · simp [modify_brk]
  · rw [blob_modify_self _ _ _ (by rw [live_modify]; exact h), blob_modify_self _ _ _ h]
  · intro q hq
    rw [blob_modify_ne _ _ _ _ hq, blob_modify_ne _ _ _ _ hq]
  · intro q
    rw [live_modify, live_modify]

theorem hb_blob_create_sub_blob_spec (w : World) (env : Env) (parent offset length : Nat)
    (hpar : (w.blob parent).length < 2 ^ 31) (hobj : env.object_ok = true)
    (hl : length ≠ 0) (ho : offset < (w.blob parent).length) :
    ∃ w1, hb_blob_create_sub_blob w env parent offset length = some (w1, w.heap.length + 2) ∧
      w1.mem = w.mem ∧ w1.calls = w.calls ∧ w1.brk = w.brk ∧
      w1.heap.length = w.heap.length + 1 ∧
      w1.blob (w.heap.length + 2) =
        { ref_count := 1, immutable := false, data := (w.blob parent).data + offset,
          length := min length ((w.blob parent).length - offset),
          mode := HB_MEMORY_MODE_READONLY, user_data := parent, destroy := fn_blob_destroy } ∧
      w1.blob parent = { w.blob parent with immutable := true,
                                            ref_count := (w.blob parent).ref_count + 1 } ∧
      (∀ q, q ≠ parent → q ≠ w.heap.length + 2 → w1.blob q = w.blob q) ∧
      (∀ q, w1.live q = (decide (q = w.heap.length + 2) || w.live q)) := by
  have hlive : w.live parent = true := live_of_length_pos w parent (by omega)
  have hlt := live_lt w parent hlive
  obtain ⟨wA, hA, hmem, hlen, hcalls, hbrk, hpb, hother, hliveA⟩ := pinned_parent w parent hlive
  have hcs : hb_blob_create_sub_blob w env parent offset length =
      hb_blob_create wA env ((wA.blob parent).data + offset)
        (min length ((wA.blob parent).length - offset)) HB_MEMORY_MODE_READONLY parent
        fn_blob_destroy := by
    unfold hb_blob_create_sub_blob
    rw [if_neg (by omega), hA]
  rw [hcs, hb_blob_create_plain wA env _ _ _ _ _ (by rw [hpb]; simp; omega)
    (by rw [hpb]; simp; omega) hobj (by decide), hlen]
  refine ⟨_, rfl, ?_, ?_, ?_, ?_, ?_, ?_, ?_, ?_⟩
  · rw [modify_mem, (object_create_fst wA).2.1, hmem]
  · rw [modify_calls, (object_create_fst wA).2.2.2.1, hcalls]
  · rw [modify_brk, (object_create_fst wA).2.2.1, hbrk]
  · rw [modify_heap_length, (object_create_fst wA).2.2.2.2, hlen]
  · have := hb_blob_create_plain_blob wA ((wA.blob parent).data + offset)
      (min length ((wA.blob parent).length - offset)) HB_MEMORY_MODE_READONLY parent
      fn_blob_destroy (w.heap.length + 2)
    rw [hlen] at this
    rw [this, if_pos rfl, hpb]
  · have := hb_blob_create_plain_blob wA ((wA.blob parent).data + offset)
      (min length ((wA.blob parent).length - offset)) HB_MEMORY_MODE_READONLY parent
      fn_blob_destroy parent
    rw [hlen] at this
    rw [this, if_neg (by omega), hpb]
  · intro q hq1 hq2
    have := hb_blob_create_plain_blob wA ((wA.blob parent).data + offset)
      (min length ((wA.blob parent).length - offset)) HB_MEMORY_MODE_READONLY parent
      fn_blob_destroy q
    rw [hlen] at this
    rw [this, if_neg hq2, hother q hq1]
  · intro q
    rw [live_modify, live_object_create, hlen, hliveA]

/-! ## Immutability -/

theorem immutable_make_immutable (w : World) (b : Nat) :
    ((hb_blob_make_immutable w b).blob b).immutable = true := by
  unfold hb_blob_make_immutable
  split
  · rename_i h
    have : b = 1 := by simpa [hb_object_is_inert, hb_blob_get_empty] using h
    subst this
    rfl
  · rw [blob_modify]
    split
    · rfl
    · rename_i h
      have hl : w.live b = false := by simpa using h
      rw [blob_of_not_live w b hl]
      rfl

theorem try_writable_immutable (w : World) (env : Env) (b : Nat)
    (h : (w.blob b).immutable = true) : _try_writable w env b = some (w, false) := by
  unfold _try_writable
  rw [if_pos h]

/-! ## Destroy cascades in an ordered heap -/

theorem Below.below_rfl (m : Nat) (w : World) : Below m w w :=
  ⟨fun _ _ => rfl, fun _ _ => rfl, ⟨[], by simp, by simp⟩⟩

theorem Below.below_trans {m : Nat} {a b c : World} (h1 : Below m a b) (h2 : Below m b c) :
    Below m a c := by
  obtain ⟨n1, e1, o1⟩ := h1.calls
  obtain ⟨n2, e2, o2⟩ := h2.calls
  refine ⟨fun q hq => (h2.blob q hq).trans (h1.blob q hq),
    fun q hq => (h2.live q hq).trans (h1.live q hq),
    ⟨n1 ++ n2, by rw [e2, e1, List.append_assoc], ?_⟩⟩
  intro c hc
  rcases List.mem_append.mp hc with h | h
  · exact o1 c h
  · exact o2 c h

theorem Below.below_mono {m k : Nat} {a b : World} (h : Below m a b) (hmk : m ≤ k) : Below k a b := by
  obtain ⟨n1, e1, o1⟩ := h.calls
  exact ⟨fun q hq => h.blob q (by omega), fun q hq => h.live q (by omega),
    ⟨n1, e1, fun c hc => Nat.le_trans (o1 c hc) hmk⟩⟩

theorem Below.below_modify (w : World) (p : Nat) (f : hb_blob_t → hb_blob_t) :
    Below p w (w.modify p f) :=
  ⟨fun q hq => blob_modify_ne w p q f (by omega), fun q _ => live_modify w p q f,
    ⟨[], by simp [modify_calls], by simp⟩⟩

theorem Below.below_log (w : World) (c : Call) : Below c.owner w (w.log c) :=
  ⟨fun _ _ => rfl, fun _ _ => rfl, ⟨[c], rfl, by simp⟩⟩

theorem Below.below_free_obj (w : World) (p : Nat) : Below p w (w.free_obj p) := by
  refine ⟨fun q hq => ?_, fun q hq => ?_, ⟨[], by simp [free_obj_calls], by simp⟩⟩
  · rw [blob_free_obj, if_neg (by omega)]
  · rw [live_free_obj, if_neg (by omega)]

theorem Ordered.ordered_all {w : World} (h : Ordered w) (q : Nat)
    (hq : (w.blob q).destroy = fn_blob_destroy) : (w.blob q).user_data < q := by
  by_cases hlt : q < w.heap.length + 2
  · exact h q hlt hq
  · rw [blob_of_not_live w q (not_live_fresh w q (by omega))] at hq
    simp [_hb_blob_nil] at hq

theorem Ordered.ordered_modify {w : World} (h : Ordered w) (p : Nat) (f : hb_blob_t → hb_blob_t)
    (hf : ∀ b, (f b).destroy = fn_blob_destroy →
      b.destroy = fn_blob_destroy ∧ (f b).user_data = b.user_data) :
    Ordered (w.modify p f) := by
  intro q _ hq
  rw [blob_modify] at hq ⊢
  split at hq
  · rename_i hc
    rw [if_pos hc]
    obtain ⟨h1, h2⟩ := hf _ hq
    rw [h2]
    exact h.ordered_all q h1
  · rename_i hc
    rw [if_neg hc]
    exact h.ordered_all q hq

theorem Ordered.ordered_log {w : World} (h : Ordered w) (c : Call) : Ordered (w.log c) := h

theorem Ordered.ordered_free_obj {w : World} (h : Ordered w) (p : Nat) : Ordered (w.free_obj p) := by
  intro q _ hq
  rw [blob_free_obj] at hq ⊢
  split at hq
  · simp [_hb_blob_nil] at hq
  · rename_i hc
    rw [if_neg hc]
    exact h.ordered_all q hq

theorem hb_object_destroy_below (w : World) (p : Nat) : Below p w (hb_object_destroy w p).1 := by
  unfold hb_object_destroy
  split
  · exact Below.below_rfl p w
  · split
    · exact Below.below_rfl p w
    · exact Below.below_modify _ _ _
    · exact Below.below_modify _ _ _

theorem hb_object_destroy_ordered {w : World} (h : Ordered w) (p : Nat) :
    Ordered (hb_object_destroy w p).1 := by
  unfold hb_object_destroy
  split
  · exact h
  · split
    · exact h
    · exact h.ordered_modify _ _ (fun b hb => ⟨hb, rfl⟩)
    · exact h.ordered_modify _ _ (fun b hb => ⟨hb, rfl⟩)

theorem hb_blob_destroy_fuel_below (n : Nat) :
    ∀ (w w' : World) (p : Nat), Ordered w → hb_blob_destroy_fuel n w p = some w' →
      Ordered w' ∧ Below p w w' := by
  induction n with
  | zero => intro w w' p _ h; simp [hb_blob_destroy_fuel] at h
  | succ n ih =>
    intro w w' p ho h
    unfold hb_blob_destroy_fuel at h
    rcases hd : hb_object_destroy w p with ⟨w1, r⟩
    have hb1 : Below p w w1 := by simpa [hd] using hb_object_destroy_below w p
    have ho1 : Ordered w1 := by simpa [hd] using hb_object_destroy_ordered ho p
    rw [hd] at h
    cases r
    · simp only [Option.some.injEq] at h
      subst h
      exact ⟨ho1, hb1⟩
    · simp only [destroy_user_data_with, invoke] at h
      have hclear : ∀ v : World, Ordered v → Ordered
          ((v.modify p (fun b => { b with user_data := nullptr, destroy := fn_null })).free_obj p) ∧
          Below p v
          ((v.modify p (fun b => { b with user_data := nullptr, destroy := fn_null })).free_obj p) :=
        fun v hv => ⟨(hv.ordered_modify p (fun b => { b with user_data := nullptr, destroy := fn_null })
            (fun b hb => by simp at hb)).ordered_free_obj p,
          (Below.below_modify v p _).below_trans (Below.below_free_obj _ p)⟩
      have hlog : Below p w1 (w1.log ⟨p, (w1.blob p).destroy, (w1.blob p).user_data⟩) :=
        Below.below_log w1 ⟨p, (w1.blob p).destroy, (w1.blob p).user_data⟩
      rcases hfn : (w1.blob p).destroy with _ | _ | _ | id
      · simp [hfn] at h
        subst h
        exact ⟨ho1.ordered_free_obj p, hb1.below_trans (Below.below_free_obj _ p)⟩
      · simp [hfn] at h
        subst h
        rw [hfn] at hlog
        exact ⟨(hclear _ (ho1.ordered_log _)).1, hb1.below_trans (hlog.below_trans (hclear _ (ho1.ordered_log _)).2)⟩
      · simp [hfn] at h
        obtain ⟨v, hv, rfl⟩ := h
        rw [hfn] at hlog
        obtain ⟨hov, hbv⟩ := ih _ _ _ (ho1.ordered_log _) hv
        have hud : (w1.blob p).user_data ≤ p := Nat.le_of_lt (ho1.ordered_all p hfn)
        exact ⟨(hclear _ hov).1, hb1.below_trans (hlog.below_trans ((hbv.below_mono hud).below_trans (hclear _ hov).2))⟩
      · simp [hfn] at h
        subst h
        rw [hfn] at hlog
        exact ⟨(hclear _ (ho1.ordered_log _)).1, hb1.below_trans (hlog.below_trans (hclear _ (ho1.ordered_log _)).2)⟩

theorem hb_blob_destroy_below (w w' : World) (p : Nat) (ho : Ordered w)
    (h : hb_blob_destroy w p = some w') : Ordered w' ∧ Below p w w' :=
  hb_blob_destroy_fuel_below _ w w' p ho h

/-! ## The callback of a live blob -/

theorem live_of_destroy_ne (w : World) (b : Nat) (h : (w.blob b).destroy ≠ fn_null) :
    w.live b = true := by
  apply live_of_blob_ne
  intro hn
  rw [hn] at h
  exact h rfl

theorem live_of_not_immutable (w : World) (b : Nat) (h : (w.blob b).immutable = false) :
    w.live b = true := by
  apply live_of_blob_ne
  intro hn
  rw [hn] at h
  simp [_hb_blob_nil] at h

theorem destroy_user_data_total (w : World) (b : Nat) :
    ∃ w', _hb_blob_destroy_user_data w b = some w' := by
  unfold _hb_blob_destroy_user_data destroy_user_data_with invoke
  rcases hfn : (w.blob b).destroy with _ | _ | _ | id
  · simp
  · simp
  · obtain ⟨v, hv⟩ := hb_blob_destroy_total
      (w.log ⟨b, fn_blob_destroy, (w.blob b).user_data⟩) (w.blob b).user_data
    simp [_hb_blob_destroy, hv]
  · simp

theorem destroy_user_data_frame (w w' : World) (b : Nat)
    (h : _hb_blob_destroy_user_data w b = some w') : Frame w w' := by
  unfold _hb_blob_destroy_user_data destroy_user_data_with invoke at h
  split at h
  · rename_i hne
    have hb2 : 2 ≤ b := live_ge_two w b (live_of_destroy_ne w b hne)
    have hclear : ∀ v : World, Frame v
        (v.modify b (fun b => { b with user_data := nullptr, destroy := fn_null })) :=
      fun v => Frame.frame_modify v b (fun b => { b with user_data := nullptr, destroy := fn_null })
        (fun b => ⟨rfl, rfl, rfl, rfl⟩)
    by_cases hfn : (w.blob b).destroy = fn_blob_destroy
    · simp [hfn, _hb_blob_destroy] at h
      obtain ⟨v, hv, rfl⟩ := h
      exact (Frame.frame_log w ⟨b, fn_blob_destroy, (w.blob b).user_data⟩ hb2).frame_trans
        ((hb_blob_destroy_frame _ _ _ hv).frame_trans (hclear _))
    · have hw : w' = (w.log ⟨b, (w.blob b).destroy, (w.blob b).user_data⟩).modify b
          (fun b => { b with user_data := nullptr, destroy := fn_null }) := by
        rcases hd : (w.blob b).destroy with _ | _ | _ | id
        · exact absurd hd hne
        · simp [hd] at h; exact h.symm
        · exact absurd hd hfn
        · simp [hd] at h; exact h.symm
      rw [hw]
      exact (Frame.frame_log w ⟨b, _, (w.blob b).user_data⟩ hb2).frame_trans (hclear _)
  · simp at h
    subst h
    exact Frame.frame_rfl w

/-- In an ordered heap `_hb_blob_destroy_user_data (b)` leaves `b` in place, with
no callback any more and everything but `user_data` as before, and touches
nothing above `b`. -/
theorem destroy_user_data_ordered (w w' : World) (b : Nat) (ho : Ordered w)
    (h : _hb_blob_destroy_user_data w b = some w') :
    Ordered w' ∧ Below b w w' ∧ w'.live b = w.live b ∧
      (w'.blob b).destroy = fn_null ∧ (w'.blob b).ref_count = (w.blob b).ref_count ∧
      (w'.blob b).immutable = (w.blob b).immutable ∧ (w'.blob b).data = (w.blob b).data ∧
      (w'.blob b).length = (w.blob b).length ∧ (w'.blob b).mode = (w.blob b).mode := by
  unfold _hb_blob_destroy_user_data destroy_user_data_with invoke at h
  split at h
  · rename_i hne
    have hlive : w.live b = true := live_of_destroy_ne w b hne
    have hclear : ∀ v : World, Ordered v → v.live b = true →
        Ordered (v.modify b (fun b => { b with user_data := nullptr, destroy := fn_null })) ∧
        Below b v (v.modify b (fun b => { b with user_data := nullptr, destroy := fn_null })) ∧
        (v.modify b (fun b => { b with user_data := nullptr, destroy := fn_null })).blob b =
          { v.blob b with user_data := nullptr, destroy := fn_null } :=
      fun v hv hl => ⟨hv.ordered_modify b (fun b => { b with user_data := nullptr, destroy := fn_null })
          (fun b hb => by simp at hb), Below.below_modify v b _, blob_modify_self v b _ hl⟩
    by_cases hfn : (w.blob b).destroy = fn_blob_destroy
    · simp [hfn, _hb_blob_destroy] at h
      obtain ⟨v, hv, rfl⟩ := h
      obtain ⟨hov, hbv⟩ := hb_blob_destroy_below _ _ _
        (ho.ordered_log ⟨b, fn_blob_destroy, (w.blob b).user_data⟩) hv
      have hud : (w.blob b).user_data < b := ho.ordered_all b hfn
      have hvb : v.blob b = w.blob b := hbv.blob b hud
      have hvl : v.live b = true := (hbv.live b hud).trans hlive
      obtain ⟨h1, h2, h3⟩ := hclear v hov hvl
      refine ⟨h1, ((Below.below_log w ⟨b, fn_blob_destroy, (w.blob b).user_data⟩).below_trans
        ((hbv.below_mono (Nat.le_of_lt hud)).below_trans h2)), ?_, ?_⟩
      · rw [live_modify, hvl, hlive]
      · rw [h3, hvb]
        exact ⟨rfl, rfl, rfl, rfl, rfl, rfl⟩
    · have hw : w' = (w.log ⟨b, (w.blob b).destroy, (w.blob b).user_data⟩).modify b
          (fun b => { b with user_data := nullptr, destroy := fn_null }) := by
        rcases hd : (w.blob b).destroy with _ | _ | _ | id
        · exact absurd hd hne
        · simp [hd] at h; exact h.symm
        · exact absurd hd hfn
        · simp [hd] at h; exact h.symm
      rw [hw]
      obtain ⟨h1, h2, h3⟩ := hclear (w.log ⟨b, (w.blob b).destroy, (w.blob b).user_data⟩)
        (ho.ordered_log _) hlive
      refine ⟨h1, (Below.below_log w ⟨b, (w.blob b).destroy, (w.blob b).user_data⟩).below_trans h2, ?_, ?_⟩
      · rw [live_modify]; rfl
      · rw [h3]
        exact ⟨rfl, rfl, rfl, rfl, rfl, rfl⟩
  · rename_i hne
    simp at h
    subst h
    exact ⟨ho, Below.below_rfl b w, rfl, by simpa using hne, rfl, rfl, rfl, rfl, rfl⟩

/-! ## The branches of _try_writable -/

theorem before_malloc_frame (w : World) (b : Nat) :
    (before_malloc w b).mem = w.mem ∧ (before_malloc w b).brk = w.brk ∧
    (before_malloc w b).calls = w.calls ∧ (before_malloc w b).heap.length = w.heap.length ∧
    (∀ q, (before_malloc w b).live q = w.live q) ∧
    (∀ q, q ≠ b → (before_malloc w b).blob q = w.blob q) := by
  unfold before_malloc
  split
  · exact ⟨modify_mem _ _ _, modify_brk _ _ _, modify_calls _ _ _, modify_heap_length _ _ _,
      fun q => live_modify _ _ _ _, fun q hq => blob_modify_ne _ _ _ _ hq⟩
  · exact ⟨rfl, rfl, rfl, rfl, fun _ => rfl, fun _ _ => rfl⟩

theorem before_malloc_blob (w : World) (b : Nat) :
    (before_malloc w b).blob b =
      if (w.blob b).mode = HB_MEMORY_MODE_READONLY_MAY_MAKE_WRITABLE then
        { w.blob b with mode := HB_MEMORY_MODE_READONLY }
      else w.blob b := by
  unfold before_malloc
  split
  · rename_i h
    by_cases hl : w.live b = true
    · rw [blob_modify_self _ _ _ hl]
    · rw [blob_of_not_live w b (by simpa using hl)] at h
      simp [_hb_blob_nil] at h
  · rfl

theorem try_writable_writable (w : World) (env : Env) (b : Nat)
    (hi : (w.blob b).immutable = false) (hm : (w.blob b).mode = HB_MEMORY_MODE_WRITABLE) :
    _try_writable w env b = some (w, true) := by
  unfold _try_writable
  rw [if_neg (by simp [hi]), if_pos hm]

theorem try_writable_inplace_ok (w : World) (env : Env) (b : Nat)
    (hi : (w.blob b).immutable = false)
    (hm : (w.blob b).mode = HB_MEMORY_MODE_READONLY_MAY_MAKE_WRITABLE)
    (he : env.inplace_ok = true) :
    _try_writable w env b =
      some (w.modify b (fun b => { b with mode := HB_MEMORY_MODE_WRITABLE }), true) := by
  unfold _try_writable
  rw [if_neg (by simp [hi]), if_neg (by simp [hm]), if_pos hm]
  simp [_try_writable_inplace, _try_make_writable_inplace_unix, he]

/-- The duplication path of `_try_writable`: the blob is not immutable, not
writable, and the in-place attempt was not allowed or failed. -/
theorem try_writable_dup (w : World) (env : Env) (b : Nat)
    (hi : (w.blob b).immutable = false) (hm : (w.blob b).mode ≠ HB_MEMORY_MODE_WRITABLE)
    (he : (w.blob b).mode = HB_MEMORY_MODE_READONLY_MAY_MAKE_WRITABLE → env.inplace_ok = false) :
    _try_writable w env b =
      if env.malloc_ok = true then
        (_hb_blob_destroy_user_data (after_memcpy w b) b).map (fun w3 =>
          (w3.modify b (fun x =>
            { x with mode := HB_MEMORY_MODE_WRITABLE, data := w.brk + 1,
                     user_data := w.brk + 1, destroy := fn_free }), true))
      else some (before_malloc w b, false) := by
  have hbm := before_malloc_blob w b
  have hphase : (if (w.blob b).mode = HB_MEMORY_MODE_READONLY_MAY_MAKE_WRITABLE
            then _try_writable_inplace w env b else (w, false)) = (before_malloc w b, false) := by
    unfold before_malloc
    split
    · rename_i h
      simp [_try_writable_inplace, _try_make_writable_inplace_unix, he h]
    · rfl
  have hmode : ((before_malloc w b).blob b).mode ≠ HB_MEMORY_MODE_WRITABLE := by
    rw [hbm]
    split
    · simp
    · exact hm
  have hdata : ((before_malloc w b).blob b).data = (w.blob b).data ∧
      ((before_malloc w b).blob b).length = (w.blob b).length := by
    rw [hbm]
    split <;> exact ⟨rfl, rfl⟩
  unfold _try_writable
  rw [if_neg (by simp [hi]), if_neg hm, hphase]
  simp only [if_neg hmode]
  by_cases hok : env.malloc_ok = true
  · simp only [hok, malloc, if_true, nullptr, Nat.add_one_ne_zero, if_false]
    have e : ∀ (v : World) (x q : Nat), World.blob { v with brk := x } q = v.blob q :=
      fun _ _ _ => rfl
    unfold after_memcpy
    simp only [e]
    rw [hdata.1, hdata.2, (before_malloc_frame w b).2.1]
  · have hok2 : env.malloc_ok = false := by simpa using hok
    simp [hok2, malloc]

theorem after_memcpy_frame (w : World) (b : Nat) :
    (after_memcpy w b).brk = w.brk + max (w.blob b).length 1 ∧
    (after_memcpy w b).calls = w.calls ∧ (after_memcpy w b).heap.length = w.heap.length ∧
    (∀ q, (after_memcpy w b).live q = w.live q) ∧
    (∀ q, q ≠ b → (after_memcpy w b).blob q = w.blob q) ∧
    (after_memcpy w b).blob b = (before_malloc w b).blob b := by
  obtain ⟨-, -, h3, h4, h5, h6⟩ := before_malloc_frame w b
  exact ⟨rfl, h3, h4, h5, h6, rfl⟩

theorem after_memcpy_mem (w : World) (b a : Nat) :
    (after_memcpy w b).mem a =
      if w.brk + 1 ≤ a ∧ a < w.brk + 1 + (w.blob b).length then
        w.mem ((w.blob b).data + (a - (w.brk + 1)))
      else w.mem a := by
  simp only [after_memcpy, memcpy]
  rw [(before_malloc_frame w b).1]

theorem after_memcpy_mem_new (w : World) (b i : Nat) (hi : i < (w.blob b).length) :
    (after_memcpy w b).mem (w.brk + 1 + i) = w.mem ((w.blob b).data + i) := by
  rw [after_memcpy_mem, if_pos (by omega)]
  congr 2
  omega

theorem after_memcpy_mem_old (w : World) (b a : Nat) (ha : a ≤ w.brk) :
    (after_memcpy w b).mem a = w.mem a := by
  rw [after_memcpy_mem, if_neg (by omega)]

theorem before_malloc_fields (w : World) (b : Nat) :
    ((before_malloc w b).blob b).ref_count = (w.blob b).ref_count ∧
    ((before_malloc w b).blob b).immutable = (w.blob b).immutable ∧
    ((before_malloc w b).blob b).data = (w.blob b).data ∧
    ((before_malloc w b).blob b).length = (w.blob b).length ∧
    ((before_malloc w b).blob b).user_data = (w.blob b).user_data ∧
    ((before_malloc w b).blob b).destroy = (w.blob b).destroy := by
  rw [before_malloc_blob]
  split <;> exact ⟨rfl, rfl, rfl, rfl, rfl, rfl⟩

theorem before_malloc_ordered {w : World} (ho : Ordered w) (b : Nat) :
    Ordered (before_malloc w b) := by
  unfold before_malloc
  split
  · exact ho.ordered_modify _ _ (fun b hb => ⟨hb, rfl⟩)
  · exact ho

theorem after_memcpy_ordered {w : World} (ho : Ordered w) (b : Nat) :
    Ordered (after_memcpy w b) := before_malloc_ordered ho b

/-- The duplication path with a successful `malloc`: `_try_writable` returns
true, in the state reached from `after_memcpy` by invoking the old callback
and installing the duplicate. -/
theorem try_writable_dup_ok (w : World) (env : Env) (b : Nat)
    (hi : (w.blob b).immutable = false) (hm : (w.blob b).mode ≠ HB_MEMORY_MODE_WRITABLE)
    (he : (w.blob b).mode = HB_MEMORY_MODE_READONLY_MAY_MAKE_WRITABLE → env.inplace_ok = false)
    (hok : env.malloc_ok = true) :
    ∃ v, _hb_blob_destroy_user_data (after_memcpy w b) b = some v ∧
      _try_writable w env b = some (v.modify b (fun x =>
        { x with mode := HB_MEMORY_MODE_WRITABLE, data := w.brk + 1,
                 user_data := w.brk + 1, destroy := fn_free }), true) := by
  obtain ⟨v, hv⟩ := destroy_user_data_total (after_memcpy w b) b
  refine ⟨v, hv, ?_⟩
  rw [try_writable_dup w env b hi hm he, if_pos hok, hv]
  rfl

theorem try_writable_dup_fail (w : World) (env : Env) (b : Nat)
    (hi : (w.blob b).immutable = false) (hm : (w.blob b).mode ≠ HB_MEMORY_MODE_WRITABLE)
    (he : (w.blob b).mode = HB_MEMORY_MODE_READONLY_MAY_MAKE_WRITABLE → env.inplace_ok = false)
    (hok : env.malloc_ok = false) :
    _try_writable w env b = some (before_malloc w b, false) := by
  rw [try_writable_dup w env b hi hm he, if_neg (by simp [hok])]

/-- The four ways `_try_writable` can go. -/
theorem try_writable_cases (w : World) (env : Env) (b : Nat) :
    ((w.blob b).immutable = true ∧ _try_writable w env b = some (w, false)) ∨
    ((w.blob b).immutable = false ∧ (w.blob b).mode = HB_MEMORY_MODE_WRITABLE ∧
      _try_writable w env b = some (w, true)) ∨
    ((w.blob b).immutable = false ∧
      (w.blob b).mode = HB_MEMORY_MODE_READONLY_MAY_MAKE_WRITABLE ∧ env.inplace_ok = true ∧
      _try_writable w env b =
        some (w.modify b (fun b => { b with mode := HB_MEMORY_MODE_WRITABLE }), true)) ∨
    ((w.blob b).immutable = false ∧ (w.blob b).mode ≠ HB_MEMORY_MODE_WRITABLE ∧
      env.malloc_ok = false ∧ _try_writable w env b = some (before_malloc w b, false)) ∨
    ((w.blob b).immutable = false ∧ (w.blob b).mode ≠ HB_MEMORY_MODE_WRITABLE ∧
      env.malloc_ok = true ∧
      ∃ v, _hb_blob_destroy_user_data (after_memcpy w b) b = some v ∧
        _try_writable w env b = some (v.modify b (fun x =>
          { x with mode := HB_MEMORY_MODE_WRITABLE, data := w.brk + 1,
                   user_data := w.brk + 1, destroy := fn_free }), true)) := by
  by_cases hi : (w.blob b).immutable = true
  · exact Or.inl ⟨hi, try_writable_immutable w env b hi⟩
  have hi2 : (w.blob b).immutable = false := by simpa using hi
  by_cases hm : (w.blob b).mode = HB_MEMORY_MODE_WRITABLE
  · exact Or.inr (Or.inl ⟨hi2, hm, try_writable_writable w env b hi2 hm⟩)
  by_cases he : (w.blob b).mode = HB_MEMORY_MODE_READONLY_MAY_MAKE_WRITABLE ∧ env.inplace_ok = true
  · exact Or.inr (Or.inr (Or.inl ⟨hi2, he.1, he.2, try_writable_inplace_ok w env b hi2 he.1 he.2⟩))
  have he2 : (w.blob b).mode = HB_MEMORY_MODE_READONLY_MAY_MAKE_WRITABLE →
      env.inplace_ok = false := by
    intro h
    by_contra hc
    exact he ⟨h, by simpa using hc⟩
  by_cases hok : env.malloc_ok = true
  · exact Or.inr (Or.inr (Or.inr (Or.inr
      ⟨hi2, hm, hok, try_writable_dup_ok w env b hi2 hm he2 hok⟩)))
  · have hok2 : env.malloc_ok = false := by simpa using hok
    exact Or.inr (Or.inr (Or.inr (Or.inl
      ⟨hi2, hm, hok2, try_writable_dup_fail w env b hi2 hm he2 hok2⟩)))

theorem try_writable_total (w : World) (env : Env) (b : Nat) :
    ∃ w' r, _try_writable w env b = some (w', r) := by
  rcases try_writable_cases w env b with h | h | h | h | h
  · exact ⟨_, _, h.2⟩
  · exact ⟨_, _, h.2.2⟩
  · exact ⟨_, _, h.2.2.2⟩
  · exact ⟨_, _, h.2.2.2⟩
  · obtain ⟨-, -, -, v, -, hv⟩ := h
    exact ⟨_, _, hv⟩

/-- The blob and the bytes after a successful duplication, when the blob is still
live once the old callback has run. -/
theorem dup_result (w v : World) (b : Nat)
    (hv : _hb_blob_destroy_user_data (after_memcpy w b) b = some v) (hl : v.live b = true) :
    (v.modify b (fun x =>
        { x with mode := HB_MEMORY_MODE_WRITABLE, data := w.brk + 1,
                 user_data := w.brk + 1, destroy := fn_free })).blob b =
      { v.blob b with mode := HB_MEMORY_MODE_WRITABLE, data := w.brk + 1,
                      user_data := w.brk + 1, destroy := fn_free } ∧
    (v.blob b).length = (w.blob b).length ∧ (v.blob b).immutable = (w.blob b).immutable ∧
    (∀ i, i < (w.blob b).length → v.mem (w.brk + 1 + i) = w.mem ((w.blob b).data + i)) ∧
    (∀ a, a ≤ w.brk → v.mem a = w.mem a) := by
  have hf := destroy_user_data_frame _ _ _ hv
  obtain ⟨-, hk1, -, hk2, -⟩ := hf.kept b hl
  refine ⟨blob_modify_self v b _ hl, ?_, ?_, ?_, ?_⟩
  · rw [hk2, (after_memcpy_frame w b).2.2.2.2.2, (before_malloc_fields w b).2.2.2.1]
  · rw [hk1, (after_memcpy_frame w b).2.2.2.2.2, (before_malloc_fields w b).2.1]
  · intro i hi
    rw [hf.mem, after_memcpy_mem_new w b i hi]
  · intro a ha
    rw [hf.mem, after_memcpy_mem_old w b a ha]

/-! ## hb_blob_create with duplication -/

theorem stored_blob (w : World) (data length : Nat) (mode : hb_memory_mode_t)
    (user_data : Nat) (destroy : hb_destroy_func_t) (q : Nat) :
    (stored w data length mode user_data destroy).blob q =
      if q = w.heap.length + 2 then
        { ref_count := 1, immutable := false, data := data, length := length, mode := mode,
          user_data := user_data, destroy := destroy }
      else w.blob q :=
  hb_blob_create_plain_blob w data length mode user_data destroy q

theorem stored_frame (w : World) (data length : Nat) (mode : hb_memory_mode_t)
    (user_data : Nat) (destroy : hb_destroy_func_t) :
    (stored w data length mode user_data destroy).mem = w.mem ∧
    (stored w data length mode user_data destroy).brk = w.brk ∧
    (stored w data length mode user_data destroy).calls = w.calls ∧
    (stored w data length mode user_data destroy).heap.length = w.heap.length + 1 ∧
    (∀ q, (stored w data length mode user_data destroy).live q =
      (decide (q = w.heap.length + 2) || w.live q)) := by
  unfold stored
  refine ⟨?_, ?_, ?_, ?_, ?_⟩
  · rw [modify_mem, (object_create_fst w).2.1]
  · rw [modify_brk, (object_create_fst w).2.2.1]
  · rw [modify_calls, (object_create_fst w).2.2.2.1]
  · rw [modify_heap_length, (object_create_fst w).2.2.2.2]
  · intro q
    rw [live_modify, live_object_create]

theorem stored_ordered {w : World} (ho : Ordered w) (data length : Nat)
    (mode : hb_memory_mode_t) (user_data : Nat) (destroy : hb_destroy_func_t)
    (hud : destroy = fn_blob_destroy → user_data < w.heap.length + 2) :
    Ordered (stored w data length mode user_data destroy) := by
  intro q _ hq
  rw [stored_blob] at hq ⊢
  split at hq
  · rename_i hc
    rw [if_pos hc]
    subst hc
    exact hud hq
  · rename_i hc
    rw [if_neg hc]
    exact ho.ordered_all q hq

/-- `hb_blob_create` in mode `DUPLICATE`, in terms of `_try_writable` on the
stored blob. -/
theorem hb_blob_create_duplicate_eq (w : World) (env : Env) (data length : Nat)
    (user_data : Nat) (destroy : hb_destroy_func_t)
    (h0 : length ≠ 0) (h1 : length < 2 ^ 31) (hobj : env.object_ok = true) :
    hb_blob_create w env data length HB_MEMORY_MODE_DUPLICATE user_data destroy =
      match _try_writable (stored w data length HB_MEMORY_MODE_READONLY user_data destroy) env
          (w.heap.length + 2) with
      | none => none
      | some (w2, false) =>
        (hb_blob_destroy w2 (w.heap.length + 2)).map (fun w3 => (w3, hb_blob_get_empty))
      | some (w2, true) => some (w2, w.heap.length + 2) := by
  unfold hb_blob_create
  rw [if_neg (by omega), hobj]
  have e2 : (hb_object_create w true).2 = w.heap.length + 2 := (object_create_fst w).1
  have e : hb_object_create w true = ((hb_object_create w true).1, w.heap.length + 2) := by
    rw [← e2]
  rw [e]
  simp only [nullptr, if_true]
  rw [if_neg (by omega)]
  rfl

/-- `hb_blob_create` when the object cannot be allocated. -/
theorem hb_blob_create_no_object (w : World) (env : Env) (data length : Nat)
    (mode : hb_memory_mode_t) (user_data : Nat) (destroy : hb_destroy_func_t)
    (hobj : env.object_ok = false) :
    hb_blob_create w env data length mode user_data destroy =
      hb_blob_create_fail w user_data destroy := by
  unfold hb_blob_create
  split
  · rfl
  · simp [hobj, hb_object_create]

theorem hb_blob_create_fail_total (w : World) (user_data : Nat) (destroy : hb_destroy_func_t) :
    ∃ w1, hb_blob_create_fail w user_data destroy = some (w1, hb_blob_get_empty) := by
  unfold hb_blob_create_fail invoke
  cases destroy with
  | fn_null => exact ⟨w, by simp⟩
  | fn_free => exact ⟨w.log ⟨nullptr, fn_free, user_data⟩, by simp⟩
  | fn_user id => exact ⟨w.log ⟨nullptr, fn_user id, user_data⟩, by simp⟩
  | fn_blob_destroy =>
    obtain ⟨w1, h1⟩ := hb_blob_destroy_total (w.log ⟨nullptr, fn_blob_destroy, user_data⟩) user_data
    exact ⟨w1, by simp [_hb_blob_destroy, h1]⟩

theorem before_malloc_of_not_may (w : World) (b : Nat)
    (h : (w.blob b).mode ≠ HB_MEMORY_MODE_READONLY_MAY_MAKE_WRITABLE) : before_malloc w b = w := by
  unfold before_malloc
  rw [if_neg h]

/-- The two outcomes of `hb_blob_create` in mode `DUPLICATE` once the object is
allocated: the duplicate is installed, or `malloc` failed and the new blob was
destroyed again. -/
theorem hb_blob_create_duplicate_cases (w : World) (env : Env) (data length : Nat)
    (user_data : Nat) (destroy : hb_destroy_func_t)
    (h0 : length ≠ 0) (h1 : length < 2 ^ 31) (hobj : env.object_ok = true) :
    (env.malloc_ok = true ∧
      ∃ v, _hb_blob_destroy_user_data
          (after_memcpy (stored w data length HB_MEMORY_MODE_READONLY user_data destroy)
            (w.heap.length + 2)) (w.heap.length + 2) = some v ∧
        hb_blob_create w env data length HB_MEMORY_MODE_DUPLICATE user_data destroy =
          some (v.modify (w.heap.length + 2) (fun x =>
            { x with mode := HB_MEMORY_MODE_WRITABLE, data := w.brk + 1,
                     user_data := w.brk + 1, destroy := fn_free }), w.heap.length + 2)) ∨
    (env.malloc_ok = false ∧
      ∃ w3, hb_blob_destroy (stored w data length HB_MEMORY_MODE_READONLY user_data destroy)
          (w.heap.length + 2) = some w3 ∧
        hb_blob_create w env data length HB_MEMORY_MODE_DUPLICATE user_data destroy =
          some (w3, hb_blob_get_empty)) := by
  have hb : (stored w data length HB_MEMORY_MODE_READONLY user_data destroy).blob
      (w.heap.length + 2) =
        { ref_count := 1, immutable := false, data := data, length := length,
          mode := HB_MEMORY_MODE_READONLY, user_data := user_data, destroy := destroy } := by
    rw [stored_blob, if_pos rfl]
  have hbrk := (stored_frame w data length HB_MEMORY_MODE_READONLY user_data destroy).2.1
  rw [hb_blob_create_duplicate_eq w env data length user_data destroy h0 h1 hobj]
  by_cases hok : env.malloc_ok = true
  · left
    obtain ⟨v, hv, ht⟩ := try_writable_dup_ok
      (stored w data length HB_MEMORY_MODE_READONLY user_data destroy) env (w.heap.length + 2)
      (by rw [hb]) (by rw [hb]; simp) (by rw [hb]; intro h; cases h) hok
    refine ⟨hok, v, hv, ?_⟩
    rw [ht, hbrk]
  · right
    have hok2 : env.malloc_ok = false := by simpa using hok
    have ht := try_writable_dup_fail
      (stored w data length HB_MEMORY_MODE_READONLY user_data destroy) env (w.heap.length + 2)
      (by rw [hb]) (by rw [hb]; simp) (by rw [hb]; intro h; cases h) hok2
    rw [before_malloc_of_not_may _ _ (by rw [hb]; simp)] at ht
    obtain ⟨w3, h3⟩ := hb_blob_destroy_total
      (stored w data length HB_MEMORY_MODE_READONLY user_data destroy) (w.heap.length + 2)
    refine ⟨hok2, w3, h3, ?_⟩
    rw [ht]
    simp [h3]

/-! ## Direct destroys -/

theorem destroy_user_data_null (w : World) (b : Nat) (h : (w.blob b).destroy = fn_null) :
    _hb_blob_destroy_user_data w b = some w := by
  unfold _hb_blob_destroy_user_data destroy_user_data_with
  rw [if_neg (by simp [h])]

theorem hb_object_destroy_last (w : World) (p : Nat) (h2 : 2 ≤ p)
    (hrc : (w.blob p).ref_count = 1) :
    hb_object_destroy w p = (w.modify p (fun b => { b with ref_count := 0 }), true) := by
  unfold hb_object_destroy
  rw [if_neg (by simp [nullptr, hb_object_is_inert, hb_blob_get_empty]; omega), hrc]

/-- Dropping the last reference of a blob that has no callback frees it. -/
theorem hb_blob_destroy_last_null (w : World) (p : Nat) (h2 : 2 ≤ p)
    (hrc : (w.blob p).ref_count = 1) (hd : (w.blob p).destroy = fn_null) :
    hb_blob_destroy w p = some ((w.modify p (fun b => { b with ref_count := 0 })).free_obj p) := by
  have hl : w.live p = true := by
    apply live_of_blob_ne
    intro hn
    rw [hn] at hrc
    simp [_hb_blob_nil] at hrc
  unfold hb_blob_destroy hb_blob_destroy_fuel
  rw [hb_object_destroy_last w p h2 hrc]
  simp only [destroy_user_data_with]
  rw [if_neg (by rw [blob_modify_self _ _ _ hl]; simp [hd])]
  rfl

/-- Dropping a reference that is not the last one only lowers the count. -/
theorem hb_blob_destroy_shared (w : World) (p n : Nat) (h2 : 2 ≤ p)
    (hrc : (w.blob p).ref_count = n + 2) :
    hb_blob_destroy w p = some (w.modify p (fun b => { b with ref_count := n + 1 })) := by
  unfold hb_blob_destroy hb_blob_destroy_fuel hb_object_destroy
  rw [if_neg (by simp [nullptr, hb_object_is_inert, hb_blob_get_empty]; omega), hrc]

/-! ## The example states -/

theorem hello_world_ordered : Ordered hello_world := by
  intro q hq
  simp [hello_world] at hq
  interval_cases q <;> simp [World.blob, _hb_blob_nil]

theorem hello_blob_world_ordered : Ordered hello_blob_world := by
  intro q hq
  simp [hello_blob_world] at hq
  interval_cases q <;> simp [World.blob, _hb_blob_nil, hello_blob_world]

/-! ## Accounting for one callback -/

theorem fired_nil (b : Nat) (fn : hb_destroy_func_t) (arg : Nat) : fired b fn arg [] = 0 := rfl

theorem fired_append (b : Nat) (fn : hb_destroy_func_t) (arg : Nat) (l1 l2 : List Call) :
    fired b fn arg (l1 ++ l2) = fired b fn arg l1 + fired b fn arg l2 := by
  simp [fired, List.countP_append]

theorem fired_single (b : Nat) (fn : hb_destroy_func_t) (arg : Nat) (c : Call) :
    fired b fn arg [c] = if c.owner = b ∧ c.fn = fn ∧ c.arg = arg then 1 else 0 := by
  simp [fired, List.countP_cons]

theorem fired_of_owner_ne (b : Nat) (fn : hb_destroy_func_t) (arg : Nat) (l : List Call)
    (h : ∀ c ∈ l, c.owner ≠ b) : fired b fn arg l = 0 := by
  unfold fired
  rw [List.countP_eq_zero]
  intro c hc
  simp [h c hc]

theorem acct_refl (b : Nat) (fn : hb_destroy_func_t) (arg : Nat) (w : World) :
    Acct b fn arg w w :=
  ⟨[], by simp, by simp [fired_nil]⟩

theorem acct_trans {b : Nat} {fn : hb_destroy_func_t} {arg : Nat} {w1 w2 w3 : World}
    (h1 : Acct b fn arg w1 w2) (h2 : Acct b fn arg w2 w3) : Acct b fn arg w1 w3 := by
  obtain ⟨s1, e1, a1⟩ := h1
  obtain ⟨s2, e2, a2⟩ := h2
  refine ⟨s1 ++ s2, by rw [e2, e1, List.append_assoc], ?_⟩
  rw [fired_append]
  omega

/-- A step that leaves the trace, the liveness of `b` and the callback stored in
`b` alone keeps the account. -/
theorem acct_of_same {b : Nat} {fn : hb_destroy_func_t} {arg : Nat} {w w1 : World}
    (hc : w1.calls = w.calls) (hl : w1.live b = w.live b)
    (hd : (w1.blob b).destroy = (w.blob b).destroy)
    (hu : (w1.blob b).user_data = (w.blob b).user_data) : Acct b fn arg w w1 :=
  ⟨[], by simp [hc], by simp [fired_nil, pending, hl, hd, hu]⟩

theorem acct_modify (b : Nat) (fn : hb_destroy_func_t) (arg : Nat) (w : World) (p : Nat)
    (f : hb_blob_t → hb_blob_t)
    (hf : ∀ x, (f x).destroy = x.destroy ∧ (f x).user_data = x.user_data) :
    Acct b fn arg w (w.modify p f) := by
  apply acct_of_same (modify_calls _ _ _) (live_modify _ _ _ _)
  · rw [blob_modify]; split
    · exact (hf _).1
    · rfl
  · rw [blob_modify]; split
    · exact (hf _).2
    · rfl

theorem acct_modify_ne (b : Nat) (fn : hb_destroy_func_t) (arg : Nat) (w : World) (p : Nat)
    (f : hb_blob_t → hb_blob_t) (hp : b ≠ p) : Acct b fn arg w (w.modify p f) := by
  apply acct_of_same (modify_calls _ _ _) (live_modify _ _ _ _)
  · rw [blob_modify_ne _ _ _ _ hp]
  · rw [blob_modify_ne _ _ _ _ hp]

theorem acct_free_obj_ne (b : Nat) (fn : hb_destroy_func_t) (arg : Nat) (w : World) (p : Nat)
    (hp : b ≠ p) : Acct b fn arg w (w.free_obj p) := by
  apply acct_of_same (free_obj_calls _ _)
  · rw [live_free_obj, if_neg hp]
  · rw [blob_free_obj, if_neg hp]
  · rw [blob_free_obj, if_neg hp]

theorem acct_log_ne (b : Nat) (fn : hb_destroy_func_t) (arg : Nat) (w : World) (c : Call)
    (hc : c.owner ≠ b) : Acct b fn arg w (w.log c) := by
  refine ⟨[c], rfl, ?_⟩
  rw [fired_single, if_neg (fun h => hc h.1)]
  simp [pending, World.log, World.live, World.blob]

theorem pending_le_one (w : World) (b : Nat) (fn : hb_destroy_func_t) (arg : Nat) :
    pending w b fn arg ≤ 1 := by
  unfold pending; split <;> omega

theorem pending_of_not_live (w : World) (b : Nat) (fn : hb_destroy_func_t) (arg : Nat)
    (h : w.live b = false) : pending w b fn arg = 0 := by
  simp [pending, h]

theorem pending_of_destroy_ne (w : World) (b : Nat) (fn : hb_destroy_func_t) (arg : Nat)
    (h : (w.blob b).destroy ≠ fn) : pending w b fn arg = 0 := by
  simp [pending, h]

/-- Freeing blob `b` right after its callback `f (a)` was logged and the cascade
below it ran: the account of `b` is settled. -/
theorem acct_settle (b : Nat) (fn : hb_destroy_func_t) (arg : Nat) (w1 v w3 : World) (m : Nat)
    (hl : w1.live b = true) (hm : m < b)
    (hbel : Below m (w1.log ⟨b, (w1.blob b).destroy, (w1.blob b).user_data⟩) v)
    (hc3 : w3.calls = v.calls) (hp3 : pending w3 b fn arg = 0) :
    Acct b fn arg w1 w3 := by
  obtain ⟨nested, en, hown⟩ := hbel.calls
  refine ⟨⟨b, (w1.blob b).destroy, (w1.blob b).user_data⟩ :: nested, ?_, ?_⟩
  · rw [hc3, en]
    simp [World.log]
  · have h0 : fired b fn arg nested = 0 :=
      fired_of_owner_ne b fn arg nested (fun c hc => by have := hown c hc; omega)
    have e : (⟨b, (w1.blob b).destroy, (w1.blob b).user_data⟩ :: nested : List Call) =
        [⟨b, (w1.blob b).destroy, (w1.blob b).user_data⟩] ++ nested := rfl
    rw [e, fired_append, fired_single, h0, hp3]
    simp [pending, hl]

theorem hb_blob_destroy_fuel_acct (b : Nat) (fn : hb_destroy_func_t) (arg : Nat)
    (hfn : fn ≠ fn_null) (n : Nat) :
    ∀ (w w' : World) (p : Nat), Ordered w → hb_blob_destroy_fuel n w p = some w' →
      Acct b fn arg w w' := by
  induction n with
  | zero => intro w w' p _ h; simp [hb_blob_destroy_fuel] at h
  | succ n ih =>
    intro w w' p ho h
    unfold hb_blob_destroy_fuel at h
    rcases hd : hb_object_destroy w p with ⟨w1, r⟩
    have ho1 : Ordered w1 := by simpa [hd] using hb_object_destroy_ordered ho p
    have ha1 : Acct b fn arg w w1 := by
      have : w1 = (hb_object_destroy w p).1 := by rw [hd]
      rw [this]
      unfold hb_object_destroy
      split
      · exact acct_refl b fn arg w
      · split
        · exact acct_refl b fn arg w
        · exact acct_modify b fn arg w p _ (fun x => ⟨rfl, rfl⟩)
        · exact acct_modify b fn arg w p _ (fun x => ⟨rfl, rfl⟩)
    rw [hd] at h
    cases r
    · simp only [Option.some.injEq] at h
      subst h
      exact ha1
    · obtain ⟨hlive, -, hw1⟩ := hb_object_destroy_true w w1 p hd
      have hl1 : w1.live p = true := by rw [hw1, live_modify]; exact hlive
      simp only [destroy_user_data_with, invoke] at h
      apply acct_trans ha1
      by_cases hpb : b = p
      · subst hpb
        have hfree : ∀ v : World, pending
            ((v.modify b (fun x => { x with user_data := nullptr, destroy := fn_null })).free_obj b)
            b fn arg = 0 := fun v =>
          pending_of_not_live _ _ _ _ (by rw [live_free_obj, if_pos rfl])
        rcases hf : (w1.blob b).destroy with _ | _ | _ | id
        · simp [hf] at h
          subst h
          refine ⟨[], by simp [free_obj_calls], ?_⟩
          rw [fired_nil, pending_of_not_live _ _ _ _ (by rw [live_free_obj, if_pos rfl]),
            pending_of_destroy_ne w1 b fn arg (by rw [hf]; exact fun e => hfn e.symm)]
        · simp [hf] at h
          subst h
          have := acct_settle b fn arg w1 _ _ 0 hl1 (by have := live_ge_two _ _ hl1; omega)
            ((Below.below_rfl 0 _)) (by rw [free_obj_calls, modify_calls]) (hfree _)
          rw [hf] at this
          exact this
        · simp [hf] at h
          obtain ⟨v, hv, rfl⟩ := h
          obtain ⟨-, hbv⟩ := hb_blob_destroy_fuel_below n _ _ _
            (ho1.ordered_log ⟨b, fn_blob_destroy, (w1.blob b).user_data⟩) hv
          have := acct_settle b fn arg w1 v _ (w1.blob b).user_data hl1 (ho1.ordered_all b hf)
            (by rw [hf]; exact hbv) (by rw [free_obj_calls, modify_calls]) (hfree v)
          exact this
        · simp [hf] at h
          subst h
          have := acct_settle b fn arg w1 _ _ 0 hl1 (by have := live_ge_two _ _ hl1; omega)
            ((Below.below_rfl 0 _)) (by rw [free_obj_calls, modify_calls]) (hfree _)
          rw [hf] at this
          exact this
      · have hclear : ∀ v : World, Acct b fn arg v
            ((v.modify p (fun x => { x with user_data := nullptr, destroy := fn_null })).free_obj p) :=
          fun v => acct_trans (acct_modify_ne b fn arg v p _ hpb) (acct_free_obj_ne b fn arg _ p hpb)
        have hlog : ∀ c : Call, c.owner = p → Acct b fn arg w1 (w1.log c) :=
          fun c hc => acct_log_ne b fn arg w1 c (by rw [hc]; exact fun e => hpb e.symm)
        rcases hf : (w1.blob p).destroy with _ | _ | _ | id
        · simp [hf] at h
          subst h
          exact acct_free_obj_ne b fn arg _ p hpb
        · simp [hf] at h
          subst h
          exact acct_trans (hlog _ rfl) (hclear _)
        · simp [hf] at h
          obtain ⟨v, hv, rfl⟩ := h
          exact acct_trans (hlog _ rfl) (acct_trans (ih _ _ _ (ho1.ordered_log _) hv) (hclear _))
        · simp [hf] at h
          subst h
          exact acct_trans (hlog _ rfl) (hclear _)

theorem hb_blob_destroy_acct (b : Nat) (fn : hb_destroy_func_t) (arg : Nat)
    (hfn : fn ≠ fn_null) (w w' : World) (p : Nat) (ho : Ordered w)
    (h : hb_blob_destroy w p = some w') : Acct b fn arg w w' :=
  hb_blob_destroy_fuel_acct b fn arg hfn _ w w' p ho h

theorem destroy_user_data_acct (b : Nat) (fn : hb_destroy_func_t) (arg : Nat)
    (hfn : fn ≠ fn_null) (w v : World) (p : Nat) (ho : Ordered w)
    (h : _hb_blob_destroy_user_data w p = some v) : Acct b fn arg w v := by
  obtain ⟨-, -, hvl, hvd, -⟩ := destroy_user_data_ordered w v p ho h
  unfold _hb_blob_destroy_user_data destroy_user_data_with invoke at h
  by_cases hne : (w.blob p).destroy = fn_null
  · simp [hne] at h
    subst h
    exact acct_refl b fn arg w
  · rw [if_pos hne] at h
    have hlive : w.live p = true := live_of_destroy_ne w p hne
    by_cases hpb : b = p
    · subst hpb
      have hp0 : pending v b fn arg = 0 :=
        pending_of_destroy_ne v b fn arg (by rw [hvd]; exact fun e => hfn e.symm)
      by_cases hf : (w.blob b).destroy = fn_blob_destroy
      · simp [hf, _hb_blob_destroy] at h
        obtain ⟨v0, hv0, rfl⟩ := h
        obtain ⟨-, hbv⟩ := hb_blob_destroy_below _ _ _
          (ho.ordered_log ⟨b, fn_blob_destroy, (w.blob b).user_data⟩) hv0
        exact acct_settle b fn arg w v0 _ (w.blob b).user_data hlive (ho.ordered_all b hf)
          (by rw [hf]; exact hbv) (by rw [modify_calls]) hp0
      · have hw : v = (w.log ⟨b, (w.blob b).destroy, (w.blob b).user_data⟩).modify b
            (fun x => { x with user_data := nullptr, destroy := fn_null }) := by
          rcases hd : (w.blob b).destroy with _ | _ | _ | id
          · exact absurd hd hne
          · simp [hd] at h; exact h.symm
          · exact absurd hd hf
          · simp [hd] at h; exact h.symm
        exact acct_settle b fn arg w _ v 0 hlive (by have := live_ge_two _ _ hlive; omega)
          (Below.below_rfl 0 _) (by rw [hw, modify_calls]) hp0
    · have hclear : ∀ u : World, Acct b fn arg u
          (u.modify p (fun x => { x with user_data := nullptr, destroy := fn_null })) :=
        fun u => acct_modify_ne b fn arg u p _ hpb
      have hlog : Acct b fn arg w (w.log ⟨p, (w.blob p).destroy, (w.blob p).user_data⟩) :=
        acct_log_ne b fn arg w _ (fun e => hpb e.symm)
      by_cases hf : (w.blob p).destroy = fn_blob_destroy
      · simp [hf, _hb_blob_destroy] at h
        obtain ⟨v0, hv0, rfl⟩ := h
        rw [hf] at hlog
        exact acct_trans hlog (acct_trans
          (hb_blob_destroy_acct b fn arg hfn _ _ _ (ho.ordered_log _) hv0) (hclear _))
      · have hw : v = (w.log ⟨p, (w.blob p).destroy, (w.blob p).user_data⟩).modify p
            (fun x => { x with user_data := nullptr, destroy := fn_null }) := by
          rcases hd : (w.blob p).destroy with _ | _ | _ | id
          · exact absurd hd hne
          · simp [hd] at h; exact h.symm
          · exact absurd hd hf
          · simp [hd] at h; exact h.symm
        rw [hw]
        exact acct_trans hlog (hclear _)

theorem inv_of_frame {b : Nat} {fn : hb_destroy_func_t} {arg : Nat} {w w1 : World}
    (hi : Inv b fn arg w) (ho : Ordered w1) (hl : w.heap.length ≤ w1.heap.length)
    (hb : w.brk ≤ w1.brk) : Inv b fn arg w1 :=
  ⟨ho, hi.2.1, by have := hi.2.2.1; omega, fun h => Nat.le_trans (hi.2.2.2 h) hb⟩

theorem before_malloc_acct (b : Nat) (fn : hb_destroy_func_t) (arg : Nat) (w : World) (p : Nat) :
    Acct b fn arg w (before_malloc w p) := by
  unfold before_malloc
  split
  · exact acct_modify b fn arg w p _ (fun x => ⟨rfl, rfl⟩)
  · exact acct_refl b fn arg w

theorem after_memcpy_acct (b : Nat) (fn : hb_destroy_func_t) (arg : Nat) (w : World) (p : Nat) :
    Acct b fn arg w (after_memcpy w p) := by
  exact before_malloc_acct b fn arg w p

theorem try_writable_step (b : Nat) (fn : hb_destroy_func_t) (arg : Nat) (hfn : fn ≠ fn_null)
    (w w' : World) (env : Env) (p : Nat) (r : Bool) (hi : Inv b fn arg w)
    (h : _try_writable w env p = some (w', r)) : Inv b fn arg w' ∧ Acct b fn arg w w' := by
  rcases try_writable_cases w env p with c | c | c | c | c
  · rw [c.2] at h
    cases h
    exact ⟨hi, acct_refl b fn arg w⟩
  · rw [c.2.2] at h
    cases h
    exact ⟨hi, acct_refl b fn arg w⟩
  · rw [c.2.2.2] at h
    cases h
    exact ⟨inv_of_frame hi (hi.1.ordered_modify _ _ (fun x hx => ⟨hx, rfl⟩))
      (by rw [modify_heap_length]) (by rw [modify_brk]),
      acct_modify b fn arg w p _ (fun x => ⟨rfl, rfl⟩)⟩
  · rw [c.2.2.2] at h
    cases h
    obtain ⟨-, hbrk, -, hlen, -, -⟩ := before_malloc_frame w p
    exact ⟨inv_of_frame hi (before_malloc_ordered hi.1 p) (by rw [hlen]) (by rw [hbrk]),
      before_malloc_acct b fn arg w p⟩
  · obtain ⟨-, -, -, v, hv, ht⟩ := c
    rw [ht] at h
    cases h
    have hoa := after_memcpy_ordered hi.1 p
    obtain ⟨hov, -, -, hvd, -⟩ := destroy_user_data_ordered _ v p hoa hv
    have hfv := destroy_user_data_frame _ v p hv
    obtain ⟨habrk, -, halen, -, -, -⟩ := after_memcpy_frame w p
    constructor
    · refine inv_of_frame hi (hov.ordered_modify _ _ (fun x hx => by simp at hx)) ?_ ?_
      · rw [modify_heap_length, hfv.heap_length, halen]
      · rw [modify_brk, hfv.brk, habrk]
        omega
    · refine acct_trans (after_memcpy_acct b fn arg w p)
        (acct_trans (destroy_user_data_acct b fn arg hfn _ v p hoa hv) ?_)
      by_cases hpb : b = p
      · subst hpb
        refine ⟨[], by simp [modify_calls], ?_⟩
        rw [fired_nil, pending_of_destroy_ne v b fn arg (by rw [hvd]; exact fun e => hfn e.symm)]
        simp only [pending, Nat.zero_add]
        rw [if_neg]
        rintro ⟨hl, hd, hu⟩
        rw [live_modify] at hl
        rw [blob_modify_self _ _ _ hl] at hd hu
        have := hi.2.2.2 hd.symm
        simp at hu
        omega
      · exact acct_modify_ne b fn arg v p _ hpb

theorem hb_blob_destroy_step (b : Nat) (fn : hb_destroy_func_t) (arg : Nat) (hfn : fn ≠ fn_null)
    (w w' : World) (p : Nat) (hi : Inv b fn arg w) (h : hb_blob_destroy w p = some w') :
    Inv b fn arg w' ∧ Acct b fn arg w w' := by
  have hf := hb_blob_destroy_frame w w' p h
  exact ⟨inv_of_frame hi (hb_blob_destroy_below w w' p hi.1 h).1 (by rw [hf.heap_length])
    (by rw [hf.brk]), hb_blob_destroy_acct b fn arg hfn w w' p hi.1 h⟩

theorem hb_blob_create_fail_step (b : Nat) (fn : hb_destroy_func_t) (arg : Nat)
    (hfn : fn ≠ fn_null) (w w' : World) (ud : Nat) (d : hb_destroy_func_t) (r : Nat)
    (hi : Inv b fn arg w) (h : hb_blob_create_fail w ud d = some (w', r)) :
    Inv b fn arg w' ∧ Acct b fn arg w w' := by
  unfold hb_blob_create_fail invoke at h
  have hlog : Inv b fn arg (w.log ⟨nullptr, d, ud⟩) ∧ Acct b fn arg w (w.log ⟨nullptr, d, ud⟩) :=
    ⟨inv_of_frame hi (hi.1.ordered_log _) (Nat.le_refl _) (Nat.le_refl _),
      acct_log_ne b fn arg w _ (by have := hi.2.1; simp [nullptr]; omega)⟩
  cases d with
  | fn_null =>
    simp at h
    obtain ⟨rfl, -⟩ := h
    exact ⟨hi, acct_refl b fn arg w⟩
  | fn_free =>
    simp at h
    obtain ⟨rfl, -⟩ := h
    exact hlog
  | fn_user id =>
    simp at h
    obtain ⟨rfl, -⟩ := h
    exact hlog
  | fn_blob_destroy =>
    simp [_hb_blob_destroy] at h
    obtain ⟨v, hv, rfl, -⟩ := h
    obtain ⟨h1, h2⟩ := hb_blob_destroy_step b fn arg hfn _ _ _ hlog.1 hv
    exact ⟨h1, acct_trans hlog.2 h2⟩

theorem stored_step (b : Nat) (fn : hb_destroy_func_t) (arg : Nat) (w : World)
    (data length : Nat) (mode : hb_memory_mode_t) (ud : Nat) (d : hb_destroy_func_t)
    (hi : Inv b fn arg w) (hud : d = fn_blob_destroy → ud < w.heap.length + 2) :
    Inv b fn arg (stored w data length mode ud d) ∧
      Acct b fn arg w (stored w data length mode ud d) := by
  obtain ⟨-, hbrk, hcalls, hlen, hlive⟩ := stored_frame w data length mode ud d
  have hb := hi.2.2.1
  refine ⟨inv_of_frame hi (stored_ordered hi.1 data length mode ud d hud) (by rw [hlen]; omega)
    (by rw [hbrk]), acct_of_same hcalls ?_ ?_ ?_⟩
  · rw [hlive]
    simp
    omega
  · rw [stored_blob, if_neg (by omega)]
  · rw [stored_blob, if_neg (by omega)]

theorem hb_blob_create_step (b : Nat) (fn : hb_destroy_func_t) (arg : Nat)
    (hfn : fn ≠ fn_null) (w w' : World) (env : Env) (data length : Nat)
    (mode : hb_memory_mode_t) (ud : Nat) (d : hb_destroy_func_t) (r : Nat)
    (hi : Inv b fn arg w) (hud : d = fn_blob_destroy → ud < w.heap.length + 2)
    (h : hb_blob_create w env data length mode ud d = some (w', r)) :
    Inv b fn arg w' ∧ Acct b fn arg w w' := by
  by_cases hl : length = 0 ∨ 2 ^ 31 ≤ length
  · have e : hb_blob_create w env data length mode ud d = hb_blob_create_fail w ud d := by
      unfold hb_blob_create
      rw [if_pos (by omega)]
    rw [e] at h
    exact hb_blob_create_fail_step b fn arg hfn w w' ud d r hi h
  by_cases hobj : env.object_ok = true
  · by_cases hm : mode = HB_MEMORY_MODE_DUPLICATE
    · subst hm
      obtain ⟨hs1, hs2⟩ := stored_step b fn arg w data length HB_MEMORY_MODE_READONLY ud d hi hud
      rw [hb_blob_create_duplicate_eq w env data length ud d (by omega) (by omega) hobj] at h
      obtain ⟨w2, r2, ht⟩ := try_writable_total
        (stored w data length HB_MEMORY_MODE_READONLY ud d) env (w.heap.length + 2)
      obtain ⟨ht1, ht2⟩ := try_writable_step b fn arg hfn _ _ env _ r2 hs1 ht
      rw [ht] at h
      cases r2
      · simp at h
        obtain ⟨w3, h3, rfl, -⟩ := h
        obtain ⟨hd1, hd2⟩ := hb_blob_destroy_step b fn arg hfn _ _ _ ht1 h3
        exact ⟨hd1, acct_trans hs2 (acct_trans ht2 hd2)⟩
      · simp at h
        obtain ⟨rfl, -⟩ := h
        exact ⟨ht1, acct_trans hs2 ht2⟩
    · rw [hb_blob_create_plain w env data length mode ud d (by omega) (by omega) hobj hm] at h
      cases h
      exact stored_step b fn arg w data length mode ud d hi hud
  · have hobj2 : env.object_ok = false := by simpa using hobj
    rw [hb_blob_create_no_object _ _ _ _ _ _ _ hobj2] at h
    exact hb_blob_create_fail_step b fn arg hfn w w' ud d r hi h

theorem hb_blob_create_total (w : World) (env : Env) (data length : Nat)
    (mode : hb_memory_mode_t) (ud : Nat) (d : hb_destroy_func_t) :
    ∃ w' r, hb_blob_create w env data length mode ud d = some (w', r) := by
  by_cases hl : length = 0 ∨ 2 ^ 31 ≤ length
  · obtain ⟨w1, hw1⟩ := hb_blob_create_fail_total w ud d
    refine ⟨w1, hb_blob_get_empty, ?_⟩
    unfold hb_blob_create
    rw [if_pos (by omega), hw1]
  by_cases hobj : env.object_ok = true
  · by_cases hm : mode = HB_MEMORY_MODE_DUPLICATE
    · subst hm
      rcases hb_blob_create_duplicate_cases w env data length ud d (by omega) (by omega) hobj
        with ⟨-, v, -, hc⟩ | ⟨-, w3, -, hc⟩
      · exact ⟨_, _, hc⟩
      · exact ⟨_, _, hc⟩
    · exact ⟨stored w data length mode ud d, w.heap.length + 2,
        hb_blob_create_plain w env data length mode ud d (by omega) (by omega) hobj hm⟩
  · have hobj2 : env.object_ok = false := by simpa using hobj
    obtain ⟨w1, hw1⟩ := hb_blob_create_fail_total w ud d
    exact ⟨w1, hb_blob_get_empty, by rw [hb_blob_create_no_object _ _ _ _ _ _ _ hobj2, hw1]⟩

/-! ## Steps and runs -/

theorem hb_blob_reference_snd (w : World) (p : Nat) : (hb_blob_reference w p).2 = p := by
  unfold hb_blob_reference hb_object_reference
  split <;> rfl

theorem hb_blob_reference_step (b : Nat) (fn : hb_destroy_func_t) (arg : Nat) (w : World)
    (p : Nat) (hi : Inv b fn arg w) :
    Inv b fn arg (hb_blob_reference w p).1 ∧ Acct b fn arg w (hb_blob_reference w p).1 := by
  unfold hb_blob_reference hb_object_reference
  split
  · exact ⟨hi, acct_refl b fn arg w⟩
  · exact ⟨inv_of_frame hi (hi.1.ordered_modify _ _ (fun x hx => ⟨hx, rfl⟩))
      (by rw [modify_heap_length]) (by rw [modify_brk]),
      acct_modify b fn arg w p _ (fun x => ⟨rfl, rfl⟩)⟩

theorem hb_blob_make_immutable_step (b : Nat) (fn : hb_destroy_func_t) (arg : Nat) (w : World)
    (p : Nat) (hi : Inv b fn arg w) :
    Inv b fn arg (hb_blob_make_immutable w p) ∧ Acct b fn arg w (hb_blob_make_immutable w p) := by
  unfold hb_blob_make_immutable
  split
  · exact ⟨hi, acct_refl b fn arg w⟩
  · exact ⟨inv_of_frame hi (hi.1.ordered_modify _ _ (fun x hx => ⟨hx, rfl⟩))
      (by rw [modify_heap_length]) (by rw [modify_brk]),
      acct_modify b fn arg w p _ (fun x => ⟨rfl, rfl⟩)⟩

theorem hb_blob_reference_frame (w : World) (p : Nat) :
    (hb_blob_reference w p).1.heap.length = w.heap.length ∧
    (∀ q, (hb_blob_reference w p).1.live q = w.live q) := by
  unfold hb_blob_reference hb_object_reference
  split
  · exact ⟨rfl, fun _ => rfl⟩
  · exact ⟨modify_heap_length _ _ _, fun q => live_modify _ _ _ _⟩

theorem hb_blob_make_immutable_frame (w : World) (p : Nat) :
    (hb_blob_make_immutable w p).heap.length = w.heap.length ∧
    (∀ q, (hb_blob_make_immutable w p).live q = w.live q) := by
  unfold hb_blob_make_immutable
  split
  · exact ⟨rfl, fun _ => rfl⟩
  · exact ⟨modify_heap_length _ _ _, fun q => live_modify _ _ _ _⟩

theorem hb_blob_create_sub_blob_step (b : Nat) (fn : hb_destroy_func_t) (arg : Nat)
    (hfn : fn ≠ fn_null) (w w' : World) (env : Env) (parent offset length r : Nat)
    (hi : Inv b fn arg w)
    (h : hb_blob_create_sub_blob w env parent offset length = some (w', r)) :
    Inv b fn arg w' ∧ Acct b fn arg w w' := by
  unfold hb_blob_create_sub_blob at h
  split at h
  · cases h
    exact ⟨hi, acct_refl b fn arg w⟩
  · rename_i hg
    have hlive : w.live parent = true := live_of_length_pos w parent (by omega)
    have hlt := live_lt w parent hlive
    obtain ⟨hm1, hm2⟩ := hb_blob_make_immutable_step b fn arg w parent hi
    obtain ⟨hr1, hr2⟩ := hb_blob_reference_step b fn arg (hb_blob_make_immutable w parent)
      parent hm1
    have hlen : (hb_blob_reference (hb_blob_make_immutable w parent) parent).1.heap.length =
        w.heap.length := by
      rw [(hb_blob_reference_frame _ _).1, (hb_blob_make_immutable_frame _ _).1]
    have e : hb_blob_reference (hb_blob_make_immutable w parent) parent =
        ((hb_blob_reference (hb_blob_make_immutable w parent) parent).1, parent) :=
      Prod.ext rfl (hb_blob_reference_snd (hb_blob_make_immutable w parent) parent)
    rw [e] at h
    obtain ⟨hc1, hc2⟩ := hb_blob_create_step b fn arg hfn _ w' env _ _ _ _ _ r hr1
      (fun _ => by rw [hlen]; exact hlt) h
    exact ⟨hc1, acct_trans hm2 (acct_trans hr2 hc2)⟩

theorem hb_blob_create_sub_blob_total (w : World) (env : Env) (parent offset length : Nat) :
    ∃ w' r, hb_blob_create_sub_blob w env parent offset length = some (w', r) := by
  unfold hb_blob_create_sub_blob
  split
  · exact ⟨w, hb_blob_get_empty, rfl⟩
  · exact hb_blob_create_total _ _ _ _ _ _ _

theorem step_total (w : World) (op : Op) : ∃ w', step w op = some w' := by
  cases op with
  | reference p => exact ⟨_, rfl⟩
  | destroy p => exact hb_blob_destroy_total w p
  | make_immutable p => exact ⟨_, rfl⟩
  | get_data_writable env p =>
    obtain ⟨w', r, h⟩ := try_writable_total w env p
    exact ⟨w', by simp [step, hb_blob_get_data_writable, h]; split <;> rfl⟩
  | create_sub_blob env p o l =>
    obtain ⟨w', r, h⟩ := hb_blob_create_sub_blob_total w env p o l
    exact ⟨w', by simp [step, h]⟩
  | copy_writable_or_fail env p =>
    obtain ⟨w', r, h⟩ := hb_blob_create_total w env (w.blob p).data (w.blob p).length
      HB_MEMORY_MODE_DUPLICATE nullptr fn_null
    exact ⟨w', by simp [step, hb_blob_copy_writable_or_fail, h]; split <;> rfl⟩

theorem step_inv (b : Nat) (fn : hb_destroy_func_t) (arg : Nat) (hfn : fn ≠ fn_null)
    (w w' : World) (op : Op) (hi : Inv b fn arg w) (h : step w op = some w') :
    Inv b fn arg w' ∧ Acct b fn arg w w' := by
  cases op with
  | reference p =>
    simp only [step, Option.some.injEq] at h
    subst h
    exact hb_blob_reference_step b fn arg w p hi
  | destroy p => exact hb_blob_destroy_step b fn arg hfn w w' p hi h
  | make_immutable p =>
    simp only [step, Option.some.injEq] at h
    subst h
    exact hb_blob_make_immutable_step b fn arg w p hi
  | get_data_writable env p =>
    obtain ⟨w1, r, ht⟩ := try_writable_total w env p
    have : w' = w1 := by
      simp only [step, hb_blob_get_data_writable, ht, Option.map_some', Option.some.injEq] at h
      rw [← h]
      split <;> rfl
    subst this
    exact try_writable_step b fn arg hfn w w' env p r hi ht
  | create_sub_blob env p o l =>
    obtain ⟨w1, r, hc⟩ := hb_blob_create_sub_blob_total w env p o l
    have : w' = w1 := by
      simp only [step, hc, Option.map_some', Option.some.injEq] at h
      exact h.symm
    subst this
    exact hb_blob_create_sub_blob_step b fn arg hfn w w' env p o l r hi hc
  | copy_writable_or_fail env p =>
    obtain ⟨w1, r, hc⟩ := hb_blob_create_total w env (w.blob p).data (w.blob p).length
      HB_MEMORY_MODE_DUPLICATE nullptr fn_null
    have : w' = w1 := by
      simp only [step, hb_blob_copy_writable_or_fail, hc, Option.map_some',
        Option.some.injEq] at h
      rw [← h]
      split <;> rfl
    subst this
    exact hb_blob_create_step b fn arg hfn w w' env _ _ _ _ _ r hi (fun e => by cases e) hc

theorem run_inv (b : Nat) (fn : hb_destroy_func_t) (arg : Nat) (hfn : fn ≠ fn_null)
    (ops : List Op) : ∀ (w : World), Inv b fn arg w →
      ∃ w', run w ops = some w' ∧ Inv b fn arg w' ∧ Acct b fn arg w w' := by
  induction ops with
  | nil => intro w hi; exact ⟨w, rfl, hi, acct_refl b fn arg w⟩
  | cons op ops ih =>
    intro w hi
    obtain ⟨w1, h1⟩ := step_total w op
    obtain ⟨hi1, ha1⟩ := step_inv b fn arg hfn w w1 op hi h1
    obtain ⟨w2, h2, hi2, ha2⟩ := ih w1 hi1
    exact ⟨w2, by simp [run, h1, h2], hi2, acct_trans ha1 ha2⟩

/-- Dropping the last reference frees the object. -/
theorem hb_blob_destroy_frees (w w' : World) (p : Nat) (h2 : 2 ≤ p)
    (hrc : (w.blob p).ref_count = 1) (h : hb_blob_destroy w p = some w') :
    w'.live p = false := by
  unfold hb_blob_destroy hb_blob_destroy_fuel at h
  rw [hb_object_destroy_last w p h2 hrc] at h
  simp only [Option.map_eq_some'] at h
  obtain ⟨v, -, rfl⟩ := h
  rw [live_free_obj, if_pos rfl]

theorem step_on_empty (w : World) (op : Op) (h : op.target = hb_blob_get_empty) :
    step w op = some w := by
  cases op with
  | reference p =>
    simp only [Op.target] at h
    subst h
    rfl
  | destroy p =>
    simp only [Op.target] at h
    subst h
    rfl
  | make_immutable p =>
    simp only [Op.target] at h
    subst h
    rfl
  | get_data_writable env p =>
    simp only [Op.target] at h
    subst h
    rfl
  | create_sub_blob env p o l =>
    simp only [Op.target] at h
    subst h
    simp [step, hb_blob_create_sub_blob, hb_blob_get_empty, World.blob, _hb_blob_nil]
  | copy_writable_or_fail env p =>
    simp only [Op.target] at h
    subst h
    rfl

theorem run_on_empty (ops : List Op) :
    ∀ (w : World), (∀ op ∈ ops, op.target = hb_blob_get_empty) → run w ops = some w := by
  induction ops with
  | nil => intro w _; rfl
  | cons op ops ih =>
    intro w h
    simp only [run]
    rw [step_on_empty w op (h op (List.mem_cons_self _ _))]
    exact ih w (fun o ho => h o (List.mem_cons_of_mem _ ho))

/-- The failure exit of `hb_blob_create` with a callback: one invocation on behalf
of no blob, and none on behalf of a blob that is not allocated yet. -/
theorem hb_blob_create_fail_account (w : World) (ud : Nat) (d : hb_destroy_func_t) (b : Nat)
    (hd : d ≠ fn_null) (ho : Ordered w) (hud : d = fn_blob_destroy → ud < b) (hb : 2 ≤ b) :
    ∃ w1 seg, hb_blob_create_fail w ud d = some (w1, hb_blob_get_empty) ∧
      w1.calls = w.calls ++ seg ∧ fired nullptr d ud seg = 1 ∧ fired b d ud seg = 0 := by
  unfold hb_blob_create_fail
  rw [if_pos hd]
  have h1 : fired nullptr d ud [⟨nullptr, d, ud⟩] = 1 := by simp [fired_single]
  have h0 : fired b d ud [⟨nullptr, d, ud⟩] = 0 := by
    rw [fired_single, if_neg]
    simp [nullptr]
    omega
  cases d with
  | fn_null => exact absurd rfl hd
  | fn_free => exact ⟨w.log ⟨nullptr, fn_free, ud⟩, [⟨nullptr, fn_free, ud⟩], rfl, rfl, h1, h0⟩
  | fn_user id =>
    exact ⟨w.log ⟨nullptr, fn_user id, ud⟩, [⟨nullptr, fn_user id, ud⟩], rfl, rfl, h1, h0⟩
  | fn_blob_destroy =>
    obtain ⟨w1, hw1⟩ := hb_blob_destroy_total (w.log ⟨nullptr, fn_blob_destroy, ud⟩) ud
    obtain ⟨nested, e, o2⟩ := (hb_blob_destroy_frame _ _ _ hw1).calls
    obtain ⟨-, hbel⟩ := hb_blob_destroy_below _ _ _ (ho.ordered_log _) hw1
    obtain ⟨nested2, e2, o3⟩ := hbel.calls
    have hn : nested2 = nested := List.append_cancel_left (e2.symm.trans e)
    subst hn
    refine ⟨w1, ⟨nullptr, fn_blob_destroy, ud⟩ :: nested2, ?_, ?_, ?_, ?_⟩
    · simp [invoke, _hb_blob_destroy, hw1]
    · rw [e]; simp [World.log]
    · have : fired nullptr fn_blob_destroy ud nested2 = 0 :=
        fired_of_owner_ne _ _ _ _ (fun c hc => by have := o2 c hc; simp [nullptr]; omega)
      have e3 : (⟨nullptr, fn_blob_destroy, ud⟩ :: nested2 : List Call) =
          [⟨nullptr, fn_blob_destroy, ud⟩] ++ nested2 := rfl
      rw [e3, fired_append, h1, this]
    · have : fired b fn_blob_destroy ud nested2 = 0 :=
        fired_of_owner_ne _ _ _ _ (fun c hc => by have := o3 c hc; have := hud rfl; omega)
      have e3 : (⟨nullptr, fn_blob_destroy, ud⟩ :: nested2 : List Call) =
          [⟨nullptr, fn_blob_destroy, ud⟩] ++ nested2 := rfl
      rw [e3, fired_append, h0, this]

theorem stored_pending (w : World) (data length : Nat) (mode : hb_memory_mode_t) (ud : Nat)
    (d : hb_destroy_func_t) :
    pending (stored w data length mode ud d) (w.heap.length + 2) d ud = 1 := by
  have hl : (stored w data length mode ud d).live (w.heap.length + 2) = true := by
    rw [(stored_frame w data length mode ud d).2.2.2.2]; simp
  simp [pending, hl, stored_blob]

theorem stored_inv (w : World) (data length : Nat) (mode : hb_memory_mode_t) (ud : Nat)
    (d : hb_destroy_func_t) (ho : Ordered w)
    (hud : d = fn_blob_destroy → ud < w.heap.length + 2) (hfree : d = fn_free → ud ≤ w.brk) :
    Inv (w.heap.length + 2) d ud (stored w data length mode ud d) := by
  obtain ⟨-, hbrk, -, hlen, -⟩ := stored_frame w data length mode ud d
  exact ⟨stored_ordered ho data length mode ud d hud, by omega, by rw [hlen]; omega,
    fun h => by rw [hbrk]; exact hfree h⟩

/-- The account of the caller's callback when `hb_blob_create` returns: either the
empty singleton is returned and the callback has been invoked once, or the new
blob is returned and what was invoked plus what is pending is one. -/
theorem hb_blob_create_account (w : World) (env : Env) (data length : Nat)
    (mode : hb_memory_mode_t) (ud : Nat) (d : hb_destroy_func_t)
    (hd : d ≠ fn_null) (ho : Ordered w) (hud : d = fn_blob_destroy → ud < w.heap.length + 2)
    (hfree : d = fn_free → ud ≤ w.brk) :
    ∃ w1 r seg, hb_blob_create w env data length mode ud d = some (w1, r) ∧
      w1.calls = w.calls ++ seg ∧
      ((r = hb_blob_get_empty ∧
          fired nullptr d ud seg + fired (w.heap.length + 2) d ud seg = 1) ∨
        (r = w.heap.length + 2 ∧ Inv (w.heap.length + 2) d ud w1 ∧
          fired (w.heap.length + 2) d ud seg + pending w1 (w.heap.length + 2) d ud = 1)) := by
  have hfail : hb_blob_create w env data length mode ud d = hb_blob_create_fail w ud d →
      ∃ w1 r seg, hb_blob_create w env data length mode ud d = some (w1, r) ∧
      w1.calls = w.calls ++ seg ∧
      ((r = hb_blob_get_empty ∧
          fired nullptr d ud seg + fired (w.heap.length + 2) d ud seg = 1) ∨
        (r = w.heap.length + 2 ∧ Inv (w.heap.length + 2) d ud w1 ∧
          fired (w.heap.length + 2) d ud seg + pending w1 (w.heap.length + 2) d ud = 1)) := by
    intro e
    obtain ⟨w1, seg, h1, h2, h3, h4⟩ :=
      hb_blob_create_fail_account w ud d (w.heap.length + 2) hd ho hud (by omega)
    exact ⟨w1, hb_blob_get_empty, seg, by rw [e, h1], h2, Or.inl ⟨rfl, by omega⟩⟩
  by_cases hl : length = 0 ∨ 2 ^ 31 ≤ length
  · apply hfail
    unfold hb_blob_create
    rw [if_pos (by omega)]
  by_cases hobj : env.object_ok = true
  · by_cases hm : mode = HB_MEMORY_MODE_DUPLICATE
    · subst hm
      have hsb : (stored w data length HB_MEMORY_MODE_READONLY ud d).blob (w.heap.length + 2) =
            { ref_count := 1, immutable := false, data := data, length := length,
              mode := HB_MEMORY_MODE_READONLY, user_data := ud, destroy := d } := by
        rw [stored_blob, if_pos rfl]
      have hsi := stored_inv w data length HB_MEMORY_MODE_READONLY ud d ho hud hfree
      have hsp := stored_pending w data length HB_MEMORY_MODE_READONLY ud d
      have hsc := (stored_frame w data length HB_MEMORY_MODE_READONLY ud d).2.2.1
      rcases hb_blob_create_duplicate_cases w env data length ud d (by omega) (by omega) hobj
        with ⟨hok, v, hv, hc⟩ | ⟨hok, w3, h3, hc⟩
      · obtain ⟨v2, hv2, ht⟩ := try_writable_dup_ok
          (stored w data length HB_MEMORY_MODE_READONLY ud d) env (w.heap.length + 2)
          (by rw [hsb]) (by rw [hsb]; simp) (by rw [hsb]; intro h; cases h) hok
        have hvv : v2 = v := Option.some.inj (hv2.symm.trans hv)
        subst hvv
        rw [(stored_frame w data length HB_MEMORY_MODE_READONLY ud d).2.1] at ht
        obtain ⟨hi2, ⟨seg, e, a⟩⟩ := try_writable_step (w.heap.length + 2) d ud hd _ _ env _ true
          hsi ht
        rw [hsc] at e
        exact ⟨_, _, seg, hc, e, Or.inr ⟨rfl, hi2, by rw [a, hsp]⟩⟩
      · obtain ⟨-, ⟨seg, e, a⟩⟩ := hb_blob_destroy_step (w.heap.length + 2) d ud hd _ _ _ hsi h3
        obtain ⟨nested, e2, o2⟩ := (hb_blob_destroy_frame _ _ _ h3).calls
        have hn : nested = seg := List.append_cancel_left (e2.symm.trans e)
        subst hn
        have hp3 : pending w3 (w.heap.length + 2) d ud = 0 :=
          pending_of_not_live _ _ _ _
            (hb_blob_destroy_frees _ _ _ (by omega) (by rw [hsb]) h3)
        have hz : fired nullptr d ud nested = 0 :=
          fired_of_owner_ne _ _ _ _ (fun c hc => by have := o2 c hc; simp [nullptr]; omega)
        rw [hsc] at e
        rw [hp3, hsp] at a
        exact ⟨w3, hb_blob_get_empty, nested, hc, e, Or.inl ⟨rfl, by omega⟩⟩
    · refine ⟨stored w data length mode ud d, w.heap.length + 2, [],
        hb_blob_create_plain w env data length mode ud d (by omega) (by omega) hobj hm, ?_,
        Or.inr ⟨rfl, stored_inv w data length mode ud d ho hud hfree, ?_⟩⟩
      · rw [(stored_frame w data length mode ud d).2.2.1]; simp
      · rw [fired_nil, stored_pending]
  · have hobj2 : env.object_ok = false := by simpa using hobj
    exact hfail (hb_blob_create_no_object _ _ _ _ _ _ _ hobj2)

/-! ## The immutable latch -/

theorem latch_refl (w : World) : Latch w w := ⟨Nat.le_refl _, fun _ _ h => h⟩

theorem latch_trans {a b c : World} (h1 : Latch a b) (h2 : Latch b c) : Latch a c :=
  ⟨Nat.le_trans h1.1 h2.1, fun q hq hi =>
    h2.2 q (Nat.lt_of_lt_of_le hq (Nat.add_le_add_right h1.1 2)) (h1.2 q hq hi)⟩

theorem latch_of_frame {w w1 : World} (h : Frame w w1) : Latch w w1 := by
  refine ⟨Nat.le_of_eq h.heap_length.symm, fun q _ hi => ?_⟩
  by_cases hl : w1.live q = true
  · rw [(h.kept q hl).2.1]; exact hi
  · rw [blob_of_not_live w1 q (by simpa using hl)]; rfl

theorem latch_modify (w : World) (p : Nat) (f : hb_blob_t → hb_blob_t)
    (hf : ∀ b, b.immutable = true → (f b).immutable = true) : Latch w (w.modify p f) := by
  refine ⟨Nat.le_of_eq (modify_heap_length _ _ _).symm, fun q _ hi => ?_⟩
  rw [blob_modify]
  split
  · exact hf _ hi
  · exact hi

theorem latch_stored (w : World) (data length : Nat) (mode : hb_memory_mode_t) (ud : Nat)
    (d : hb_destroy_func_t) : Latch w (stored w data length mode ud d) := by
  refine ⟨by rw [(stored_frame w data length mode ud d).2.2.2.1]; omega, fun q hq hi => ?_⟩
  rw [stored_blob, if_neg (by omega)]
  exact hi

theorem latch_before_malloc (w : World) (p : Nat) : Latch w (before_malloc w p) := by
  unfold before_malloc
  split
  · exact latch_modify w p _ (fun b h => h)
  · exact latch_refl w

theorem latch_after_memcpy (w : World) (p : Nat) : Latch w (after_memcpy w p) :=
  latch_before_malloc w p

theorem try_writable_latch (w w' : World) (env : Env) (p : Nat) (r : Bool)
    (h : _try_writable w env p = some (w', r)) : Latch w w' := by
  rcases try_writable_cases w env p with c | c | c | c | c
  · rw [c.2] at h; cases h; exact latch_refl w
  · rw [c.2.2] at h; cases h; exact latch_refl w
  · rw [c.2.2.2] at h; cases h; exact latch_modify w p _ (fun b h => h)
  · rw [c.2.2.2] at h; cases h; exact latch_before_malloc w p
  · obtain ⟨-, -, -, v, hv, ht⟩ := c
    rw [ht] at h
    cases h
    exact latch_trans (latch_after_memcpy w p)
      (latch_trans (latch_of_frame (destroy_user_data_frame _ v p hv))
        (latch_modify v p _ (fun b h => h)))

theorem hb_blob_create_fail_latch (w w' : World) (ud : Nat) (d : hb_destroy_func_t) (r : Nat)
    (h : hb_blob_create_fail w ud d = some (w', r)) : Latch w w' := by
  unfold hb_blob_create_fail invoke at h
  have hlog : Latch w (w.log ⟨nullptr, d, ud⟩) := ⟨Nat.le_refl _, fun _ _ h => h⟩
  cases d with
  | fn_null =>
    simp at h
    obtain ⟨rfl, -⟩ := h
    exact latch_refl w
  | fn_free =>
    simp at h
    obtain ⟨rfl, -⟩ := h
    exact hlog
  | fn_user id =>
    simp at h
    obtain ⟨rfl, -⟩ := h
    exact hlog
  | fn_blob_destroy =>
    simp [_hb_blob_destroy] at h
    obtain ⟨v, hv, rfl, -⟩ := h
    exact latch_trans hlog (latch_of_frame (hb_blob_destroy_frame _ _ _ hv))

theorem hb_blob_create_latch (w w' : World) (env : Env) (data length : Nat)
    (mode : hb_memory_mode_t) (ud : Nat) (d : hb_destroy_func_t) (r : Nat)
    (h : hb_blob_create w env data length mode ud d = some (w', r)) : Latch w w' := by
  by_cases hl : length = 0 ∨ 2 ^ 31 ≤ length
  · have e : hb_blob_create w env data length mode ud d = hb_blob_create_fail w ud d := by
      unfold hb_blob_create
      rw [if_pos (by omega)]
    rw [e] at h
    exact hb_blob_create_fail_latch w w' ud d r h
  by_cases hobj : env.object_ok = true
  · by_cases hm : mode = HB_MEMORY_MODE_DUPLICATE
    · subst hm
      rw [hb_blob_create_duplicate_eq w env data length ud d (by omega) (by omega) hobj] at h
      obtain ⟨w2, r2, ht⟩ := try_writable_total
        (stored w data length HB_MEMORY_MODE_READONLY ud d) env (w.heap.length + 2)
      have h1 := latch_trans (latch_stored w data length HB_MEMORY_MODE_READONLY ud d)
        (try_writable_latch _ _ env _ r2 ht)
      rw [ht] at h
      cases r2
      · simp at h
        obtain ⟨w3, h3, rfl, -⟩ := h
        exact latch_trans h1 (latch_of_frame (hb_blob_destroy_frame _ _ _ h3))
      · simp at h
        obtain ⟨rfl, -⟩ := h
        exact h1
    · rw [hb_blob_create_plain w env data length mode ud d (by omega) (by omega) hobj hm] at h
      cases h
      exact latch_stored w data length mode ud d
  · have hobj2 : env.object_ok = false := by simpa using hobj
    rw [hb_blob_create_no_object _ _ _ _ _ _ _ hobj2] at h
    exact hb_blob_create_fail_latch w w' ud d r h

theorem hb_blob_reference_latch (w : World) (p : Nat) : Latch w (hb_blob_reference w p).1 := by
  unfold hb_blob_reference hb_object_reference
  split
  · exact latch_refl w
  · exact latch_modify w p _ (fun b h => h)

theorem hb_blob_make_immutable_latch (w : World) (p : Nat) :
    Latch w (hb_blob_make_immutable w p) := by
  unfold hb_blob_make_immutable
  split
  · exact latch_refl w
  · exact latch_modify w p _ (fun b _ => rfl)

theorem hb_blob_create_sub_blob_latch (w w' : World) (env : Env) (parent offset length r : Nat)
    (h : hb_blob_create_sub_blob w env parent offset length = some (w', r)) : Latch w w' := by
  unfold hb_blob_create_sub_blob at h
  split at h
  · cases h
    exact latch_refl w
  · have e : hb_blob_reference (hb_blob_make_immutable w parent) parent =
        ((hb_blob_reference (hb_blob_make_immutable w parent) parent).1, parent) :=
      Prod.ext rfl (hb_blob_reference_snd (hb_blob_make_immutable w parent) parent)
    rw [e] at h
    exact latch_trans (hb_blob_make_immutable_latch w parent)
      (latch_trans (hb_blob_reference_latch _ parent) (hb_blob_create_latch _ _ _ _ _ _ _ _ _ h))

theorem step_latch (w w' : World) (op : Op) (h : step w op = some w') : Latch w w' := by
  cases op with
  | reference p =>
    simp only [step, Option.some.injEq] at h
    subst h
    exact hb_blob_reference_latch w p
  | destroy p => exact latch_of_frame (hb_blob_destroy_frame w w' p h)
  | make_immutable p =>
    simp only [step, Option.some.injEq] at h
    subst h
    exact hb_blob_make_immutable_latch w p
  | get_data_writable env p =>
    obtain ⟨w1, r, ht⟩ := try_writable_total w env p
    have : w' = w1 := by
      simp only [step, hb_blob_get_data_writable, ht, Option.map_some', Option.some.injEq] at h
      rw [← h]
      split <;> rfl
    subst this
    exact try_writable_latch w w' env p r ht
  | create_sub_blob env p o l =>
    obtain ⟨w1, r, hc⟩ := hb_blob_create_sub_blob_total w env p o l
    have : w' = w1 := by
      simp only [step, hc, Option.map_some', Option.some.injEq] at h
      exact h.symm
    subst this
    exact hb_blob_create_sub_blob_latch w w' env p o l r hc
  | copy_writable_or_fail env p =>
    obtain ⟨w1, r, hc⟩ := hb_blob_create_total w env (w.blob p).data (w.blob p).length
      HB_MEMORY_MODE_DUPLICATE nullptr fn_null
    have : w' = w1 := by
      simp only [step, hb_blob_copy_writable_or_fail, hc, Option.map_some',
        Option.some.injEq] at h
      rw [← h]
      split <;> rfl
    subst this
    exact hb_blob_create_latch w w' env _ _ _ _ _ r hc

theorem run_total (ops : List Op) : ∀ w : World, ∃ w', run w ops = some w' := by
  induction ops with
  | nil => intro w; exact ⟨w, rfl⟩
  | cons op ops ih =>
    intro w
    obtain ⟨w1, h1⟩ := step_total w op
    obtain ⟨w2, h2⟩ := ih w1
    exact ⟨w2, by simp [run, h1, h2]⟩

theorem run_latch (ops : List Op) : ∀ (w w' : World), run w ops = some w' → Latch w w' := by
  induction ops with
  | nil =>
    intro w w' h
    simp only [run, Option.some.injEq] at h
    subst h
    exact latch_refl w
  | cons op ops ih =>
    intro w w' h
    obtain ⟨w1, h1⟩ := step_total w op
    simp only [run, h1, Option.some_bind] at h
    exact latch_trans (step_latch w w1 op h1) (ih w1 w' h)

theorem modify_modify_const (w : World) (p : Nat) (f : hb_blob_t → hb_blob_t)
    (hf : ∀ b, f (f b) = f b) : (w.modify p f).modify p f = w.modify p f := by
  match p with
  | 0 => rfl
  | 1 => rfl
  | i + 2 =>
    simp only [World.modify]
    rcases h : w.heap[i]? with _ | _ | b
    · simp [h]
    · simp [h]
    · have hlt : i < w.heap.length := (List.getElem?_eq_some.mp h).1
      simp [h, List.getElem?_set_self, hlt, hf]

/-! ## The shape of live objects -/

theorem shaped_of_frame {nn : Bool} {w w1 : World} (h : Frame w w1) (hs : Shaped nn w) :
    Shaped nn w1 := by
  intro q hq
  obtain ⟨hl, -, hd, hlen, -⟩ := h.kept q hq
  rw [hd, hlen]
  exact hs q hl

theorem shaped_modify {nn : Bool} {w : World} (hs : Shaped nn w) (p : Nat)
    (f : hb_blob_t → hb_blob_t)
    (hf : ∀ b, (f b).length = b.length ∧ (nn = true → b.data ≠ nullptr → (f b).data ≠ nullptr)) :
    Shaped nn (w.modify p f) := by
  intro q hq
  rw [live_modify] at hq
  obtain ⟨h1, h2, h3⟩ := hs q hq
  rw [blob_modify]
  split
  · rw [(hf _).1]
    exact ⟨h1, h2, fun hn => (hf _).2 hn (h3 hn)⟩
  · exact ⟨h1, h2, h3⟩

theorem shaped_stored {nn : Bool} {w : World} (hs : Shaped nn w) (data length : Nat)
    (mode : hb_memory_mode_t) (ud : Nat) (d : hb_destroy_func_t)
    (h0 : 1 ≤ length) (h1 : length < 2 ^ 31) (hd : nn = true → data ≠ nullptr) :
    Shaped nn (stored w data length mode ud d) := by
  intro q hq
  rw [(stored_frame w data length mode ud d).2.2.2.2] at hq
  rw [stored_blob]
  split
  · exact ⟨h0, h1, hd⟩
  · rename_i hne
    simp [hne] at hq
    exact hs q hq

theorem shaped_before_malloc {nn : Bool} {w : World} (hs : Shaped nn w) (p : Nat) :
    Shaped nn (before_malloc w p) := by
  unfold before_malloc
  split
  · exact shaped_modify hs p _ (fun b => ⟨rfl, fun _ h => h⟩)
  · exact hs

theorem try_writable_shaped {nn : Bool} (w w' : World) (env : Env) (p : Nat) (r : Bool)
    (hs : Shaped nn w) (h : _try_writable w env p = some (w', r)) : Shaped nn w' := by
  rcases try_writable_cases w env p with c | c | c | c | c
  · rw [c.2] at h; cases h; exact hs
  · rw [c.2.2] at h; cases h; exact hs
  · rw [c.2.2.2] at h; cases h
    exact shaped_modify hs p _ (fun b => ⟨rfl, fun _ h => h⟩)
  · rw [c.2.2.2] at h; cases h; exact shaped_before_malloc hs p
  · obtain ⟨-, -, -, v, hv, ht⟩ := c
    rw [ht] at h
    cases h
    have hsv : Shaped nn v := shaped_of_frame (destroy_user_data_frame _ v p hv)
      (shaped_before_malloc (w := w) hs p)
    exact shaped_modify hsv p _ (fun b => ⟨rfl, fun _ _ => by simp [nullptr]⟩)

theorem hb_blob_create_fail_frame (w w' : World) (ud : Nat) (d : hb_destroy_func_t) (r : Nat)
    (h : hb_blob_create_fail w ud d = some (w', r)) :
    r = hb_blob_get_empty ∧ w'.mem = w.mem ∧ w'.brk = w.brk ∧
      w'.heap.length = w.heap.length ∧
      ∀ q, w'.live q = true → w.live q = true ∧
        (w'.blob q).immutable = (w.blob q).immutable ∧ (w'.blob q).data = (w.blob q).data ∧
        (w'.blob q).length = (w.blob q).length ∧ (w'.blob q).mode = (w.blob q).mode := by
  unfold hb_blob_create_fail invoke at h
  have hid : ∀ q, w.live q = true → w.live q = true ∧
      (w.blob q).immutable = (w.blob q).immutable ∧ (w.blob q).data = (w.blob q).data ∧
      (w.blob q).length = (w.blob q).length ∧ (w.blob q).mode = (w.blob q).mode :=
    fun q hq => ⟨hq, rfl, rfl, rfl, rfl⟩
  cases d with
  | fn_null =>
    simp at h
    obtain ⟨rfl, rfl⟩ := h
    exact ⟨rfl, rfl, rfl, rfl, hid⟩
  | fn_free =>
    simp at h
    obtain ⟨rfl, rfl⟩ := h
    exact ⟨rfl, rfl, rfl, rfl, hid⟩
  | fn_user id =>
    simp at h
    obtain ⟨rfl, rfl⟩ := h
    exact ⟨rfl, rfl, rfl, rfl, hid⟩
  | fn_blob_destroy =>
    simp [_hb_blob_destroy] at h
    obtain ⟨v, hv, rfl, rfl⟩ := h
    have hf := hb_blob_destroy_frame _ _ _ hv
    exact ⟨rfl, hf.mem, hf.brk, hf.heap_length, hf.kept⟩

theorem hb_blob_create_shaped {nn : Bool} (w w' : World) (env : Env) (data length : Nat)
    (mode : hb_memory_mode_t) (ud : Nat) (d : hb_destroy_func_t) (r : Nat) (hs : Shaped nn w)
    (hd : nn = true → mode ≠ HB_MEMORY_MODE_DUPLICATE → data ≠ nullptr)
    (h : hb_blob_create w env data length mode ud d = some (w', r)) : Shaped nn w' := by
  have hfail : hb_blob_create w env data length mode ud d = hb_blob_create_fail w ud d →
      Shaped nn w' := by
    intro e
    rw [e] at h
    obtain ⟨-, -, -, -, hk⟩ := hb_blob_create_fail_frame w w' ud d r h
    intro q hq
    obtain ⟨hl, -, hdq, hlen, -⟩ := hk q hq
    rw [hdq, hlen]
    exact hs q hl
  by_cases hl : length = 0 ∨ 2 ^ 31 ≤ length
  · apply hfail
    unfold hb_blob_create
    rw [if_pos (by omega)]
  by_cases hobj : env.object_ok = true
  · by_cases hm : mode = HB_MEMORY_MODE_DUPLICATE
    · subst hm
      have hst : ∀ q, q ≠ w.heap.length + 2 →
          (stored w data length HB_MEMORY_MODE_READONLY ud d).live q = true →
          1 ≤ ((stored w data length HB_MEMORY_MODE_READONLY ud d).blob q).length ∧
          ((stored w data length HB_MEMORY_MODE_READONLY ud d).blob q).length < 2 ^ 31 ∧
          (nn = true → ((stored w data length HB_MEMORY_MODE_READONLY ud d).blob q).data ≠
            nullptr) := by
        intro q hq hlq
        rw [(stored_frame w data length HB_MEMORY_MODE_READONLY ud d).2.2.2.2] at hlq
        simp [hq] at hlq
        rw [stored_blob, if_neg hq]
        exact hs q hlq
      have hsb : (stored w data length HB_MEMORY_MODE_READONLY ud d).blob (w.heap.length + 2) =
            { ref_count := 1, immutable := false, data := data, length := length,
              mode := HB_MEMORY_MODE_READONLY, user_data := ud, destroy := d } := by
        rw [stored_blob, if_pos rfl]
      rcases hb_blob_create_duplicate_cases w env data length ud d (by omega) (by omega) hobj
        with ⟨-, v, hv, hc⟩ | ⟨-, w3, h3, hc⟩
      · rw [hc] at h
        cases h
        have hf := destroy_user_data_frame _ v _ hv
        intro q hq
        rw [live_modify] at hq
        obtain ⟨hl1, -, hdq, hlen, -⟩ := hf.kept q hq
        rw [(after_memcpy_frame _ _).2.2.2.1] at hl1
        by_cases hqb : q = w.heap.length + 2
        · subst hqb
          rw [blob_modify_self _ _ _ hq]
          simp only
          rw [hlen, (after_memcpy_frame _ _).2.2.2.2.2, (before_malloc_fields _ _).2.2.2.1, hsb]
          exact ⟨by simp; omega, by simp; omega, fun _ => by simp [nullptr]⟩
        · rw [blob_modify_ne _ _ _ _ hqb, hdq, hlen,
            (after_memcpy_frame _ _).2.2.2.2.1 q hqb]
          exact hst q hqb hl1
      · rw [hc] at h
        cases h
        have hf := hb_blob_destroy_frame _ _ _ h3
        have hfree := hb_blob_destroy_frees _ _ _ (by omega) (by rw [hsb]) h3
        intro q hq
        obtain ⟨hl1, -, hdq, hlen, -⟩ := hf.kept q hq
        have hqb : q ≠ w.heap.length + 2 := by
          intro e
          rw [e, hfree] at hq
          cases hq
        rw [hdq, hlen]
        exact hst q hqb hl1
    · rw [hb_blob_create_plain w env data length mode ud d (by omega) (by omega) hobj hm] at h
      cases h
      exact shaped_stored hs data length mode ud d (by omega) (by omega) (fun hn => hd hn hm)
  · have hobj2 : env.object_ok = false := by simpa using hobj
    exact hfail (hb_blob_create_no_object _ _ _ _ _ _ _ hobj2)

theorem hb_blob_reference_shaped {nn : Bool} (w : World) (p : Nat) (hs : Shaped nn w) :
    Shaped nn (hb_blob_reference w p).1 := by
  unfold hb_blob_reference hb_object_reference
  split
  · exact hs
  · exact shaped_modify hs p _ (fun b => ⟨rfl, fun _ h => h⟩)

theorem hb_blob_make_immutable_shaped {nn : Bool} (w : World) (p : Nat) (hs : Shaped nn w) :
    Shaped nn (hb_blob_make_immutable w p) := by
  unfold hb_blob_make_immutable
  split
  · exact hs
  · exact shaped_modify hs p _ (fun b => ⟨rfl, fun _ h => h⟩)

theorem hb_blob_create_sub_blob_shaped {nn : Bool} (w w' : World) (env : Env)
    (parent offset length r : Nat) (hs : Shaped nn w)
    (h : hb_blob_create_sub_blob w env parent offset length = some (w', r)) : Shaped nn w' := by
  unfold hb_blob_create_sub_blob at h
  split at h
  · cases h
    exact hs
  · rename_i hg
    have e : hb_blob_reference (hb_blob_make_immutable w parent) parent =
        ((hb_blob_reference (hb_blob_make_immutable w parent) parent).1, parent) :=
      Prod.ext rfl (hb_blob_reference_snd (hb_blob_make_immutable w parent) parent)
    rw [e] at h
    have hs1 : Shaped nn (hb_blob_reference (hb_blob_make_immutable w parent) parent).1 :=
      hb_blob_reference_shaped _ parent (hb_blob_make_immutable_shaped w parent hs)
    refine hb_blob_create_shaped _ w' env _ _ _ _ _ r hs1 ?_ h
    intro hn _
    have hlive : w.live parent = true := live_of_length_pos w parent (by omega)
    have hl1 : (hb_blob_reference (hb_blob_make_immutable w parent) parent).1.live parent
        = true := by
      rw [(hb_blob_reference_frame (hb_blob_make_immutable w parent) parent).2,
        (hb_blob_make_immutable_frame w parent).2]
      exact hlive
    have := (hs1 parent hl1).2.2 hn
    simp only [nullptr] at this ⊢
    omega

theorem step_shaped {nn : Bool} (w w' : World) (op : Op) (hs : Shaped nn w)
    (h : step w op = some w') : Shaped nn w' := by
  cases op with
  | reference p =>
    simp only [step, Option.some.injEq] at h
    subst h
    exact hb_blob_reference_shaped w p hs
  | destroy p => exact shaped_of_frame (hb_blob_destroy_frame w w' p h) hs
  | make_immutable p =>
    simp only [step, Option.some.injEq] at h
    subst h
    exact hb_blob_make_immutable_shaped w p hs
  | get_data_writable env p =>
    obtain ⟨w1, r, ht⟩ := try_writable_total w env p
    have : w' = w1 := by
      simp only [step, hb_blob_get_data_writable, ht, Option.map_some', Option.some.injEq] at h
      rw [← h]
      split <;> rfl
    subst this
    exact try_writable_shaped w w' env p r hs ht
  | create_sub_blob env p o l =>
    obtain ⟨w1, r, hc⟩ := hb_blob_create_sub_blob_total w env p o l
    have : w' = w1 := by
      simp only [step, hc, Option.map_some', Option.some.injEq] at h
      exact h.symm
    subst this
    exact hb_blob_create_sub_blob_shaped w w' env p o l r hs hc
  | copy_writable_or_fail env p =>
    obtain ⟨w1, r, hc⟩ := hb_blob_create_total w env (w.blob p).data (w.blob p).length
      HB_MEMORY_MODE_DUPLICATE nullptr fn_null
    have : w' = w1 := by
      simp only [step, hb_blob_copy_writable_or_fail, hc, Option.map_some',
        Option.some.injEq] at h
      rw [← h]
      split <;> rfl
    subst this
    exact hb_blob_create_shaped w w' env _ _ _ _ _ r hs (fun _ hm => absurd rfl hm) hc

theorem act_total (w : World) (a : Action) : ∃ w', act w a = some w' := by
  cases a with
  | create env data length mode ud d =>
    obtain ⟨w1, r, hc⟩ := hb_blob_create_total w env data length mode ud d
    exact ⟨w1, by simp [act, hc]⟩
  | op o => exact step_total w o

theorem act_shaped {nn : Bool} (w w' : World) (a : Action) (hs : Shaped nn w)
    (hd : nn = true → a.data_given) (h : act w a = some w') : Shaped nn w' := by
  cases a with
  | create env data length mode ud d =>
    obtain ⟨w1, r, hc⟩ := hb_blob_create_total w env data length mode ud d
    have : w' = w1 := by
      simp only [act, hc, Option.map_some', Option.some.injEq] at h
      exact h.symm
    subst this
    exact hb_blob_create_shaped w w' env data length mode ud d r hs hd hc
  | op o => exact step_shaped w w' o hs h

theorem perform_total (acts : List Action) : ∀ w : World, ∃ w', perform w acts = some w' := by
  induction acts with
  | nil => intro w; exact ⟨w, rfl⟩
  | cons a acts ih =>
    intro w
    obtain ⟨w1, h1⟩ := act_total w a
    obtain ⟨w2, h2⟩ := ih w1
    exact ⟨w2, by simp [perform, h1, h2]⟩

theorem perform_shaped {nn : Bool} (acts : List Action) :
    ∀ (w w' : World), Shaped nn w → (nn = true → ∀ a ∈ acts, a.data_given) →
      perform w acts = some w' → Shaped nn w' := by
  induction acts with
  | nil =>
    intro w w' hs _ h
    simp only [perform, Option.some.injEq] at h
    subst h
    exact hs
  | cons a acts ih =>
    intro w w' hs hd h
    obtain ⟨w1, h1⟩ := act_total w a
    simp only [perform, h1, Option.some_bind] at h
    exact ih w1 w' (act_shaped w w1 a hs (fun hn => hd hn a (List.mem_cons_self a acts)) h1)
      (fun hn b hb => hd hn b (List.mem_cons_of_mem a hb)) h

theorem blob_get_empty (w : World) : w.blob hb_blob_get_empty = _hb_blob_nil := rfl

/-! ## Binary search -/

theorem bsearch_loop_sound (compar : Nat → Int) :
    ∀ (fuel l u i : Nat), (bsearch_loop compar fuel l u).1 = some i →
      l ≤ i ∧ i < u ∧ compar i = 0 := by
  intro fuel
  induction fuel with
  | zero => intro l u i h; simp [bsearch_loop] at h
  | succ f ih =>
    intro l u i h
    unfold bsearch_loop at h
    by_cases hlu : l < u
    · rw [if_pos hlu] at h
      simp only at h
      by_cases h1 : compar ((l + u) / 2) < 0
      · rw [if_pos h1] at h
        have := ih _ _ _ h
        omega
      · rw [if_neg h1] at h
        by_cases h2 : compar ((l + u) / 2) > 0
        · rw [if_pos h2] at h
          have := ih _ _ _ h
          omega
        · rw [if_neg h2] at h
          simp only [Option.some.injEq] at h
          subst h
          omega
    · rw [if_neg hlu] at h
      simp at h

theorem bsearch_loop_probes (compar : Nat → Int) :
    ∀ (fuel l u p : Nat), p ∈ (bsearch_loop compar fuel l u).2 → l ≤ p ∧ p < u := by
  intro fuel
  induction fuel with
  | zero => intro l u p h; simp [bsearch_loop] at h
  | succ f ih =>
    intro l u p h
    unfold bsearch_loop at h
    by_cases hlu : l < u
    · rw [if_pos hlu] at h
      simp only at h
      by_cases h1 : compar ((l + u) / 2) < 0
      · rw [if_pos h1] at h
        rcases List.mem_cons.1 h with e | e
        · omega
        · have := ih _ _ _ e
          omega
      · rw [if_neg h1] at h
        by_cases h2 : compar ((l + u) / 2) > 0
        · rw [if_pos h2] at h
          rcases List.mem_cons.1 h with e | e
          · omega
          · have := ih _ _ _ e
            omega
        · rw [if_neg h2] at h
          simp only [List.mem_singleton] at h
          omega
    · rw [if_neg hlu] at h
      simp at h

theorem bsearch_loop_fuel (compar : Nat → Int) :
    ∀ (fuel l u : Nat), u - l ≤ fuel →
      bsearch_loop compar fuel l u = bsearch_loop compar (u - l) l u := by
  intro fuel
  induction fuel using Nat.strong_induction_on with
  | _ fuel ih =>
    intro l u h
    by_cases hlu : l < u
    · obtain ⟨f, rfl⟩ : ∃ f, fuel = f + 1 := ⟨fuel - 1, by omega⟩
      obtain ⟨g, hg⟩ : ∃ g, u - l = g + 1 := ⟨u - l - 1, by omega⟩
      rw [hg]
      unfold bsearch_loop
      rw [if_pos hlu, if_pos hlu]
      simp only
      have e1 : bsearch_loop compar f l ((l + u) / 2) = bsearch_loop compar g l ((l + u) / 2) := by
        rw [ih f (by omega) l _ (by omega), ih g (by omega) l _ (by omega)]
      have e2 : bsearch_loop compar f ((l + u) / 2 + 1) u =
          bsearch_loop compar g ((l + u) / 2 + 1) u := by
        rw [ih f (by omega) _ u (by omega), ih g (by omega) _ u (by omega)]
      rw [e1, e2]
    · have e : u - l = 0 := by omega
      rw [e]
      cases fuel with
      | zero => rfl
      | succ f =>
        unfold bsearch_loop
        rw [if_neg hlu]

theorem bsearch_loop_complete (compar : Nat → Int) (n : Nat)
    (hlt : ∀ i j, i ≤ j → j < n → compar i < 0 → compar j < 0)
    (hgt : ∀ i j, i ≤ j → j < n → compar j > 0 → compar i > 0) :
    ∀ (fuel l u : Nat), u - l ≤ fuel → u ≤ n →
      (∃ m, l ≤ m ∧ m < u ∧ compar m = 0) → ∃ i, (bsearch_loop compar fuel l u).1 = some i := by
  intro fuel
  induction fuel with
  | zero =>
    intro l u h _ hm
    obtain ⟨m, h1, h2, -⟩ := hm
    omega
  | succ f ih =>
    intro l u h hn hm
    obtain ⟨m, h1, h2, h3⟩ := hm
    unfold bsearch_loop
    rw [if_pos (by omega)]
    simp only
    by_cases c1 : compar ((l + u) / 2) < 0
    · rw [if_pos c1]
      apply ih _ _ (by omega) (by omega)
      refine ⟨m, h1, ?_, h3⟩
      by_contra hc
      have := hlt ((l + u) / 2) m (by omega) (by omega) c1
      omega
    · rw [if_neg c1]
      by_cases c2 : compar ((l + u) / 2) > 0
      · rw [if_pos c2]
        apply ih _ _ (by omega) hn
        refine ⟨m, ?_, h2, h3⟩
        by_contra hc
        have := hgt m ((l + u) / 2) (by omega) (by omega) c2
        omega
      · rw [if_neg c2]
        exact ⟨_, rfl⟩

theorem bsearch_sound (compar : Nat → Int) (nmemb i : Nat)
    (h : (bsearch compar nmemb).1 = some i) : i < nmemb ∧ compar i = 0 :=
  (bsearch_loop_sound compar nmemb 0 nmemb i h).2

theorem bsearch_probes (compar : Nat → Int) (nmemb p : Nat)
    (h : p ∈ (bsearch compar nmemb).2) : p < nmemb :=
  (bsearch_loop_probes compar nmemb 0 nmemb p h).2

theorem bsearch_complete (compar : Nat → Int) (nmemb : Nat)
    (hlt : ∀ i j, i ≤ j → j < nmemb → compar i < 0 → compar j < 0)
    (hgt : ∀ i j, i ≤ j → j < nmemb → compar j > 0 → compar i > 0)
    (hm : ∃ m, m < nmemb ∧ compar m = 0) : ∃ i, (bsearch compar nmemb).1 = some i := by
  obtain ⟨m, h1, h2⟩ := hm
  exact bsearch_loop_complete compar nmemb hlt hgt nmemb 0 nmemb (by omega) (le_refl _)
    ⟨m, Nat.zero_le _, h1, h2⟩

theorem bsearch_none (compar : Nat → Int) (nmemb : Nat)
    (h : ∀ i, i < nmemb → compar i ≠ 0) : (bsearch compar nmemb).1 = none := by
  cases e : (bsearch compar nmemb).1 with
  | none => rfl
  | some i => exact absurd (bsearch_sound compar nmemb i e).2 (h i (bsearch_sound compar nmemb i e).1)

theorem bsearch_fuel (compar : Nat → Int) (nmemb fuel : Nat) (h : nmemb ≤ fuel) :
    bsearch_loop compar fuel 0 nmemb = bsearch compar nmemb := by
  unfold bsearch
  rw [bsearch_loop_fuel compar fuel 0 nmemb (by omega),
    bsearch_loop_fuel compar nmemb 0 nmemb (by omega)]

/-! ## The name table -/

theorem NameRecord.cmp_sign (cmp16 : Nat → Nat → Int)
    (hcmp : ∀ x a, (cmp16 x a < 0 ↔ a < x) ∧ (cmp16 x a = 0 ↔ a = x)) (a b : NameRecord) :
    (NameRecord.cmp cmp16 a b = 0 ↔
      b.has_key a.platformID a.encodingID a.languageID a.nameID) ∧
    (NameRecord.cmp cmp16 a b < 0 ↔ ¬ b.key_le a) ∧
    (NameRecord.cmp cmp16 a b > 0 ↔ ¬ a.key_le b) := by
  have h1 := hcmp b.platformID a.platformID
  have h2 := hcmp b.encodingID a.encodingID
  have h3 := hcmp b.languageID a.languageID
  have h4 := hcmp b.nameID a.nameID
  unfold NameRecord.cmp NameRecord.has_key NameRecord.key_le
  simp only
  split_ifs <;> omega

theorem bytes_at_length (t : List Nat) (start n : Nat) : (bytes_at t start n).length = n := by
  simp [bytes_at]

theorem bytes_at_getD (t : List Nat) (start n k : Nat) (h : k < n) :
    (bytes_at t start n).getD k 0 = byte_at t (start + k) := by
  simp [bytes_at, List.getD_eq_getElem?_getD, h]

theorem copy_into_getD (buffer src : List Nat) (k : Nat) (h : k < src.length) :
    (copy_into buffer src).getD k 0 = src.getD k 0 := by
  simp [copy_into, List.getD_eq_getElem?_getD, List.getElem?_append_left h]

theorem copy_into_drop (buffer src : List Nat) :
    (copy_into buffer src).drop src.length = buffer.drop src.length := by
  simp [copy_into]

theorem copy_into_length (buffer src : List Nat) (h : src.length ≤ buffer.length) :
    (copy_into buffer src).length = buffer.length := by
  simp [copy_into]
  omega

theorem copy_into_take (buffer src : List Nat) :
    (copy_into buffer src).take src.length = src := by
  simp [copy_into]

theorem get_name_none (cmp16 : Nat → Nat → Int) (t : List Nat) (p e l n : Nat)
    (buffer : List Nat) (buffer_length : Nat)
    (h : (bsearch (fun i => NameRecord.cmp cmp16
      { platformID := p % 2 ^ 16, encodingID := e % 2 ^ 16, languageID := l % 2 ^ 16,
        nameID := n % 2 ^ 16, length := 0, offset := 0 } (name.nameRecordZ t i))
      (name.count t)).1 = none) :
    name.get_name cmp16 t p e l n buffer buffer_length =
      { ret := 0, buffer := buffer,
        probes := (bsearch (fun i => NameRecord.cmp cmp16
          { platformID := p % 2 ^ 16, encodingID := e % 2 ^ 16, languageID := l % 2 ^ 16,
            nameID := n % 2 ^ 16, length := 0, offset := 0 } (name.nameRecordZ t i))
          (name.count t)).2,
        source := none } := by
  unfold name.get_name
  simp only
  split
  · rename_i pr heq
    rw [heq]
  · rename_i m pr heq
    rw [heq] at h
    cases h

theorem get_name_some (cmp16 : Nat → Nat → Int) (t : List Nat) (p e l n : Nat)
    (buffer : List Nat) (buffer_length m : Nat)
    (h : (bsearch (fun i => NameRecord.cmp cmp16
      { platformID := p % 2 ^ 16, encodingID := e % 2 ^ 16, languageID := l % 2 ^ 16,
        nameID := n % 2 ^ 16, length := 0, offset := 0 } (name.nameRecordZ t i))
      (name.count t)).1 = some m) :
    name.get_name cmp16 t p e l n buffer buffer_length =
      { ret := min buffer_length (name.nameRecordZ t m).length,
        buffer := copy_into buffer (bytes_at t
          (name.stringOffset t + (name.nameRecordZ t m).offset)
          (min buffer_length (name.nameRecordZ t m).length)),
        probes := (bsearch (fun i => NameRecord.cmp cmp16
          { platformID := p % 2 ^ 16, encodingID := e % 2 ^ 16, languageID := l % 2 ^ 16,
            nameID := n % 2 ^ 16, length := 0, offset := 0 } (name.nameRecordZ t i))
          (name.count t)).2,
        source := some (name.stringOffset t + (name.nameRecordZ t m).offset,
          min buffer_length (name.nameRecordZ t m).length) } := by
  unfold name.get_name
  simp only
  split
  · rename_i pr heq
    rw [heq] at h
    cases h
  · rename_i m1 pr heq
    rw [heq] at h
    cases h
    rw [heq]

/-- Either no record has the key and `name::get_name` does nothing, or it copies from a
record that `bsearch` found, which has the key. -/
theorem get_name_cases (cmp16 : Nat → Nat → Int)
    (hcmp : ∀ x a, (cmp16 x a < 0 ↔ a < x) ∧ (cmp16 x a = 0 ↔ a = x)) (t : List Nat)
    (p e l n : Nat) (buffer : List Nat) (buffer_length : Nat) :
    (∃ probes, (∀ i ∈ probes, i < name.count t) ∧
      name.get_name cmp16 t p e l n buffer buffer_length =
        { ret := 0, buffer := buffer, probes := probes, source := none }) ∨
    (∃ m probes, m < name.count t ∧ (∀ i ∈ probes, i < name.count t) ∧
      (name.nameRecordZ t m).has_key (p % 2 ^ 16) (e % 2 ^ 16) (l % 2 ^ 16) (n % 2 ^ 16) ∧
      name.get_name cmp16 t p e l n buffer buffer_length =
        { ret := min buffer_length (name.nameRecordZ t m).length,
          buffer := copy_into buffer (bytes_at t
            (name.stringOffset t + (name.nameRecordZ t m).offset)
            (min buffer_length (name.nameRecordZ t m).length)),
          probes := probes,
          source := some (name.stringOffset t + (name.nameRecordZ t m).offset,
            min buffer_length (name.nameRecordZ t m).length) }) := by
  cases hb : (bsearch (fun i => NameRecord.cmp cmp16
      { platformID := p % 2 ^ 16, encodingID := e % 2 ^ 16, languageID := l % 2 ^ 16,
        nameID := n % 2 ^ 16, length := 0, offset := 0 } (name.nameRecordZ t i))
      (name.count t)).1 with
  | none =>
    left
    exact ⟨_, fun i hi => bsearch_probes _ _ i hi, get_name_none cmp16 t p e l n buffer _ hb⟩
  | some m =>
    right
    obtain ⟨h1, h2⟩ := bsearch_sound _ _ m hb
    exact ⟨m, _, h1, fun i hi => bsearch_probes _ _ i hi,
      ((NameRecord.cmp_sign cmp16 hcmp _ _).1).1 h2,
      get_name_some cmp16 t p e l n buffer _ m hb⟩

/-- In a table sorted by key, `name::get_name` finds a record when one has the key. -/
theorem get_name_finds (cmp16 : Nat → Nat → Int)
    (hcmp : ∀ x a, (cmp16 x a < 0 ↔ a < x) ∧ (cmp16 x a = 0 ↔ a = x)) (t : List Nat)
    (p e l n : Nat) (buffer : List Nat) (buffer_length : Nat)
    (hsorted : ∀ i j, i ≤ j → j < name.count t →
      (name.nameRecordZ t i).key_le (name.nameRecordZ t j))
    (hm : ∃ i, i < name.count t ∧
      (name.nameRecordZ t i).has_key (p % 2 ^ 16) (e % 2 ^ 16) (l % 2 ^ 16) (n % 2 ^ 16)) :
    (name.get_name cmp16 t p e l n buffer buffer_length).source ≠ none := by
  obtain ⟨i, hi, hk⟩ := hm
  have hex : ∃ m, (bsearch (fun i => NameRecord.cmp cmp16
      { platformID := p % 2 ^ 16, encodingID := e % 2 ^ 16, languageID := l % 2 ^ 16,
        nameID := n % 2 ^ 16, length := 0, offset := 0 } (name.nameRecordZ t i))
      (name.count t)).1 = some m := by
    apply bsearch_complete
    · intro a b hab hb hlt
      have ha := ((NameRecord.cmp_sign cmp16 hcmp _ _).2.1).1 hlt
      apply ((NameRecord.cmp_sign cmp16 hcmp _ _).2.1).2
      have hs := hsorted a b hab hb
      unfold NameRecord.key_le at ha hs ⊢
      simp only at ha ⊢
      omega
    · intro a b hab hb hgt
      have ha := ((NameRecord.cmp_sign cmp16 hcmp _ _).2.2).1 hgt
      apply ((NameRecord.cmp_sign cmp16 hcmp _ _).2.2).2
      have hs := hsorted a b hab hb
      unfold NameRecord.key_le at ha hs ⊢
      simp only at ha ⊢
      omega
    · exact ⟨i, hi, ((NameRecord.cmp_sign cmp16 hcmp _ _).1).2 hk⟩
  obtain ⟨m, hm⟩ := hex
  rw [get_name_some cmp16 t p e l n buffer _ m hm]
  simp

/-- In a table sorted by key in which a record has the key, `name::get_name` copies from
one record with the key, the same for every buffer. -/
theorem get_name_found (cmp16 : Nat → Nat → Int)
    (hcmp : ∀ x a, (cmp16 x a < 0 ↔ a < x) ∧ (cmp16 x a = 0 ↔ a = x)) (t : List Nat)
    (p e l n : Nat)
    (hsorted : ∀ i j, i ≤ j → j < name.count t →
      (name.nameRecordZ t i).key_le (name.nameRecordZ t j))
    (hm : ∃ i, i < name.count t ∧
      (name.nameRecordZ t i).has_key (p % 2 ^ 16) (e % 2 ^ 16) (l % 2 ^ 16) (n % 2 ^ 16)) :
    ∃ m probes, m < name.count t ∧ (∀ i ∈ probes, i < name.count t) ∧
      (name.nameRecordZ t m).has_key (p % 2 ^ 16) (e % 2 ^ 16) (l % 2 ^ 16) (n % 2 ^ 16) ∧
      ∀ (buffer : List Nat) (buffer_length : Nat),
        name.get_name cmp16 t p e l n buffer buffer_length =
          { ret := min buffer_length (name.nameRecordZ t m).length,
            buffer := copy_into buffer (bytes_at t
              (name.stringOffset t + (name.nameRecordZ t m).offset)
              (min buffer_length (name.nameRecordZ t m).length)),
            probes := probes,
            source := some (name.stringOffset t + (name.nameRecordZ t m).offset,
              min buffer_length (name.nameRecordZ t m).length) } := by
  have hf := get_name_finds cmp16 hcmp t p e l n [] 0 hsorted hm
  cases hb : (bsearch (fun i => NameRecord.cmp cmp16
      { platformID := p % 2 ^ 16, encodingID := e % 2 ^ 16, languageID := l % 2 ^ 16,
        nameID := n % 2 ^ 16, length := 0, offset := 0 } (name.nameRecordZ t i))
      (name.count t)).1 with
  | none =>
    rw [get_name_none cmp16 t p e l n [] 0 hb] at hf
    exact absurd rfl hf
  | some m =>
    obtain ⟨h1, h2⟩ := bsearch_sound _ _ m hb
    exact ⟨m, _, h1, fun i hi => bsearch_probes _ _ i hi,
      ((NameRecord.cmp_sign cmp16 hcmp _ _).1).1 h2,
      fun buffer buffer_length => get_name_some cmp16 t p e l n buffer buffer_length m hb⟩

theorem byte_at_lt (t : List Nat) (i : Nat) : byte_at t i < 256 :=
  Nat.mod_lt _ (by decide)

theorem HBUINT16_at_lt (t : List Nat) (i : Nat) : HBUINT16_at t i < 2 ^ 16 := by
  have h1 := byte_at_lt t i
  have h2 := byte_at_lt t (i + 1)
  unfold HBUINT16_at
  omega

theorem check_range_iff (size base len : Nat) :
    check_range size base len = true ↔ base + len ≤ size := by
  unfold check_range
  simp only [decide_eq_true_eq]
  omega

theorem name_sanitize_iff (t : List Nat) :
    name.sanitize t = true ↔
      (6 ≤ t.length ∧ (name.format t = 0 ∨ name.format t = 1) ∧
        6 + name.count t * 12 ≤ t.length ∧
        ∀ i, i < name.count t →
          name.stringOffset t + (name.nameRecordZ t i).offset + (name.nameRecordZ t i).length
            ≤ t.length) := by
  have hc : name.count t < 2 ^ 16 := HBUINT16_at_lt t 2
  unfold name.sanitize name.sanitize_records NameRecord.sanitize check_array check_struct
  simp only [Bool.and_eq_true, decide_eq_true_eq, List.all_eq_true, List.mem_range,
    check_range_iff, name.nameRecordZ]
  constructor
  · rintro ⟨h1, h2, ⟨-, h3⟩, h4⟩
    refine ⟨by omega, h2, by omega, ?_⟩
    intro i hi
    have := (h4 i hi).2
    omega
  · rintro ⟨h1, h2, h3, h4⟩
    refine ⟨by omega, h2, ⟨by omega, by omega⟩, ?_⟩
    intro i hi
    have := h4 i hi
    exact ⟨by omega, by omega⟩

/-- What `name::get_name` reads, whatever the comparison of 16-bit integers is: the
records the binary search probes are among the `count` records, and `memcpy` reads
`min (buffer_length, length)` bytes from `stringOffset + offset` of one of them. -/
theorem get_name_reads (cmp16 : Nat → Nat → Int) (t : List Nat) (p e l n : Nat)
    (buffer : List Nat) (buffer_length : Nat) :
    (∀ i ∈ (name.get_name cmp16 t p e l n buffer buffer_length).probes, i < name.count t) ∧
    (((name.get_name cmp16 t p e l n buffer buffer_length).source = none ∧
        (name.get_name cmp16 t p e l n buffer buffer_length).ret = 0 ∧
        (name.get_name cmp16 t p e l n buffer buffer_length).buffer = buffer) ∨
      ∃ m, m < name.count t ∧
        (name.get_name cmp16 t p e l n buffer buffer_length).source =
          some (name.stringOffset t + (name.nameRecordZ t m).offset,
            min buffer_length (name.nameRecordZ t m).length) ∧
        (name.get_name cmp16 t p e l n buffer buffer_length).ret =
          min buffer_length (name.nameRecordZ t m).length ∧
        (name.get_name cmp16 t p e l n buffer buffer_length).buffer =
          copy_into buffer (bytes_at t (name.stringOffset t + (name.nameRecordZ t m).offset)
            (min buffer_length (name.nameRecordZ t m).length))) := by
  cases hb : (bsearch (fun i => NameRecord.cmp cmp16
      { platformID := p % 2 ^ 16, encodingID := e % 2 ^ 16, languageID := l % 2 ^ 16,
        nameID := n % 2 ^ 16, length := 0, offset := 0 } (name.nameRecordZ t i))
      (name.count t)).1 with
  | none =>
    rw [get_name_none cmp16 t p e l n buffer _ hb]
    exact ⟨fun i hi => bsearch_probes _ _ i hi, Or.inl ⟨rfl, rfl, rfl⟩⟩
  | some m =>
    rw [get_name_some cmp16 t p e l n buffer _ m hb]
    exact ⟨fun i hi => bsearch_probes _ _ i hi,
      Or.inr ⟨m, (bsearch_sound _ _ m hb).1, rfl, rfl, rfl⟩⟩

/-! ## The post table -/

theorem content_length (names : Nat → List Nat) (t : List Nat) (s : hb_bytes_t) :
    (s.content names t).length = s.len names := by
  cases s with
  | null => rfl
  | format1 i => rfl
  | table b l => exact bytes_at_length t b l

theorem strncpy_length : ∀ (src : List Nat) (n : Nat), (strncpy src n).length = n := by
  intro src n
  induction n generalizing src with
  | zero => cases src <;> rfl
  | succ n ih =>
    cases src with
    | nil => simp [strncpy]
    | cons c src =>
      unfold strncpy
      split
      · simp
      · simp [ih]

theorem strncpy_copied : ∀ (src : List Nat) (n i : Nat), i < n →
    (∀ j, j ≤ i → src.getD j 0 ≠ 0) → (strncpy src n).getD i 0 = src.getD i 0 := by
  intro src n
  induction n generalizing src with
  | zero => intro i hi; omega
  | succ n ih =>
    intro i hi hnz
    cases src with
    | nil =>
      have := hnz 0 (Nat.zero_le _)
      simp at this
    | cons c src =>
      have hc : c ≠ 0 := by
        have := hnz 0 (Nat.zero_le _)
        simpa using this
      unfold strncpy
      rw [if_neg hc]
      cases i with
      | zero => simp
      | succ i =>
        simp only [List.getD_cons_succ]
        apply ih src i (by omega)
        intro j hj
        have := hnz (j + 1) (by omega)
        simpa using this

theorem getD_replicate_zero (n i : Nat) : (List.replicate n 0).getD i 0 = 0 := by
  simp only [List.getD_eq_getElem?_getD, List.getElem?_replicate]
  split <;> rfl

theorem strncpy_padded : ∀ (src : List Nat) (n i : Nat), i < n →
    (∃ j, j ≤ i ∧ src.getD j 0 = 0) → (strncpy src n).getD i 0 = 0 := by
  intro src n
  induction n generalizing src with
  | zero => intro i hi; omega
  | succ n ih =>
    intro i hi hz
    cases src with
    | nil =>
      unfold strncpy
      exact getD_replicate_zero _ _
    | cons c src =>
      unfold strncpy
      split
      · exact getD_replicate_zero _ _
      · rename_i hc
        obtain ⟨j, hj, hjz⟩ := hz
        cases i with
        | zero =>
          have : j = 0 := by omega
          subst this
          simp at hjz
          exact absurd hjz hc
        | succ i =>
          simp only [List.getD_cons_succ]
          cases j with
          | zero =>
            simp at hjz
            exact absurd hjz hc
          | succ j =>
            apply ih src i (by omega)
            exact ⟨j, by omega, by simpa using hjz⟩

theorem copy_into_getD_ge (buffer src : List Nat) (k : Nat) (h : src.length ≤ k) :
    (copy_into buffer src).getD k 0 = buffer.getD k 0 := by
  unfold copy_into
  simp only [List.getD_eq_getElem?_getD]
  rw [List.getElem?_append_right h, List.getElem?_drop]
  congr 2
  omega

theorem getD_set_self (l : List Nat) (i v : Nat) (h : i < l.length) :
    (l.set i v).getD i 0 = v := by
  simp [List.getD_eq_getElem?_getD, List.getElem?_set, h]

theorem getD_set_ne (l : List Nat) (i j v : Nat) (h : i ≠ j) :
    (l.set i v).getD j 0 = l.getD j 0 := by
  simp [List.getD_eq_getElem?_getD, List.getElem?_set, h]

theorem getD_of_drop (t : List Nat) (a : Nat) (s r : List Nat) (h : t.drop a = s ++ r)
    (i : Nat) (hi : i < s.length) : t.getD (a + i) 0 = s.getD i 0 := by
  have h1 : (t.drop a)[i]? = t[a + i]? := List.getElem?_drop t a i
  rw [h, List.getElem?_append_left hi] at h1
  simp only [List.getD_eq_getElem?_getD, h1]

theorem length_of_drop (t : List Nat) (a : Nat) (s : List Nat) (h : t.drop a = s)
    (hs : s ≠ []) : t.length = a + s.length := by
  have h1 : (t.drop a).length = t.length - a := List.length_drop a t
  rw [h] at h1
  have : 0 < s.length := List.length_pos.2 hs
  omega

theorem drop_pascal (s r : List Nat) : ((s.length :: s) ++ r).drop (1 + s.length) = r := by
  rw [Nat.add_comm, List.cons_append, List.drop_succ_cons, List.drop_left]

theorem init_loop_fuel (t : List Nat) (pool end_ : Nat) :
    ∀ (fuel data : Nat) (acc : List Nat), end_ - data ≤ fuel →
      init_loop t pool end_ fuel data acc = init_loop t pool end_ (end_ - data) data acc := by
  intro fuel
  induction fuel using Nat.strong_induction_on with
  | _ fuel ih =>
    intro data acc h
    by_cases hc : data < end_ ∧ data + byte_at t data ≤ end_
    · obtain ⟨f, rfl⟩ : ∃ f, fuel = f + 1 := ⟨fuel - 1, by omega⟩
      obtain ⟨g, hg⟩ : ∃ g, end_ - data = g + 1 := ⟨end_ - data - 1, by omega⟩
      rw [hg]
      unfold init_loop
      rw [if_pos hc, if_pos hc]
      rw [ih f (by omega) _ _ (by omega), ih g (by omega) _ _ (by omega)]
    · cases fuel with
      | zero =>
        have : end_ - data = 0 := by omega
        rw [this]
      | succ f =>
        unfold init_loop
        rw [if_neg hc]
        cases hd : end_ - data with
        | zero => rfl
        | succ g =>
          simp only
          rw [if_neg hc]

theorem init_loop_pool (t : List Nat) (pool : Nat) :
    ∀ (strs : List (List Nat)) (fuel data : Nat) (acc : List Nat),
      t.drop data = pascal_pool strs → (∀ s ∈ strs, s.length < 256) →
      t.length - data ≤ fuel →
      init_loop t pool t.length fuel data acc = acc ++ pool_starts pool data strs := by
  intro strs
  induction strs with
  | nil =>
    intro fuel data acc hd _ _
    have hge : t.length ≤ data := by
      have := List.drop_eq_nil_iff.1 (by simpa [pascal_pool] using hd : t.drop data = [])
      exact this
    cases fuel with
    | zero => simp [init_loop, pool_starts]
    | succ f =>
      unfold init_loop
      rw [if_neg (by omega)]
      simp [pool_starts]
  | cons s rest ih =>
    intro fuel data acc hd hs hf
    have hd2 : t.drop data = (s.length :: s) ++ pascal_pool rest := by simpa [pascal_pool] using hd
    have hlen : t.length = data + ((s.length :: s) ++ pascal_pool rest).length :=
      length_of_drop t data _ hd2 (by simp)
    simp only [List.length_append, List.length_cons] at hlen
    have hb : byte_at t data = s.length := by
      have := getD_of_drop t data (s.length :: s) (pascal_pool rest) hd2 0 (by simp)
      simp only [Nat.add_zero, List.getD_cons_zero] at this
      unfold byte_at
      rw [this]
      exact Nat.mod_eq_of_lt (hs s (List.mem_cons_self s rest))
    obtain ⟨f, rfl⟩ : ∃ f, fuel = f + 1 := ⟨fuel - 1, by omega⟩
    unfold init_loop
    rw [if_pos ⟨by omega, by omega⟩, hb]
    have hd3 : t.drop (data + (1 + s.length)) = pascal_pool rest := by
      rw [← List.drop_drop, hd2]
      exact drop_pascal s (pascal_pool rest)
    rw [ih f (data + (1 + s.length)) (acc ++ [data - pool]) hd3
      (fun x hx => hs x (List.mem_cons_of_mem s hx)) (by omega)]
    simp [pool_starts]

theorem pool_starts_length (pool : Nat) :
    ∀ (strs : List (List Nat)) (data : Nat), (pool_starts pool data strs).length = strs.length := by
  intro strs
  induction strs with
  | nil => intro data; rfl
  | cons s rest ih => intro data; simp [pool_starts, ih]

/-- The `j`-th offset of a pool of Pascal strings leads to the length byte of the `j`-th
string, and the bytes after it are the string. -/
theorem pool_starts_spec (t : List Nat) (pool : Nat) :
    ∀ (strs : List (List Nat)) (data j : Nat), pool ≤ data →
      t.drop data = pascal_pool strs →
      (∀ s ∈ strs, s.length < 256 ∧ ∀ b ∈ s, b < 256) → j < strs.length →
      byte_at t (pool + (pool_starts pool data strs).getD j 0) = (strs.getD j []).length ∧
      bytes_at t (pool + (pool_starts pool data strs).getD j 0 + 1) (strs.getD j []).length
        = strs.getD j [] ∧
      pool + (pool_starts pool data strs).getD j 0 + 1 + (strs.getD j []).length ≤ t.length := by
  intro strs
  induction strs with
  | nil => intro data j _ _ _ hj; simp at hj
  | cons s rest ih =>
    intro data j hp hd hs hj
    have hd2 : t.drop data = (s.length :: s) ++ pascal_pool rest := by simpa [pascal_pool] using hd
    have hlen : t.length = data + ((s.length :: s) ++ pascal_pool rest).length :=
      length_of_drop t data _ hd2 (by simp)
    simp only [List.length_append, List.length_cons] at hlen
    have hd3 : t.drop (data + (1 + s.length)) = pascal_pool rest := by
      rw [← List.drop_drop, hd2]
      exact drop_pascal s (pascal_pool rest)
    cases j with
    | zero =>
      simp only [pool_starts, List.getD_cons_zero]
      have e : pool + (data - pool) = data := by omega
      rw [e]
      have hb : byte_at t data = s.length := by
        have := getD_of_drop t data (s.length :: s) (pascal_pool rest) hd2 0 (by simp)
        simp only [Nat.add_zero, List.getD_cons_zero] at this
        unfold byte_at
        rw [this]
        exact Nat.mod_eq_of_lt (hs s (List.mem_cons_self s rest)).1
      refine ⟨hb, ?_, by omega⟩
      apply List.ext_getElem
      · simp [bytes_at]
      · intro i h1 h2
        simp only [bytes_at, List.getElem_map, List.getElem_range]
        have := getD_of_drop t data (s.length :: s) (pascal_pool rest) hd2 (i + 1)
          (by simp; omega)
        simp only [List.getD_cons_succ] at this
        unfold byte_at
        have e2 : data + 1 + i = data + (i + 1) := by omega
        rw [e2, this]
        have hi : i < s.length := h2
        rw [List.getD_eq_getElem _ _ hi]
        exact Nat.mod_eq_of_lt ((hs s (List.mem_cons_self s rest)).2 _ (List.getElem_mem hi))
    | succ j =>
      simp only [pool_starts, List.getD_cons_succ]
      exact ih (data + (1 + s.length)) j (by omega) hd3
        (fun x hx => hs x (List.mem_cons_of_mem s hx)) (by simpa using hj)

theorem init_v2 (t : List Nat) (hv : HBUINT32_at t 0 = 0x00020000) :
    accelerator_t.init t =
      { table := t, version := 0x00020000, glyphNameIndex := 32,
        index_to_offset :=
          init_loop t (32 + 2 + 2 * HBUINT16_at t 32) t.length t.length
            (32 + 2 + 2 * HBUINT16_at t 32) [],
        pool := 32 + 2 + 2 * HBUINT16_at t 32, gids_sorted_by_name := none } := by
  unfold accelerator_t.init
  simp only [hv]
  rfl

/-- In a version-2 accelerator whose pool is a concatenation of Pascal strings, the index
has one offset per string. -/
theorem init_pool (t : List Nat) (strs : List (List Nat))
    (hv : HBUINT32_at t 0 = 0x00020000)
    (hpool : t.drop (32 + 2 + 2 * HBUINT16_at t 32) = pascal_pool strs)
    (hstr : ∀ s ∈ strs, s.length < 256) :
    (accelerator_t.init t).index_to_offset =
      pool_starts (32 + 2 + 2 * HBUINT16_at t 32) (32 + 2 + 2 * HBUINT16_at t 32) strs := by
  rw [init_v2 t hv]
  simp only
  rw [init_loop_pool t _ strs t.length _ [] hpool hstr (by omega)]
  rfl

/-- What the loop of `accelerator_t::init` checks of an offset before appending it: the
length byte lies inside the blob, and the string without its last byte does. -/
theorem init_loop_bound (t : List Nat) (pool end_ : Nat) :
    ∀ (fuel data : Nat) (acc : List Nat), pool ≤ data →
      (∀ o ∈ acc, pool + o < end_ ∧ pool + o + byte_at t (pool + o) ≤ end_) →
      ∀ o ∈ init_loop t pool end_ fuel data acc,
        pool + o < end_ ∧ pool + o + byte_at t (pool + o) ≤ end_ := by
  intro fuel
  induction fuel with
  | zero =>
    intro data acc _ hacc o ho
    exact hacc o ho
  | succ f ih =>
    intro data acc hp hacc o ho
    unfold init_loop at ho
    by_cases hc : data < end_ ∧ data + byte_at t data ≤ end_
    · rw [if_pos hc] at ho
      refine ih _ _ (by omega) ?_ o ho
      intro x hx
      rcases List.mem_append.1 hx with h | h
      · exact hacc x h
      · simp only [List.mem_singleton] at h
        subst h
        have e : pool + (data - pool) = data := by omega
        rw [e]
        exact hc
    · rw [if_neg hc] at ho
      exact hacc o ho

theorem memcmp_anti : ∀ (a b : List Nat), memcmp a b = - memcmp b a := by
  intro a
  induction a with
  | nil => intro b; cases b <;> simp [memcmp]
  | cons x s ih =>
    intro b
    cases b with
    | nil => simp [memcmp]
    | cons y r =>
      unfold memcmp
      by_cases h : x = y
      · subst h
        simp [ih r]
      · have h2 : ¬ y = x := fun e => h e.symm
        simp only [ne_eq, h, h2, not_false_eq_true, if_true]
        omega

theorem memcmp_eq_zero : ∀ (a b : List Nat), a.length = b.length →
    (memcmp a b = 0 ↔ a = b) := by
  intro a
  induction a with
  | nil =>
    intro b h
    cases b with
    | nil => simp [memcmp]
    | cons y r => simp at h
  | cons x s ih =>
    intro b h
    cases b with
    | nil => simp at h
    | cons y r =>
      unfold memcmp
      by_cases hxy : x = y
      · subst hxy
        simp only [ne_eq, not_true_eq_false, if_false, List.cons.injEq, true_and]
        exact ih r (by simpa using h)
      · simp only [ne_eq, hxy, not_false_eq_true, if_true, List.cons.injEq, false_and,
          iff_false]
        omega

theorem memcmp_trans : ∀ (a b c : List Nat), a.length = b.length → b.length = c.length →
    memcmp a b ≤ 0 → memcmp b c ≤ 0 → memcmp a c ≤ 0 := by
  intro a
  induction a with
  | nil => intro b c _ _ _ _; cases c <;> simp [memcmp]
  | cons x s ih =>
    intro b c h1 h2 hab hbc
    cases b with
    | nil => simp at h1
    | cons y r =>
      cases c with
      | nil => simp at h2
      | cons z q =>
        unfold memcmp at hab hbc ⊢
        by_cases hxy : x = y
        · subst hxy
          simp only [ne_eq, not_true_eq_false, if_false] at hab
          by_cases hxz : x = z
          · subst hxz
            simp only [ne_eq, not_true_eq_false, if_false] at hbc ⊢
            exact ih r q (by simpa using h1) (by simpa using h2) hab hbc
          · simp only [ne_eq, hxz, not_false_eq_true, if_true] at hbc ⊢
            exact hbc
        · simp only [ne_eq, hxy, not_false_eq_true, if_true] at hab
          by_cases hyz : y = z
          · subst hyz
            simp only [ne_eq, hxy, not_false_eq_true, if_true]
            exact hab
          · simp only [ne_eq, hyz, not_false_eq_true, if_true] at hbc
            have hxz : ¬ x = z := by omega
            simp only [ne_eq, hxz, not_false_eq_true, if_true]
            omega

theorem length_then_bytes_same (x y : List Nat) (h : x.length = y.length) :
    length_then_bytes x y = memcmp y x := by
  unfold length_then_bytes
  rw [if_neg (not_not.2 h)]

theorem length_then_bytes_differ (x y : List Nat) (h : x.length ≠ y.length) :
    length_then_bytes x y = (y.length : Int) - (x.length : Int) := by
  unfold length_then_bytes
  rw [if_pos h]

/-- The comparison by length first and bytewise then is a total order on byte strings. -/
theorem length_then_bytes_order :
    (∀ x y, length_then_bytes x y = 0 ↔ x = y) ∧
    (∀ x y, length_then_bytes x y < 0 ↔ 0 < length_then_bytes y x) ∧
    (∀ x y z, length_then_bytes x y ≤ 0 → length_then_bytes y z ≤ 0 →
      length_then_bytes x z ≤ 0) := by
  refine ⟨?_, ?_, ?_⟩
  · intro x y
    by_cases h : x.length = y.length
    · rw [length_then_bytes_same x y h, memcmp_eq_zero y x h.symm]
      exact eq_comm
    · rw [length_then_bytes_differ x y h]
      constructor
      · intro e
        omega
      · intro e
        exact absurd (congrArg List.length e) h
  · intro x y
    by_cases h : x.length = y.length
    · rw [length_then_bytes_same x y h, length_then_bytes_same y x h.symm, memcmp_anti y x]
      omega
    · rw [length_then_bytes_differ x y h, length_then_bytes_differ y x (fun e => h e.symm)]
      omega
  · intro x y z hxy hyz
    by_cases h1 : x.length = y.length
    · by_cases h2 : y.length = z.length
      · rw [length_then_bytes_same x y h1] at hxy
        rw [length_then_bytes_same y z h2] at hyz
        rw [length_then_bytes_same x z (h1.trans h2)]
        exact memcmp_trans z y x h2.symm h1.symm hyz hxy
      · rw [length_then_bytes_differ y z h2] at hyz
        rw [length_then_bytes_differ x z (by omega)]
        omega
    · rw [length_then_bytes_differ x y h1] at hxy
      by_cases h2 : y.length = z.length
      · rw [length_then_bytes_differ x z (by omega)]
        omega
      · rw [length_then_bytes_differ y z h2] at hyz
        rw [length_then_bytes_differ x z (by omega)]
        omega

/-- A binary search with `cmp_key` over glyph ids sorted with `cmp_gids` finds the id of a
name that only one glyph has. -/
theorem bsearch_gids (names : Nat → List Nat) (bytes_cmp : List Nat → List Nat → Int)
    (acc : accelerator_t) (gids : List Nat) (count g : Nat)
    (h0 : ∀ x y, bytes_cmp x y = 0 ↔ x = y)
    (hanti : ∀ x y, bytes_cmp x y < 0 ↔ 0 < bytes_cmp y x)
    (htrans : ∀ x y z, bytes_cmp x y ≤ 0 → bytes_cmp y z ≤ 0 → bytes_cmp x z ≤ 0)
    (hperm : gids.Perm (List.range count))
    (hsorted : gids.Pairwise (fun a b => acc.cmp_gids names bytes_cmp a b ≤ 0))
    (hg : g < count)
    (huniq : ∀ o, o < count → o ≠ g →
      (acc.find_glyph_name o).content names acc.table ≠
        (acc.find_glyph_name g).content names acc.table) :
    ∃ i, (hb_bsearch_r (fun i => acc.cmp_key names bytes_cmp
        ((acc.find_glyph_name g).content names acc.table) (gids.getD i 0)) count).1 = some i ∧
      gids.getD i 0 = g := by
  have hlen : gids.length = count := by
    rw [hperm.length_eq, List.length_range]
  have hpair : ∀ i j, i < j → j < count →
      acc.cmp_gids names bytes_cmp (gids.getD i 0) (gids.getD j 0) ≤ 0 := by
    intro i j hij hj
    have hj2 : j < gids.length := by omega
    have hi2 : i < gids.length := by omega
    rw [List.getD_eq_getElem _ _ hi2, List.getD_eq_getElem _ _ hj2]
    exact (List.pairwise_iff_getElem.1 hsorted) i j hi2 hj2 hij
  have hfound : ∃ i, (hb_bsearch_r (fun i => acc.cmp_key names bytes_cmp
      ((acc.find_glyph_name g).content names acc.table) (gids.getD i 0)) count).1 = some i := by
    unfold hb_bsearch_r
    apply bsearch_complete
    · intro i j hij hj hlt
      rcases Nat.eq_or_lt_of_le hij with e | e
      · subst e
        exact hlt
      · have hp := hpair i j e hj
        unfold accelerator_t.cmp_gids at hp
        unfold accelerator_t.cmp_key at hlt ⊢
        have h1 := htrans _ _ _ hp (le_of_lt hlt)
        rcases lt_or_eq_of_le h1 with h2 | h2
        · exact h2
        · rw [(h0 _ _).1 h2] at hp
          have := (hanti _ _).1 hlt
          omega
    · intro i j hij hj hgt
      rcases Nat.eq_or_lt_of_le hij with e | e
      · subst e
        exact hgt
      · have hp := hpair i j e hj
        unfold accelerator_t.cmp_gids at hp
        unfold accelerator_t.cmp_key at hgt ⊢
        by_contra hc
        have := htrans _ _ _ hp (not_lt.1 hc)
        omega
    · have hmem : g ∈ gids := (hperm.mem_iff).2 (List.mem_range.2 hg)
      obtain ⟨m, hm, hmg⟩ := List.getElem_of_mem hmem
      refine ⟨m, by omega, ?_⟩
      show acc.cmp_key names bytes_cmp _ (gids.getD m 0) = 0
      rw [List.getD_eq_getElem _ _ hm, hmg]
      unfold accelerator_t.cmp_key
      exact (h0 _ _).2 rfl
  obtain ⟨i, hi⟩ := hfound
  refine ⟨i, hi, ?_⟩
  unfold hb_bsearch_r at hi
  obtain ⟨hic, hz⟩ := bsearch_sound _ _ i hi
  have hz : acc.cmp_key names bytes_cmp
      ((acc.find_glyph_name g).content names acc.table) (gids.getD i 0) = 0 := hz
  unfold accelerator_t.cmp_key at hz
  have hname := (h0 _ _).1 hz
  have hi2 : i < gids.length := by omega
  have hmem : gids.getD i 0 ∈ gids := by
    rw [List.getD_eq_getElem _ _ hi2]
    exact List.getElem_mem hi2
  have hlt : gids.getD i 0 < count := List.mem_range.1 ((hperm.mem_iff).1 hmem)
  by_contra hne
  exact huniq _ hlt hne hname

/-! ## Counting the references of sub-blobs -/

theorem countP_set_slot (l : List (Option hb_blob_t)) (i : Nat) (a : Option hb_blob_t)
    (p : Option hb_blob_t → Bool) (s : Option hb_blob_t) (h : l[i]? = some s) :
    (l.set i a).countP p + (if p s = true then 1 else 0) =
      l.countP p + (if p a = true then 1 else 0) := by
  induction l generalizing i with
  | nil => simp at h
  | cons x xs ih =>
    cases i with
    | zero =>
      simp only [List.getElem?_cons_zero, Option.some.injEq] at h
      subst h
      simp only [List.set_cons_zero, List.countP_cons]
      omega
    | succ i =>
      simp only [List.getElem?_cons_succ] at h
      simp only [List.set_cons_succ, List.countP_cons]
      have := ih i h
      omega

theorem blob_of_slot (w : World) (i : Nat) (b : hb_blob_t) (h : w.heap[i]? = some (some b)) :
    w.blob (i + 2) = b ∧ w.live (i + 2) = true := by
  simp [World.blob, World.live, h]

theorem slot_of_live (w : World) (p : Nat) (h : w.live p = true) :
    ∃ i, p = i + 2 ∧ w.heap[i]? = some (some (w.blob p)) := by
  match p with
  | 0 => simp [World.live] at h
  | 1 => simp [World.live] at h
  | i + 2 =>
    refine ⟨i, rfl, ?_⟩
    simp only [World.live] at h
    rcases hs : w.heap[i]? with _ | _ | b
    · simp [hs] at h
    · simp [hs] at h
    · simp [World.blob, hs]

theorem subs_modify (w : World) (p z : Nat) (f : hb_blob_t → hb_blob_t)
    (hl : w.live p = true) :
    (w.modify p f).subs z + (if refers z (some (w.blob p)) = true then 1 else 0) =
      w.subs z + (if refers z (some (f (w.blob p))) = true then 1 else 0) := by
  obtain ⟨i, rfl, hs⟩ := slot_of_live w p hl
  have hm : (w.modify (i + 2) f).heap = w.heap.set i (some (f (w.blob (i + 2)))) := by
    simp [World.modify, hs]
  unfold World.subs
  rw [hm]
  exact countP_set_slot w.heap i _ _ _ hs

theorem subs_modify_fields (w : World) (p z : Nat) (f : hb_blob_t → hb_blob_t)
    (hf : ∀ b, (f b).destroy = b.destroy ∧ (f b).user_data = b.user_data) :
    (w.modify p f).subs z = w.subs z := by
  by_cases hl : w.live p = true
  · have := subs_modify w p z f hl
    have e : refers z (some (f (w.blob p))) = refers z (some (w.blob p)) := by
      simp [refers, (hf (w.blob p)).1, (hf (w.blob p)).2]
    rw [e] at this
    omega
  · have hm : w.modify p f = w := by
      match p with
      | 0 => rfl
      | 1 => rfl
      | i + 2 =>
        simp only [World.live] at hl
        simp only [World.modify]
        rcases hs : w.heap[i]? with _ | _ | b
        · rfl
        · rfl
        · simp [hs] at hl
    rw [hm]

theorem subs_free_obj (w : World) (p z : Nat) :
    (w.free_obj p).subs z + (if refers z (some (w.blob p)) = true then 1 else 0) = w.subs z := by
  match p with
  | 0 => simp [World.free_obj, World.blob, refers, _hb_blob_nil]
  | 1 => simp [World.free_obj, World.blob, refers, _hb_blob_nil]
  | i + 2 =>
    rcases hs : w.heap[i]? with _ | _ | b
    · have hge : w.heap.length ≤ i := by
        by_contra hc
        have := List.getElem?_eq_getElem (l := w.heap) (n := i) (by omega)
        rw [hs] at this
        cases this
      have hm : (w.free_obj (i + 2)).heap = w.heap := by
        simp only [World.free_obj]
        exact List.set_eq_of_length_le hge
      unfold World.subs
      rw [hm]
      simp [World.blob, hs, refers, _hb_blob_nil]
    · have := countP_set_slot w.heap i none (refers z) none hs
      unfold World.subs
      simp only [World.free_obj]
      simp only [World.blob, hs, refers, _hb_blob_nil] at this ⊢
      simpa using this
    · have := countP_set_slot w.heap i none (refers z) (some b) hs
      unfold World.subs
      simp only [World.free_obj]
      simp only [World.blob, hs]
      simpa [refers] using this

theorem subs_of_heap_eq {w w1 : World} (h : w1.heap = w.heap) (z : Nat) : w1.subs z = w.subs z := by
  unfold World.subs
  rw [h]

theorem subs_log (w : World) (c : Call) (z : Nat) : (w.log c).subs z = w.subs z := rfl

theorem subs_stored (w : World) (data length : Nat) (mode : hb_memory_mode_t)
    (user_data : Nat) (destroy : hb_destroy_func_t) (z : Nat) :
    (stored w data length mode user_data destroy).subs z =
      w.subs z + (if destroy = fn_blob_destroy ∧ user_data = z then 1 else 0) := by
  have hl : (hb_object_create w true).1.live (w.heap.length + 2) = true := by
    simp [hb_object_create, World.live]
  have hb : (hb_object_create w true).1.blob (w.heap.length + 2) =
      { ref_count := 1, immutable := false, data := nullptr, length := 0,
        mode := HB_MEMORY_MODE_DUPLICATE, user_data := nullptr, destroy := fn_null } := by
    simp [hb_object_create, World.blob]
  have hc : (hb_object_create w true).1.subs z = w.subs z := by
    simp [hb_object_create, World.subs, List.countP_append, refers]
  have := subs_modify (hb_object_create w true).1 (w.heap.length + 2) z (fun b =>
    { b with data := data, length := length, mode := mode,
             user_data := user_data, destroy := destroy }) hl
  rw [hb, hc] at this
  unfold stored
  simp only [refers] at this
  simp only [decide_eq_true_eq] at this
  by_cases hd : destroy = fn_blob_destroy ∧ user_data = z
  · rw [if_pos hd] at this ⊢
    simp at this
    omega
  · rw [if_neg hd] at this ⊢
    simp at this
    omega

theorem ref_count_modify (w : World) (p z : Nat) (f : hb_blob_t → hb_blob_t)
    (hf : ∀ b, (f b).ref_count = b.ref_count) :
    ((w.modify p f).blob z).ref_count = (w.blob z).ref_count := by
  rw [blob_modify]
  split
  · exact hf _
  · rfl

theorem slack_refl (e : Nat → Nat) (w : World) : Slack e w w := by
  intro z
  omega

theorem slack_of_no_drop {e : Nat → Nat} {w w1 : World} (h : Slack no_drop w w1) :
    Slack e w w1 := by
  intro z
  have := h z
  simp only [no_drop] at this
  omega

theorem counted_of_slack {w w1 : World} (hc : Counted w) (h : Slack no_drop w w1) :
    Counted w1 := by
  intro z
  have h1 := h z
  have h2 := hc z
  simp only [no_drop] at h1
  omega

theorem counted_of_drop {w w1 : World} {y : Nat} (hc : Counted w) (h : Slack (drop_at y) w w1)
    (hy : w.subs y < (w.blob y).ref_count) : Counted w1 := by
  intro z
  have h1 := h z
  have h2 := hc z
  unfold drop_at at h1
  split at h1
  · rename_i e
    subst e
    omega
  · omega

theorem slack_modify_ref_count (w : World) (p n : Nat)
    (h : (w.blob p).ref_count ≤ n + 1) :
    Slack (drop_at p) w (w.modify p (fun b => { b with ref_count := n })) := by
  intro z
  rw [subs_modify_fields w p z (fun b => { b with ref_count := n }) (fun b => ⟨rfl, rfl⟩),
    blob_modify]
  unfold drop_at
  by_cases hz : z = p
  · subst hz
    rw [if_pos rfl]
    split
    · simp only
      omega
    · omega
  · rw [if_neg hz, if_neg (fun e => hz e.1)]
    omega

theorem hb_object_destroy_slack (w : World) (p : Nat) :
    Slack (drop_at p) w (hb_object_destroy w p).1 := by
  unfold hb_object_destroy
  split
  · exact slack_refl _ w
  · split
    · exact slack_refl _ w
    · rename_i hrc
      exact slack_modify_ref_count w p 0 (by omega)
    · rename_i n hrc
      exact slack_modify_ref_count w p (n + 1) (by omega)

theorem ref_count_clear (w : World) (b z : Nat) :
    ((w.modify b (fun x => { x with user_data := nullptr, destroy := fn_null })).blob z).ref_count
      = (w.blob z).ref_count :=
  ref_count_modify w b z (fun x => { x with user_data := nullptr, destroy := fn_null })
    (fun _ => rfl)

/-- Invoking the callback of `b` and clearing it keeps every reference counted, when the
blob destructor `k` drops one reference of its argument and touches no younger object. -/
theorem destroy_user_data_with_slack (k : World → Nat → Option World)
    (hk : ∀ v a v', Ordered v → k v a = some v' → Below a v v' ∧ Slack (drop_at a) v v')
    (w w' : World) (b : Nat) (ho : Ordered w) (h : destroy_user_data_with k w b = some w') :
    Slack no_drop w w' ∧ (w'.blob b).ref_count = (w.blob b).ref_count := by
  unfold destroy_user_data_with invoke at h
  rcases hfn : (w.blob b).destroy with _ | _ | _ | id
  · simp [hfn] at h
    subst h
    exact ⟨slack_refl _ w, rfl⟩
  · simp [hfn] at h
    subst h
    have hl : w.live b = true := live_of_destroy_ne w b (by rw [hfn]; simp)
    refine ⟨?_, ?_⟩
    · intro z
      have hs := subs_modify (w.log ⟨b, fn_free, (w.blob b).user_data⟩) b z
        (fun x => { x with user_data := nullptr, destroy := fn_null }) hl
      have hb : (w.log ⟨b, fn_free, (w.blob b).user_data⟩).blob b = w.blob b := rfl
      rw [hb] at hs
      simp only [refers, hfn] at hs
      simp at hs
      rw [ref_count_clear]
      simp only [no_drop]
      have e1 : (w.log ⟨b, fn_free, (w.blob b).user_data⟩).subs z = w.subs z := rfl
      have e2 : ((w.log ⟨b, fn_free, (w.blob b).user_data⟩).blob z) = w.blob z := rfl
      rw [e2]
      omega
    · rw [ref_count_clear]
      rfl
  · simp [hfn] at h
    obtain ⟨v, hv, rfl⟩ := h
    have hl : w.live b = true := live_of_destroy_ne w b (by rw [hfn]; simp)
    have hud : (w.blob b).user_data < b := ho.ordered_all b hfn
    obtain ⟨hbel, hsl⟩ := hk _ _ _ (ho.ordered_log _) hv
    have hvb : v.blob b = w.blob b := hbel.blob b hud
    have hvl : v.live b = true := by
      rw [hbel.live b hud]
      exact hl
    refine ⟨?_, ?_⟩
    · intro z
      have hs := subs_modify v b z
        (fun x => { x with user_data := nullptr, destroy := fn_null }) hvl
      rw [hvb] at hs
      simp only [refers, hfn] at hs
      simp at hs
      rw [ref_count_clear]
      have h1 := hsl z
      have e1 : (w.log ⟨b, fn_blob_destroy, (w.blob b).user_data⟩).subs z = w.subs z := rfl
      have e2 : ((w.log ⟨b, fn_blob_destroy, (w.blob b).user_data⟩).blob z) = w.blob z := rfl
      rw [e1, e2] at h1
      simp only [no_drop]
      unfold drop_at at h1
      by_cases hz : z = (w.blob b).user_data
      · rw [if_pos hz] at h1
        rw [if_pos hz.symm] at hs
        omega
      · rw [if_neg hz] at h1
        rw [if_neg (fun e => hz e.symm)] at hs
        omega
    · rw [ref_count_clear, hvb]
  · simp [hfn] at h
    subst h
    have hl : w.live b = true := live_of_destroy_ne w b (by rw [hfn]; simp)
    refine ⟨?_, ?_⟩
    · intro z
      have hs := subs_modify (w.log ⟨b, fn_user id, (w.blob b).user_data⟩) b z
        (fun x => { x with user_data := nullptr, destroy := fn_null }) hl
      have hb : (w.log ⟨b, fn_user id, (w.blob b).user_data⟩).blob b = w.blob b := rfl
      rw [hb] at hs
      simp only [refers, hfn] at hs
      simp at hs
      rw [ref_count_clear]
      simp only [no_drop]
      have e2 : ((w.log ⟨b, fn_user id, (w.blob b).user_data⟩).blob z) = w.blob z := rfl
      have e1 : (w.log ⟨b, fn_user id, (w.blob b).user_data⟩).subs z = w.subs z := rfl
      rw [e2]
      omega
    · rw [ref_count_clear]
      rfl

/-- A destroy cascade from `p` drops one reference of `p` and keeps every other
reference counted. -/
theorem hb_blob_destroy_fuel_slack (n : Nat) :
    ∀ (w w' : World) (p : Nat), Ordered w → hb_blob_destroy_fuel n w p = some w' →
      Slack (drop_at p) w w' := by
  induction n with
  | zero => intro w w' p _ h; simp [hb_blob_destroy_fuel] at h
  | succ n ih =>
    intro w w' p ho h
    unfold hb_blob_destroy_fuel at h
    rcases hd : hb_object_destroy w p with ⟨w1, r⟩
    have hs1 : Slack (drop_at p) w w1 := by simpa [hd] using hb_object_destroy_slack w p
    have ho1 : Ordered w1 := by simpa [hd] using hb_object_destroy_ordered ho p
    rw [hd] at h
    cases r
    · simp only [Option.some.injEq] at h
      subst h
      exact hs1
    · obtain ⟨hlive, hrc, hw1⟩ := hb_object_destroy_true w w1 p hd
      simp only [Option.map_eq_some'] at h
      obtain ⟨v2, hv2, rfl⟩ := h
      obtain ⟨hcov, hrc2⟩ := destroy_user_data_with_slack _
        (fun v a v' hov hk => ⟨(hb_blob_destroy_fuel_below n v v' a hov hk).2, ih v v' a hov hk⟩)
        w1 v2 p ho1 hv2
      have hrc1 : (w1.blob p).ref_count = 0 := by
        rw [hw1, blob_modify_self _ _ _ hlive]
      intro z
      have h1 := hs1 z
      have h2 := hcov z
      have h3 := subs_free_obj v2 p z
      simp only [no_drop] at h2
      rw [blob_free_obj]
      unfold drop_at at h1 ⊢
      by_cases hz : z = p
      · subst hz
        simp only [↓reduceIte, _hb_blob_nil] at h1 ⊢
        omega
      · simp only [hz, ↓reduceIte] at h1 ⊢
        omega

theorem hb_blob_destroy_slack (w w' : World) (p : Nat) (ho : Ordered w)
    (h : hb_blob_destroy w p = some w') : Slack (drop_at p) w w' :=
  hb_blob_destroy_fuel_slack _ w w' p ho h

theorem slack_trans {e1 e2 : Nat → Nat} {a b c : World} (h1 : Slack e1 a b) (h2 : Slack e2 b c) :
    Slack (fun z => e1 z + e2 z) a c := by
  intro z
  have := h1 z
  have := h2 z
  simp only
  omega

theorem no_drop_trans {a b c : World} (h1 : Slack no_drop a b) (h2 : Slack no_drop b c) :
    Slack no_drop a c := by
  intro z
  have h3 := h1 z
  have h4 := h2 z
  simp only [no_drop] at h3 h4 ⊢
  omega

theorem slack_modify_fields (w : World) (p : Nat) (f : hb_blob_t → hb_blob_t)
    (hf : ∀ b, (f b).destroy = b.destroy ∧ (f b).user_data = b.user_data ∧
      b.ref_count ≤ (f b).ref_count) :
    Slack no_drop w (w.modify p f) := by
  intro z
  rw [subs_modify_fields w p z f (fun b => ⟨(hf b).1, (hf b).2.1⟩), blob_modify]
  simp only [no_drop]
  split
  · have := (hf (w.blob z)).2.2
    omega
  · omega

theorem subs_modify_le (w : World) (p z : Nat) (f : hb_blob_t → hb_blob_t)
    (hf : ∀ b, (f b).destroy ≠ fn_blob_destroy) :
    (w.modify p f).subs z ≤ w.subs z := by
  by_cases hl : w.live p = true
  · have := subs_modify w p z f hl
    have e : refers z (some (f (w.blob p))) = false := by
      simp [refers, hf (w.blob p)]
    rw [e] at this
    simp at this
    omega
  · have hm : w.modify p f = w := by
      match p with
      | 0 => rfl
      | 1 => rfl
      | i + 2 =>
        simp only [World.live] at hl
        simp only [World.modify]
        rcases hs : w.heap[i]? with _ | _ | b
        · rfl
        · rfl
        · simp [hs] at hl
    rw [hm]

theorem hb_blob_reference_slack (w : World) (p : Nat) :
    Slack no_drop w (hb_blob_reference w p).1 := by
  unfold hb_blob_reference hb_object_reference
  split
  · exact slack_refl _ w
  · exact slack_modify_fields w p (fun b => { b with ref_count := b.ref_count + 1 })
      (fun b => ⟨rfl, rfl, Nat.le_succ _⟩)

theorem hb_blob_make_immutable_slack (w : World) (p : Nat) :
    Slack no_drop w (hb_blob_make_immutable w p) := by
  unfold hb_blob_make_immutable
  split
  · exact slack_refl _ w
  · exact slack_modify_fields w p (fun b => { b with immutable := true })
      (fun b => ⟨rfl, rfl, le_refl _⟩)

theorem before_malloc_slack (w : World) (p : Nat) : Slack no_drop w (before_malloc w p) := by
  unfold before_malloc
  split
  · exact slack_modify_fields w p (fun b => { b with mode := HB_MEMORY_MODE_READONLY })
      (fun b => ⟨rfl, rfl, le_refl _⟩)
  · exact slack_refl _ w

theorem after_memcpy_slack (w : World) (p : Nat) : Slack no_drop w (after_memcpy w p) := by
  intro z
  have h := before_malloc_slack w p z
  have e1 : (after_memcpy w p).subs z = (before_malloc w p).subs z := rfl
  have e2 : (after_memcpy w p).blob z = (before_malloc w p).blob z := rfl
  rw [e1, e2]
  exact h

theorem hb_blob_destroy_user_data_slack (w v : World) (b : Nat) (ho : Ordered w)
    (h : _hb_blob_destroy_user_data w b = some v) :
    Slack no_drop w v ∧ (v.blob b).ref_count = (w.blob b).ref_count :=
  destroy_user_data_with_slack _hb_blob_destroy
    (fun x a x' hox hk => ⟨(hb_blob_destroy_below x x' a hox hk).2,
      hb_blob_destroy_slack x x' a hox hk⟩) w v b ho h

theorem slack_install (v : World) (p data : Nat) :
    Slack no_drop v (v.modify p (fun x =>
      { x with mode := HB_MEMORY_MODE_WRITABLE, data := data,
               user_data := data, destroy := fn_free })) := by
  intro z
  have h1 := subs_modify_le v p z (fun x =>
      { x with mode := HB_MEMORY_MODE_WRITABLE, data := data,
               user_data := data, destroy := fn_free }) (fun b => by simp)
  have h2 := ref_count_modify v p z (fun x =>
      { x with mode := HB_MEMORY_MODE_WRITABLE, data := data,
               user_data := data, destroy := fn_free }) (fun _ => rfl)
  rw [h2]
  simp only [no_drop]
  omega

theorem try_writable_slack (w w' : World) (env : Env) (p : Nat) (r : Bool) (ho : Ordered w)
    (h : _try_writable w env p = some (w', r)) : Slack no_drop w w' := by
  rcases try_writable_cases w env p with c | c | c | c | c
  · rw [c.2] at h; cases h; exact slack_refl _ w
  · rw [c.2.2] at h; cases h; exact slack_refl _ w
  · rw [c.2.2.2] at h; cases h
    exact slack_modify_fields w p (fun b => { b with mode := HB_MEMORY_MODE_WRITABLE })
      (fun b => ⟨rfl, rfl, le_refl _⟩)
  · rw [c.2.2.2] at h; cases h; exact before_malloc_slack w p
  · obtain ⟨-, -, -, v, hv, ht⟩ := c
    rw [ht] at h
    cases h
    exact no_drop_trans (after_memcpy_slack w p)
      (no_drop_trans (hb_blob_destroy_user_data_slack _ v p (after_memcpy_ordered ho p) hv).1
        (slack_install v p (w.brk + 1)))

theorem hb_blob_create_fail_slack (w w' : World) (ud : Nat) (d : hb_destroy_func_t) (r : Nat)
    (ho : Ordered w) (h : hb_blob_create_fail w ud d = some (w', r)) :
    Slack (fun z => if d = fn_blob_destroy ∧ ud = z then 1 else 0) w w' := by
  unfold hb_blob_create_fail invoke at h
  cases d with
  | fn_null =>
    simp at h
    obtain ⟨rfl, -⟩ := h
    exact slack_refl _ w
  | fn_free =>
    simp at h
    obtain ⟨rfl, -⟩ := h
    intro z
    have e1 : (w.log ⟨nullptr, fn_free, ud⟩).subs z = w.subs z := rfl
    have e2 : (w.log ⟨nullptr, fn_free, ud⟩).blob z = w.blob z := rfl
    rw [e1, e2]
    omega
  | fn_user id =>
    simp at h
    obtain ⟨rfl, -⟩ := h
    intro z
    have e1 : (w.log ⟨nullptr, fn_user id, ud⟩).subs z = w.subs z := rfl
    have e2 : (w.log ⟨nullptr, fn_user id, ud⟩).blob z = w.blob z := rfl
    rw [e1, e2]
    omega
  | fn_blob_destroy =>
    simp [_hb_blob_destroy] at h
    obtain ⟨v, hv, rfl, -⟩ := h
    have hs := hb_blob_destroy_slack _ _ _ (ho.ordered_log _) hv
    intro z
    have h1 := hs z
    have e1 : (w.log ⟨nullptr, fn_blob_destroy, ud⟩).subs z = w.subs z := rfl
    have e2 : (w.log ⟨nullptr, fn_blob_destroy, ud⟩).blob z = w.blob z := rfl
    rw [e1, e2] at h1
    unfold drop_at at h1
    by_cases hz : z = ud
    · simp only [hz, ↓reduceIte, and_self] at h1 ⊢
      omega
    · have hz2 : ¬ ud = z := fun e => hz e.symm
      simp only [hz, hz2, ↓reduceIte, and_false, true_and] at h1 ⊢
      omega

theorem stored_slack (w : World) (data length : Nat) (mode : hb_memory_mode_t) (ud : Nat)
    (d : hb_destroy_func_t) :
    Slack (fun z => if d = fn_blob_destroy ∧ ud = z then 1 else 0) w
      (stored w data length mode ud d) := by
  intro z
  rw [subs_stored, stored_blob]
  simp only
  have hrc : (w.blob z).ref_count ≤
      (if z = w.heap.length + 2 then
        ({ ref_count := 1, immutable := false, data := data, length := length, mode := mode,
           user_data := ud, destroy := d } : hb_blob_t)
      else w.blob z).ref_count := by
    by_cases hz : z = w.heap.length + 2
    · rw [if_pos hz, hz, blob_of_not_live w _ (not_live_fresh w _ (le_refl _))]
      simp [_hb_blob_nil]
    · rw [if_neg hz]
  omega

/-- `hb_blob_create` keeps every reference counted, but for the reference the caller hands
over when the callback is the blob destructor. -/
theorem hb_blob_create_slack (w w' : World) (env : Env) (data length : Nat)
    (mode : hb_memory_mode_t) (ud : Nat) (d : hb_destroy_func_t) (r : Nat) (ho : Ordered w)
    (hud : d = fn_blob_destroy → ud < w.heap.length + 2)
    (h : hb_blob_create w env data length mode ud d = some (w', r)) :
    Slack (fun z => if d = fn_blob_destroy ∧ ud = z then 1 else 0) w w' := by
  have hfail : hb_blob_create w env data length mode ud d = hb_blob_create_fail w ud d →
      Slack (fun z => if d = fn_blob_destroy ∧ ud = z then 1 else 0) w w' := by
    intro e
    rw [e] at h
    exact hb_blob_create_fail_slack w w' ud d r ho h
  by_cases hl : length = 0 ∨ 2 ^ 31 ≤ length
  · apply hfail
    unfold hb_blob_create
    rw [if_pos (by omega)]
  by_cases hobj : env.object_ok = true
  · by_cases hm : mode = HB_MEMORY_MODE_DUPLICATE
    · subst hm
      have hst := stored_slack w data length HB_MEMORY_MODE_READONLY ud d
      have host : Ordered (stored w data length HB_MEMORY_MODE_READONLY ud d) :=
        stored_ordered ho data length HB_MEMORY_MODE_READONLY ud d hud
      rcases hb_blob_create_duplicate_cases w env data length ud d (by omega) (by omega) hobj
        with ⟨-, v, hv, hc⟩ | ⟨-, w3, h3, hc⟩
      · rw [hc] at h
        cases h
        have h1 := after_memcpy_slack (stored w data length HB_MEMORY_MODE_READONLY ud d)
          (w.heap.length + 2)
        have h2 := (hb_blob_destroy_user_data_slack _ v (w.heap.length + 2)
          (after_memcpy_ordered host _) hv).1
        have h3 := slack_install v (w.heap.length + 2) (w.brk + 1)
        intro z
        have a0 := hst z
        have a1 := h1 z
        have a2 := h2 z
        have a3 := h3 z
        simp only [no_drop] at a1 a2 a3
        simp only at a0 ⊢
        omega
      · rw [hc] at h
        cases h
        have hd := hb_blob_destroy_slack _ _ _ host h3
        intro z
        have a0 := hst z
        have a1 := hd z
        simp only at a0 ⊢
        unfold drop_at at a1
        by_cases hz : z = w.heap.length + 2
        · subst hz
          have e1 := subs_stored w data length HB_MEMORY_MODE_READONLY ud d (w.heap.length + 2)
          have e2 : ((stored w data length HB_MEMORY_MODE_READONLY ud d).blob
              (w.heap.length + 2)).ref_count = 1 := by
            rw [stored_blob, if_pos rfl]
          have e3 : (w.blob (w.heap.length + 2)).ref_count = 0 := by
            rw [blob_of_not_live w _ (not_live_fresh w _ (le_refl _))]
            rfl
          simp only [↓reduceIte] at a1
          omega
        · simp only [hz, ↓reduceIte] at a1
          omega
    · rw [hb_blob_create_plain w env data length mode ud d (by omega) (by omega) hobj hm] at h
      cases h
      exact stored_slack w data length mode ud d
  · have hobj2 : env.object_ok = false := by simpa using hobj
    exact hfail (hb_blob_create_no_object _ _ _ _ _ _ _ hobj2)

theorem hb_blob_create_sub_blob_slack (w w' : World) (env : Env) (parent offset length r : Nat)
    (ho : Ordered w)
    (h : hb_blob_create_sub_blob w env parent offset length = some (w', r)) :
    Slack no_drop w w' := by
  unfold hb_blob_create_sub_blob at h
  split at h
  · cases h
    exact slack_refl _ w
  · rename_i hg
    have hlive : w.live parent = true := live_of_length_pos w parent (by omega)
    have h2 : 2 ≤ parent := live_ge_two w parent hlive
    have hlt : parent < w.heap.length + 2 := live_lt w parent hlive
    have e : hb_blob_reference (hb_blob_make_immutable w parent) parent =
        ((hb_blob_make_immutable w parent).modify parent
          (fun b => { b with ref_count := b.ref_count + 1 }), parent) := by
      unfold hb_blob_reference hb_object_reference
      rw [if_neg (by simp [nullptr, hb_object_is_inert, hb_blob_get_empty]; omega)]
    rw [e] at h
    simp only at h
    have hm : hb_blob_make_immutable w parent =
        w.modify parent (fun b => { b with immutable := true }) := by
      unfold hb_blob_make_immutable
      rw [if_neg (by simp [hb_object_is_inert, hb_blob_get_empty]; omega)]
    have ho1 : Ordered ((hb_blob_make_immutable w parent).modify parent
        (fun b => { b with ref_count := b.ref_count + 1 })) := by
      rw [hm]
      exact (ho.ordered_modify parent (fun b => { b with immutable := true })
        (fun x hx => ⟨hx, rfl⟩)).ordered_modify parent
          (fun b => { b with ref_count := b.ref_count + 1 }) (fun x hx => ⟨hx, rfl⟩)
    have hc := hb_blob_create_slack _ w' env _ _ _ _ _ r ho1
      (fun _ => by rw [modify_heap_length, hm, modify_heap_length]; exact hlt) h
    intro z
    have a := hc z
    simp only [true_and] at a
    rw [subs_modify_fields _ parent z (fun b => { b with ref_count := b.ref_count + 1 })
      (fun b => ⟨rfl, rfl⟩), hm,
      subs_modify_fields w parent z (fun b => { b with immutable := true })
      (fun b => ⟨rfl, rfl⟩)] at a
    rw [blob_modify] at a
    simp only [no_drop]
    by_cases hz : z = parent
    · subst hz
      rw [live_modify, if_pos ⟨rfl, hlive⟩, blob_modify_self _ _ _ hlive] at a
      simp only [↓reduceIte] at a
      omega
    · have hz2 : ¬ parent = z := fun e => hz e.symm
      rw [if_neg (fun e => hz e.1), blob_modify_ne _ _ _ _ hz] at a
      simp only [hz2, ↓reduceIte] at a
      omega

theorem hb_blob_copy_writable_or_fail_slack (w w' : World) (env : Env) (p r : Nat)
    (ho : Ordered w) (h : hb_blob_copy_writable_or_fail w env p = some (w', r)) :
    Slack no_drop w w' := by
  obtain ⟨w1, r1, hc⟩ := hb_blob_create_total w env (w.blob p).data (w.blob p).length
    HB_MEMORY_MODE_DUPLICATE nullptr fn_null
  have : w' = w1 := by
    simp only [hb_blob_copy_writable_or_fail, hc, Option.map_some', Option.some.injEq] at h
    have h2 : (if r1 = hb_blob_get_empty then (w1, nullptr) else (w1, r1)).1 = w' :=
      congrArg Prod.fst h
    rw [← h2]
    split <;> rfl
  subst this
  have hs := hb_blob_create_slack w w' env _ _ _ _ _ r1 ho (fun e => by cases e) hc
  intro z
  have a := hs z
  have e0 : (if fn_null = fn_blob_destroy ∧ nullptr = z then 1 else 0) = 0 := by simp
  simp only [e0] at a
  simp only [no_drop]
  omega

/-- A step keeps every reference counted, but for the reference that
`hb_blob_destroy (x)` drops. -/
theorem step_slack (w w' : World) (op : Op) (ho : Ordered w) (h : step w op = some w') :
    Slack (match op with
      | Op.destroy x => drop_at x
      | _ => no_drop) w w' := by
  cases op with
  | reference p =>
    simp only [step, Option.some.injEq] at h
    subst h
    exact hb_blob_reference_slack w p
  | destroy p => exact hb_blob_destroy_slack w w' p ho h
  | make_immutable p =>
    simp only [step, Option.some.injEq] at h
    subst h
    exact hb_blob_make_immutable_slack w p
  | get_data_writable env p =>
    obtain ⟨w1, r, ht⟩ := try_writable_total w env p
    have : w' = w1 := by
      simp only [step, hb_blob_get_data_writable, ht, Option.map_some', Option.some.injEq] at h
      rw [← h]
      split <;> rfl
    subst this
    exact try_writable_slack w w' env p r ho ht
  | create_sub_blob env p o l =>
    obtain ⟨w1, r, hc⟩ := hb_blob_create_sub_blob_total w env p o l
    have : w' = w1 := by
      simp only [step, hc, Option.map_some', Option.some.injEq] at h
      exact h.symm
    subst this
    exact hb_blob_create_sub_blob_slack w w' env p o l r ho hc
  | copy_writable_or_fail env p =>
    cases hc : hb_blob_copy_writable_or_fail w env p with
    | none => simp [step, hc] at h
    | some x =>
      have : w' = x.1 := by
        simp only [step, hc, Option.map_some', Option.some.injEq] at h
        exact h.symm
      subst this
      exact hb_blob_copy_writable_or_fail_slack w x.1 env p x.2 ho hc

/-! ## What is invoked on behalf of a blob -/

theorem hb_object_destroy_calls (w : World) (p : Nat) :
    (hb_object_destroy w p).1.calls = w.calls := by
  unfold hb_object_destroy
  split
  · rfl
  · split
    · rfl
    · exact modify_calls _ _ _
    · exact modify_calls _ _ _

/-- The callbacks a destroy cascade invokes belong to objects that are freed when it
returns. -/
theorem hb_blob_destroy_fuel_owners (n : Nat) :
    ∀ (w w' : World) (p : Nat), hb_blob_destroy_fuel n w p = some w' →
      ∃ seg, w'.calls = w.calls ++ seg ∧ ∀ c ∈ seg, w'.live c.owner = false := by
  induction n with
  | zero => intro w w' p h; simp [hb_blob_destroy_fuel] at h
  | succ n ih =>
    intro w w' p h
    unfold hb_blob_destroy_fuel at h
    rcases hd : hb_object_destroy w p with ⟨w1, r⟩
    have hc1 : w1.calls = w.calls := by
      have := hb_object_destroy_calls w p
      rw [hd] at this
      exact this
    rw [hd] at h
    cases r
    · simp only [Option.some.injEq] at h
      subst h
      exact ⟨[], by simp [hc1], by simp⟩
    · simp only [destroy_user_data_with, invoke] at h
      rcases hfn : (w1.blob p).destroy with _ | _ | _ | id
      · simp [hfn] at h
        subst h
        exact ⟨[], by simp [free_obj_calls, hc1], by simp⟩
      · simp [hfn] at h
        subst h
        refine ⟨[⟨p, fn_free, (w1.blob p).user_data⟩], ?_, ?_⟩
        · rw [free_obj_calls, modify_calls, ← hc1]
          rfl
        · intro c hc
          simp only [List.mem_singleton] at hc
          subst hc
          rw [live_free_obj, if_pos rfl]
      · simp [hfn] at h
        obtain ⟨v, hv, rfl⟩ := h
        obtain ⟨seg, hseg, hdead⟩ := ih _ _ _ hv
        refine ⟨⟨p, fn_blob_destroy, (w1.blob p).user_data⟩ :: seg, ?_, ?_⟩
        · rw [free_obj_calls, modify_calls, hseg, ← hc1]
          simp [World.log]
        · intro c hc
          rw [live_free_obj]
          split
          · rfl
          · rw [live_modify]
            rcases List.mem_cons.1 hc with e | e
            · subst e
              rename_i hne
              exact absurd rfl hne
            · exact hdead c e
      · simp [hfn] at h
        subst h
        refine ⟨[⟨p, fn_user id, (w1.blob p).user_data⟩], ?_, ?_⟩
        · rw [free_obj_calls, modify_calls, ← hc1]
          rfl
        · intro c hc
          simp only [List.mem_singleton] at hc
          subst hc
          rw [live_free_obj, if_pos rfl]

theorem hb_blob_destroy_owners (w w' : World) (p : Nat) (h : hb_blob_destroy w p = some w') :
    ∃ seg, w'.calls = w.calls ++ seg ∧ ∀ c ∈ seg, w'.live c.owner = false :=
  hb_blob_destroy_fuel_owners _ w w' p h

/-- The callbacks `_hb_blob_destroy_user_data (b)` invokes belong to `b` or to objects
that are freed when it returns. -/
theorem destroy_user_data_owners (w v : World) (b : Nat)
    (h : _hb_blob_destroy_user_data w b = some v) :
    ∃ seg, v.calls = w.calls ++ seg ∧ ∀ c ∈ seg, c.owner = b ∨ v.live c.owner = false := by
  unfold _hb_blob_destroy_user_data destroy_user_data_with invoke at h
  rcases hfn : (w.blob b).destroy with _ | _ | _ | id
  · simp [hfn] at h
    subst h
    exact ⟨[], by simp, by simp⟩
  · simp [hfn] at h
    subst h
    refine ⟨[⟨b, fn_free, (w.blob b).user_data⟩], ?_, ?_⟩
    · rw [modify_calls]
      rfl
    · intro c hc
      simp only [List.mem_singleton] at hc
      subst hc
      exact Or.inl rfl
  · simp [hfn, _hb_blob_destroy] at h
    obtain ⟨x, hx, rfl⟩ := h
    obtain ⟨seg, hseg, hdead⟩ := hb_blob_destroy_owners _ _ _ hx
    refine ⟨⟨b, fn_blob_destroy, (w.blob b).user_data⟩ :: seg, ?_, ?_⟩
    · rw [modify_calls, hseg]
      simp [World.log]
    · intro c hc
      rcases List.mem_cons.1 hc with e | e
      · subst e
        exact Or.inl rfl
      · right
        rw [live_modify]
        exact hdead c e
  · simp [hfn] at h
    subst h
    refine ⟨[⟨b, fn_user id, (w.blob b).user_data⟩], ?_, ?_⟩
    · rw [modify_calls]
      rfl
    · intro c hc
      simp only [List.mem_singleton] at hc
      subst hc
      exact Or.inl rfl

theorem quiet_refl (p : Nat) (w : World) : Quiet p w w :=
  ⟨fun h => h, [], by simp, fun _ _ c hc => by simp at hc⟩

theorem quiet_of_same {p : Nat} {w w1 : World} (hc : w1.calls = w.calls)
    (hl : w1.live p = true → w.live p = true) : Quiet p w w1 :=
  ⟨hl, [], by simp [hc], fun _ _ c hc => by simp at hc⟩

theorem quiet_trans {p : Nat} {a b c : World} (h1 : Quiet p a b) (h2 : Quiet p b c)
    (hi : (a.blob p).immutable = true → b.live p = true → (b.blob p).immutable = true) :
    Quiet p a c := by
  obtain ⟨l1, s1, e1, q1⟩ := h1
  obtain ⟨l2, s2, e2, q2⟩ := h2
  refine ⟨fun h => l1 (l2 h), s1 ++ s2, by rw [e2, e1, List.append_assoc], ?_⟩
  intro hl him x hx
  rcases List.mem_append.1 hx with e | e
  · exact q1 (l2 hl) him x e
  · exact q2 hl (hi him (l2 hl)) x e

theorem hb_blob_destroy_quiet (p : Nat) (w w' : World) (x : Nat)
    (h : hb_blob_destroy w x = some w') : Quiet p w w' := by
  obtain ⟨seg, hseg, hdead⟩ := hb_blob_destroy_owners w w' x h
  refine ⟨fun hl => ((hb_blob_destroy_frame w w' x h).kept p hl).1, seg, hseg, ?_⟩
  intro hl _ c hc he
  have := hdead c hc
  rw [he, hl] at this
  cases this

theorem try_writable_quiet (P : Nat) (w w' : World) (env : Env) (p : Nat) (r : Bool)
    (h : _try_writable w env p = some (w', r)) : Quiet P w w' := by
  rcases try_writable_cases w env p with c | c | c | c | c
  · rw [c.2] at h; cases h; exact quiet_refl P w
  · rw [c.2.2] at h; cases h; exact quiet_refl P w
  · rw [c.2.2.2] at h; cases h
    exact quiet_of_same (modify_calls _ _ _) (fun hl => by rwa [live_modify] at hl)
  · rw [c.2.2.2] at h; cases h
    exact quiet_of_same (before_malloc_frame w p).2.2.1
      (fun hl => by rwa [(before_malloc_frame w p).2.2.2.2.1] at hl)
  · obtain ⟨him, -, -, v, hv, ht⟩ := c
    rw [ht] at h
    cases h
    obtain ⟨seg, hseg, hown⟩ := destroy_user_data_owners _ v p hv
    have hkept := (destroy_user_data_frame _ v p hv).kept
    refine ⟨?_, seg, ?_, ?_⟩
    · intro hl
      rw [live_modify] at hl
      have := (hkept P hl).1
      rwa [(after_memcpy_frame w p).2.2.2.1] at this
    · rw [modify_calls, hseg, (after_memcpy_frame w p).2.1]
    · intro hl hPim c hc he
      rw [live_modify] at hl
      rcases hown c hc with e | e
      · rw [he] at e
        rw [e, him] at hPim
        cases hPim
      · rw [he, hl] at e
        cases e

theorem hb_blob_create_fail_quiet (P : Nat) (hP : 2 ≤ P) (w w' : World) (ud : Nat)
    (d : hb_destroy_func_t) (r : Nat) (h : hb_blob_create_fail w ud d = some (w', r)) :
    Quiet P w w' := by
  unfold hb_blob_create_fail invoke at h
  have hone : ∀ c : Call, c.owner = nullptr → Quiet P w (w.log c) := by
    intro c hc
    refine ⟨fun hl => hl, [c], rfl, ?_⟩
    intro _ _ x hx he
    simp only [List.mem_singleton] at hx
    subst hx
    rw [hc] at he
    simp only [nullptr] at he
    omega
  cases d with
  | fn_null =>
    simp at h
    obtain ⟨rfl, -⟩ := h
    exact quiet_refl P w
  | fn_free =>
    simp at h
    obtain ⟨rfl, -⟩ := h
    exact hone _ rfl
  | fn_user id =>
    simp at h
    obtain ⟨rfl, -⟩ := h
    exact hone _ rfl
  | fn_blob_destroy =>
    simp [_hb_blob_destroy] at h
    obtain ⟨v, hv, rfl, -⟩ := h
    exact quiet_trans (hone ⟨nullptr, fn_blob_destroy, ud⟩ rfl)
      (hb_blob_destroy_quiet P _ _ _ hv) (fun hi _ => hi)

theorem stored_quiet (P : Nat) (w : World) (hlt : P < w.heap.length + 2) (data length : Nat)
    (mode : hb_memory_mode_t) (ud : Nat) (d : hb_destroy_func_t) :
    Quiet P w (stored w data length mode ud d) := by
  apply quiet_of_same (stored_frame w data length mode ud d).2.2.1
  intro hl
  rw [(stored_frame w data length mode ud d).2.2.2.2] at hl
  simpa [Nat.ne_of_lt hlt] using hl

theorem hb_blob_create_quiet (P : Nat) (hP : 2 ≤ P) (w w' : World) (env : Env)
    (data length : Nat) (mode : hb_memory_mode_t) (ud : Nat) (d : hb_destroy_func_t) (r : Nat)
    (hlt : P < w.heap.length + 2)
    (h : hb_blob_create w env data length mode ud d = some (w', r)) : Quiet P w w' := by
  have hfail : hb_blob_create w env data length mode ud d = hb_blob_create_fail w ud d →
      Quiet P w w' := by
    intro e
    rw [e] at h
    exact hb_blob_create_fail_quiet P hP w w' ud d r h
  by_cases hl : length = 0 ∨ 2 ^ 31 ≤ length
  · apply hfail
    unfold hb_blob_create
    rw [if_pos (by omega)]
  by_cases hobj : env.object_ok = true
  · by_cases hm : mode = HB_MEMORY_MODE_DUPLICATE
    · subst hm
      have hst := stored_quiet P w hlt data length HB_MEMORY_MODE_READONLY ud d
      have hbP : (stored w data length HB_MEMORY_MODE_READONLY ud d).blob P = w.blob P := by
        rw [stored_blob, if_neg (Nat.ne_of_lt hlt)]
      rcases hb_blob_create_duplicate_cases w env data length ud d (by omega) (by omega) hobj
        with ⟨hok, v, hv, hc⟩ | ⟨-, w3, h3, hc⟩
      · rw [hc] at h
        cases h
        have hsb : (stored w data length HB_MEMORY_MODE_READONLY ud d).blob (w.heap.length + 2)
            = { ref_count := 1, immutable := false, data := data, length := length,
                mode := HB_MEMORY_MODE_READONLY, user_data := ud, destroy := d } := by
          rw [stored_blob, if_pos rfl]
        obtain ⟨v2, hv2, ht⟩ := try_writable_dup_ok
          (stored w data length HB_MEMORY_MODE_READONLY ud d) env (w.heap.length + 2)
          (by rw [hsb]) (by rw [hsb]; simp) (by rw [hsb]; intro e; cases e) hok
        have hq := try_writable_quiet P _ _ env _ true ht
        have hveq : v2 = v := by
          rw [hv] at hv2
          exact (Option.some.inj hv2).symm
        subst hveq
        have hbrk := (stored_frame w data length HB_MEMORY_MODE_READONLY ud d).2.1
        rw [hbrk] at hq
        exact quiet_trans hst hq (fun hi _ => by rw [hbP]; exact hi)
      · rw [hc] at h
        cases h
        exact quiet_trans hst (hb_blob_destroy_quiet P _ _ _ h3)
          (fun hi _ => by rw [hbP]; exact hi)
    · rw [hb_blob_create_plain w env data length mode ud d (by omega) (by omega) hobj hm] at h
      cases h
      exact stored_quiet P w hlt data length mode ud d
  · have hobj2 : env.object_ok = false := by simpa using hobj
    exact hfail (hb_blob_create_no_object _ _ _ _ _ _ _ hobj2)

theorem hb_blob_create_sub_blob_quiet (P : Nat) (hP : 2 ≤ P) (w w' : World) (env : Env)
    (parent offset length r : Nat) (hlt : P < w.heap.length + 2)
    (h : hb_blob_create_sub_blob w env parent offset length = some (w', r)) :
    Quiet P w w' := by
  unfold hb_blob_create_sub_blob at h
  split at h
  · cases h
    exact quiet_refl P w
  · have e : hb_blob_reference (hb_blob_make_immutable w parent) parent =
        ((hb_blob_reference (hb_blob_make_immutable w parent) parent).1, parent) :=
      Prod.ext rfl (hb_blob_reference_snd (hb_blob_make_immutable w parent) parent)
    rw [e] at h
    have hlen : (hb_blob_reference (hb_blob_make_immutable w parent) parent).1.heap.length
        = w.heap.length := by
      rw [(hb_blob_reference_frame _ parent).1, (hb_blob_make_immutable_frame w parent).1]
    have hlive : ∀ q, (hb_blob_reference (hb_blob_make_immutable w parent) parent).1.live q
        = w.live q := by
      intro q
      rw [(hb_blob_reference_frame _ parent).2, (hb_blob_make_immutable_frame w parent).2]
    have hcalls : (hb_blob_reference (hb_blob_make_immutable w parent) parent).1.calls
        = w.calls := by
      unfold hb_blob_reference hb_object_reference hb_blob_make_immutable
      split <;> split <;> simp [modify_calls]
    have hq := hb_blob_create_quiet P hP _ w' env _ _ _ _ _ r (by rw [hlen]; exact hlt) h
    refine quiet_trans (quiet_of_same hcalls (fun hl => by rwa [hlive] at hl)) hq ?_
    intro hi _
    have l1 := (hb_blob_make_immutable_latch w parent).2 P hlt hi
    exact (hb_blob_reference_latch _ parent).2 P
      (by rw [(hb_blob_make_immutable_frame w parent).1]; exact hlt) l1

theorem step_quiet (P : Nat) (hP : 2 ≤ P) (w w' : World) (op : Op)
    (hlt : P < w.heap.length + 2) (h : step w op = some w') : Quiet P w w' := by
  cases op with
  | reference p =>
    simp only [step, Option.some.injEq] at h
    subst h
    refine quiet_of_same ?_ (fun hl => by rwa [(hb_blob_reference_frame w p).2] at hl)
    unfold hb_blob_reference hb_object_reference
    split <;> simp [modify_calls]
  | destroy p => exact hb_blob_destroy_quiet P w w' p h
  | make_immutable p =>
    simp only [step, Option.some.injEq] at h
    subst h
    refine quiet_of_same ?_ (fun hl => by rwa [(hb_blob_make_immutable_frame w p).2] at hl)
    unfold hb_blob_make_immutable
    split <;> simp [modify_calls]
  | get_data_writable env p =>
    obtain ⟨w1, r, ht⟩ := try_writable_total w env p
    have : w' = w1 := by
      simp only [step, hb_blob_get_data_writable, ht, Option.map_some', Option.some.injEq] at h
      rw [← h]
      split <;> rfl
    subst this
    exact try_writable_quiet P w w' env p r ht
  | create_sub_blob env p o l =>
    obtain ⟨w1, r, hc⟩ := hb_blob_create_sub_blob_total w env p o l
    have : w' = w1 := by
      simp only [step, hc, Option.map_some', Option.some.injEq] at h
      exact h.symm
    subst this
    exact hb_blob_create_sub_blob_quiet P hP w w' env p o l r hlt hc
  | copy_writable_or_fail env p =>
    obtain ⟨w1, r, hc⟩ := hb_blob_create_total w env (w.blob p).data (w.blob p).length
      HB_MEMORY_MODE_DUPLICATE nullptr fn_null
    have : w' = w1 := by
      simp only [step, hb_blob_copy_writable_or_fail, hc, Option.map_some',
        Option.some.injEq] at h
      rw [← h]
      split <;> rfl
    subst this
    exact hb_blob_create_quiet P hP w w' env _ _ _ _ _ r hlt hc

theorem run_quiet (P : Nat) (hP : 2 ≤ P) (ops : List Op) :
    ∀ (w w' : World), P < w.heap.length + 2 → run w ops = some w' → Quiet P w w' := by
  induction ops with
  | nil =>
    intro w w' _ h
    simp only [run, Option.some.injEq] at h
    subst h
    exact quiet_refl P w
  | cons op ops ih =>
    intro w w' hlt h
    obtain ⟨w1, h1⟩ := step_total w op
    simp only [run, h1, Option.some_bind] at h
    have hl := step_latch w w1 op h1
    exact quiet_trans (step_quiet P hP w w1 op hlt h1)
      (ih w1 w' (by have := hl.1; omega) h) (fun hi _ => hl.2 P hlt hi)

/-! ## Sub-blobs pin their parent -/

theorem hb_blob_destroy_fuel_frees (n : Nat) (w w' : World) (p : Nat) (h2 : 2 ≤ p)
    (hrc : (w.blob p).ref_count = 1) (h : hb_blob_destroy_fuel n w p = some w') :
    w'.live p = false := by
  cases n with
  | zero => simp [hb_blob_destroy_fuel] at h
  | succ n =>
    unfold hb_blob_destroy_fuel at h
    rw [hb_object_destroy_last w p h2 hrc] at h
    simp only [Option.map_eq_some'] at h
    obtain ⟨v, -, rfl⟩ := h
    rw [live_free_obj, if_pos rfl]

/-- Dropping the last reference of a sub-blob that holds the last reference of its parent
frees both. -/
theorem hb_blob_destroy_sub_frees (w w' : World) (s p : Nat) (hs2 : 2 ≤ s) (hp2 : 2 ≤ p)
    (hne : p ≠ s) (hrcs : (w.blob s).ref_count = 1)
    (hd : (w.blob s).destroy = fn_blob_destroy) (hu : (w.blob s).user_data = p)
    (hrcp : (w.blob p).ref_count = 1) (h : hb_blob_destroy w s = some w') :
    w'.live p = false ∧ w'.live s = false := by
  have hls : w.live s = true := live_of_destroy_ne w s (by rw [hd]; simp)
  refine ⟨?_, hb_blob_destroy_frees w w' s hs2 hrcs h⟩
  unfold hb_blob_destroy hb_blob_destroy_fuel at h
  rw [hb_object_destroy_last w s hs2 hrcs] at h
  simp only [Option.map_eq_some'] at h
  obtain ⟨v2, hv2, rfl⟩ := h
  have hb : (w.modify s (fun b => { b with ref_count := 0 })).blob s =
      { w.blob s with ref_count := 0 } := blob_modify_self _ _ _ hls
  unfold destroy_user_data_with invoke at hv2
  rw [hb] at hv2
  simp only [hd, hu] at hv2
  simp only [ne_eq, not_false_eq_true, if_true, Option.map_eq_some', reduceCtorEq] at hv2
  obtain ⟨v, hv, rfl⟩ := hv2
  have hpb : ((w.modify s (fun b => { b with ref_count := 0 })).log
      ⟨s, fn_blob_destroy, p⟩).blob p = w.blob p := by
    show (w.modify s (fun b => { b with ref_count := 0 })).blob p = w.blob p
    exact blob_modify_ne _ _ _ _ hne
  have hvp := hb_blob_destroy_fuel_frees _ _ v p hp2 (by rw [hpb]; exact hrcp) hv
  rw [live_free_obj, if_neg hne, live_modify]
  exact hvp

theorem subs_pos (w : World) (s p : Nat) (hl : w.live s = true)
    (hd : (w.blob s).destroy = fn_blob_destroy) (hu : (w.blob s).user_data = p) :
    0 < w.subs p := by
  obtain ⟨i, -, hs⟩ := slot_of_live w s hl
  unfold World.subs
  rw [List.countP_pos_iff]
  obtain ⟨hlt, hget⟩ := List.getElem?_eq_some.1 hs
  refine ⟨some (w.blob s), by rw [← hget]; exact List.getElem_mem hlt, ?_⟩
  simp [refers, hd, hu]

/-- A sub-blob that is live holds its parent live, when every reference is counted. -/
theorem live_of_counted (w : World) (s p : Nat) (hc : Counted w) (hl : w.live s = true)
    (hd : (w.blob s).destroy = fn_blob_destroy) (hu : (w.blob s).user_data = p) :
    w.live p = true ∧ (w.blob p).ref_count ≠ 0 := by
  have h1 := subs_pos w s p hl hd hu
  have h2 := hc p
  have h3 : (w.blob p).ref_count ≠ 0 := by omega
  refine ⟨?_, h3⟩
  apply live_of_blob_ne
  intro hn
  rw [hn] at h3
  exact h3 rfl

theorem step_counted (b : Nat) (fn : hb_destroy_func_t) (arg : Nat) (hfn : fn ≠ fn_null)
    (w w' : World) (op : Op) (hi : Inv b fn arg w) (hc : Counted w)
    (hd : disciplined w [op] = true) (h : step w op = some w') :
    Inv b fn arg w' ∧ Counted w' := by
  refine ⟨(step_inv b fn arg hfn w w' op hi h).1, ?_⟩
  have hs := step_slack w w' op hi.1 h
  cases op with
  | destroy x =>
    simp only [disciplined, h, Bool.and_true, decide_eq_true_eq] at hd
    exact counted_of_drop hc hs hd
  | reference p => exact counted_of_slack hc hs
  | make_immutable p => exact counted_of_slack hc hs
  | get_data_writable env p => exact counted_of_slack hc hs
  | create_sub_blob env p o l => exact counted_of_slack hc hs
  | copy_writable_or_fail env p => exact counted_of_slack hc hs

theorem run_counted (b : Nat) (fn : hb_destroy_func_t) (arg : Nat) (hfn : fn ≠ fn_null)
    (ops : List Op) : ∀ (w : World), Inv b fn arg w → Counted w → disciplined w ops = true →
      ∃ w', run w ops = some w' ∧ Inv b fn arg w' ∧ Counted w' := by
  induction ops with
  | nil => intro w hi hc _; exact ⟨w, rfl, hi, hc⟩
  | cons op ops ih =>
    intro w hi hc hd
    obtain ⟨w1, h1⟩ := step_total w op
    have hd1 : disciplined w [op] = true ∧ disciplined w1 ops = true := by
      simp only [disciplined, h1, Bool.and_eq_true] at hd ⊢
      exact ⟨⟨hd.1, trivial⟩, hd.2⟩
    obtain ⟨hi1, hc1⟩ := step_counted b fn arg hfn w w1 op hi hc hd1.1 h1
    obtain ⟨w2, h2, hi2, hc2⟩ := ih w1 hi1 hc1 hd1.2
    exact ⟨w2, by simp [run, h1, h2], hi2, hc2⟩

theorem hello_owned_world_inv : Inv 2 (fn_user 7) 10 hello_owned_world := by
  refine ⟨?_, by decide, by decide, fun h => by cases h⟩
  intro q hq
  simp [hello_owned_world] at hq
  interval_cases q <;> simp [World.blob, _hb_blob_nil, hello_owned_world]

theorem hello_owned_world_counted : Counted hello_owned_world := by
  intro p
  simp [World.subs, hello_owned_world, refers]

/-! ## Lookup of a glyph by name -/

theorem find_glyph_name_out_of_range (acc : accelerator_t) (g : Nat)
    (h : acc.get_glyph_count ≤ g) : acc.find_glyph_name g = hb_bytes_t.null := by
  unfold accelerator_t.get_glyph_count at h
  unfold accelerator_t.find_glyph_name
  by_cases h1 : acc.version = 0x00010000
  · rw [if_pos h1] at h ⊢
    rw [if_pos h]
  · rw [if_neg h1] at h ⊢
    by_cases h2 : acc.version = 0x00020000
    · rw [if_pos h2] at h
      rw [if_pos (Or.inr h)]
    · rw [if_pos (Or.inl h2)]

/-- What `get_glyph_from_name` returns: no glyph, or the glyph at an index of the reverse
index at which `cmp_key` is 0. -/
theorem get_glyph_from_name_cases (names : Nat → List Nat)
    (bytes_cmp : List Nat → List Nat → Int)
    (sort_r : (Nat → Nat → Int) → List Nat → List Nat)
    (acc : accelerator_t) (malloc_ok : Bool) (name : List Nat) (len : Int) :
    (acc.get_glyph_from_name names bytes_cmp sort_r malloc_ok name len).2 = none ∨
    ∃ g, (acc.get_glyph_from_name names bytes_cmp sort_r malloc_ok name len).2 = some g ∧
      acc.get_glyph_count ≠ 0 ∧
      (if len < 0 then strlen name else len.toNat) ≠ 0 ∧
      acc.cmp_key names bytes_cmp
        (name.take (if len < 0 then strlen name else len.toNat)) g = 0 := by
  unfold accelerator_t.get_glyph_from_name
  simp only
  by_cases hc : acc.get_glyph_count = 0
  · rw [if_pos hc]
    exact Or.inl rfl
  rw [if_neg hc]
  by_cases hl : (if len < 0 then strlen name else len.toNat) = 0
  · rw [if_pos hl]
    exact Or.inl rfl
  rw [if_neg hl]
  split
  · exact Or.inl rfl
  · rename_i gids _
    split
    · rename_i i hi
      right
      unfold hb_bsearch_r at hi
      exact ⟨_, rfl, hc, hl, (bsearch_sound _ _ i hi).2⟩
    · exact Or.inl rfl

/-! ## Cloning the head of a table -/

theorem blob_empty (w : World) : w.blob hb_blob_get_empty = _hb_blob_nil := rfl

/-- `hb_blob_create_sub_blob_spec` when only the clamped length is known to be in range. -/
theorem hb_blob_create_sub_blob_spec_min (w : World) (env : Env) (parent offset length : Nat)
    (hmin : min length ((w.blob parent).length - offset) < 2 ^ 31)
    (hobj : env.object_ok = true)
    (hl : length ≠ 0) (ho : offset < (w.blob parent).length) :
    ∃ w1, hb_blob_create_sub_blob w env parent offset length = some (w1, w.heap.length + 2) ∧
      w1.mem = w.mem ∧ w1.calls = w.calls ∧ w1.brk = w.brk ∧
      w1.heap.length = w.heap.length + 1 ∧
      w1.blob (w.heap.length + 2) =
        { ref_count := 1, immutable := false, data := (w.blob parent).data + offset,
          length := min length ((w.blob parent).length - offset),
          mode := HB_MEMORY_MODE_READONLY, user_data := parent, destroy := fn_blob_destroy } ∧
      w1.blob parent = { w.blob parent with immutable := true,
                                            ref_count := (w.blob parent).ref_count + 1 } ∧
      (∀ q, q ≠ parent → q ≠ w.heap.length + 2 → w1.blob q = w.blob q) ∧
      (∀ q, w1.live q = (decide (q = w.heap.length + 2) || w.live q)) := by
  have hlive : w.live parent = true := live_of_length_pos w parent (by omega)
  have hlt := live_lt w parent hlive
  obtain ⟨wA, hA, hmem, hlen, hcalls, hbrk, hpb, hother, hliveA⟩ := pinned_parent w parent hlive
  have hcs : hb_blob_create_sub_blob w env parent offset length =
      hb_blob_create wA env ((wA.blob parent).data + offset)
        (min length ((wA.blob parent).length - offset)) HB_MEMORY_MODE_READONLY parent
        fn_blob_destroy := by
    unfold hb_blob_create_sub_blob
    rw [if_neg (by omega), hA]
  rw [hcs, hb_blob_create_plain wA env _ _ _ _ _ (by rw [hpb]; simp; omega)
    (by rw [hpb]; exact hmin) hobj (by decide), hlen]
  refine ⟨_, rfl, ?_, ?_, ?_, ?_, ?_, ?_, ?_, ?_⟩
  · rw [modify_mem, (object_create_fst wA).2.1, hmem]
  · rw [modify_calls, (object_create_fst wA).2.2.2.1, hcalls]
  · rw [modify_brk, (object_create_fst wA).2.2.1, hbrk]
  · rw [modify_heap_length, (object_create_fst wA).2.2.2.2, hlen]
  · have := hb_blob_create_plain_blob wA ((wA.blob parent).data + offset)
      (min length ((wA.blob parent).length - offset)) HB_MEMORY_MODE_READONLY parent
      fn_blob_destroy (w.heap.length + 2)
    rw [hlen] at this
    rw [this, if_pos rfl, hpb]
  · have := hb_blob_create_plain_blob wA ((wA.blob parent).data + offset)
      (min length ((wA.blob parent).length - offset)) HB_MEMORY_MODE_READONLY parent
      fn_blob_destroy parent
    rw [hlen] at this
    rw [this, if_neg (by omega), hpb]
  · intro q hq1 hq2
    have := hb_blob_create_plain_blob wA ((wA.blob parent).data + offset)
      (min length ((wA.blob parent).length - offset)) HB_MEMORY_MODE_READONLY parent
      fn_blob_destroy q
    rw [hlen] at this
    rw [this, if_neg hq2, hother q hq1]
  · intro q
    rw [live_modify, live_object_create, hlen, hliveA]

/-- A new sub-blob keeps the heap ordered: its parent is an older pointer. -/
theorem sub_blob_ordered (w w1 : World) (parent : Nat) (ho : Ordered w)
    (hlive : w.live parent = true)
    (hlen : w1.heap.length = w.heap.length + 1)
    (hs : (w1.blob (w.heap.length + 2)).user_data = parent)
    (hp : (w1.blob parent).destroy = (w.blob parent).destroy ∧
      (w1.blob parent).user_data = (w.blob parent).user_data)
    (hq : ∀ q, q ≠ parent → q ≠ w.heap.length + 2 → w1.blob q = w.blob q) : Ordered w1 := by
  have hlt := live_lt w parent hlive
  intro q hq1 hd
  by_cases h1 : q = w.heap.length + 2
  · subst h1
    rw [hs]
    exact hlt
  · by_cases h2 : q = parent
    · subst h2
      rw [hp.2]
      rw [hp.1] at hd
      exact ho q hlt hd
    · rw [hq q h2 h1] at hd ⊢
      exact ho q (by omega) hd

/-- A blob made by `hb_blob_create` without duplication is no longer than asked for. -/
theorem hb_blob_create_length_le (w w' : World) (env : Env) (data length : Nat)
    (mode : hb_memory_mode_t) (ud : Nat) (d : hb_destroy_func_t) (r : Nat)
    (hm : mode ≠ HB_MEMORY_MODE_DUPLICATE)
    (h : hb_blob_create w env data length mode ud d = some (w', r)) :
    (w'.blob r).length ≤ length := by
  by_cases hvalid : length = 0 ∨ length ≥ 2 ^ 31
  · unfold hb_blob_create at h
    rw [if_pos hvalid] at h
    rw [(hb_blob_create_fail_frame w w' ud d r h).1, blob_empty]
    exact Nat.zero_le _
  · cases hobj : env.object_ok
    · rw [hb_blob_create_no_object w env data length mode ud d hobj] at h
      rw [(hb_blob_create_fail_frame w w' ud d r h).1, blob_empty]
      exact Nat.zero_le _
    · rw [hb_blob_create_plain w env data length mode ud d (by omega) (by omega) hobj hm] at h
      simp only [Option.some.injEq, Prod.mk.injEq] at h
      obtain ⟨rfl, rfl⟩ := h
      rw [hb_blob_create_plain_blob, if_pos rfl]

/-- A sub-blob is no longer than its parent. -/
theorem sub_blob_length_le (w w1 : World) (env : Env) (parent offset length S : Nat)
    (h : hb_blob_create_sub_blob w env parent offset length = some (w1, S)) :
    (w1.blob S).length ≤ (w.blob parent).length := by
  unfold hb_blob_create_sub_blob at h
  split at h
  · simp only [Option.some.injEq, Prod.mk.injEq] at h
    obtain ⟨rfl, rfl⟩ := h
    rw [blob_empty]
    exact Nat.zero_le _
  · rename_i hg
    have hlive : w.live parent = true := live_of_length_pos w parent (by omega)
    obtain ⟨wA, hA, -, -, -, -, hpb, -, -⟩ := pinned_parent w parent hlive
    rw [hA] at h
    have := hb_blob_create_length_le wA w1 env _ _ _ _ _ S (by decide) h
    rw [hpb] at this
    simp only at this
    omega

/-- The length a blob reads does not grow in `_try_writable`. -/
theorem try_writable_length_le (w w' : World) (env : Env) (p : Nat) (r : Bool)
    (h : _try_writable w env p = some (w', r)) :
    (w'.blob p).length ≤ (w.blob p).length := by
  rcases try_writable_cases w env p with c | c | c | c | c
  · rw [c.2] at h; cases h; exact le_refl _
  · rw [c.2.2] at h; cases h; exact le_refl _
  · rw [c.2.2.2] at h; cases h
    rw [blob_modify]
    split <;> exact le_refl _
  · rw [c.2.2.2] at h; cases h
    exact le_of_eq (before_malloc_fields w p).2.2.2.1
  · obtain ⟨-, -, -, v, hv, ht⟩ := c
    rw [ht] at h; cases h
    have hf := destroy_user_data_frame (after_memcpy w p) v p hv
    by_cases hl : v.live p = true
    · rw [blob_modify_self _ _ _ hl]
      show (v.blob p).length ≤ _
      rw [(hf.kept p hl).2.2.2.1, (after_memcpy_frame w p).2.2.2.2.2,
        (before_malloc_fields w p).2.2.2.1]
    · rw [blob_modify, if_neg (by simp [hl]), blob_of_not_live v p (by simpa using hl)]
      exact Nat.zero_le _

theorem HBUINT16_set_blob (w : World) (p v q : Nat) : (HBUINT16_set w p v).blob q = w.blob q :=
  rfl

theorem HBUINT16_set_live (w : World) (p v q : Nat) : (HBUINT16_set w p v).live q = w.live q :=
  rfl

theorem HBUINT16_set_mem (w : World) (p v a : Nat) :
    (HBUINT16_set w p v).mem a =
      if a = p then v / 256 % 256 else if a = p + 1 then v % 256 else w.mem a := rfl

theorem table_world_ordered (t : List Nat) : Ordered (table_world t) := by
  intro q hq
  simp [table_world] at hq
  interval_cases q <;> simp [World.blob, _hb_blob_nil, table_world]

/-- The callback of a sub-blob whose parent is held by others too: the invocation is
logged and the parent loses one reference. -/
theorem destroy_user_data_shared_parent (w v : World) (s p n : Nat) (h2 : 2 ≤ p)
    (hd : (w.blob s).destroy = fn_blob_destroy) (hu : (w.blob s).user_data = p)
    (hrc : (w.blob p).ref_count = n + 2)
    (hv : _hb_blob_destroy_user_data w s = some v) :
    v = ((w.log ⟨s, fn_blob_destroy, p⟩).modify p
          (fun b => { b with ref_count := n + 1 })).modify s
        (fun b => { b with user_data := nullptr, destroy := fn_null }) := by
  unfold _hb_blob_destroy_user_data destroy_user_data_with at hv
  rw [if_pos (by rw [hd]; decide), hd, hu] at hv
  simp only [invoke, _hb_blob_destroy] at hv
  rw [hb_blob_destroy_shared (w.log ⟨s, fn_blob_destroy, p⟩) p n h2 hrc] at hv
  simp only [Option.map_some', Option.some.injEq] at hv
  exact hv.symm

/-! ## Properties of the blob interface -/

/-- C1: `hb_blob_create` with `length == 0` or `length >= 2^31` and a non-null
destroy callback returns the empty singleton, and on return the trace has grown
by the one invocation `destroy (user_data)` made by `hb_blob_create` itself
(owner `nullptr`); whatever else was appended was invoked by that callback, on
behalf of heap objects, and there is nothing else unless the callback is the
blob destructor. -/
theorem hb_blob_create_bad_length (w : World) (env : Env) (data length : Nat)
    (mode : hb_memory_mode_t) (user_data : Nat) (destroy : hb_destroy_func_t)
    (hd : destroy ≠ fn_null) (hl : length = 0 ∨ 2 ^ 31 ≤ length) :
    ∃ w1 nested,
      hb_blob_create w env data length mode user_data destroy = some (w1, hb_blob_get_empty) ∧
      w1.calls = w.calls ++ ⟨nullptr, destroy, user_data⟩ :: nested ∧
      (∀ c ∈ nested, c.owner ≠ nullptr) ∧
      (destroy ≠ fn_blob_destroy → nested = []) := by
  have hcr : hb_blob_create w env data length mode user_data destroy =
      hb_blob_create_fail w user_data destroy := by
    unfold hb_blob_create
    rw [if_pos (by omega)]
  rw [hcr]
  unfold hb_blob_create_fail
  rw [if_pos hd]
  cases destroy with
  | fn_null => exact absurd rfl hd
  | fn_free => exact ⟨_, [], rfl, rfl, by simp, fun _ => rfl⟩
  | fn_user id => exact ⟨_, [], rfl, rfl, by simp, fun _ => rfl⟩
  | fn_blob_destroy =>
    obtain ⟨w1, h1⟩ := hb_blob_destroy_total (w.log ⟨nullptr, fn_blob_destroy, user_data⟩) user_data
    obtain ⟨nested, e, o⟩ := (hb_blob_destroy_frame _ _ _ h1).calls
    refine ⟨w1, nested, ?_, ?_, ?_, fun h => absurd rfl h⟩
    · simp [invoke, _hb_blob_destroy, h1]
    · rw [e]; simp [World.log]
    · intro c hc
      have := o c hc
      simp only [nullptr]
      omega

theorem hb_blob_create_bad_length_witness :
    ∃ w1 nested,
      hb_blob_create ⟨fun _ => 0, 0, [], []⟩ ⟨true, true, true⟩ 16 0
          HB_MEMORY_MODE_WRITABLE 7 (fn_user 3) = some (w1, hb_blob_get_empty) ∧
      w1.calls = ([] : List Call) ++ ⟨nullptr, fn_user 3, 7⟩ :: nested ∧
      (∀ c ∈ nested, c.owner ≠ nullptr) ∧
      (fn_user 3 ≠ fn_blob_destroy → nested = []) :=
  hb_blob_create_bad_length ⟨fun _ => 0, 0, [], []⟩ ⟨true, true, true⟩ 16 0
    HB_MEMORY_MODE_WRITABLE 7 (fn_user 3) (by decide) (Or.inl rfl)

/-- C3: `hb_blob_create_sub_blob` returns the empty blob, and changes nothing,
whenever `length == 0` or `offset >= parent.length`, for every parent pointer
(the empty singleton included); in particular for offset `parent.length` and
length one. -/
theorem hb_blob_create_sub_blob_empty (w : World) (env : Env) (parent offset length : Nat)
    (h : length = 0 ∨ hb_blob_get_length w parent ≤ offset) :
    hb_blob_create_sub_blob w env parent offset length = some (w, hb_blob_get_empty) ∧
    hb_blob_create_sub_blob w env parent (hb_blob_get_length w parent) 1 =
      some (w, hb_blob_get_empty) ∧
    hb_blob_get_length w hb_blob_get_empty = 0 := by
  refine ⟨?_, ?_, rfl⟩
  · unfold hb_blob_create_sub_blob
    rw [if_pos (by simpa [hb_blob_get_length] using h)]
  · unfold hb_blob_create_sub_blob
    rw [if_pos (Or.inr (by simp [hb_blob_get_length]))]

theorem hb_blob_create_sub_blob_empty_witness :
    hb_blob_create_sub_blob ⟨fun _ => 0, 0, [], []⟩ ⟨true, true, true⟩ hb_blob_get_empty 0 4 =
      some (⟨fun _ => 0, 0, [], []⟩, hb_blob_get_empty) ∧
    hb_blob_create_sub_blob ⟨fun _ => 0, 0, [], []⟩ ⟨true, true, true⟩ hb_blob_get_empty
      (hb_blob_get_length ⟨fun _ => 0, 0, [], []⟩ hb_blob_get_empty) 1 =
      some (⟨fun _ => 0, 0, [], []⟩, hb_blob_get_empty) ∧
    hb_blob_get_length ⟨fun _ => 0, 0, [], []⟩ hb_blob_get_empty = 0 :=
  hb_blob_create_sub_blob_empty ⟨fun _ => 0, 0, [], []⟩ ⟨true, true, true⟩ hb_blob_get_empty 0 4
    (Or.inr (by decide))

/-- C4: after `hb_blob_make_immutable (b)`, whatever the mode of `b` and whatever
the environment answers, `hb_blob_get_data_writable (b)` returns null, reports
length 0 and leaves the whole state as it was (no callback is invoked and
`data`, `length` and `mode` are unchanged), so every later call fails the same
way. -/
theorem hb_blob_get_data_writable_after_make_immutable (w : World) (env : Env) (b : Nat) :
    hb_blob_get_data_writable (hb_blob_make_immutable w b) env b =
      some (hb_blob_make_immutable w b, nullptr, 0) ∧
    hb_blob_is_immutable (hb_blob_make_immutable w b) b = true := by
  refine ⟨?_, immutable_make_immutable w b⟩
  unfold hb_blob_get_data_writable
  rw [try_writable_immutable _ env b (immutable_make_immutable w b)]
  rfl

/-- C2: for a non-empty parent (length in `[1, 2^31)`), a non-zero `length` and an
`offset` below the parent's length, with the object allocation succeeding,
`hb_blob_create_sub_blob` returns a new live blob, neither null nor the empty
singleton nor the parent, of length `min (length, parent.length - offset)` and
mode `READONLY`, whose bytes are the parent's bytes from `offset` on, and the
parent is immutable afterwards; in particular offset 0 and twice the parent's
length give a sub-blob of the parent's length. -/
theorem hb_blob_create_sub_blob_range (w : World) (env : Env) (parent offset length : Nat)
    (hpar : hb_blob_get_length w parent < 2 ^ 31) (hobj : env.object_ok = true)
    (hl : length ≠ 0) (ho : offset < hb_blob_get_length w parent) :
    (∃ w1 sub, hb_blob_create_sub_blob w env parent offset length = some (w1, sub) ∧
      sub ≠ hb_blob_get_empty ∧ sub ≠ nullptr ∧ sub ≠ parent ∧ w1.live sub = true ∧
      hb_blob_get_length w1 sub = min length (hb_blob_get_length w parent - offset) ∧
      (w1.blob sub).mode = HB_MEMORY_MODE_READONLY ∧
      (∀ i, i < hb_blob_get_length w1 sub →
        w1.mem ((hb_blob_get_data w1 sub).1 + i) =
          w.mem ((hb_blob_get_data w parent).1 + (offset + i))) ∧
      hb_blob_is_immutable w1 parent = true) ∧
    (∃ w2 sub2,
      hb_blob_create_sub_blob w env parent 0 (2 * hb_blob_get_length w parent) =
        some (w2, sub2) ∧
      hb_blob_get_length w2 sub2 = hb_blob_get_length w parent) := by
  simp only [hb_blob_get_length] at hpar ho
  have hlt := live_lt w parent (live_of_length_pos w parent (by omega))
  constructor
  · obtain ⟨w1, hc, hmem, -, -, -, hsub, hparent, -, hlive⟩ :=
      hb_blob_create_sub_blob_spec w env parent offset length hpar hobj hl ho
    refine ⟨w1, w.heap.length + 2, hc, by simp [hb_blob_get_empty], by simp [nullptr],
      by omega, by simp [hlive], ?_, ?_, ?_, ?_⟩
    · simp [hb_blob_get_length, hsub]
    · simp [hsub]
    · intro i _
      simp [hb_blob_get_data, hsub, hmem, Nat.add_assoc]
    · simp [hb_blob_is_immutable, hparent]
  · obtain ⟨w2, hc, -, -, -, -, hsub, -, -, -⟩ :=
      hb_blob_create_sub_blob_spec w env parent 0 (2 * (w.blob parent).length) hpar hobj
        (by omega) (by omega)
    refine ⟨w2, w.heap.length + 2, hc, ?_⟩
    simp only [hb_blob_get_length, hsub]
    omega

theorem hb_blob_create_sub_blob_range_witness :
    (∃ w1 sub, hb_blob_create_sub_blob
        ⟨fun a => a, 20, [some ⟨1, false, 10, 5, HB_MEMORY_MODE_READONLY, 0, fn_null⟩], []⟩
        ⟨true, true, true⟩ 2 2 100 = some (w1, sub) ∧
      sub ≠ hb_blob_get_empty ∧ sub ≠ nullptr ∧ sub ≠ 2 ∧ w1.live sub = true ∧
      hb_blob_get_length w1 sub = min 100 (hb_blob_get_length
        ⟨fun a => a, 20, [some ⟨1, false, 10, 5, HB_MEMORY_MODE_READONLY, 0, fn_null⟩], []⟩ 2 - 2) ∧
      (w1.blob sub).mode = HB_MEMORY_MODE_READONLY ∧
      (∀ i, i < hb_blob_get_length w1 sub →
        w1.mem ((hb_blob_get_data w1 sub).1 + i) =
          (fun a => a) ((hb_blob_get_data
            ⟨fun a => a, 20, [some ⟨1, false, 10, 5, HB_MEMORY_MODE_READONLY, 0, fn_null⟩], []⟩
            2).1 + (2 + i))) ∧
      hb_blob_is_immutable w1 2 = true) ∧
    (∃ w2 sub2,
      hb_blob_create_sub_blob
        ⟨fun a => a, 20, [some ⟨1, false, 10, 5, HB_MEMORY_MODE_READONLY, 0, fn_null⟩], []⟩
        ⟨true, true, true⟩ 2 0 (2 * hb_blob_get_length
          ⟨fun a => a, 20, [some ⟨1, false, 10, 5, HB_MEMORY_MODE_READONLY, 0, fn_null⟩], []⟩ 2) =
        some (w2, sub2) ∧
      hb_blob_get_length w2 sub2 = hb_blob_get_length
        ⟨fun a => a, 20, [some ⟨1, false, 10, 5, HB_MEMORY_MODE_READONLY, 0, fn_null⟩], []⟩ 2) :=
  hb_blob_create_sub_blob_range
    ⟨fun a => a, 20, [some ⟨1, false, 10, 5, HB_MEMORY_MODE_READONLY, 0, fn_null⟩], []⟩
    ⟨true, true, true⟩ 2 2 100 (by decide) rfl (by decide) (by decide)

/-- C5: `hb_blob_get_data_writable (b)` always returns, and when it returns a
non-null pointer (success) the length of `b` is what it was before the call,
the reported length equals it, the bytes of the returned view equal, position
by position, the bytes `hb_blob_get_data (b)` exposed before the call, and
afterwards `hb_blob_get_data (b)` returns the address of the writable view. -/
theorem hb_blob_get_data_writable_view (w : World) (env : Env) (b : Nat) :
    ∃ w1 ptr len, hb_blob_get_data_writable w env b = some (w1, ptr, len) ∧
      (ptr ≠ nullptr →
        hb_blob_get_length w1 b = hb_blob_get_length w b ∧
        len = hb_blob_get_length w b ∧
        (∀ i, i < len → w1.mem (ptr + i) = w.mem ((hb_blob_get_data w b).1 + i)) ∧
        hb_blob_get_data w1 b = (ptr, len)) := by
  unfold hb_blob_get_data_writable hb_blob_get_length hb_blob_get_data
  rcases try_writable_cases w env b with h | h | h | h | h
  · rw [h.2]
    exact ⟨w, nullptr, 0, rfl, fun hp => absurd rfl hp⟩
  · rw [h.2.2]
    exact ⟨w, (w.blob b).data, (w.blob b).length, rfl, fun _ => ⟨rfl, rfl, fun _ _ => rfl, rfl⟩⟩
  · obtain ⟨hi, -, -, ht⟩ := h
    rw [ht]
    have hl := live_of_not_immutable w b hi
    refine ⟨_, _, _, rfl, fun _ => ?_⟩
    simp only [Bool.true_eq_false, if_false, blob_modify_self _ _ _ hl, modify_mem]
    exact ⟨trivial, trivial, fun _ _ => trivial, trivial⟩
  · rw [h.2.2.2]
    exact ⟨_, nullptr, 0, rfl, fun hp => absurd rfl hp⟩
  · obtain ⟨-, -, -, v, hv, ht⟩ := h
    rw [ht]
    refine ⟨_, _, _, rfl, fun hp => ?_⟩
    simp only [Bool.true_eq_false, if_false] at hp ⊢
    by_cases hl : v.live b = true
    · obtain ⟨e1, e2, -, e4, -⟩ := dup_result w v b hv hl
      rw [e1]
      simp only [modify_mem, e2]
      exact ⟨trivial, trivial, fun i hi => e4 i hi, trivial⟩
    · exfalso
      apply hp
      rw [blob_modify, if_neg (by simp [hl]), blob_of_not_live v b (by simpa using hl)]
      rfl

theorem hb_blob_get_data_writable_view_witness :
    (∃ w1, hb_blob_get_data_writable hello_blob_world env_ok 2 = some (w1, 21, 5)) ∧
    21 ≠ nullptr ∧
    ∃ w1 ptr len, hb_blob_get_data_writable hello_blob_world env_ok 2 = some (w1, ptr, len) ∧
      (ptr ≠ nullptr →
        hb_blob_get_length w1 2 = hb_blob_get_length hello_blob_world 2 ∧
        len = hb_blob_get_length hello_blob_world 2 ∧
        (∀ i, i < len →
          w1.mem (ptr + i) = hello_blob_world.mem ((hb_blob_get_data hello_blob_world 2).1 + i)) ∧
        hb_blob_get_data w1 2 = (ptr, len)) :=
  ⟨⟨_, rfl⟩, by decide, hb_blob_get_data_writable_view hello_blob_world env_ok 2⟩

/-- C6: for an input buffer of `length` bytes, `0 < length < 2^31`, lying in memory
handed out before the call, `hb_blob_create` in mode `DUPLICATE` returns the
empty singleton exactly when an allocation fails, and otherwise a blob whose
mode is `WRITABLE`, whose length is `length`, whose bytes equal the input bytes
and whose data address differs from the input address (the heap is ordered and
a blob-destructor callback is given an existing blob).  And whatever the
arguments, `hb_blob_create` returns, and the blob it returns never has mode
`DUPLICATE`. -/
theorem hb_blob_create_duplicate (w : World) (env : Env) (data length user_data : Nat)
    (destroy : hb_destroy_func_t) (h0 : 0 < length) (h1 : length < 2 ^ 31)
    (hbuf : data + length ≤ w.brk + 1) (ho : Ordered w)
    (hud : destroy = fn_blob_destroy → user_data < w.heap.length + 2) :
    (∃ w1 r, hb_blob_create w env data length HB_MEMORY_MODE_DUPLICATE user_data destroy =
        some (w1, r) ∧
      (r = hb_blob_get_empty ↔ (env.object_ok = false ∨ env.malloc_ok = false)) ∧
      (r ≠ hb_blob_get_empty →
        (w1.blob r).mode = HB_MEMORY_MODE_WRITABLE ∧ hb_blob_get_length w1 r = length ∧
        (∀ i, i < length → w1.mem ((hb_blob_get_data w1 r).1 + i) = w.mem (data + i)) ∧
        (hb_blob_get_data w1 r).1 ≠ data)) ∧
    (∀ (w0 : World) (env0 : Env) (d0 l0 : Nat) (m0 : hb_memory_mode_t) (u0 : Nat)
        (f0 : hb_destroy_func_t),
      ∃ w1 r, hb_blob_create w0 env0 d0 l0 m0 u0 f0 = some (w1, r) ∧
        (w1.blob r).mode ≠ HB_MEMORY_MODE_DUPLICATE) := by
  constructor
  · by_cases hobj : env.object_ok = true
    · rcases hb_blob_create_duplicate_cases w env data length user_data destroy (by omega) h1 hobj
        with ⟨hok, v, hv, hc⟩ | ⟨hok, w3, -, hc⟩
      · have hos := stored_ordered ho data length HB_MEMORY_MODE_READONLY user_data destroy hud
        have hsb : (stored w data length HB_MEMORY_MODE_READONLY user_data destroy).blob
            (w.heap.length + 2) =
              { ref_count := 1, immutable := false, data := data, length := length,
                mode := HB_MEMORY_MODE_READONLY, user_data := user_data, destroy := destroy } := by
          rw [stored_blob, if_pos rfl]
        have hsl : (stored w data length HB_MEMORY_MODE_READONLY user_data destroy).live
            (w.heap.length + 2) = true := by
          rw [(stored_frame w data length HB_MEMORY_MODE_READONLY user_data destroy).2.2.2.2]
          simp
        obtain ⟨-, -, hvl, -⟩ := destroy_user_data_ordered _ _ _
          (after_memcpy_ordered hos (w.heap.length + 2)) hv
        rw [(after_memcpy_frame _ _).2.2.2.1, hsl] at hvl
        obtain ⟨e1, e2, -, e4, -⟩ := dup_result _ v _ hv hvl
        rw [(stored_frame w data length HB_MEMORY_MODE_READONLY user_data destroy).2.1] at e1 e4
        rw [(stored_frame w data length HB_MEMORY_MODE_READONLY user_data destroy).1, hsb] at e4
        rw [hsb] at e2
        refine ⟨_, _, hc, ?_, fun _ => ?_⟩
        · simp [hb_blob_get_empty, hobj, hok]
        · simp only [hb_blob_get_length, hb_blob_get_data, e1, modify_mem]
          refine ⟨trivial, e2, fun i hi => e4 i hi, ?_⟩
          show w.brk + 1 ≠ data
          omega
      · refine ⟨_, _, hc, ?_, fun h => absurd rfl h⟩
        simp [hok]
    · have hobj2 : env.object_ok = false := by simpa using hobj
      obtain ⟨w1, hw1⟩ := hb_blob_create_fail_total w user_data destroy
      refine ⟨w1, _, ?_, ?_, fun h => absurd rfl h⟩
      · rw [hb_blob_create_no_object _ _ _ _ _ _ _ hobj2, hw1]
      · simp [hobj2]
  · intro w0 env0 d0 l0 m0 u0 f0
    have hnil : ∀ w1 : World, (w1.blob hb_blob_get_empty).mode ≠ HB_MEMORY_MODE_DUPLICATE := by
      intro w1
      simp [hb_blob_get_empty, World.blob, _hb_blob_nil]
    by_cases hl : l0 = 0 ∨ 2 ^ 31 ≤ l0
    · obtain ⟨w1, hw1⟩ := hb_blob_create_fail_total w0 u0 f0
      refine ⟨w1, _, ?_, hnil w1⟩
      unfold hb_blob_create
      rw [if_pos (by omega), hw1]
    · by_cases hobj : env0.object_ok = true
      · by_cases hm : m0 = HB_MEMORY_MODE_DUPLICATE
        · subst hm
          rcases hb_blob_create_duplicate_cases w0 env0 d0 l0 u0 f0 (by omega) (by omega) hobj
            with ⟨-, v, -, hc⟩ | ⟨-, w3, -, hc⟩
          · refine ⟨_, _, hc, ?_⟩
            rw [blob_modify]
            split
            · simp
            · rename_i hnl
              rw [blob_of_not_live v _ (by simpa using hnl)]
              simp [_hb_blob_nil]
          · exact ⟨_, _, hc, hnil w3⟩
        · refine ⟨_, _, hb_blob_create_plain w0 env0 d0 l0 m0 u0 f0 (by omega) (by omega) hobj hm,
            ?_⟩
          rw [hb_blob_create_plain_blob, if_pos rfl]
          exact hm
      · have hobj2 : env0.object_ok = false := by simpa using hobj
        obtain ⟨w1, hw1⟩ := hb_blob_create_fail_total w0 u0 f0
        refine ⟨w1, _, ?_, hnil w1⟩
        rw [hb_blob_create_no_object _ _ _ _ _ _ _ hobj2, hw1]

theorem hb_blob_create_duplicate_witness :
    (∃ w1 r, hb_blob_create hello_world env_ok 10 5 HB_MEMORY_MODE_DUPLICATE 7 (fn_user 3) =
        some (w1, r) ∧
      (r = hb_blob_get_empty ↔ (env_ok.object_ok = false ∨ env_ok.malloc_ok = false)) ∧
      (r ≠ hb_blob_get_empty →
        (w1.blob r).mode = HB_MEMORY_MODE_WRITABLE ∧ hb_blob_get_length w1 r = 5 ∧
        (∀ i, i < 5 → w1.mem ((hb_blob_get_data w1 r).1 + i) = hello_world.mem (10 + i)) ∧
        (hb_blob_get_data w1 r).1 ≠ 10)) ∧
    (∀ (w0 : World) (env0 : Env) (d0 l0 : Nat) (m0 : hb_memory_mode_t) (u0 : Nat)
        (f0 : hb_destroy_func_t),
      ∃ w1 r, hb_blob_create w0 env0 d0 l0 m0 u0 f0 = some (w1, r) ∧
        (w1.blob r).mode ≠ HB_MEMORY_MODE_DUPLICATE) :=
  hb_blob_create_duplicate hello_world env_ok 10 5 7 (fn_user 3) (by decide) (by decide)
    (by decide) hello_world_ordered (by decide)

/-- C7: for every call of `hb_blob_create` with a non-null destroy callback, in an
ordered heap (a blob-destructor callback is given an existing blob, `free` is
given memory handed out already): if the call returns the empty singleton, the
callback has been invoked exactly once when it returns, and operations on the
result change nothing; otherwise, after every sequence of reference, destroy,
make_immutable, get_data_writable, create_sub_blob and copy_writable_or_fail
operations, on any blobs, the number of invocations of the callback on behalf
of the new blob plus one if it is still pending in the blob is exactly one: so
it is invoked at most once at every point, and exactly once as soon as the
blob has been freed or its callback has been replaced. -/
theorem destroy_callback_once (w0 : World) (env : Env) (data length : Nat)
    (mode : hb_memory_mode_t) (user_data : Nat) (destroy : hb_destroy_func_t)
    (hd : destroy ≠ fn_null) (ho : Ordered w0)
    (hud : destroy = fn_blob_destroy → user_data < w0.heap.length + 2)
    (hfree : destroy = fn_free → user_data ≤ w0.brk) :
    ∃ w1 r seg, hb_blob_create w0 env data length mode user_data destroy = some (w1, r) ∧
      w1.calls = w0.calls ++ seg ∧
      (r = hb_blob_get_empty ∨ r = w0.heap.length + 2) ∧
      (r = hb_blob_get_empty →
        fired nullptr destroy user_data seg +
          fired (w0.heap.length + 2) destroy user_data seg = 1 ∧
        ∀ ops : List Op, (∀ op ∈ ops, op.target = r) → run w1 ops = some w1) ∧
      (r ≠ hb_blob_get_empty →
        ∀ ops : List Op, ∃ w2 seg2, run w1 ops = some w2 ∧ w2.calls = w0.calls ++ seg2 ∧
          fired r destroy user_data seg2 + pending w2 r destroy user_data = 1 ∧
          fired r destroy user_data seg2 ≤ 1 ∧
          (w2.live r = false → fired r destroy user_data seg2 = 1) ∧
          ((w2.blob r).destroy ≠ destroy ∨ (w2.blob r).user_data ≠ user_data →
            fired r destroy user_data seg2 = 1)) := by
  obtain ⟨w1, r, seg, hc, hcalls, hcase⟩ :=
    hb_blob_create_account w0 env data length mode user_data destroy hd ho hud hfree
  refine ⟨w1, r, seg, hc, hcalls, ?_, ?_, ?_⟩
  · rcases hcase with h | h
    · exact Or.inl h.1
    · exact Or.inr h.1
  · intro hr
    rcases hcase with h | h
    · refine ⟨h.2, fun ops hops => ?_⟩
      exact run_on_empty ops w1 (fun op hop => by rw [hops op hop, hr])
    · exfalso
      rw [h.1] at hr
      simp [hb_blob_get_empty] at hr
  · intro hr
    rcases hcase with h | h
    · exact absurd h.1 hr
    · obtain ⟨hrb, hinv, hacc⟩ := h
      intro ops
      obtain ⟨w2, hrun, -, ⟨s2, e2, a2⟩⟩ :=
        run_inv (w0.heap.length + 2) destroy user_data hd ops w1 hinv
      have hp := pending_le_one w2 (w0.heap.length + 2) destroy user_data
      have hacct : fired (w0.heap.length + 2) destroy user_data (seg ++ s2) +
          pending w2 (w0.heap.length + 2) destroy user_data = 1 := by
        rw [fired_append]
        omega
      subst hrb
      refine ⟨w2, seg ++ s2, hrun, by rw [e2, hcalls, List.append_assoc], hacct, by omega,
        fun hl => ?_, fun hne => ?_⟩
      · rw [pending_of_not_live _ _ _ _ hl] at hacct
        omega
      · have : pending w2 (w0.heap.length + 2) destroy user_data = 0 := by
          unfold pending
          rw [if_neg]
          rintro ⟨-, h1, h2⟩
          rcases hne with h | h
          · exact h h1
          · exact h h2
        omega

theorem destroy_callback_once_witness :
    ∃ w1 r seg, hb_blob_create hello_world env_ok 10 5 HB_MEMORY_MODE_READONLY 7 (fn_user 3) =
        some (w1, r) ∧
      w1.calls = hello_world.calls ++ seg ∧
      (r = hb_blob_get_empty ∨ r = hello_world.heap.length + 2) ∧
      (r = hb_blob_get_empty →
        fired nullptr (fn_user 3) 7 seg + fired (hello_world.heap.length + 2) (fn_user 3) 7 seg = 1 ∧
        ∀ ops : List Op, (∀ op ∈ ops, op.target = r) → run w1 ops = some w1) ∧
      (r ≠ hb_blob_get_empty →
        ∀ ops : List Op, ∃ w2 seg2, run w1 ops = some w2 ∧
          w2.calls = hello_world.calls ++ seg2 ∧
          fired r (fn_user 3) 7 seg2 + pending w2 r (fn_user 3) 7 = 1 ∧
          fired r (fn_user 3) 7 seg2 ≤ 1 ∧
          (w2.live r = false → fired r (fn_user 3) 7 seg2 = 1) ∧
          ((w2.blob r).destroy ≠ fn_user 3 ∨ (w2.blob r).user_data ≠ 7 →
            fired r (fn_user 3) 7 seg2 = 1)) :=
  destroy_callback_once hello_world env_ok 10 5 HB_MEMORY_MODE_READONLY 7 (fn_user 3)
    (by decide) hello_world_ordered (by decide) (by decide)

/-- C8: for a blob that is not immutable, in any mode and whatever the outcome of
the in-place attempt, `_try_writable` returns true and leaves the mode
`WRITABLE` as soon as `malloc` succeeds or is not needed (the blob is already
writable, or the in-place attempt is allowed and succeeds); the heap is
ordered.  And in any state, if `_try_writable` returns false then the blob is
immutable or `malloc` failed. -/
theorem try_writable_fails_only (w : World) (env : Env) (b : Nat) (ho : Ordered w)
    (hi : (w.blob b).immutable = false)
    (hal : env.malloc_ok = true ∨ (w.blob b).mode = HB_MEMORY_MODE_WRITABLE ∨
      ((w.blob b).mode = HB_MEMORY_MODE_READONLY_MAY_MAKE_WRITABLE ∧ env.inplace_ok = true)) :
    (∃ w1, _try_writable w env b = some (w1, true) ∧
      (w1.blob b).mode = HB_MEMORY_MODE_WRITABLE) ∧
    (∀ (w0 w2 : World) (env0 : Env) (b0 : Nat), _try_writable w0 env0 b0 = some (w2, false) →
      (w0.blob b0).immutable = true ∨ env0.malloc_ok = false) := by
  have hl := live_of_not_immutable w b hi
  constructor
  · rcases try_writable_cases w env b with h | h | h | h | h
    · rw [h.1] at hi
      cases hi
    · exact ⟨w, h.2.2, h.2.1⟩
    · refine ⟨_, h.2.2.2, ?_⟩
      rw [blob_modify_self _ _ _ hl]
    · obtain ⟨-, hm, hok, ht⟩ := h
      rcases hal with h1 | h1 | h1
      · rw [hok] at h1
        cases h1
      · exact absurd h1 hm
      · exfalso
        have := try_writable_inplace_ok w env b hi h1.1 h1.2
        rw [ht] at this
        have h3 := congrArg (Option.map Prod.snd) this
        simp at h3
    · obtain ⟨-, -, -, v, hv, ht⟩ := h
      refine ⟨_, ht, ?_⟩
      obtain ⟨-, -, hvl, -⟩ := destroy_user_data_ordered _ _ _ (after_memcpy_ordered ho b) hv
      rw [(after_memcpy_frame w b).2.2.2.1, hl] at hvl
      rw [blob_modify_self _ _ _ hvl]
  · intro w0 w2 env0 b0 h
    rcases try_writable_cases w0 env0 b0 with h1 | h1 | h1 | h1 | h1
    · exact Or.inl h1.1
    · rw [h1.2.2] at h
      cases h
    · rw [h1.2.2.2] at h
      cases h
    · exact Or.inr h1.2.2.1
    · obtain ⟨-, -, -, v, -, ht⟩ := h1
      rw [ht] at h
      cases h

theorem try_writable_fails_only_witness :
    (∃ w1, _try_writable hello_blob_world env_ok 2 = some (w1, true) ∧
      (w1.blob 2).mode = HB_MEMORY_MODE_WRITABLE) ∧
    (∀ (w0 w2 : World) (env0 : Env) (b0 : Nat), _try_writable w0 env0 b0 = some (w2, false) →
      (w0.blob b0).immutable = true ∨ env0.malloc_ok = false) :=
  try_writable_fails_only hello_blob_world env_ok 2 hello_blob_world_ordered rfl (Or.inl rfl)

/-- C9, as stated, fails: on the blob built by `hb_blob_create` over the five bytes
of "Hello" with mode `READONLY` and no destroy callback, `hb_blob_get_length`
is 5 but `hb_blob_get_data_writable` succeeds when `malloc` does: it returns
the non-null address 21 of a duplicate holding the same five bytes. -/
theorem hello_get_data_writable_succeeds :
    hb_blob_create hello_world env_ok 10 5 HB_MEMORY_MODE_READONLY nullptr fn_null =
      some (hello_blob_world, 2) ∧
    hb_blob_get_length hello_blob_world 2 = 5 ∧
    (∃ w2, hb_blob_get_data_writable hello_blob_world env_ok 2 = some (w2, 21, 5) ∧
      w2.bytes 21 5 = [72, 101, 108, 108, 111]) ∧
    ¬ (∃ w2 len, hb_blob_get_data_writable hello_blob_world env_ok 2 = some (w2, nullptr, len)) := by
  refine ⟨rfl, rfl, ⟨_, rfl, rfl⟩, ?_⟩
  rintro ⟨w2, len, h⟩
  have h3 := congrArg (Option.map (fun r => r.2.1)) h
  have e : (hb_blob_get_data_writable hello_blob_world env_ok 2).map (fun r => r.2.1) =
      some 21 := rfl
  rw [e] at h3
  simp [nullptr] at h3

/-- C9, amended: on a blob built by `hb_blob_create` over `length` bytes
(`0 < length < 2^31`) with mode `READONLY` and no destroy callback,
`hb_blob_get_length` returns `length`, and `hb_blob_get_data_writable` succeeds
when `malloc` succeeds, returning a non-null pointer to a duplicate of the
bytes and leaving the mode `WRITABLE`; it fails, with null and length 0 and the
state unchanged, exactly when `malloc` fails. -/
theorem hb_blob_create_readonly_then_writable (w : World) (env env2 : Env) (data length : Nat)
    (h0 : 0 < length) (h1 : length < 2 ^ 31) (hobj : env.object_ok = true) :
    ∃ w1 b, hb_blob_create w env data length HB_MEMORY_MODE_READONLY nullptr fn_null =
        some (w1, b) ∧
      hb_blob_get_length w1 b = length ∧
      (env2.malloc_ok = true →
        ∃ w2 ptr, hb_blob_get_data_writable w1 env2 b = some (w2, ptr, length) ∧
          ptr ≠ nullptr ∧ (∀ i, i < length → w2.mem (ptr + i) = w.mem (data + i)) ∧
          (w2.blob b).mode = HB_MEMORY_MODE_WRITABLE) ∧
      (env2.malloc_ok = false →
        hb_blob_get_data_writable w1 env2 b = some (w1, nullptr, 0)) := by
  have hsb : (stored w data length HB_MEMORY_MODE_READONLY nullptr fn_null).blob
      (w.heap.length + 2) =
        { ref_count := 1, immutable := false, data := data, length := length,
          mode := HB_MEMORY_MODE_READONLY, user_data := nullptr, destroy := fn_null } := by
    rw [stored_blob, if_pos rfl]
  have hsl : (stored w data length HB_MEMORY_MODE_READONLY nullptr fn_null).live
      (w.heap.length + 2) = true := by
    rw [(stored_frame w data length HB_MEMORY_MODE_READONLY nullptr fn_null).2.2.2.2]
    simp
  obtain ⟨hmem, hbrk, -, -, -⟩ := stored_frame w data length HB_MEMORY_MODE_READONLY nullptr fn_null
  refine ⟨stored w data length HB_MEMORY_MODE_READONLY nullptr fn_null, w.heap.length + 2,
    hb_blob_create_plain w env data length _ _ _ (by omega) h1 hobj (by decide), ?_, ?_, ?_⟩
  · simp [hb_blob_get_length, hsb]
  · intro hok
    obtain ⟨v, hv, ht⟩ := try_writable_dup_ok _ env2 (w.heap.length + 2)
      (by rw [hsb]) (by rw [hsb]; simp) (by rw [hsb]; intro h; cases h) hok
    have hvv : v = after_memcpy (stored w data length HB_MEMORY_MODE_READONLY nullptr fn_null)
        (w.heap.length + 2) := by
      rw [destroy_user_data_null _ _ (by
        rw [(after_memcpy_frame _ _).2.2.2.2.2, (before_malloc_fields _ _).2.2.2.2.2, hsb])] at hv
      exact (Option.some.inj hv).symm
    have hvl : v.live (w.heap.length + 2) = true := by
      rw [hvv, (after_memcpy_frame _ _).2.2.2.1, hsl]
    obtain ⟨e1, e2, -, e4, -⟩ := dup_result _ v _ hv hvl
    rw [hbrk] at e1 e4
    rw [hmem, hsb] at e4
    rw [hsb] at e2
    refine ⟨v.modify (w.heap.length + 2) (fun x =>
        { x with mode := HB_MEMORY_MODE_WRITABLE, data := w.brk + 1,
                 user_data := w.brk + 1, destroy := fn_free }),
      w.brk + 1, ?_, by simp [nullptr], ?_, ?_⟩
    · unfold hb_blob_get_data_writable
      rw [ht, hbrk]
      simp only [Option.map_some', Bool.true_eq_false, if_false, e1]
      rw [e2]
    · intro i hi
      rw [modify_mem]
      exact e4 i hi
    · rw [e1]
  · intro hok
    unfold hb_blob_get_data_writable
    rw [try_writable_dup_fail _ env2 (w.heap.length + 2)
      (by rw [hsb]) (by rw [hsb]; simp) (by rw [hsb]; intro h; cases h) hok,
      before_malloc_of_not_may _ _ (by rw [hsb]; simp)]
    rfl

theorem hb_blob_create_readonly_then_writable_witness :
    ∃ w1 b, hb_blob_create hello_world env_ok 10 5 HB_MEMORY_MODE_READONLY nullptr fn_null =
        some (w1, b) ∧
      hb_blob_get_length w1 b = 5 ∧
      (env_ok.malloc_ok = true →
        ∃ w2 ptr, hb_blob_get_data_writable w1 env_ok b = some (w2, ptr, 5) ∧
          ptr ≠ nullptr ∧ (∀ i, i < 5 → w2.mem (ptr + i) = hello_world.mem (10 + i)) ∧
          (w2.blob b).mode = HB_MEMORY_MODE_WRITABLE) ∧
      (env_ok.malloc_ok = false →
        hb_blob_get_data_writable w1 env_ok b = some (w1, nullptr, 0)) :=
  hb_blob_create_readonly_then_writable hello_world env_ok env_ok 10 5 (by decide) (by decide) rfl

/-- C10: for a non-empty source blob (length in `[1, 2^31)`, bytes in memory handed
out before the call), immutable or not and in any mode,
`hb_blob_copy_writable_or_fail` leaves the source object as it was; when both
allocations succeed it returns a new live blob, distinct from null, from the
empty singleton and from the source, with the same length and the same bytes
at a different address, mode `WRITABLE` and not immutable, on which
`hb_blob_get_data_writable` succeeds; when an allocation fails it returns
null.  For the empty blob it returns null in every state. -/
theorem hb_blob_copy_writable_or_fail_spec (w : World) (env : Env) (b : Nat)
    (h0 : 0 < hb_blob_get_length w b) (h1 : hb_blob_get_length w b < 2 ^ 31)
    (hbuf : (hb_blob_get_data w b).1 + hb_blob_get_length w b ≤ w.brk + 1) :
    (∃ w1 c, hb_blob_copy_writable_or_fail w env b = some (w1, c) ∧
      w1.blob b = w.blob b ∧
      (env.object_ok = true ∧ env.malloc_ok = true →
        c ≠ nullptr ∧ c ≠ hb_blob_get_empty ∧ c ≠ b ∧ w1.live c = true ∧
        hb_blob_get_length w1 c = hb_blob_get_length w b ∧
        (∀ i, i < hb_blob_get_length w b →
          w1.mem ((hb_blob_get_data w1 c).1 + i) = w.mem ((hb_blob_get_data w b).1 + i) ∧
          w1.mem ((hb_blob_get_data w b).1 + i) = w.mem ((hb_blob_get_data w b).1 + i)) ∧
        (hb_blob_get_data w1 c).1 ≠ (hb_blob_get_data w b).1 ∧
        (w1.blob c).mode = HB_MEMORY_MODE_WRITABLE ∧ hb_blob_is_immutable w1 c = false ∧
        (hb_blob_get_data w1 c).1 ≠ nullptr ∧
        (∀ env2, hb_blob_get_data_writable w1 env2 c =
          some (w1, (hb_blob_get_data w1 c).1, hb_blob_get_length w b))) ∧
      (env.object_ok = false ∨ env.malloc_ok = false → c = nullptr)) ∧
    (∀ (w0 : World) (env0 : Env),
      hb_blob_copy_writable_or_fail w0 env0 hb_blob_get_empty = some (w0, nullptr)) := by
  simp only [hb_blob_get_length, hb_blob_get_data] at h0 h1 hbuf ⊢
  have hlb : w.live b = true := live_of_length_pos w b h0
  have hblt := live_lt w b hlb
  have hb2 := live_ge_two w b hlb
  constructor
  · have hsb : (stored w (w.blob b).data (w.blob b).length HB_MEMORY_MODE_READONLY nullptr
        fn_null).blob (w.heap.length + 2) =
          { ref_count := 1, immutable := false, data := (w.blob b).data,
            length := (w.blob b).length, mode := HB_MEMORY_MODE_READONLY,
            user_data := nullptr, destroy := fn_null } := by
      rw [stored_blob, if_pos rfl]
    have hso : (stored w (w.blob b).data (w.blob b).length HB_MEMORY_MODE_READONLY nullptr
        fn_null).blob b = w.blob b := by
      rw [stored_blob, if_neg (by omega)]
    obtain ⟨hmem, hbrk, -, -, hlive⟩ :=
      stored_frame w (w.blob b).data (w.blob b).length HB_MEMORY_MODE_READONLY nullptr fn_null
    have hsl : (stored w (w.blob b).data (w.blob b).length HB_MEMORY_MODE_READONLY nullptr
        fn_null).live (w.heap.length + 2) = true := by
      rw [hlive]; simp
    unfold hb_blob_copy_writable_or_fail
    by_cases hobj : env.object_ok = true
    · rcases hb_blob_create_duplicate_cases w env (w.blob b).data (w.blob b).length nullptr
        fn_null (by omega) h1 hobj with ⟨hok, v, hv, hc⟩ | ⟨hok, w3, h3, hc⟩
      · have hvv : v = after_memcpy (stored w (w.blob b).data (w.blob b).length
            HB_MEMORY_MODE_READONLY nullptr fn_null) (w.heap.length + 2) := by
          rw [destroy_user_data_null _ _ (by
            rw [(after_memcpy_frame _ _).2.2.2.2.2, (before_malloc_fields _ _).2.2.2.2.2,
              hsb])] at hv
          exact (Option.some.inj hv).symm
        have hvl : v.live (w.heap.length + 2) = true := by
          rw [hvv, (after_memcpy_frame _ _).2.2.2.1, hsl]
        have hvb : v.blob b = w.blob b := by
          rw [hvv, (after_memcpy_frame _ _).2.2.2.2.1 b (by omega), hso]
        obtain ⟨e1, e2, e3, e4, e5⟩ := dup_result _ v _ hv hvl
        rw [hbrk] at e1 e4 e5
        rw [hmem, hsb] at e4
        rw [hmem] at e5
        rw [hsb] at e2 e3
        rw [hc]
        refine ⟨v.modify (w.heap.length + 2) (fun x =>
            { x with mode := HB_MEMORY_MODE_WRITABLE, data := w.brk + 1,
                     user_data := w.brk + 1, destroy := fn_free }),
          w.heap.length + 2, ?_, ?_, fun _ => ?_, fun h => ?_⟩
        · simp [hb_blob_get_empty]
        · rw [blob_modify_ne _ _ _ _ (by omega), hvb]
        · refine ⟨by simp [nullptr], by simp [hb_blob_get_empty], by omega, ?_, ?_, ?_, ?_, ?_, ?_,
            ?_, ?_⟩
          · rw [live_modify, hvl]
          · rw [e1]; exact e2
          · intro i hi
            rw [e1, modify_mem]
            exact ⟨e4 i hi, e5 _ (by omega)⟩
          · rw [e1]
            show w.brk + 1 ≠ (w.blob b).data
            omega
          · rw [e1]
          · simp only [hb_blob_is_immutable, e1]
            exact e3
          · rw [e1]
            simp [nullptr]
          · intro env2
            unfold hb_blob_get_data_writable
            rw [try_writable_writable _ env2 _ (by rw [e1]; exact e3) (by rw [e1])]
            simp only [Option.map_some', Bool.true_eq_false, if_false, e1]
            rw [e2]
        · rcases h with h | h
          · rw [hobj] at h; cases h
          · rw [hok] at h; cases h
      · rw [hc]
        rw [hb_blob_destroy_last_null _ _ (by omega) (by rw [hsb]) (by rw [hsb])] at h3
        have h3b : w3.blob b = w.blob b := by
          rw [← Option.some.inj h3, blob_free_obj, if_neg (by omega),
            blob_modify_ne _ _ _ _ (by omega), hso]
        refine ⟨w3, nullptr, by simp, h3b, fun h => ?_, fun _ => rfl⟩
        rw [hok] at h
        cases h.2
    · have hobj2 : env.object_ok = false := by simpa using hobj
      rw [hb_blob_create_no_object _ _ _ _ _ _ _ hobj2]
      refine ⟨w, nullptr, by simp [hb_blob_create_fail], rfl, fun h => ?_, fun _ => rfl⟩
      rw [hobj2] at h
      cases h.1
  · intro w0 env0
    rfl

theorem hb_blob_copy_writable_or_fail_spec_witness :
    (∃ w1 c, hb_blob_copy_writable_or_fail hello_blob_world env_ok 2 = some (w1, c) ∧
      w1.blob 2 = hello_blob_world.blob 2 ∧
      (env_ok.object_ok = true ∧ env_ok.malloc_ok = true →
        c ≠ nullptr ∧ c ≠ hb_blob_get_empty ∧ c ≠ 2 ∧ w1.live c = true ∧
        hb_blob_get_length w1 c = hb_blob_get_length hello_blob_world 2 ∧
        (∀ i, i < hb_blob_get_length hello_blob_world 2 →
          w1.mem ((hb_blob_get_data w1 c).1 + i) =
            hello_blob_world.mem ((hb_blob_get_data hello_blob_world 2).1 + i) ∧
          w1.mem ((hb_blob_get_data hello_blob_world 2).1 + i) =
            hello_blob_world.mem ((hb_blob_get_data hello_blob_world 2).1 + i)) ∧
        (hb_blob_get_data w1 c).1 ≠ (hb_blob_get_data hello_blob_world 2).1 ∧
        (w1.blob c).mode = HB_MEMORY_MODE_WRITABLE ∧ hb_blob_is_immutable w1 c = false ∧
        (hb_blob_get_data w1 c).1 ≠ nullptr ∧
        (∀ env2, hb_blob_get_data_writable w1 env2 c =
          some (w1, (hb_blob_get_data w1 c).1, hb_blob_get_length hello_blob_world 2))) ∧
      (env_ok.object_ok = false ∨ env_ok.malloc_ok = false → c = nullptr)) ∧
    (∀ (w0 : World) (env0 : Env),
      hb_blob_copy_writable_or_fail w0 env0 hb_blob_get_empty = some (w0, nullptr)) :=
  hb_blob_copy_writable_or_fail_spec hello_blob_world env_ok 2 (by decide) (by decide)
    (by decide)

/-- C11: the immutable flag is a one-way latch.  For a pointer `q` in the range of
allocated blobs that reads immutable, every operation (hence every sequence of
reference, destroy, make_immutable, get_data_writable, create_sub_blob and
copy_writable_or_fail operations, on any blobs) returns and leaves `q` reading
immutable; `hb_blob_get_data` and `hb_blob_get_length` are reads and have no
state to return.  `hb_blob_make_immutable` is idempotent, keeps the memory,
the allocator, the trace and every object but `b`, changes of `b` only the
field `immutable`, and does nothing on the empty singleton. -/
theorem immutable_latch (w : World) (ops : List Op) (q b : Nat)
    (hq : q < w.heap.length + 2) (hi : hb_blob_is_immutable w q = true) :
    (∃ w1, run w ops = some w1 ∧ hb_blob_is_immutable w1 q = true) ∧
    (∀ op : Op, ∃ w1, step w op = some w1 ∧ hb_blob_is_immutable w1 q = true) ∧
    hb_blob_make_immutable (hb_blob_make_immutable w b) b = hb_blob_make_immutable w b ∧
    (hb_blob_make_immutable w b).mem = w.mem ∧ (hb_blob_make_immutable w b).brk = w.brk ∧
    (hb_blob_make_immutable w b).calls = w.calls ∧
    (∀ p, (hb_blob_make_immutable w b).live p = w.live p) ∧
    (∀ p, (hb_blob_make_immutable w b).blob p =
      if p = b then { w.blob p with immutable := true } else w.blob p) ∧
    hb_blob_make_immutable w hb_blob_get_empty = w := by
  refine ⟨?_, ?_, ?_, ?_, ?_, ?_, ?_, ?_, ?_⟩
  · obtain ⟨w1, h1⟩ := run_total ops w
    exact ⟨w1, h1, (run_latch ops w w1 h1).2 q hq hi⟩
  · intro op
    obtain ⟨w1, h1⟩ := step_total w op
    exact ⟨w1, h1, (step_latch w w1 op h1).2 q hq hi⟩
  · unfold hb_blob_make_immutable
    split
    · rfl
    · exact modify_modify_const w b _ (fun _ => rfl)
  · unfold hb_blob_make_immutable
    split
    · rfl
    · exact modify_mem _ _ _
  · unfold hb_blob_make_immutable
    split
    · rfl
    · exact modify_brk _ _ _
  · unfold hb_blob_make_immutable
    split
    · rfl
    · exact modify_calls _ _ _
  · exact (hb_blob_make_immutable_frame w b).2
  · intro p
    unfold hb_blob_make_immutable
    split
    · rename_i hin
      have hb1 : b = 1 := by simpa [hb_object_is_inert, hb_blob_get_empty] using hin
      subst hb1
      split
      · rename_i hp
        subst hp
        rfl
      · rfl
    · rw [blob_modify]
      by_cases hp : p = b
      · subst hp
        by_cases hl : w.live p = true
        · simp [hl]
        · simp only [hl, and_false, if_false, if_true]
          rw [blob_of_not_live w p (by simpa using hl)]
          rfl
      · simp [hp]
  · rfl

theorem immutable_latch_witness :
    (∃ w1, run (hb_blob_make_immutable hello_blob_world 2)
        [Op.get_data_writable env_ok 2, Op.reference 2, Op.destroy 2] = some w1 ∧
      hb_blob_is_immutable w1 2 = true) ∧
    (∀ op : Op, ∃ w1, step (hb_blob_make_immutable hello_blob_world 2) op = some w1 ∧
      hb_blob_is_immutable w1 2 = true) ∧
    hb_blob_make_immutable (hb_blob_make_immutable (hb_blob_make_immutable hello_blob_world 2) 2)
        2 = hb_blob_make_immutable (hb_blob_make_immutable hello_blob_world 2) 2 ∧
    (hb_blob_make_immutable (hb_blob_make_immutable hello_blob_world 2) 2).mem =
      (hb_blob_make_immutable hello_blob_world 2).mem ∧
    (hb_blob_make_immutable (hb_blob_make_immutable hello_blob_world 2) 2).brk =
      (hb_blob_make_immutable hello_blob_world 2).brk ∧
    (hb_blob_make_immutable (hb_blob_make_immutable hello_blob_world 2) 2).calls =
      (hb_blob_make_immutable hello_blob_world 2).calls ∧
    (∀ p, (hb_blob_make_immutable (hb_blob_make_immutable hello_blob_world 2) 2).live p =
      (hb_blob_make_immutable hello_blob_world 2).live p) ∧
    (∀ p, (hb_blob_make_immutable (hb_blob_make_immutable hello_blob_world 2) 2).blob p =
      if p = 2 then { (hb_blob_make_immutable hello_blob_world 2).blob p with immutable := true }
      else (hb_blob_make_immutable hello_blob_world 2).blob p) ∧
    hb_blob_make_immutable (hb_blob_make_immutable hello_blob_world 2) hb_blob_get_empty =
      hb_blob_make_immutable hello_blob_world 2 :=
  immutable_latch (hb_blob_make_immutable hello_blob_world 2)
    [Op.get_data_writable env_ok 2, Op.reference 2, Op.destroy 2] 2 2 (by decide) rfl

/-- C12, as stated, fails: `hb_blob_create (NULL, 5, HB_MEMORY_MODE_READONLY, NULL, NULL)`
stores the caller's pointer unchecked, so the blob it returns is live with length 5 and
null data, and "data is non-null iff length > 0" does not hold of it. -/
theorem hb_blob_create_null_data :
    ∃ w, hb_blob_create hello_world env_ok nullptr 5 HB_MEMORY_MODE_READONLY nullptr fn_null
        = some (w, 2) ∧
      w.live 2 = true ∧ (w.blob 2).data = nullptr ∧ (w.blob 2).length = 5 ∧
      ¬ ((w.blob 2).data ≠ nullptr ↔ 0 < (w.blob 2).length) :=
  ⟨_, rfl, rfl, rfl, rfl, by decide⟩

/-- C12 (amended): after any sequence of creations (`hb_blob_create`) and blob operations
(among them `hb_blob_create_sub_blob` and `hb_blob_copy_writable_or_fail`), on any blobs,
the sequence returns and in the state reached every pointer reads a length that is 0 or
lies in `[1, 2^31)`; length 0 is read through the empty singleton and through pointers to
no live object only, which read as the empty blob (null data, immutable); and when every
creation outside mode `DUPLICATE` was handed a non-null data pointer, data is non-null if
and only if length > 0. -/
theorem blob_shape (w0 : World) (acts : List Action) (h0 : Shaped false w0) :
    ∃ w, perform w0 acts = some w ∧
      (∀ q, (w.blob q).length = 0 ∨ (1 ≤ (w.blob q).length ∧ (w.blob q).length < 2 ^ 31)) ∧
      (∀ q, (w.blob q).length = 0 → w.live q = false ∧ w.blob q = _hb_blob_nil) ∧
      ((w.blob hb_blob_get_empty).length = 0 ∧ (w.blob hb_blob_get_empty).data = nullptr ∧
        hb_blob_is_immutable w hb_blob_get_empty = true) ∧
      (Shaped true w0 → (∀ a ∈ acts, a.data_given) →
        ∀ q, (w.blob q).data ≠ nullptr ↔ 0 < (w.blob q).length) := by
  obtain ⟨w, hw⟩ := perform_total acts w0
  have hs : Shaped false w := perform_shaped acts w0 w h0 (fun hn => by cases hn) hw
  have hdead : ∀ q, w.live q = false → w.blob q = _hb_blob_nil := fun q => blob_of_not_live w q
  refine ⟨w, hw, ?_, ?_, ⟨rfl, rfl, rfl⟩, ?_⟩
  · intro q
    cases hl : w.live q
    · left
      rw [hdead q hl]
      rfl
    · right
      exact ⟨(hs q hl).1, (hs q hl).2.1⟩
  · intro q hq
    cases hl : w.live q
    · exact ⟨rfl, hdead q hl⟩
    · have := (hs q hl).1
      omega
  · intro h1 hd q
    have hs1 : Shaped true w := perform_shaped acts w0 w h1 (fun _ => hd) hw
    cases hl : w.live q
    · rw [hdead q hl]
      simp [_hb_blob_nil, nullptr]
    · have := hs1 q hl
      exact ⟨fun _ => this.1, fun _ => this.2.2 rfl⟩

/-- C12 (amended), on a run: a read-only blob is created over "Hello", promoted to
writable, and a sub-blob of it is created. -/
theorem blob_shape_witness :
    Shaped false hello_world ∧
    ∃ w, perform hello_world
        [Action.create env_ok 10 5 HB_MEMORY_MODE_READONLY nullptr fn_null,
         Action.op (Op.get_data_writable env_ok 2),
         Action.op (Op.create_sub_blob env_ok 2 1 3)] = some w ∧
      (∀ q, (w.blob q).length = 0 ∨ (1 ≤ (w.blob q).length ∧ (w.blob q).length < 2 ^ 31)) ∧
      (∀ q, (w.blob q).length = 0 → w.live q = false ∧ w.blob q = _hb_blob_nil) ∧
      ((w.blob hb_blob_get_empty).length = 0 ∧ (w.blob hb_blob_get_empty).data = nullptr ∧
        hb_blob_is_immutable w hb_blob_get_empty = true) ∧
      (Shaped true hello_world →
        (∀ a ∈ [Action.create env_ok 10 5 HB_MEMORY_MODE_READONLY nullptr fn_null,
            Action.op (Op.get_data_writable env_ok 2),
            Action.op (Op.create_sub_blob env_ok 2 1 3)], a.data_given) →
        ∀ q, (w.blob q).data ≠ nullptr ↔ 0 < (w.blob q).length) :=
  have h : Shaped false hello_world := fun q hq => by
    have h2 := live_lt hello_world q hq
    have h3 := live_ge_two hello_world q hq
    simp [hello_world] at h2
    omega
  ⟨h, blob_shape hello_world _ h⟩

/-- C13: a sub-blob pins its parent.  In an ordered heap in which every reference held
by a sub-blob is counted, for a parent with reference count 1 and callback `fn (arg)` and
a sub-blob created from it: creating the sub-blob invokes nothing; after
`hb_blob_destroy (parent)` nothing has been invoked, the memory is as it was and the
parent is live with its data and length; after the subsequent `hb_blob_destroy (sub)`
the callback of the parent has been invoked exactly once more than before, and parent
and sub-blob are freed; and after any sequence of operations in which the caller drops
only references it holds, as long as a live sub-blob refers to the parent, the parent is
live and its callback has not been invoked. -/
theorem sub_blob_pins_parent (w : World) (env : Env) (parent offset length : Nat)
    (fn : hb_destroy_func_t) (arg : Nat)
    (hinv : Inv parent fn arg w) (hcount : Counted w) (hfn : fn ≠ fn_null)
    (hrc : (w.blob parent).ref_count = 1)
    (hcb : (w.blob parent).destroy = fn ∧ (w.blob parent).user_data = arg)
    (hpar : (w.blob parent).length < 2 ^ 31) (hobj : env.object_ok = true)
    (hl : length ≠ 0) (ho : offset < (w.blob parent).length) :
    ∃ w1 sub, hb_blob_create_sub_blob w env parent offset length = some (w1, sub) ∧
      w1.live sub = true ∧ (w1.blob sub).user_data = parent ∧ w1.calls = w.calls ∧
      (∃ w2, hb_blob_destroy w1 parent = some w2 ∧
        w2.calls = w.calls ∧ w2.mem = w.mem ∧ w2.live parent = true ∧
        (w2.blob parent).data = (w.blob parent).data ∧
        (w2.blob parent).length = (w.blob parent).length ∧
        ∃ w3, hb_blob_destroy w2 sub = some w3 ∧
          fired parent fn arg w3.calls = fired parent fn arg w.calls + 1 ∧
          w3.live parent = false ∧ w3.live sub = false) ∧
      (∀ ops, disciplined w1 ops = true →
        ∃ w', run w1 ops = some w' ∧
          ∀ s, w'.live s = true → (w'.blob s).destroy = fn_blob_destroy →
            (w'.blob s).user_data = parent →
            w'.live parent = true ∧
              fired parent fn arg w'.calls = fired parent fn arg w.calls) := by
  have hlive : w.live parent = true := live_of_length_pos w parent (by omega)
  have hp2 : 2 ≤ parent := hinv.2.1
  have hplt : parent < w.heap.length + 2 := hinv.2.2.1
  obtain ⟨w1, hc, hmem, hcalls, -, hlen, hsub, hparent, -, hlv⟩ :=
    hb_blob_create_sub_blob_spec w env parent offset length hpar hobj hl ho
  have hinv1 : Inv parent fn arg w1 :=
    (hb_blob_create_sub_blob_step parent fn arg hfn w w1 env parent offset length _ hinv hc).1
  have hcount1 : Counted w1 :=
    counted_of_slack hcount (hb_blob_create_sub_blob_slack w w1 env parent offset length _
      hinv.1 hc)
  have hlp1 : w1.live parent = true := by simp [hlv, hlive]
  have hls1 : w1.live (w.heap.length + 2) = true := by simp [hlv]
  refine ⟨w1, w.heap.length + 2, hc, hls1, by rw [hsub], hcalls, ?_, ?_⟩
  · have hrc1 : (w1.blob parent).ref_count = 0 + 2 := by rw [hparent]; simp [hrc]
    have hd2 := hb_blob_destroy_shared w1 parent 0 hp2 hrc1
    have hb2 : (w1.modify parent (fun b => { b with ref_count := 0 + 1 })).blob parent =
        { w1.blob parent with ref_count := 0 + 1 } := blob_modify_self _ _ _ hlp1
    have hl2 : (w1.modify parent (fun b => { b with ref_count := 0 + 1 })).live parent = true := by
      rw [live_modify]; exact hlp1
    refine ⟨_, hd2, by rw [modify_calls, hcalls], by rw [modify_mem, hmem], hl2,
      by rw [hb2, hparent], by rw [hb2, hparent], ?_⟩
    have ho2 : Ordered (w1.modify parent (fun b => { b with ref_count := 0 + 1 })) :=
      hinv1.1.ordered_modify parent (fun b => { b with ref_count := 0 + 1 })
        (fun x hx => ⟨hx, rfl⟩)
    obtain ⟨w3, h3⟩ := hb_blob_destroy_total
      (w1.modify parent (fun b => { b with ref_count := 0 + 1 })) (w.heap.length + 2)
    have hsb2 : (w1.modify parent (fun b => { b with ref_count := 0 + 1 })).blob
        (w.heap.length + 2) = w1.blob (w.heap.length + 2) :=
      blob_modify_ne _ _ _ _ (by omega)
    obtain ⟨hdp, hds⟩ := hb_blob_destroy_sub_frees _ w3 (w.heap.length + 2) parent (by omega) hp2
      (by omega) (by rw [hsb2, hsub]) (by rw [hsb2, hsub]) (by rw [hsb2, hsub])
      (by rw [hb2]) h3
    obtain ⟨seg, hseg, hacc⟩ := hb_blob_destroy_acct parent fn arg hfn _ w3 _ ho2 h3
    have hpend2 : pending (w1.modify parent (fun b => { b with ref_count := 0 + 1 })) parent
        fn arg = 1 := by
      unfold pending
      rw [if_pos ⟨hl2, by rw [hb2, hparent]; exact hcb.1, by rw [hb2, hparent]; exact hcb.2⟩]
    rw [hpend2, pending_of_not_live _ _ _ _ hdp] at hacc
    refine ⟨w3, h3, ?_, hdp, hds⟩
    rw [hseg, modify_calls, hcalls, fired_append]
    omega
  · intro ops hdis
    obtain ⟨w', hrun, hinv', hcount'⟩ := run_counted parent fn arg hfn ops w1 hinv1 hcount1 hdis
    refine ⟨w', hrun, ?_⟩
    intro s hs hd hu
    obtain ⟨hlp', -⟩ := live_of_counted w' s parent hcount' hs hd hu
    obtain ⟨-, seg, hseg, hq⟩ := run_quiet parent hp2 ops w1 w' (by rw [hlen]; omega) hrun
    refine ⟨hlp', ?_⟩
    rw [hseg, hcalls, fired_append,
      fired_of_owner_ne parent fn arg seg (hq hlp' (by rw [hparent]))]
    rfl

/-- C13 on the blob over "Hello" whose callback is the caller's function 7 with argument
10: a sub-blob of bytes 1 to 3 is created at pointer 3; dropping the parent and then the
sub-blob invokes the blob destructor for the sub-blob and then, once, the callback of the
parent. -/
theorem sub_blob_pins_parent_witness :
    Inv 2 (fn_user 7) 10 hello_owned_world ∧ Counted hello_owned_world ∧
    fn_user 7 ≠ fn_null ∧ (hello_owned_world.blob 2).ref_count = 1 ∧
    ((hello_owned_world.blob 2).destroy = fn_user 7 ∧
      (hello_owned_world.blob 2).user_data = 10) ∧
    (hello_owned_world.blob 2).length < 2 ^ 31 ∧ env_ok.object_ok = true ∧ (3 : Nat) ≠ 0 ∧
    1 < (hello_owned_world.blob 2).length ∧
    (∃ w1 sub, hb_blob_create_sub_blob hello_owned_world env_ok 2 1 3 = some (w1, sub) ∧
      w1.live sub = true ∧ (w1.blob sub).user_data = 2 ∧ w1.calls = hello_owned_world.calls) ∧
    (run hello_owned_world
        [Op.create_sub_blob env_ok 2 1 3, Op.destroy 2]).map (fun v => v.calls) = some [] ∧
    (run hello_owned_world
        [Op.create_sub_blob env_ok 2 1 3, Op.destroy 2, Op.destroy 3]).map (fun v => v.calls) =
      some [⟨3, fn_blob_destroy, 2⟩, ⟨2, fn_user 7, 10⟩] :=
  ⟨hello_owned_world_inv, hello_owned_world_counted, by decide, rfl, ⟨rfl, rfl⟩, by decide, rfl,
    by decide, by decide,
    (sub_blob_pins_parent hello_owned_world env_ok 2 1 3 (fn_user 7) 10 hello_owned_world_inv
      hello_owned_world_counted (by decide) rfl ⟨rfl, rfl⟩ (by decide) rfl (by decide)
      (by decide)).imp (fun _ h => h.imp (fun _ g => ⟨g.1, g.2.1, g.2.2.1, g.2.2.2.1⟩)),
    rfl, rfl⟩

/-- C22, as stated, fails for the mode `READONLY_MAY_MAKE_WRITABLE`: on the blob over
"Hello" in that mode, with the in-place attempt and the allocation both failing,
`_try_writable` returns false and the mode afterwards is `READONLY`, not what it was
before the call. -/
theorem try_writable_failure_marks_readonly :
    (hello_may_world.blob 2).immutable = false ∧
    (hello_may_world.blob 2).mode = HB_MEMORY_MODE_READONLY_MAY_MAKE_WRITABLE ∧
    ∃ w', _try_writable hello_may_world ⟨true, false, false⟩ 2 = some (w', false) ∧
      (w'.blob 2).mode = HB_MEMORY_MODE_READONLY ∧
      (w'.blob 2).mode ≠ (hello_may_world.blob 2).mode :=
  ⟨rfl, rfl, _, rfl, rfl, by decide⟩

/-- C22, amended: for a blob that is not immutable and whose mode is `READONLY` or
`READONLY_MAY_MAKE_WRITABLE`, if `_try_writable` returns false then the allocation failed
(and, in the second mode, so did the in-place attempt), and data, length, user_data,
destroy, the reference count and the immutable flag are what they were before the call,
no callback has been invoked, the bytes, the allocator and every other object are
unchanged; the mode afterwards is `READONLY`, which leaves a `READONLY` blob as it was and
records the failed in-place attempt on a `READONLY_MAY_MAKE_WRITABLE` blob. -/
theorem try_writable_failure_frame (w w' : World) (env : Env) (b : Nat)
    (hi : (w.blob b).immutable = false)
    (hm : (w.blob b).mode = HB_MEMORY_MODE_READONLY ∨
      (w.blob b).mode = HB_MEMORY_MODE_READONLY_MAY_MAKE_WRITABLE)
    (h : _try_writable w env b = some (w', false)) :
    env.malloc_ok = false ∧
    ((w.blob b).mode = HB_MEMORY_MODE_READONLY_MAY_MAKE_WRITABLE → env.inplace_ok = false) ∧
    (w'.blob b).data = (w.blob b).data ∧ (w'.blob b).length = (w.blob b).length ∧
    (w'.blob b).user_data = (w.blob b).user_data ∧
    (w'.blob b).destroy = (w.blob b).destroy ∧
    (w'.blob b).ref_count = (w.blob b).ref_count ∧
    (w'.blob b).immutable = (w.blob b).immutable ∧
    (w'.blob b).mode = HB_MEMORY_MODE_READONLY ∧
    ((w.blob b).mode = HB_MEMORY_MODE_READONLY → w'.blob b = w.blob b) ∧
    w'.calls = w.calls ∧ w'.mem = w.mem ∧ w'.brk = w.brk ∧
    (∀ q, q ≠ b → w'.blob q = w.blob q) ∧ (∀ q, w'.live q = w.live q) := by
  rcases try_writable_cases w env b with c | c | c | c | c
  · rw [c.1] at hi
    exact absurd hi (by decide)
  · rw [c.2.2] at h
    simp at h
  · rw [c.2.2.2] at h
    simp at h
  · obtain ⟨-, -, hok, ht⟩ := c
    rw [ht] at h
    simp only [Option.some.injEq, Prod.mk.injEq, and_true] at h
    subst h
    obtain ⟨f1, f2, f3, f4, f5, f6⟩ := before_malloc_fields w b
    obtain ⟨g1, g2, g3, -, g5, g6⟩ := before_malloc_frame w b
    have hb := before_malloc_blob w b
    refine ⟨hok, ?_, f3, f4, f5, f6, f1, f2, ?_, ?_, g3, g1, g2, g6, g5⟩
    · intro hmay
      cases he : env.inplace_ok
      · rfl
      · rw [try_writable_inplace_ok w env b hi hmay he] at ht
        simp at ht
    · rw [hb]
      rcases hm with hm | hm
      · rw [if_neg (by rw [hm]; decide)]
        exact hm
      · rw [if_pos hm]
    · intro hr
      rw [hb, if_neg (by rw [hr]; decide)]
  · obtain ⟨-, -, -, v, -, ht⟩ := c
    rw [ht] at h
    simp at h

/-- C22 on the blob over "Hello" in mode `READONLY_MAY_MAKE_WRITABLE`, with the in-place
attempt and the allocation both failing. -/
theorem try_writable_failure_frame_witness :
    ∃ w', _try_writable hello_may_world ⟨true, false, false⟩ 2 = some (w', false) ∧
      (w'.blob 2).data = 10 ∧ (w'.blob 2).length = 5 ∧
      (w'.blob 2).destroy = fn_null ∧ (w'.blob 2).mode = HB_MEMORY_MODE_READONLY ∧
      w'.calls = [] ∧ w'.brk = 20 :=
  ⟨_, rfl,
    (try_writable_failure_frame hello_may_world _ ⟨true, false, false⟩ 2 rfl (Or.inr rfl)
      rfl).2.2.1,
    (try_writable_failure_frame hello_may_world _ ⟨true, false, false⟩ 2 rfl (Or.inr rfl)
      rfl).2.2.2.1,
    rfl, rfl, rfl, rfl⟩

/-- C23: on a blob that is not immutable and whose mode is `WRITABLE`, `_try_writable`
returns true and leaves the state as it was: nothing is allocated, no callback is
invoked, and data, length, mode, user_data and destroy are unchanged; so
`hb_blob_get_data_writable` returns the data pointer and the length of the blob.  Hence,
for any blob, after a call of `hb_blob_get_data_writable` that succeeded (returned a
non-null pointer), a second call returns the same address and length and changes
nothing. -/
theorem try_writable_idempotent (w : World) (env : Env) (b : Nat)
    (hi : (w.blob b).immutable = false) (hm : (w.blob b).mode = HB_MEMORY_MODE_WRITABLE) :
    _try_writable w env b = some (w, true) ∧
    hb_blob_get_data_writable w env b = some (w, (w.blob b).data, (w.blob b).length) ∧
    (∀ (w0 w1 : World) (env1 env2 : Env) (b0 ptr len : Nat),
      hb_blob_get_data_writable w0 env1 b0 = some (w1, ptr, len) → ptr ≠ nullptr →
      hb_blob_get_data_writable w1 env2 b0 = some (w1, ptr, len)) := by
  have hwr : ∀ (x : World) (e : Env) (p : Nat), (x.blob p).immutable = false →
      (x.blob p).mode = HB_MEMORY_MODE_WRITABLE →
      hb_blob_get_data_writable x e p = some (x, (x.blob p).data, (x.blob p).length) := by
    intro x e p h1 h2
    unfold hb_blob_get_data_writable
    rw [try_writable_writable x e p h1 h2]
    rfl
  refine ⟨try_writable_writable w env b hi hm, hwr w env b hi hm, ?_⟩
  intro w0 w1 env1 env2 b0 ptr len h hp
  unfold hb_blob_get_data_writable at h
  rcases try_writable_cases w0 env1 b0 with c | c | c | c | c
  · rw [c.2] at h
    simp only [Option.map_some', if_true, Option.some.injEq, Prod.mk.injEq] at h
    exact absurd h.2.1.symm hp
  · rw [c.2.2] at h
    simp only [Option.map_some', Bool.true_eq_false, if_false, Option.some.injEq,
      Prod.mk.injEq] at h
    obtain ⟨rfl, rfl, rfl⟩ := h
    exact hwr w0 env2 b0 c.1 c.2.1
  · obtain ⟨hi0, -, -, ht⟩ := c
    rw [ht] at h
    simp only [Option.map_some', Bool.true_eq_false, if_false, Option.some.injEq,
      Prod.mk.injEq] at h
    obtain ⟨rfl, rfl, rfl⟩ := h
    have hl := live_of_not_immutable w0 b0 hi0
    apply hwr
    · rw [blob_modify_self _ _ _ hl]
      exact hi0
    · rw [blob_modify_self _ _ _ hl]
  · rw [c.2.2.2] at h
    simp only [Option.map_some', if_true, Option.some.injEq, Prod.mk.injEq] at h
    exact absurd h.2.1.symm hp
  · obtain ⟨hi0, -, -, v, hv, ht⟩ := c
    rw [ht] at h
    simp only [Option.map_some', Bool.true_eq_false, if_false, Option.some.injEq,
      Prod.mk.injEq] at h
    obtain ⟨rfl, rfl, rfl⟩ := h
    by_cases hl : v.live b0 = true
    · obtain ⟨e1, -, e3, -, -⟩ := dup_result w0 v b0 hv hl
      apply hwr
      · rw [e1]
        simp only
        rw [e3]
        exact hi0
      · rw [e1]
    · exfalso
      apply hp
      rw [blob_modify, if_neg (by simp [hl]), blob_of_not_live v b0 (by simpa using hl)]
      rfl

/-- C23 on a writable blob over "Hello", and on the read-only blob over "Hello", whose
first `hb_blob_get_data_writable` duplicates the bytes at address 21 and whose second
returns address 21 again. -/
theorem try_writable_idempotent_witness :
    ((World.mk hello_mem 20
        [some ⟨1, false, 10, 5, HB_MEMORY_MODE_WRITABLE, 0, fn_null⟩] []).blob 2).immutable
      = false ∧
    ((World.mk hello_mem 20
        [some ⟨1, false, 10, 5, HB_MEMORY_MODE_WRITABLE, 0, fn_null⟩] []).blob 2).mode
      = HB_MEMORY_MODE_WRITABLE ∧
    hb_blob_get_data_writable
        (World.mk hello_mem 20 [some ⟨1, false, 10, 5, HB_MEMORY_MODE_WRITABLE, 0, fn_null⟩] [])
        env_ok 2 =
      some (World.mk hello_mem 20
        [some ⟨1, false, 10, 5, HB_MEMORY_MODE_WRITABLE, 0, fn_null⟩] [], 10, 5) ∧
    (∃ w1, hb_blob_get_data_writable hello_blob_world env_ok 2 = some (w1, 21, 5) ∧
      hb_blob_get_data_writable w1 ⟨false, false, false⟩ 2 = some (w1, 21, 5)) :=
  ⟨rfl, rfl,
    (try_writable_idempotent
      (World.mk hello_mem 20 [some ⟨1, false, 10, 5, HB_MEMORY_MODE_WRITABLE, 0, fn_null⟩] [])
      env_ok 2 rfl rfl).2.1,
    ⟨_, rfl, (try_writable_idempotent
      (World.mk hello_mem 20 [some ⟨1, false, 10, 5, HB_MEMORY_MODE_WRITABLE, 0, fn_null⟩] [])
      env_ok 2 rfl rfl).2.2 hello_blob_world _ env_ok ⟨false, false, false⟩ 2 21 5 rfl
        (by decide)⟩⟩

/-! ## Properties of the `name` table -/

/-- C14: in a `name` table whose `count` records are sorted ascending by
`(platformID, encodingID, languageID, nameID)`, for a key with 16-bit fields, and with
`HBUINT16::cmp` ordering like the difference of its operands: if no record has the key,
`name::get_name` returns 0 and leaves the buffer as it was; if a record has the key, it
returns `min (buffer_length, length)` of a record `m` with that key, the first that many
bytes of the buffer are the table bytes from `stringOffset + offset` of `m` on, and the
rest of the buffer is as it was. -/
theorem get_name_spec (cmp16 : Nat → Nat → Int) (t : List Nat)
    (platform encoding language name_id : Nat) (buffer : List Nat) (buffer_length : Nat)
    (hcmp : ∀ x a, (cmp16 x a < 0 ↔ a < x) ∧ (cmp16 x a = 0 ↔ a = x))
    (hkey : platform < 2 ^ 16 ∧ encoding < 2 ^ 16 ∧ language < 2 ^ 16 ∧ name_id < 2 ^ 16)
    (hsorted : ∀ i j, i ≤ j → j < name.count t →
      (name.nameRecordZ t i).key_le (name.nameRecordZ t j)) :
    ((∀ i, i < name.count t →
        ¬ (name.nameRecordZ t i).has_key platform encoding language name_id) →
      (name.get_name cmp16 t platform encoding language name_id buffer buffer_length).ret = 0 ∧
      (name.get_name cmp16 t platform encoding language name_id buffer buffer_length).buffer
        = buffer) ∧
    ((∃ i, i < name.count t ∧
        (name.nameRecordZ t i).has_key platform encoding language name_id) →
      ∃ m, m < name.count t ∧
        (name.nameRecordZ t m).has_key platform encoding language name_id ∧
        (name.get_name cmp16 t platform encoding language name_id buffer buffer_length).ret
          = min buffer_length (name.nameRecordZ t m).length ∧
        (∀ k, k < min buffer_length (name.nameRecordZ t m).length →
          (name.get_name cmp16 t platform encoding language name_id buffer
              buffer_length).buffer.getD k 0
            = byte_at t (name.stringOffset t + (name.nameRecordZ t m).offset + k)) ∧
        (name.get_name cmp16 t platform encoding language name_id buffer
            buffer_length).buffer.drop (min buffer_length (name.nameRecordZ t m).length)
          = buffer.drop (min buffer_length (name.nameRecordZ t m).length)) := by
  obtain ⟨k1, k2, k3, k4⟩ := hkey
  have e1 : platform % 2 ^ 16 = platform := Nat.mod_eq_of_lt k1
  have e2 : encoding % 2 ^ 16 = encoding := Nat.mod_eq_of_lt k2
  have e3 : language % 2 ^ 16 = language := Nat.mod_eq_of_lt k3
  have e4 : name_id % 2 ^ 16 = name_id := Nat.mod_eq_of_lt k4
  have hc := get_name_cases cmp16 hcmp t platform encoding language name_id buffer
    buffer_length
  rw [e1, e2, e3, e4] at hc
  constructor
  · intro hno
    rcases hc with ⟨probes, -, hg⟩ | ⟨m, probes, hm, -, hk, -⟩
    · rw [hg]
      exact ⟨rfl, rfl⟩
    · exact absurd hk (hno m hm)
  · intro hex
    rcases hc with ⟨probes, -, hg⟩ | ⟨m, probes, hm, -, hk, hg⟩
    · have hf := get_name_finds cmp16 hcmp t platform encoding language name_id buffer
        buffer_length hsorted (by rw [e1, e2, e3, e4]; exact hex)
      rw [hg] at hf
      exact absurd rfl hf
    · refine ⟨m, hm, hk, ?_, ?_, ?_⟩
      · rw [hg]
      · intro k hk2
        rw [hg]
        simp only
        rw [copy_into_getD _ _ _ (by rw [bytes_at_length]; exact hk2),
          bytes_at_getD _ _ _ _ hk2]
      · rw [hg]
        simp only
        have := copy_into_drop buffer (bytes_at t
          (name.stringOffset t + (name.nameRecordZ t m).offset)
          (min buffer_length (name.nameRecordZ t m).length))
        rw [bytes_at_length] at this
        exact this

/-- C14 on the table with the records `(3, 1, 0x409, 1)` = "Family" and
`(3, 1, 0x409, 2)` = "Subfamily": with a 16-byte buffer, name 2 returns 9 and fills
"Subfamily", name 99 returns 0. -/
theorem get_name_spec_witness :
    (∀ x a, (cmp_diff x a < 0 ↔ a < x) ∧ (cmp_diff x a = 0 ↔ a = x)) ∧
    ((3 : Nat) < 2 ^ 16 ∧ (1 : Nat) < 2 ^ 16 ∧ (0x409 : Nat) < 2 ^ 16 ∧ (2 : Nat) < 2 ^ 16) ∧
    (∀ i j, i ≤ j → j < name.count family_table →
      (name.nameRecordZ family_table i).key_le (name.nameRecordZ family_table j)) ∧
    (∃ m, m < name.count family_table ∧
      (name.nameRecordZ family_table m).has_key 3 1 0x409 2 ∧
      (name.get_name cmp_diff family_table 3 1 0x409 2 (List.replicate 16 0) 16).ret
        = min 16 (name.nameRecordZ family_table m).length) ∧
    (name.get_name cmp_diff family_table 3 1 0x409 2 (List.replicate 16 0) 16).ret = 9 ∧
    (name.get_name cmp_diff family_table 3 1 0x409 2 (List.replicate 16 0) 16).buffer.take 9
      = [83, 117, 98, 102, 97, 109, 105, 108, 121] ∧
    (name.get_name cmp_diff family_table 3 1 0x409 99 (List.replicate 16 0) 16).ret = 0 :=
  have hcmp : ∀ x a, (cmp_diff x a < 0 ↔ a < x) ∧ (cmp_diff x a = 0 ↔ a = x) := fun x a => by
    unfold cmp_diff
    omega
  have hkey : (3 : Nat) < 2 ^ 16 ∧ (1 : Nat) < 2 ^ 16 ∧ (0x409 : Nat) < 2 ^ 16 ∧
      (2 : Nat) < 2 ^ 16 := by decide
  have hsorted : ∀ i j, i ≤ j → j < name.count family_table →
      (name.nameRecordZ family_table i).key_le (name.nameRecordZ family_table j) := by
    intro i j hij hj
    have hj2 : j < 2 := hj
    interval_cases j <;> interval_cases i <;>
      simp [NameRecord.key_le, name.nameRecordZ, NameRecord.read, HBUINT16_at, byte_at,
        family_table]
  ⟨hcmp, hkey, hsorted,
    (((get_name_spec cmp_diff family_table 3 1 0x409 2 (List.replicate 16 0) 16 hcmp hkey
      hsorted).2 ⟨1, by decide, ⟨rfl, rfl, rfl, rfl⟩⟩).imp
        (fun _ h => ⟨h.1, h.2.1, h.2.2.1⟩)),
    by decide, by decide, by decide⟩

/-- C15, as stated, fails: in the table with the records "Family" and "Subfamily" the
key `(3, 1, 0x409, 2)` matches the record of length 9, and `name::get_name` with
`buffer_length` 0 returns `MIN (0, 9)` = 0, not 9. -/
theorem get_name_zero_buffer_length :
    (name.nameRecordZ family_table 1).has_key 3 1 0x409 2 ∧
    (name.nameRecordZ family_table 1).length = 9 ∧
    (name.get_name cmp_diff family_table 3 1 0x409 2 [] 0).ret = 0 ∧
    (name.get_name cmp_diff family_table 3 1 0x409 2 [] 0).source = some (36, 0) ∧
    (name.get_name cmp_diff family_table 3 1 0x409 2 [] 0).ret ≠
      (name.nameRecordZ family_table 1).length :=
  ⟨⟨rfl, rfl, rfl, rfl⟩, rfl, rfl, rfl, by decide⟩

/-- C15 (amended): in a `name` table sorted ascending by key, for a key with 16-bit
fields that a record has, and with `HBUINT16::cmp` ordering like the difference of its
operands: `name::get_name` with `buffer_length` 0 returns 0 and leaves the buffer as it
was, so the length of the string is not reported; and there is a record `m` with the key
such that every call with `buffer_length` at least the length of `m` returns that length
and puts the whole string, the table bytes from `stringOffset + offset` of `m` on, at the
start of the buffer. -/
theorem get_name_buffer_length (cmp16 : Nat → Nat → Int) (t : List Nat)
    (platform encoding language name_id : Nat)
    (hcmp : ∀ x a, (cmp16 x a < 0 ↔ a < x) ∧ (cmp16 x a = 0 ↔ a = x))
    (hkey : platform < 2 ^ 16 ∧ encoding < 2 ^ 16 ∧ language < 2 ^ 16 ∧ name_id < 2 ^ 16)
    (hsorted : ∀ i j, i ≤ j → j < name.count t →
      (name.nameRecordZ t i).key_le (name.nameRecordZ t j))
    (hm : ∃ i, i < name.count t ∧
      (name.nameRecordZ t i).has_key platform encoding language name_id) :
    (∀ buffer : List Nat,
      (name.get_name cmp16 t platform encoding language name_id buffer 0).ret = 0 ∧
      (name.get_name cmp16 t platform encoding language name_id buffer 0).buffer = buffer) ∧
    ∃ m, m < name.count t ∧
      (name.nameRecordZ t m).has_key platform encoding language name_id ∧
      ∀ (buffer : List Nat) (buffer_length : Nat),
        (name.nameRecordZ t m).length ≤ buffer_length →
        (name.get_name cmp16 t platform encoding language name_id buffer buffer_length).ret
          = (name.nameRecordZ t m).length ∧
        (name.get_name cmp16 t platform encoding language name_id buffer
            buffer_length).buffer.take (name.nameRecordZ t m).length
          = bytes_at t (name.stringOffset t + (name.nameRecordZ t m).offset)
              (name.nameRecordZ t m).length := by
  obtain ⟨k1, k2, k3, k4⟩ := hkey
  have e1 : platform % 2 ^ 16 = platform := Nat.mod_eq_of_lt k1
  have e2 : encoding % 2 ^ 16 = encoding := Nat.mod_eq_of_lt k2
  have e3 : language % 2 ^ 16 = language := Nat.mod_eq_of_lt k3
  have e4 : name_id % 2 ^ 16 = name_id := Nat.mod_eq_of_lt k4
  obtain ⟨m, probes, h1, -, hk, hg⟩ := get_name_found cmp16 hcmp t platform encoding
    language name_id hsorted (by rw [e1, e2, e3, e4]; exact hm)
  rw [e1, e2, e3, e4] at hk
  constructor
  · intro buffer
    rw [hg buffer 0]
    simp [bytes_at, copy_into]
  · refine ⟨m, h1, hk, ?_⟩
    intro buffer buffer_length hle
    rw [hg buffer buffer_length, Nat.min_eq_right hle]
    refine ⟨rfl, ?_⟩
    simp only
    have := copy_into_take buffer (bytes_at t
      (name.stringOffset t + (name.nameRecordZ t m).offset) (name.nameRecordZ t m).length)
    rw [bytes_at_length] at this
    exact this

/-- C15 (amended) on the table with the records "Family" and "Subfamily" and the key
`(3, 1, 0x409, 2)`: 16 bytes of buffer receive the 9 bytes of "Subfamily". -/
theorem get_name_buffer_length_witness :
    (∀ x a, (cmp_diff x a < 0 ↔ a < x) ∧ (cmp_diff x a = 0 ↔ a = x)) ∧
    ((3 : Nat) < 2 ^ 16 ∧ (1 : Nat) < 2 ^ 16 ∧ (0x409 : Nat) < 2 ^ 16 ∧ (2 : Nat) < 2 ^ 16) ∧
    (∀ i j, i ≤ j → j < name.count family_table →
      (name.nameRecordZ family_table i).key_le (name.nameRecordZ family_table j)) ∧
    (∃ i, i < name.count family_table ∧
      (name.nameRecordZ family_table i).has_key 3 1 0x409 2) ∧
    (∀ buffer : List Nat,
      (name.get_name cmp_diff family_table 3 1 0x409 2 buffer 0).ret = 0 ∧
      (name.get_name cmp_diff family_table 3 1 0x409 2 buffer 0).buffer = buffer) ∧
    (name.get_name cmp_diff family_table 3 1 0x409 2 (List.replicate 16 0) 16).ret = 9 ∧
    (name.get_name cmp_diff family_table 3 1 0x409 2 (List.replicate 16 0) 16).buffer
      = [83, 117, 98, 102, 97, 109, 105, 108, 121, 0, 0, 0, 0, 0, 0, 0] :=
  have hcmp : ∀ x a, (cmp_diff x a < 0 ↔ a < x) ∧ (cmp_diff x a = 0 ↔ a = x) := fun x a => by
    unfold cmp_diff
    omega
  have hkey : (3 : Nat) < 2 ^ 16 ∧ (1 : Nat) < 2 ^ 16 ∧ (0x409 : Nat) < 2 ^ 16 ∧
      (2 : Nat) < 2 ^ 16 := by decide
  have hsorted : ∀ i j, i ≤ j → j < name.count family_table →
      (name.nameRecordZ family_table i).key_le (name.nameRecordZ family_table j) := by
    intro i j hij hj
    have hj2 : j < 2 := hj
    interval_cases j <;> interval_cases i <;>
      simp [NameRecord.key_le, name.nameRecordZ, NameRecord.read, HBUINT16_at, byte_at,
        family_table]
  have hm : ∃ i, i < name.count family_table ∧
      (name.nameRecordZ family_table i).has_key 3 1 0x409 2 :=
    ⟨1, by decide, ⟨rfl, rfl, rfl, rfl⟩⟩
  ⟨hcmp, hkey, hsorted, hm,
    (get_name_buffer_length cmp_diff family_table 3 1 0x409 2 hcmp hkey hsorted hm).1,
    by decide, by decide⟩

/-- C16: `name::sanitize` accepts a blob exactly when the 6-byte header fits, `format`
is 0 or 1, `count * 12` bytes of records fit after the header, and for every record
`stringOffset + offset + length` lies within the blob; and on an accepted blob every
call of `name::get_name`, whatever the key, the buffer and the comparison of 16-bit
integers, reads inside the blob only: the binary search compares the key with records
among the `count` records, which lie inside the blob, and `memcpy`, when called, reads
the `min (buffer_length, length)` bytes from `stringOffset + offset` of one of these
records on, which lie inside the blob. -/
theorem name_sanitize_safe (cmp16 : Nat → Nat → Int) (t : List Nat) :
    (name.sanitize t = true ↔
      (6 ≤ t.length ∧ (name.format t = 0 ∨ name.format t = 1) ∧
        6 + name.count t * 12 ≤ t.length ∧
        ∀ i, i < name.count t →
          name.stringOffset t + (name.nameRecordZ t i).offset + (name.nameRecordZ t i).length
            ≤ t.length)) ∧
    (name.sanitize t = true →
      ∀ (platform encoding language name_id : Nat) (buffer : List Nat) (buffer_length : Nat),
        (∀ i ∈ (name.get_name cmp16 t platform encoding language name_id buffer
            buffer_length).probes, i < name.count t ∧ 6 + i * 12 + 12 ≤ t.length) ∧
        (∀ src k, (name.get_name cmp16 t platform encoding language name_id buffer
            buffer_length).source = some (src, k) →
          src + k ≤ t.length ∧
          ∃ m, m < name.count t ∧ src = name.stringOffset t + (name.nameRecordZ t m).offset ∧
            k = min buffer_length (name.nameRecordZ t m).length)) := by
  refine ⟨name_sanitize_iff t, ?_⟩
  intro hs platform encoding language name_id buffer buffer_length
  obtain ⟨-, -, h3, h4⟩ := (name_sanitize_iff t).1 hs
  obtain ⟨hp, hc⟩ := get_name_reads cmp16 t platform encoding language name_id buffer
    buffer_length
  constructor
  · intro i hi
    have := hp i hi
    exact ⟨this, by omega⟩
  · intro src k hsrc
    rcases hc with ⟨hn, -, -⟩ | ⟨m, hm, hsm, -, -⟩
    · rw [hn] at hsrc
      cases hsrc
    · rw [hsm] at hsrc
      simp only [Option.some.injEq, Prod.mk.injEq] at hsrc
      obtain ⟨rfl, rfl⟩ := hsrc
      have := h4 m hm
      exact ⟨by omega, m, hm, rfl, rfl⟩

/-- C16 on the table with the records "Family" and "Subfamily": the 45-byte blob is
accepted, and the lookup of `(3, 1, 0x409, 1)` with a 4-byte buffer compares the key
with the records 1 and 0 and copies the 4 bytes from offset 30 on. -/
theorem name_sanitize_safe_witness :
    name.sanitize family_table = true ∧
    (name.get_name cmp_diff family_table 3 1 0x409 1 [0, 0, 0, 0] 4).probes = [1, 0] ∧
    (name.get_name cmp_diff family_table 3 1 0x409 1 [0, 0, 0, 0] 4).source = some (30, 4) ∧
    (∀ i ∈ (name.get_name cmp_diff family_table 3 1 0x409 1 [0, 0, 0, 0] 4).probes,
      i < name.count family_table ∧ 6 + i * 12 + 12 ≤ family_table.length) ∧
    (∀ src k, (name.get_name cmp_diff family_table 3 1 0x409 1 [0, 0, 0, 0] 4).source
        = some (src, k) →
      src + k ≤ family_table.length ∧
      ∃ m, m < name.count family_table ∧
        src = name.stringOffset family_table + (name.nameRecordZ family_table m).offset ∧
        k = min 4 (name.nameRecordZ family_table m).length) :=
  ⟨by decide, by decide, by decide,
    (name_sanitize_safe cmp_diff family_table).2 (by decide) 3 1 0x409 1 [0, 0, 0, 0] 4⟩

/-! ## Properties of the `post` table -/

/-- C17, as stated, fails: for the glyph whose name is the pool string of the three
bytes `97, 0, 98` and a buffer of 8 bytes, `get_glyph_name` returns true, but `strncpy`
stops at the zero byte of the name: byte 2 of the buffer is 0, not the byte 98 of the
name. -/
theorem get_glyph_name_zero_byte :
    ((accelerator_t.init zero_byte_post).find_glyph_name 0).content first_names zero_byte_post
      = [97, 0, 98] ∧
    (accelerator_t.init zero_byte_post).get_glyph_name first_names 0 (List.replicate 8 255) 8
      = (true, [97, 0, 0, 0, 255, 255, 255, 255]) ∧
    ((accelerator_t.init zero_byte_post).get_glyph_name first_names 0
        (List.replicate 8 255) 8).2.getD 2 0 ≠
      (((accelerator_t.init zero_byte_post).find_glyph_name 0).content first_names
        zero_byte_post).getD 2 0 := by
  decide

/-- C17 (amended): with `s = find_glyph_name (glyph)` and a caller buffer that has
`buf_len` bytes, `get_glyph_name` returns false and leaves the buffer as it was if `s`
is empty; returns true and leaves the buffer as it was if `s` is non-empty and `buf_len`
is 0; returns false and leaves the buffer as it was if `0 < buf_len <= s.len`; and
otherwise returns true with `buf[i]` equal to byte `i` of `s` for every `i < s.len` up
to the first zero byte of `s`, `buf[i]` zero from the first zero byte of `s` on,
`buf[s.len]` zero, and every byte at an index above `s.len`, so every byte at an index
`>= buf_len`, as it was. -/
theorem get_glyph_name_spec (names : Nat → List Nat) (acc : accelerator_t) (glyph : Nat)
    (buf : List Nat) (buf_len : Nat) (hbuf : buf_len ≤ buf.length) :
    ((acc.find_glyph_name glyph).len names = 0 →
      acc.get_glyph_name names glyph buf buf_len = (false, buf)) ∧
    ((acc.find_glyph_name glyph).len names ≠ 0 → buf_len = 0 →
      acc.get_glyph_name names glyph buf buf_len = (true, buf)) ∧
    ((acc.find_glyph_name glyph).len names ≠ 0 → 0 < buf_len →
      buf_len ≤ (acc.find_glyph_name glyph).len names →
      acc.get_glyph_name names glyph buf buf_len = (false, buf)) ∧
    ((acc.find_glyph_name glyph).len names ≠ 0 →
      (acc.find_glyph_name glyph).len names < buf_len →
      (acc.get_glyph_name names glyph buf buf_len).1 = true ∧
      (acc.get_glyph_name names glyph buf buf_len).2.length = buf.length ∧
      (∀ i, i < (acc.find_glyph_name glyph).len names →
        (∀ j, j ≤ i → ((acc.find_glyph_name glyph).content names acc.table).getD j 0 ≠ 0) →
        (acc.get_glyph_name names glyph buf buf_len).2.getD i 0 =
          ((acc.find_glyph_name glyph).content names acc.table).getD i 0) ∧
      (∀ i, i < (acc.find_glyph_name glyph).len names →
        (∃ j, j ≤ i ∧ ((acc.find_glyph_name glyph).content names acc.table).getD j 0 = 0) →
        (acc.get_glyph_name names glyph buf buf_len).2.getD i 0 = 0) ∧
      (acc.get_glyph_name names glyph buf buf_len).2.getD
        ((acc.find_glyph_name glyph).len names) 0 = 0 ∧
      (∀ i, (acc.find_glyph_name glyph).len names < i →
        (acc.get_glyph_name names glyph buf buf_len).2.getD i 0 = buf.getD i 0)) := by
  refine ⟨?_, ?_, ?_, ?_⟩
  · intro h
    unfold accelerator_t.get_glyph_name
    simp only
    rw [if_pos h]
  · intro h h0
    unfold accelerator_t.get_glyph_name
    simp only
    rw [if_neg h, if_pos h0]
  · intro h h0 hle
    unfold accelerator_t.get_glyph_name
    simp only
    rw [if_neg h, if_neg (by omega), if_pos hle]
  · intro h hlt
    have hg : acc.get_glyph_name names glyph buf buf_len =
        (true, (copy_into buf (strncpy ((acc.find_glyph_name glyph).content names acc.table)
          ((acc.find_glyph_name glyph).len names))).set
            ((acc.find_glyph_name glyph).len names) 0) := by
      unfold accelerator_t.get_glyph_name
      simp only
      rw [if_neg h, if_neg (by omega), if_neg (by omega)]
    have hsl := strncpy_length ((acc.find_glyph_name glyph).content names acc.table)
      ((acc.find_glyph_name glyph).len names)
    have hcl : (copy_into buf (strncpy ((acc.find_glyph_name glyph).content names acc.table)
        ((acc.find_glyph_name glyph).len names))).length = buf.length :=
      copy_into_length _ _ (by omega)
    rw [hg]
    refine ⟨rfl, ?_, ?_, ?_, ?_, ?_⟩
    · simp only [List.length_set]
      exact hcl
    · intro i hi hnz
      simp only
      rw [getD_set_ne _ _ _ _ (by omega), copy_into_getD _ _ _ (by omega),
        strncpy_copied _ _ _ hi hnz]
    · intro i hi hz
      simp only
      rw [getD_set_ne _ _ _ _ (by omega), copy_into_getD _ _ _ (by omega),
        strncpy_padded _ _ _ hi hz]
    · simp only
      exact getD_set_self _ _ _ (by omega)
    · intro i hi
      simp only
      rw [getD_set_ne _ _ _ _ (by omega), copy_into_getD_ge _ _ _ (by omega)]

/-- C17 (amended) on the table with the pool `["foo", "bar"]`: glyph 1 and a buffer of 8
bytes give "foo", a zero byte, and the last four bytes as they were. -/
theorem get_glyph_name_spec_witness :
    (8 : Nat) ≤ (List.replicate 8 255).length ∧
    ((accelerator_t.init foo_bar_post).find_glyph_name 1).len first_names ≠ 0 ∧
    ((accelerator_t.init foo_bar_post).find_glyph_name 1).len first_names < 8 ∧
    (accelerator_t.init foo_bar_post).get_glyph_name first_names 1 (List.replicate 8 255) 8
      = (true, [102, 111, 111, 0, 255, 255, 255, 255]) ∧
    ((accelerator_t.init foo_bar_post).get_glyph_name first_names 1
      (List.replicate 8 255) 8).1 = true ∧
    ((accelerator_t.init foo_bar_post).get_glyph_name first_names 1
      (List.replicate 8 255) 8).2.length = (List.replicate 8 255).length :=
  ⟨by decide, by decide, by decide, by decide,
    ((get_glyph_name_spec first_names (accelerator_t.init foo_bar_post) 1
      (List.replicate 8 255) 8 (by decide)).2.2.2 (by decide) (by decide)).1,
    ((get_glyph_name_spec first_names (accelerator_t.init foo_bar_post) 1
      (List.replicate 8 255) 8 (by decide)).2.2.2 (by decide) (by decide)).2.1⟩

/-- C18: for a version-2 `post` table whose pool, the bytes after the `numGlyphs`
entries of `glyphNameIndex`, is the concatenation of `k` Pascal strings `strs` and ends
with the blob, and for every glyph `g`: `find_glyph_name (g)` on the accelerator that
`init` builds is the null slice if `g >= numGlyphs`; is the static name `i` if
`i = glyphNameIndex[g] < 258`; is a slice of the blob whose bytes are the payload of the
string `i - 258` of the pool, the length byte excluded, if `258 <= i < 258 + k`; and is
the null slice if `i >= 258 + k`. -/
theorem find_glyph_name_v2 (names : Nat → List Nat) (t : List Nat) (strs : List (List Nat))
    (g : Nat) (hv : HBUINT32_at t 0 = 0x00020000)
    (hpool : t.drop (32 + 2 + 2 * HBUINT16_at t 32) = pascal_pool strs)
    (hstr : ∀ s ∈ strs, s.length < 256 ∧ ∀ b ∈ s, b < 256) :
    (HBUINT16_at t 32 ≤ g → (accelerator_t.init t).find_glyph_name g = hb_bytes_t.null) ∧
    (g < HBUINT16_at t 32 → HBUINT16_at t (34 + 2 * g) < 258 →
      (accelerator_t.init t).find_glyph_name g =
        hb_bytes_t.format1 (HBUINT16_at t (34 + 2 * g))) ∧
    (g < HBUINT16_at t 32 → 258 ≤ HBUINT16_at t (34 + 2 * g) →
      HBUINT16_at t (34 + 2 * g) < 258 + strs.length →
      (∃ bytes, (accelerator_t.init t).find_glyph_name g =
          hb_bytes_t.table bytes (strs.getD (HBUINT16_at t (34 + 2 * g) - 258) []).length ∧
        bytes + (strs.getD (HBUINT16_at t (34 + 2 * g) - 258) []).length ≤ t.length) ∧
      ((accelerator_t.init t).find_glyph_name g).content names t =
        strs.getD (HBUINT16_at t (34 + 2 * g) - 258) []) ∧
    (g < HBUINT16_at t 32 → 258 + strs.length ≤ HBUINT16_at t (34 + 2 * g) →
      (accelerator_t.init t).find_glyph_name g = hb_bytes_t.null) := by
  have hidx := init_pool t strs hv hpool (fun s hs => (hstr s hs).1)
  have hi := init_v2 t hv
  have hver : (accelerator_t.init t).version = 0x00020000 := by rw [hi]
  have htab : (accelerator_t.init t).table = t := by rw [hi]
  have hgni : (accelerator_t.init t).glyphNameIndex = 32 := by rw [hi]
  have hpl : (accelerator_t.init t).pool = 32 + 2 + 2 * HBUINT16_at t 32 := by rw [hi]
  have hlen : (accelerator_t.init t).index_to_offset.length = strs.length := by
    rw [hidx, pool_starts_length]
  refine ⟨?_, ?_, ?_, ?_⟩
  · intro hg
    unfold accelerator_t.find_glyph_name
    rw [hver, htab, hgni]
    rw [if_neg (by decide), if_pos (Or.inr hg)]
  · intro hg hlt
    unfold accelerator_t.find_glyph_name
    rw [hver, htab, hgni]
    rw [if_neg (by decide), if_neg (by simp; omega)]
    simp only [NUM_FORMAT1_NAMES]
    rw [if_pos hlt]
  · intro hg h1 h2
    have hf : (accelerator_t.init t).find_glyph_name g =
        hb_bytes_t.table
          (32 + 2 + 2 * HBUINT16_at t 32 +
            (pool_starts (32 + 2 + 2 * HBUINT16_at t 32) (32 + 2 + 2 * HBUINT16_at t 32)
              strs).getD (HBUINT16_at t (34 + 2 * g) - 258) 0 + 1)
          (byte_at t (32 + 2 + 2 * HBUINT16_at t 32 +
            (pool_starts (32 + 2 + 2 * HBUINT16_at t 32) (32 + 2 + 2 * HBUINT16_at t 32)
              strs).getD (HBUINT16_at t (34 + 2 * g) - 258) 0)) := by
      unfold accelerator_t.find_glyph_name
      rw [hlen, hidx, hver, htab, hgni, hpl]
      rw [if_neg (by decide), if_neg (by simp; omega)]
      have e34 : HBUINT16_at t (32 + 2 + 2 * g) = HBUINT16_at t (34 + 2 * g) := rfl
      simp only [NUM_FORMAT1_NAMES, e34]
      rw [if_neg (by omega), if_neg (by omega)]
    obtain ⟨hb, hbytes, hin⟩ := pool_starts_spec t (32 + 2 + 2 * HBUINT16_at t 32) strs
      (32 + 2 + 2 * HBUINT16_at t 32) (HBUINT16_at t (34 + 2 * g) - 258) (le_refl _) hpool hstr
      (by omega)
    rw [hf, hb]
    exact ⟨⟨_, rfl, hin⟩, hbytes⟩
  · intro hg hge
    unfold accelerator_t.find_glyph_name
    rw [hlen, hver, htab, hgni]
    rw [if_neg (by decide), if_neg (by simp; omega)]
    have e34 : HBUINT16_at t (32 + 2 + 2 * g) = HBUINT16_at t (34 + 2 * g) := rfl
    simp only [NUM_FORMAT1_NAMES, e34]
    rw [if_neg (by omega), if_pos (by omega)]

/-- C18 on the table with `numGlyphs` 3, the indices `[2, 258, 259]` and the pool
`["foo", "bar"]`: glyph 1 is "foo" and glyph 2 is "bar", glyph 0 is the static name 2
and glyph 3 has no name. -/
theorem find_glyph_name_v2_witness :
    HBUINT32_at foo_bar_post 0 = 0x00020000 ∧
    foo_bar_post.drop (32 + 2 + 2 * HBUINT16_at foo_bar_post 32) =
      pascal_pool [[102, 111, 111], [98, 97, 114]] ∧
    (∀ s ∈ [[102, 111, 111], [98, 97, 114]], s.length < 256 ∧ ∀ b ∈ s, b < 256) ∧
    ((accelerator_t.init foo_bar_post).find_glyph_name 1).content first_names foo_bar_post =
      [102, 111, 111] ∧
    ((accelerator_t.init foo_bar_post).find_glyph_name 2).content first_names foo_bar_post =
      [98, 97, 114] ∧
    (accelerator_t.init foo_bar_post).find_glyph_name 0 = hb_bytes_t.format1 2 ∧
    (accelerator_t.init foo_bar_post).find_glyph_name 3 = hb_bytes_t.null :=
  ⟨by decide, by decide, by decide,
    ((find_glyph_name_v2 first_names foo_bar_post [[102, 111, 111], [98, 97, 114]] 1
      (by decide) (by decide) (by decide)).2.2.1 (by decide) (by decide) (by decide)).2,
    by decide, by decide, by decide⟩

/-- C19 fails on the code: the loop of `accelerator_t::init` tests
`data + *data <= end`, not `data + 1 + *data <= end`.  Every offset it appends has its
length byte inside the blob and `data + *data <= end` only; and on the 39-byte blob
whose pool is the length byte 3 followed by two bytes, which `post::sanitize` accepts,
it appends the offset 0 although `data + 1 + *data` is 40, so `find_glyph_name (0)`
returns the three bytes from offset 37 on, the last of them past the end of the blob. -/
theorem init_index_overrun :
    (∀ t : List Nat, HBUINT32_at t 0 = 0x00020000 →
      ∀ o ∈ (accelerator_t.init t).index_to_offset,
        (accelerator_t.init t).pool + o < t.length ∧
        (accelerator_t.init t).pool + o + byte_at t ((accelerator_t.init t).pool + o)
          ≤ t.length) ∧
    post.sanitize short_pool_post = true ∧
    short_pool_post.length = 39 ∧
    (accelerator_t.init short_pool_post).pool = 36 ∧
    (accelerator_t.init short_pool_post).index_to_offset = [0] ∧
    ¬ (36 + 0 + 1 + byte_at short_pool_post (36 + 0) ≤ short_pool_post.length) ∧
    (accelerator_t.init short_pool_post).find_glyph_name 0 = hb_bytes_t.table 37 3 ∧
    ¬ (37 + 3 ≤ short_pool_post.length) := by
  refine ⟨?_, by decide, by decide, by decide, by decide, by decide, by decide, by decide⟩
  intro t hv o ho
  rw [init_v2 t hv] at ho ⊢
  simp only at ho ⊢
  exact init_loop_bound t _ _ _ _ [] (le_refl _) (fun x hx => by simp at hx) o ho

/-- C20: round trip.  With `hb_bytes_t::cmp` a total order on byte strings and
`hb_sort_r` returning the glyph ids `0..N-1` permuted and sorted with `cmp_gids`, for an
accelerator whose reverse index is not built yet and can be allocated, or is the one
built by that sort, and for every glyph `g < get_glyph_count ()` whose name
`s = find_glyph_name (g)` is non-empty and is not the name of any other glyph:
`get_glyph_from_name (s.bytes, s.len)` returns true and writes `g`, and leaves the
sorted reverse index in the accelerator. -/
theorem glyph_name_round_trip (names : Nat → List Nat)
    (bytes_cmp : List Nat → List Nat → Int)
    (sort_r : (Nat → Nat → Int) → List Nat → List Nat)
    (acc : accelerator_t) (malloc_ok : Bool) (g : Nat)
    (h0 : ∀ x y, bytes_cmp x y = 0 ↔ x = y)
    (hanti : ∀ x y, bytes_cmp x y < 0 ↔ 0 < bytes_cmp y x)
    (htrans : ∀ x y z, bytes_cmp x y ≤ 0 → bytes_cmp y z ≤ 0 → bytes_cmp x z ≤ 0)
    (hsort : (sort_r (acc.cmp_gids names bytes_cmp) (List.range acc.get_glyph_count)).Perm
        (List.range acc.get_glyph_count) ∧
      (sort_r (acc.cmp_gids names bytes_cmp) (List.range acc.get_glyph_count)).Pairwise
        (fun a b => acc.cmp_gids names bytes_cmp a b ≤ 0))
    (hcache : ∀ gids, acc.gids_sorted_by_name = some gids →
      gids = sort_r (acc.cmp_gids names bytes_cmp) (List.range acc.get_glyph_count))
    (hmalloc : acc.gids_sorted_by_name = none → malloc_ok = true)
    (hg : g < acc.get_glyph_count)
    (hne : (acc.find_glyph_name g).len names ≠ 0)
    (huniq : ∀ o, o < acc.get_glyph_count → o ≠ g →
      (acc.find_glyph_name o).content names acc.table ≠
        (acc.find_glyph_name g).content names acc.table) :
    (acc.get_glyph_from_name names bytes_cmp sort_r malloc_ok
        ((acc.find_glyph_name g).content names acc.table)
        (((acc.find_glyph_name g).len names : Nat) : Int)).2 = some g ∧
    (acc.get_glyph_from_name names bytes_cmp sort_r malloc_ok
        ((acc.find_glyph_name g).content names acc.table)
        (((acc.find_glyph_name g).len names : Nat) : Int)).1.gids_sorted_by_name =
      some (sort_r (acc.cmp_gids names bytes_cmp) (List.range acc.get_glyph_count)) := by
  have htake : ((acc.find_glyph_name g).content names acc.table).take
      ((acc.find_glyph_name g).len names) = (acc.find_glyph_name g).content names acc.table := by
    rw [← content_length names acc.table, List.take_length]
  obtain ⟨i, hi, hig⟩ := bsearch_gids names bytes_cmp acc _ _ g h0 hanti htrans hsort.1
    hsort.2 hg huniq
  unfold accelerator_t.get_glyph_from_name
  simp only
  rw [if_neg (by omega)]
  have hnneg : ¬ (((acc.find_glyph_name g).len names : Nat) : Int) < 0 := by omega
  simp only [hnneg, if_false, Int.toNat_ofNat]
  rw [if_neg hne, htake]
  cases hc : acc.gids_sorted_by_name with
  | none =>
    simp only [hmalloc hc, Bool.true_eq_false, if_false]
    rw [hi]
    simp only
    rw [hig]
    exact ⟨rfl, trivial⟩
  | some gids =>
    simp only
    rw [hcache gids hc, hi]
    simp only
    rw [hig]
    exact ⟨rfl, trivial⟩

/-- C20 on the table with the indices `[2, 258, 259]` and the pool `["foo", "bar"]`,
with the comparison by length first and bytewise then and a sort by insertion: the name
"bar" of glyph 2 leads back to glyph 2. -/
theorem glyph_name_round_trip_witness :
    ((insertion_sort ((accelerator_t.init foo_bar_post).cmp_gids first_names
        length_then_bytes) (List.range (accelerator_t.init foo_bar_post).get_glyph_count)).Perm
        (List.range (accelerator_t.init foo_bar_post).get_glyph_count) ∧
      (insertion_sort ((accelerator_t.init foo_bar_post).cmp_gids first_names
        length_then_bytes) (List.range (accelerator_t.init
          foo_bar_post).get_glyph_count)).Pairwise
        (fun a b => (accelerator_t.init foo_bar_post).cmp_gids first_names
          length_then_bytes a b ≤ 0)) ∧
    2 < (accelerator_t.init foo_bar_post).get_glyph_count ∧
    ((accelerator_t.init foo_bar_post).find_glyph_name 2).len first_names ≠ 0 ∧
    ((accelerator_t.init foo_bar_post).find_glyph_name 2).content first_names
      (accelerator_t.init foo_bar_post).table = [98, 97, 114] ∧
    ((accelerator_t.init foo_bar_post).get_glyph_from_name first_names length_then_bytes
        insertion_sort true
        (((accelerator_t.init foo_bar_post).find_glyph_name 2).content first_names
          (accelerator_t.init foo_bar_post).table)
        ((((accelerator_t.init foo_bar_post).find_glyph_name 2).len first_names : Nat) :
          Int)).2 = some 2 ∧
    ((accelerator_t.init foo_bar_post).get_glyph_from_name first_names length_then_bytes
        insertion_sort true [98, 97, 114] 3).1.gids_sorted_by_name = some [2, 1, 0] :=
  have hsort : (insertion_sort ((accelerator_t.init foo_bar_post).cmp_gids first_names
        length_then_bytes) (List.range (accelerator_t.init foo_bar_post).get_glyph_count)).Perm
        (List.range (accelerator_t.init foo_bar_post).get_glyph_count) ∧
      (insertion_sort ((accelerator_t.init foo_bar_post).cmp_gids first_names
        length_then_bytes) (List.range (accelerator_t.init
          foo_bar_post).get_glyph_count)).Pairwise
        (fun a b => (accelerator_t.init foo_bar_post).cmp_gids first_names
          length_then_bytes a b ≤ 0) := by
    constructor
    · decide
    · decide
  have huniq : ∀ o, o < (accelerator_t.init foo_bar_post).get_glyph_count → o ≠ 2 →
      ((accelerator_t.init foo_bar_post).find_glyph_name o).content first_names
          (accelerator_t.init foo_bar_post).table ≠
        ((accelerator_t.init foo_bar_post).find_glyph_name 2).content first_names
          (accelerator_t.init foo_bar_post).table := by
    intro o ho hne
    have ho3 : o < 3 := ho
    interval_cases o
    · decide
    · decide
    · exact absurd rfl hne
  ⟨hsort, by decide, by decide, by decide,
    (glyph_name_round_trip first_names length_then_bytes insertion_sort
      (accelerator_t.init foo_bar_post) true 2 length_then_bytes_order.1
      length_then_bytes_order.2.1 length_then_bytes_order.2.2 hsort
      (fun gids h => by cases h) (fun _ => rfl) (by decide) (by decide) huniq).1,
    by decide⟩

/-- C21: `accelerator_t::init` records the version of the table, and for an accelerator
whose version is neither 0x00010000 nor 0x00020000 (version 3.0, and also 2.5)
`get_glyph_count` is 0, `find_glyph_name` is the null slice for every glyph,
`get_glyph_name` returns false and leaves the buffer as it was for every glyph and
buffer, and `get_glyph_from_name` returns false, writing no glyph and leaving the
accelerator as it was, for every name; and for an accelerator of any version
`get_glyph_from_name` with a length of 0 returns false in the same way. -/
theorem no_names_without_version (names : Nat → List Nat)
    (bytes_cmp : List Nat → List Nat → Int)
    (sort_r : (Nat → Nat → Int) → List Nat → List Nat) (acc : accelerator_t)
    (hv1 : acc.version ≠ 0x00010000) (hv2 : acc.version ≠ 0x00020000) :
    (∀ t, (accelerator_t.init t).version = HBUINT32_at t 0) ∧
    acc.get_glyph_count = 0 ∧
    (∀ glyph, acc.find_glyph_name glyph = hb_bytes_t.null) ∧
    (∀ glyph buf buf_len, acc.get_glyph_name names glyph buf buf_len = (false, buf)) ∧
    (∀ malloc_ok name len,
      acc.get_glyph_from_name names bytes_cmp sort_r malloc_ok name len = (acc, none)) ∧
    (∀ (other : accelerator_t) malloc_ok name,
      other.get_glyph_from_name names bytes_cmp sort_r malloc_ok name 0 = (other, none)) := by
  have hcount : acc.get_glyph_count = 0 := by
    unfold accelerator_t.get_glyph_count
    rw [if_neg hv1, if_neg hv2]
  have hfind : ∀ glyph, acc.find_glyph_name glyph = hb_bytes_t.null := by
    intro glyph
    unfold accelerator_t.find_glyph_name
    rw [if_neg hv1, if_pos (Or.inl hv2)]
  refine ⟨?_, hcount, hfind, ?_, ?_, ?_⟩
  · intro t
    unfold accelerator_t.init
    simp only
    split <;> rfl
  · intro glyph buf buf_len
    unfold accelerator_t.get_glyph_name
    simp only
    rw [hfind glyph]
    simp [hb_bytes_t.len]
  · intro malloc_ok name len
    unfold accelerator_t.get_glyph_from_name
    simp only
    rw [if_pos hcount]
  · intro other malloc_ok name
    unfold accelerator_t.get_glyph_from_name
    simp only
    split
    · rfl
    · simp

/-- C21 on a table of version 3: no glyph has a name and the name ".null" leads to no
glyph; and in the version-2 table with the pool `["foo", "bar"]` the name "bar" with
length 0 leads to no glyph. -/
theorem no_names_without_version_witness :
    (accelerator_t.init post_v3).version ≠ 0x00010000 ∧
    (accelerator_t.init post_v3).version ≠ 0x00020000 ∧
    (accelerator_t.init post_v3).version = 0x00030000 ∧
    (accelerator_t.init post_v3).get_glyph_count = 0 ∧
    (∀ glyph, (accelerator_t.init post_v3).find_glyph_name glyph = hb_bytes_t.null) ∧
    (accelerator_t.init post_v3).get_glyph_name first_names 1 [255, 255] 2 =
      (false, [255, 255]) ∧
    (accelerator_t.init post_v3).get_glyph_from_name first_names length_then_bytes
      insertion_sort true [46, 110, 117, 108, 108] 5 = (accelerator_t.init post_v3, none) ∧
    (accelerator_t.init foo_bar_post).get_glyph_from_name first_names length_then_bytes
      insertion_sort true [98, 97, 114] 0 = (accelerator_t.init foo_bar_post, none) :=
  ⟨by decide, by decide, by decide,
    (no_names_without_version first_names length_then_bytes insertion_sort
      (accelerator_t.init post_v3) (by decide) (by decide)).2.1,
    (no_names_without_version first_names length_then_bytes insertion_sort
      (accelerator_t.init post_v3) (by decide) (by decide)).2.2.1,
    by decide, by decide, by decide⟩

/-- C25: soundness of the lookup of a glyph by name.  With `hb_bytes_t::cmp` returning 0
for equal byte strings only, for every accelerator, whatever its reverse index holds, and
every key of `n` bytes at `name` (`n` the length given, or the `strlen` of `name` when
the length given is negative): `get_glyph_from_name` either returns false, and writes no
glyph, or returns true and writes a glyph `g` such that `n > 0`, `g < get_glyph_count ()`
and `find_glyph_name (g)` has length `n` and the bytes of the key; this holds when
several glyphs share a name and when glyphs have empty names. -/
theorem get_glyph_from_name_sound (names : Nat → List Nat)
    (bytes_cmp : List Nat → List Nat → Int)
    (sort_r : (Nat → Nat → Int) → List Nat → List Nat)
    (acc : accelerator_t) (malloc_ok : Bool) (name : List Nat) (len : Int) (n : Nat)
    (h0 : ∀ x y, bytes_cmp x y = 0 → x = y)
    (hn : n = if len < 0 then strlen name else len.toNat)
    (hname : n ≤ name.length) :
    (acc.get_glyph_from_name names bytes_cmp sort_r malloc_ok name len).2 = none ∨
    ∃ g, (acc.get_glyph_from_name names bytes_cmp sort_r malloc_ok name len).2 = some g ∧
      0 < n ∧ g < acc.get_glyph_count ∧
      (acc.find_glyph_name g).len names = n ∧
      (acc.find_glyph_name g).content names acc.table = name.take n := by
  rcases get_glyph_from_name_cases names bytes_cmp sort_r acc malloc_ok name len with
    h | ⟨g, hg, -, hl, hz⟩
  · exact Or.inl h
  · right
    rw [← hn] at hl hz
    unfold accelerator_t.cmp_key at hz
    have hc := h0 _ _ hz
    have hlen : (acc.find_glyph_name g).len names = n := by
      rw [← content_length names acc.table, hc, List.length_take]
      omega
    refine ⟨g, hg, by omega, ?_, hlen, hc⟩
    by_contra hge
    rw [find_glyph_name_out_of_range acc g (by omega)] at hlen
    simp only [hb_bytes_t.len] at hlen
    omega

/-- C25 on the table with the indices `[258, 258, 259, 300]` and the pool
`["foo", "bar"]`, in which the glyphs 0 and 1 share the name "foo" and glyph 3 has no
name: the key "foo" leads to glyph 0, whose name is "foo"; the key "bas" to no glyph. -/
theorem get_glyph_from_name_sound_witness :
    (∀ x y, length_then_bytes x y = 0 → x = y) ∧
    (3 : Nat) = (if (3 : Int) < 0 then strlen [102, 111, 111] else (3 : Int).toNat) ∧
    3 ≤ [102, 111, 111].length ∧
    ((accelerator_t.init shared_names_post).get_glyph_from_name first_names length_then_bytes
      insertion_sort true [102, 111, 111] 3).2 = some 0 ∧
    ((accelerator_t.init shared_names_post).get_glyph_from_name first_names length_then_bytes
      insertion_sort true [98, 97, 115, 0] (-1)).2 = none ∧
    (((accelerator_t.init shared_names_post).get_glyph_from_name first_names length_then_bytes
        insertion_sort true [102, 111, 111] 3).2 = none ∨
      ∃ g, ((accelerator_t.init shared_names_post).get_glyph_from_name first_names
          length_then_bytes insertion_sort true [102, 111, 111] 3).2 = some g ∧
        0 < 3 ∧ g < (accelerator_t.init shared_names_post).get_glyph_count ∧
        ((accelerator_t.init shared_names_post).find_glyph_name g).len first_names = 3 ∧
        ((accelerator_t.init shared_names_post).find_glyph_name g).content first_names
          (accelerator_t.init shared_names_post).table = [102, 111, 111].take 3) :=
  have h0 : ∀ x y, length_then_bytes x y = 0 → x = y :=
    fun x y => (length_then_bytes_order.1 x y).1
  ⟨h0, by decide, by decide, by decide, by decide,
    get_glyph_from_name_sound first_names length_then_bytes insertion_sort
      (accelerator_t.init shared_names_post) true [102, 111, 111] 3 3 h0 (by decide)
      (by decide)⟩

/-- C24: `post::subset` on a source blob `P`.  When `P` has at least 32 bytes, the heap
is ordered and the allocations succeed, the table collector is called once, in a state
`w_add` and with the new blob at pointer `S`: that blob is live, writable, 32 bytes long,
and its data is the freshly allocated block, whose first two bytes are 0 and 3 and whose
bytes 2..31 are bytes 2..31 of the source; no byte that was in use before is changed, so
the source bytes are as they were, and `P` reads immutable (when somebody else holds a
reference to `P` as well, `P` is still live, with its data pointer and length); `subset`
then drops its reference to `S` and returns what the collector returned.  When `P` has fewer than 32
bytes (the empty blob included), `subset` returns false in a state that does not depend
on the collector, which is not called. -/
theorem subset_clones_version_3 (w : World) (env : Env) (P : Nat) :
    (Ordered w → 32 ≤ (w.blob P).length → env.object_ok = true → env.malloc_ok = true →
      ∃ w_add,
        w_add.live (w.heap.length + 2) = true ∧
        (w_add.blob (w.heap.length + 2)).mode = HB_MEMORY_MODE_WRITABLE ∧
        hb_blob_get_data w_add (w.heap.length + 2) = (w.brk + 1, 32) ∧
        w_add.mem (w.brk + 1) = 0 ∧ w_add.mem (w.brk + 1 + 1) = 3 ∧
        (∀ i, 2 ≤ i → i < 32 → w_add.mem (w.brk + 1 + i) = w.mem ((w.blob P).data + i)) ∧
        (∀ a, a ≤ w.brk → w_add.mem a = w.mem a) ∧
        ((w.blob P).data + (w.blob P).length ≤ w.brk + 1 →
          ∀ i, i < (w.blob P).length →
            w_add.mem ((w.blob P).data + i) = w.mem ((w.blob P).data + i)) ∧
        hb_blob_is_immutable w_add P = true ∧
        (2 ≤ (w.blob P).ref_count →
          w_add.live P = true ∧ hb_blob_get_data w_add P = hb_blob_get_data w P) ∧
        ∀ add_table, post.subset add_table w env P =
          (hb_blob_destroy (add_table w_add (w.heap.length + 2)).1 (w.heap.length + 2)).map
            (fun w5 => (w5, (add_table w_add (w.heap.length + 2)).2))) ∧
    ((w.blob P).length < 32 →
      ∃ w', ∀ add_table, post.subset add_table w env P = some (w', false)) := by
  constructor
  · intro ho hL hobj hmal
    have hlive : w.live P = true := live_of_length_pos w P (by omega)
    have hlt := live_lt w P hlive
    have hmin : min 32 ((w.blob P).length - 0) = 32 := by
      rw [Nat.sub_zero]; exact Nat.min_eq_left hL
    obtain ⟨w1, hc, m1, c1, b1, l1, s1, p1, o1, v1⟩ :=
      hb_blob_create_sub_blob_spec_min w env P 0 32 (by rw [hmin]; decide) hobj (by decide)
        (by omega)
    rw [hmin, Nat.add_zero] at s1
    have ho1 : Ordered w1 :=
      sub_blob_ordered w w1 P ho hlive l1 (by rw [s1]) (by rw [p1]; exact ⟨rfl, rfl⟩) o1
    obtain ⟨v, hv, ht⟩ := try_writable_dup_ok w1 env (w.heap.length + 2) (by rw [s1])
      (by rw [s1]; simp) (by intro h; rw [s1] at h; cases h) hmal
    rw [b1] at ht
    obtain ⟨hov, hbelow, hvl, -, -, -, -, -, -⟩ :=
      destroy_user_data_ordered _ v (w.heap.length + 2) (after_memcpy_ordered ho1 _) hv
    have hvlive : v.live (w.heap.length + 2) = true := by
      rw [hvl, (after_memcpy_frame w1 _).2.2.2.1, v1]; simp
    obtain ⟨d1, d2, d3, d4, d5⟩ := dup_result w1 v (w.heap.length + 2) hv hvlive
    rw [b1] at d1 d4 d5
    rw [s1] at d2 d4
    simp only at d2 d4
    have hgw : hb_blob_get_data_writable w1 env (w.heap.length + 2) =
        some (v.modify (w.heap.length + 2) (fun x =>
          { x with mode := HB_MEMORY_MODE_WRITABLE, data := w.brk + 1,
                   user_data := w.brk + 1, destroy := fn_free }), w.brk + 1, 32) := by
      unfold hb_blob_get_data_writable
      rw [ht]
      simp only [Option.map_some', Bool.true_eq_false, if_false]
      rw [d1]
      simp only [d2]
    obtain ⟨w3, h3⟩ := hb_blob_destroy_total (v.modify (w.heap.length + 2) (fun x =>
          { x with mode := HB_MEMORY_MODE_WRITABLE, data := w.brk + 1,
                   user_data := w.brk + 1, destroy := fn_free })) P
    have ho2 : Ordered (v.modify (w.heap.length + 2) (fun x =>
          { x with mode := HB_MEMORY_MODE_WRITABLE, data := w.brk + 1,
                   user_data := w.brk + 1, destroy := fn_free })) :=
      hov.ordered_modify _ _ (fun b h => by cases h)
    obtain ⟨-, hb3⟩ := hb_blob_destroy_below _ w3 P ho2 h3
    have hf3 := hb_blob_destroy_frame _ w3 P h3
    have hS3 : (w3.blob (w.heap.length + 2)).mode = HB_MEMORY_MODE_WRITABLE ∧
        (w3.blob (w.heap.length + 2)).data = w.brk + 1 ∧
        (w3.blob (w.heap.length + 2)).length = 32 := by
      rw [hb3.blob _ hlt, d1]
      exact ⟨rfl, rfl, d2⟩
    have hmem3 : w3.mem = v.mem := by rw [hf3.mem, modify_mem]
    have hlat : Latch w1 w3 :=
      latch_trans (try_writable_latch w1 _ env _ true ht) (latch_of_frame hf3)
    refine ⟨HBUINT16_set w3 (w.brk + 1) 3, ?_, ?_, ?_, ?_, ?_, ?_, ?_, ?_, ?_, ?_, ?_⟩
    · rw [HBUINT16_set_live, hb3.live _ hlt, live_modify]
      exact hvlive
    · rw [HBUINT16_set_blob]
      exact hS3.1
    · unfold hb_blob_get_data
      rw [HBUINT16_set_blob, hS3.2.1, hS3.2.2]
    · rw [HBUINT16_set_mem, if_pos rfl]
    · rw [HBUINT16_set_mem, if_neg (by omega), if_pos rfl]
    · intro i hi1 hi2
      rw [HBUINT16_set_mem, if_neg (by omega), if_neg (by omega), hmem3, d4 i hi2, m1, Nat.add_zero]
    · intro a ha
      rw [HBUINT16_set_mem, if_neg (by omega), if_neg (by omega), hmem3, d5 a ha, m1]
    · intro hbuf i hi
      rw [HBUINT16_set_mem, if_neg (by omega), if_neg (by omega), hmem3,
        d5 _ (by omega), m1]
    · unfold hb_blob_is_immutable
      rw [HBUINT16_set_blob]
      exact hlat.2 P (by omega) (by rw [p1])
    · intro hrc
      obtain ⟨m, hm⟩ : ∃ m, (w.blob P).ref_count = m + 2 :=
        ⟨(w.blob P).ref_count - 2, by omega⟩
      have hPS : P ≠ w.heap.length + 2 := by omega
      have hP2 := live_ge_two w P hlive
      have hA := after_memcpy_frame w1 (w.heap.length + 2)
      have hAS : (after_memcpy w1 (w.heap.length + 2)).blob (w.heap.length + 2) =
          w1.blob (w.heap.length + 2) := by
        rw [hA.2.2.2.2.2, before_malloc_blob, if_neg (by rw [s1]; simp)]
      have hAP : (after_memcpy w1 (w.heap.length + 2)).blob P = w1.blob P :=
        hA.2.2.2.2.1 P hPS
      have hAl : (after_memcpy w1 (w.heap.length + 2)).live P = true := by
        rw [hA.2.2.2.1, v1]; simp [hlive]
      have hvv := destroy_user_data_shared_parent _ v (w.heap.length + 2) P (m + 1) hP2
        (by rw [hAS, s1]) (by rw [hAS, s1]) (by rw [hAP, p1]; simp [hm]) hv
      have hvP : (v.blob P).ref_count = m + 2 ∧ (v.blob P).data = (w.blob P).data ∧
          (v.blob P).length = (w.blob P).length := by
        rw [hvv, blob_modify_ne _ _ _ _ hPS,
          blob_modify_self ((after_memcpy w1 (w.heap.length + 2)).log _) P _ hAl]
        show _ ∧ ((after_memcpy w1 (w.heap.length + 2)).blob P).data = _ ∧
          ((after_memcpy w1 (w.heap.length + 2)).blob P).length = _
        rw [hAP, p1]
        exact ⟨rfl, rfl, rfl⟩
      have hvlP : v.live P = true := by
        rw [hvv, live_modify, live_modify]; exact hAl
      have h2P : (v.modify (w.heap.length + 2) (fun x =>
          { x with mode := HB_MEMORY_MODE_WRITABLE, data := w.brk + 1,
                   user_data := w.brk + 1, destroy := fn_free })).blob P = v.blob P :=
        blob_modify_ne _ _ _ _ hPS
      have hsh := hb_blob_destroy_shared _ P m hP2 (by rw [h2P]; exact hvP.1)
      have hw3 := Option.some.inj (h3.symm.trans hsh)
      constructor
      · rw [HBUINT16_set_live, hw3, live_modify, live_modify]
        exact hvlP
      · unfold hb_blob_get_data
        rw [HBUINT16_set_blob, hw3,
          blob_modify_self _ _ _ (by rw [live_modify]; exact hvlP), h2P]
        show ((v.blob P).data, (v.blob P).length) = _
        rw [hvP.2.1, hvP.2.2]
    · intro add_table
      unfold post.subset
      simp only [post.static_size]
      rw [hc]
      simp only
      rw [hgw]
      simp only
      rw [h3]
      simp only [nullptr]
      rw [if_neg (by omega)]
  · intro hL
    obtain ⟨w1, S1, hc⟩ := hb_blob_create_sub_blob_total w env P 0 32
    have hl1 := sub_blob_length_le w w1 env P 0 32 S1 hc
    obtain ⟨w2, r, ht⟩ := try_writable_total w1 env S1
    have hl2 := try_writable_length_le w1 w2 env S1 r ht
    obtain ⟨w3, h3⟩ := hb_blob_destroy_total w2 P
    obtain ⟨w4, h4⟩ := hb_blob_destroy_total w3 S1
    refine ⟨w4, fun add_table => ?_⟩
    unfold post.subset
    simp only [post.static_size]
    rw [hc]
    simp only
    unfold hb_blob_get_data_writable
    rw [ht]
    cases r
    · simp only [Option.map_some', if_true]
      rw [h3]
      simp only [true_or, if_true]
      rw [h4]
      rfl
    · simp only [Option.map_some', Bool.true_eq_false, if_false]
      rw [h3]
      simp only
      rw [if_pos (Or.inr (by omega)), h4]
      rfl

/-- C24 on a 40-byte table at addresses 100..139 whose byte `i` is `i - 3` from the
fifth on, with a collector that keeps a reference: the collector receives blob 3 over the
new block at 141..172, which starts with 0, 3 and continues with the source bytes, while
the source still reads 2 at address 101 and the source blob is live, immutable, and still
over the 40 bytes at address 100; and on the 5-byte blob over "Hello", where `subset`
returns false whatever the collector. -/
theorem subset_clones_version_3_witness :
    Ordered (table_world ([0, 2, 0, 0] ++ (List.range 36).map (fun i => i + 1))) ∧
    ((table_world ([0, 2, 0, 0] ++ (List.range 36).map (fun i => i + 1))).blob 2).length
      = 40 ∧
    (∃ w_add,
      w_add.live 3 = true ∧ hb_blob_get_data w_add 3 = (141, 32) ∧
      w_add.mem 141 = 0 ∧ w_add.mem 142 = 3 ∧ w_add.mem 145 = 1 ∧ w_add.mem 172 = 28 ∧
      w_add.mem 100 = 0 ∧ w_add.mem 101 = 2 ∧ hb_blob_is_immutable w_add 2 = true ∧
      w_add.live 2 = true ∧ hb_blob_get_data w_add 2 = (100, 40) ∧
      post.subset keep_table
          (table_world ([0, 2, 0, 0] ++ (List.range 36).map (fun i => i + 1))) env_ok 2 =
        (hb_blob_destroy (keep_table w_add 3).1 3).map (fun w5 => (w5, true))) ∧
    (hello_blob_world.blob 2).length = 5 ∧
    (∃ w', ∀ add_table, post.subset add_table hello_blob_world env_ok 2 = some (w', false)) := by
  obtain ⟨w_add, h1, -, h3, h4, h5, h6, h7, -, h9, h11, h10⟩ :=
    (subset_clones_version_3
      (table_world ([0, 2, 0, 0] ++ (List.range 36).map (fun i => i + 1))) env_ok 2).1
      (table_world_ordered _) (by decide) rfl rfl
  exact ⟨table_world_ordered _, rfl,
    ⟨w_add, h1, h3, h4, h5, (h6 4 (by decide) (by decide)).trans rfl,
      (h6 31 (by decide) (by decide)).trans rfl, (h7 100 (by decide)).trans rfl,
      (h7 101 (by decide)).trans rfl, h9, (h11 (by decide)).1,
      (h11 (by decide)).2.trans rfl, h10 keep_table⟩,
    rfl, (subset_clones_version_3 hello_blob_world env_ok 2).2 (by decide)⟩

end HB
